import Mathlib

/-!
# The per-series in-memory write buffer (`storage/series/buffer.go`)

A shallow embedding of `dbBuffer`, `dbBufferBucket` and `inOrderEncoder`, followed by the
properties established for them.

Conventions of the embedding.

* The instant of a `time.Time` is an `Int`: nanoseconds relative to the Unix epoch.
  `t.Add d` is `t + d`, `a.Before b` is `a < b`, `a.After b` is `a > b`, `a.Equal b` is
  `a = b` and `t.IsZero` is `t = timeZero`.  A `time.Duration` is an `Int` of nanoseconds.
* `t.UnixNano()` is an `int64`: it is the instant only while that fits 64 bits (until
  2262-04-11T23:47:16.854775807Z) and wraps around beyond; see `UnixNano`.
* Go's `==` on `time.Time` compares the structs: the instant and, besides, the `*Location`.
  Where the code uses `==`, what a time value carries besides its instant is a tag, a `Nat`
  (`loc`, `lastWriteLoc`); `0` is the tag of the zero `time.Time`.  Two time values are `==`
  when instants and tags agree.  The tags of the starts compared by `FetchBlocks` are not
  tracked: an oracle `sameRepr` says whether they agree.
* The timestamps passed to `Write` carry no monotonic clock reading, like the values of
  `time.Unix` and of `Truncate`, so that `Before`, `After` and `Equal` compare instants.
* `time.Time.Truncate` rounds down to a multiple of the duration *since the zero time*
  (January 1, year 1), not since the Unix epoch; see `Truncate`.
* A `time.Duration` is an `int64` of nanoseconds.  The product
  `time.Duration(i) * b.blockSize` of `forEachBucketAsc` is computed in `int64` and wraps
  around once `2 * blockSize` exceeds the greatest `int64`, that is for blocks of about 146
  years and more.  `-1 * d` is `-d`: the durations of `Options` are taken different from the
  least `int64`.
* Go integer `/` and `%` truncate toward zero (`Int.tdiv`, `Int.tmod`); a zero divisor and
  an array index outside `0..2` are run-time panics, rendered as `none`.
* The clock `nowFn` is read once per call, except by `Write`, which reads it once itself
  and once more inside the `DrainAndReset` it may trigger; every operation takes the
  readings as arguments.
* The encoder, its pool and the multi-reader iterator live outside this file of the
  repository; they are modelled from their contracts (`Encoder`, `multiReaderIterate`).
  A pooled encoder obtained by `Get` and `Reset` is a new empty encoder.  Whether an
  `Encode` call on a writable encoder fails is decided by an oracle `EncodeFault` that
  every mutating operation takes as an argument.  An encoder keeps the instants of the
  datapoints; the timestamps an iterator decodes all carry one tag, `Options.decodeLoc`.
* `drainFn` is recorded: the buffer carries the list `sink` of the calls made so far.
* The query context only collects closers of the streams handed out; it is not represented.
-/

namespace series

/-! ## Time

Instants (nanoseconds relative to the Unix epoch) and durations (nanoseconds) are `Int`. -/

/-- Nanoseconds between the zero time (January 1, year 1, 00:00:00 UTC) and the Unix
epoch: `62135596800` seconds. -/
def unixToInternal : Int := 62135596800 * 1000000000

/-- The zero value of `time.Time` (`var timeZero time.Time`). -/
def timeZero : Int := -unixToInternal

/-- `t.Truncate(d)`: `t` rounded down to a multiple of `d` since the zero time; `t`
unchanged when `d <= 0`. -/
def Truncate (t : Int) (d : Int) : Int :=
  if d ≤ 0 then t else t - (t - timeZero) % d

/-- Go integer division `a / b`: a panic (`none`) when `b = 0`, else truncated.  The one
quotient that overflows an `int64`, that of the least `int64` by `-1`, needs a negative block
size and is not singled out. -/
def goDiv (a b : Int) : Option Int :=
  if b = 0 then none else some (Int.tdiv a b)

/-- The least `int64`. -/
def minInt64 : Int := -9223372036854775808

/-- The greatest `int64`; as nanoseconds after the Unix epoch it is
2262-04-11T23:47:16.854775807Z. -/
def maxInt64 : Int := 9223372036854775807

/-- The `int64` an integer wraps around to (two's complement, 64 bits). -/
def int64 (x : Int) : Int :=
  (x + 9223372036854775808) % 18446744073709551616 - 9223372036854775808

/-- `t.UnixNano()`: the nanoseconds between the Unix epoch and `t`, computed in `int64`. -/
def UnixNano (t : Int) : Int := int64 t

/-- The constant `bucketsLen`. -/
def bucketsLen : Int := 3

/-- Indexing the array `buckets [bucketsLen]dbBufferBucket` with an integer: a panic
(`none`) when the index is out of range. -/
def bucketIndex (i : Int) : Option (Fin 3) :=
  if i = 0 then some 0 else if i = 1 then some 1 else if i = 2 then some 2 else none

/-! ## Encoder and iterator (external collaborators) -/

/-- A `ts.Datapoint`; the `float64` value is kept as an uninterpreted bit pattern. -/
structure Datapoint where
  Timestamp : Int
  Value : Nat
deriving DecidableEq, Repr

/-- What one `Encode` call hands to an encoder: the datapoint, its time unit and its
annotation bytes (`ann`). -/
structure Encoded where
  datapoint : Datapoint
  unit : Nat
  ann : List Nat
deriving DecidableEq, Repr

/-- Errors of `Encoder.Encode`. -/
inductive EncodeError where
  | notWritable
  | failure (code : Nat)
deriving DecidableEq, Repr

/-- Modelled from the spec: the stream encoder of the encoder-pool contract (`Reset`,
`Encode`, `Seal`, `Stream`, `Close`); its implementation is not part of the sources at
hand.  `points` is the sequence encoded so far. -/
structure Encoder where
  start : Int
  allocSize : Int
  points : List Encoded
  sealed : Bool
  closed : Bool
deriving DecidableEq, Repr

/-- The oracle for encoder failures: the error, if any, with which a writable encoder in
a given state answers a given `Encode` call. -/
abbrev EncodeFault := Encoder → Encoded → Option Nat

/-- Modelled from the spec: `EncoderPool().Get()` followed by
`encoder.Reset(start, allocSize)`, a new empty writable encoder. -/
def Encoder.Reset (start : Int) (allocSize : Int) : Encoder :=
  { start := start, allocSize := allocSize, points := [], sealed := false, closed := false }

/-- Modelled from the spec: `encoder.Encode(dp, unit, ann)`, giving the encoder
afterwards and the error.  A sealed encoder is "immutable thereafter" and a closed one is
back in the pool: both refuse; a writable one appends the point unless the oracle makes it
fail. -/
def Encoder.Encode (fault : EncodeFault) (e : Encoder) (p : Encoded) :
    Encoder × Option EncodeError :=
  if e.sealed || e.closed then (e, some EncodeError.notWritable)
  else match fault e p with
    | some code => (e, some (EncodeError.failure code))
    | none => ({ e with points := e.points ++ [p] }, none)

/-- Modelled from the spec: `encoder.Seal()`. -/
def Encoder.Seal (e : Encoder) : Encoder := { e with sealed := true }

/-- Modelled from the spec: `encoder.Close()`. -/
def Encoder.Close (e : Encoder) : Encoder := { e with closed := true }

/-- An `xio.SegmentReader` over an encoder's data: the points it decodes to. -/
structure SegmentReader where
  points : List Encoded
deriving DecidableEq, Repr

/-- Modelled from the spec: `encoder.Stream()`, which is `none` (a nil stream, "slot is
effectively empty") when nothing has been encoded. -/
def Encoder.Stream (e : Encoder) : Option SegmentReader :=
  if e.points = [] then none else some { points := e.points }

/-- Insert a point into a list ordered by timestamp; a point whose timestamp is already
there is dropped. -/
def orderedInsert (p : Encoded) : List Encoded → List Encoded
  | [] => [p]
  | q :: rest =>
    if p.datapoint.Timestamp < q.datapoint.Timestamp then p :: q :: rest
    else if p.datapoint.Timestamp = q.datapoint.Timestamp then q :: rest
    else q :: orderedInsert p rest

/-- Modelled from the spec: the multi-reader iterator (`Reset(streams)`, then
`Next`/`Current` until exhausted), which "emits in timestamp order with duplicate
timestamps coalesced".  Nil readers contribute nothing. -/
def multiReaderIterate (readers : List (Option SegmentReader)) : List Encoded :=
  ((readers.map (fun r => match r with
    | some s => s.points
    | none => [])).flatten).foldr orderedInsert []

/-! ## Data model of the buffer -/

/-- The values read from `Options`: `RetentionOptions().BlockSize()`, `BufferPast()`,
`BufferFuture()` and `DatabaseBlockOptions().DatabaseBlockAllocSize()`; and, of the
iterators of `MultiReaderIteratorPool()`, the tag `decodeLoc` of the timestamps they
decode. -/
structure Options where
  blockSize : Int
  bufferPast : Int
  bufferFuture : Int
  allocSize : Int
  decodeLoc : Nat
deriving DecidableEq, Repr

/-- The struct `inOrderEncoder`; its field `lastWriteAt time.Time` is the instant
`lastWriteAt` with the tag `lastWriteLoc`. -/
structure inOrderEncoder where
  lastWriteAt : Int
  lastWriteLoc : Nat
  encoder : Encoder
deriving DecidableEq, Repr

/-- The struct `dbBufferBucket`; its field `lastWriteAt time.Time` is the instant
`lastWriteAt` with the tag `lastWriteLoc`. -/
structure dbBufferBucket where
  opts : Options
  start : Int
  encoders : List inOrderEncoder
  lastWriteAt : Int
  lastWriteLoc : Nat
  outOfOrder : Bool
  drained : Bool
deriving DecidableEq, Repr

/-- The array `[bucketsLen]dbBufferBucket`. -/
structure Buckets where
  b0 : dbBufferBucket
  b1 : dbBufferBucket
  b2 : dbBufferBucket
deriving DecidableEq, Repr

/-- Reading `buckets[i]`. -/
def Buckets.get (bs : Buckets) (i : Fin 3) : dbBufferBucket :=
  match i with
  | 0 => bs.b0
  | 1 => bs.b1
  | 2 => bs.b2

/-- Writing through the pointer `&buckets[i]`. -/
def Buckets.set (bs : Buckets) (i : Fin 3) (x : dbBufferBucket) : Buckets :=
  match i with
  | 0 => { bs with b0 := x }
  | 1 => { bs with b1 := x }
  | 2 => { bs with b2 := x }

/-- One call `drainFn(start, encoder)`; `bucket` records which array element was being
drained. -/
structure DrainCall where
  bucket : Fin 3
  start : Int
  encoder : Encoder
deriving DecidableEq, Repr

/-- The struct `dbBuffer`, with the calls received so far by `drainFn` in `sink`. -/
structure dbBuffer where
  opts : Options
  buckets : Buckets
  blockSize : Int
  bufferPast : Int
  bufferFuture : Int
  sink : List DrainCall
deriving DecidableEq, Repr

/-- A buffer whose `buckets[i]` has been overwritten through a pointer to it. -/
def dbBuffer.setBucket (b : dbBuffer) (i : Fin 3) (x : dbBufferBucket) : dbBuffer :=
  { b with buckets := b.buckets.set i x }

/-- Errors returned by `Write`: `errTooFuture` and `errTooPast` (each wrapped by
`xerrors.NewInvalidParamsError`), or the encoder's error verbatim. -/
inductive Error where
  | errTooFuture
  | errTooPast
  | encode (e : EncodeError)
deriving DecidableEq, Repr

/-! ## `dbBufferBucket` -/

/-- The method `dbBufferBucket.resetTo`. -/
def dbBufferBucket.resetTo (b : dbBufferBucket) (start : Int) : dbBufferBucket :=
  let encoder := Encoder.Reset start b.opts.allocSize
  let first : inOrderEncoder :=
    { lastWriteAt := timeZero, lastWriteLoc := 0, encoder := encoder }
  { b with
    start := start
    encoders := [first]
    lastWriteAt := timeZero
    lastWriteLoc := 0
    outOfOrder := false
    drained := false }

/-- Outcome of the loop `for i := range b.encoders` of `write`: an early `return nil`, a
`target` pointing into the slice (the slots before it, the slot, the slots after it), or
`target == nil`. -/
inductive Scan where
  | discard
  | target (before : List inOrderEncoder) (slot : inOrderEncoder) (after : List inOrderEncoder)
  | absent
deriving DecidableEq, Repr

/-- The loop `for i := range b.encoders` of `dbBufferBucket.write`, for the time value
with instant `timestamp` and tag `loc`.  The test `timestamp == b.encoders[i].lastWriteAt`
compares instants and tags, the test `timestamp.After(...)` instants. -/
def scanEncoders (timestamp : Int) (loc : Nat) : List inOrderEncoder → Scan
  | [] => Scan.absent
  | e :: rest =>
    if timestamp = e.lastWriteAt ∧ loc = e.lastWriteLoc then Scan.discard
    else if timestamp > e.lastWriteAt then Scan.target [] e rest
    else match scanEncoders timestamp loc rest with
      | Scan.target before slot after => Scan.target (e :: before) slot after
      | r => r

/-- The tail of `dbBufferBucket.write`, from `datapoint := ...` on: encode into the
target slot and advance its `lastWriteAt` on success. -/
def encodeTarget (fault : EncodeFault) (b : dbBufferBucket)
    (before : List inOrderEncoder) (slot : inOrderEncoder) (after : List inOrderEncoder)
    (timestamp : Int) (loc : Nat) (value : Nat) (unit : Nat) (ann : List Nat) :
    dbBufferBucket × Option EncodeError :=
  let datapoint : Datapoint := { Timestamp := timestamp, Value := value }
  match slot.encoder.Encode fault
      { datapoint := datapoint, unit := unit, ann := ann } with
  | (encoder, some err) =>
    ({ b with encoders := before ++ { slot with encoder := encoder } :: after }, some err)
  | (encoder, none) =>
    ({ b with encoders :=
        before ++ { lastWriteAt := timestamp, lastWriteLoc := loc, encoder := encoder }
          :: after }, none)

/-- The method `dbBufferBucket.write`, called with the time value of instant `timestamp`
and tag `loc`; the second component is the returned error. -/
def dbBufferBucket.write (fault : EncodeFault) (b : dbBufferBucket)
    (timestamp : Int) (loc : Nat) (value : Nat) (unit : Nat) (ann : List Nat) :
    dbBufferBucket × Option EncodeError :=
  let b := if !b.outOfOrder && timestamp < b.lastWriteAt then
      { b with outOfOrder := true } else b
  let b := if timestamp > b.lastWriteAt then
      { b with lastWriteAt := timestamp, lastWriteLoc := loc } else b
  match scanEncoders timestamp loc b.encoders with
  | Scan.discard => (b, none)
  | Scan.target before slot after =>
    encodeTarget fault b before slot after timestamp loc value unit ann
  | Scan.absent =>
    let blockSize := b.opts.blockSize
    let encoder := Encoder.Reset (Truncate timestamp blockSize) b.opts.allocSize
    let next : inOrderEncoder :=
      { lastWriteAt := timeZero, lastWriteLoc := 0, encoder := encoder }
    encodeTarget fault b b.encoders next [] timestamp loc value unit ann

/-- The loop `for iter.Next()` of `sort`: the bucket's `lastWriteAt` follows every point
the iterator emits, the result of `encoder.Encode` is ignored. -/
def sortLoop (fault : EncodeFault) :
    List Encoded → Int → Encoder → Int × Encoder
  | [], lastWriteAt, encoder => (lastWriteAt, encoder)
  | p :: rest, _, encoder =>
    sortLoop fault rest p.datapoint.Timestamp (encoder.Encode fault p).1

/-- The tag of `b.lastWriteAt` in the loop `for iter.Next()` of `sort`: the assignment
`b.lastWriteAt = dp.Timestamp` gives it the tag `decodeLoc` of the decoded timestamp at
every point the iterator emits. -/
def sortLoopLoc (decodeLoc : Nat) : List Encoded → Nat → Nat
  | [], lastWriteLoc => lastWriteLoc
  | _ :: rest, _ => sortLoopLoc decodeLoc rest decodeLoc

/-- The method `dbBufferBucket.sort`. -/
def dbBufferBucket.sort (fault : EncodeFault) (b : dbBufferBucket) : dbBufferBucket :=
  if !b.outOfOrder then b
  else
    let encoder := Encoder.Reset b.start b.opts.allocSize
    let readers := b.encoders.map (fun e => e.encoder.Stream)
    let r := sortLoop fault (multiReaderIterate readers) b.lastWriteAt encoder
    let loc := sortLoopLoc b.opts.decodeLoc (multiReaderIterate readers) b.lastWriteLoc
    { b with
      lastWriteAt := r.1
      lastWriteLoc := loc
      encoders := [{ lastWriteAt := r.1, lastWriteLoc := loc, encoder := r.2 }]
      outOfOrder := false }

/-! ## `dbBuffer` -/

/-- The method `dbBuffer.bucketState`: `(shouldRead, needsDrain, needsReset)`. -/
def dbBuffer.bucketState (b : dbBuffer) (now : Int) (bucket : dbBufferBucket)
    (bucketStart : Int) : Bool × Bool × Bool :=
  let notDrainedHasValues := !bucket.drained && !decide (bucket.lastWriteAt = timeZero)
  let shouldRead := notDrainedHasValues
  let needsReset := !decide (bucket.start = bucketStart)
  let needsDrain := (notDrainedHasValues && needsReset) ||
    (notDrainedHasValues &&
      decide (bucketStart + b.blockSize < now + (-1) * b.bufferPast))
  (shouldRead, needsDrain, needsReset)

/-- The method `dbBuffer.forEachBucketAsc`.  The callback `fn` receives the state `σ` its
closure updates, the index of the bucket it is pointed at and the paired start; it may
panic.  The offset `time.Duration(i) * b.blockSize` of the paired start is an `int64`
product. -/
def dbBuffer.forEachBucketAsc {σ : Type} (b : dbBuffer) (now : Int)
    (fn : σ → Fin 3 → Int → Option σ) (s : σ) : Option σ :=
  let pastMostBucketStart := Truncate now b.blockSize + (-1) * b.blockSize
  (goDiv (UnixNano pastMostBucketStart) b.blockSize).bind (fun q =>
    let bucketNum := Int.tmod q bucketsLen
    [(0 : Int), 1, 2].foldlM (fun s i =>
      (bucketIndex (Int.tmod (bucketNum + i) bucketsLen)).bind (fun idx =>
        fn s idx (pastMostBucketStart + int64 (i * b.blockSize)))) s)

/-- The method `dbBuffer.Reset`, at clock reading `now`. -/
def dbBuffer.Reset (b : dbBuffer) (now : Int) : Option dbBuffer :=
  b.forEachBucketAsc now (fun b idx start =>
    let bucket := { b.buckets.get idx with opts := b.opts }
    some (b.setBucket idx (bucket.resetTo start))) b

/-- The zero value of `dbBufferBucket` in a newly allocated `dbBuffer`; its nil `opts` is
never read before `Reset` assigns it. -/
def zeroBucket (opts : Options) : dbBufferBucket :=
  { opts := opts, start := timeZero, encoders := [], lastWriteAt := timeZero,
    lastWriteLoc := 0, outOfOrder := false, drained := false }

/-- The constructor `newDatabaseBuffer(drainFn, opts)`, at clock reading `now`. -/
def newDatabaseBuffer (opts : Options) (now : Int) : Option dbBuffer :=
  let b : dbBuffer :=
    { opts := opts
      buckets := { b0 := zeroBucket opts, b1 := zeroBucket opts, b2 := zeroBucket opts }
      blockSize := opts.blockSize
      bufferPast := opts.bufferPast
      bufferFuture := opts.bufferFuture
      sink := [] }
  b.Reset now

/-- The body of the callback of `dbBuffer.DrainAndReset`, run on the bucket it is pointed
at: the bucket afterwards and the arguments of the call to `drainFn`, if it made one.
`none` is the panic of `bucket.encoders[0]` on an empty slice. -/
def drainAndResetBucket (fault : EncodeFault) (b : dbBuffer) (now : Int) (forced : Bool)
    (bucket : dbBufferBucket) (current : Int) :
    Option (dbBufferBucket × Option (Int × Encoder)) :=
  let st := b.bucketState now bucket current
  let force := forced && !bucket.drained && !decide (bucket.lastWriteAt = timeZero)
  let needsDrain := if force then true else st.2.1
  let needsReset := if force then true else st.2.2
  let afterDrain : Option (dbBufferBucket × Option (Int × Encoder)) :=
    if needsDrain then
      let bucket := bucket.sort fault
      match bucket.encoders with
      | [] => none
      | first :: rest =>
        let encoder := first.encoder.Seal
        some ({ bucket with
                encoders := { first with encoder := encoder } :: rest
                drained := true },
              some (bucket.start, encoder))
    else some (bucket, none)
  afterDrain.map (fun r => (if needsReset then r.1.resetTo current else r.1, r.2))

/-- The method `dbBuffer.DrainAndReset`, at clock reading `now`. -/
def dbBuffer.DrainAndReset (fault : EncodeFault) (b : dbBuffer) (now : Int)
    (forced : Bool) : Option dbBuffer :=
  b.forEachBucketAsc now (fun b idx current =>
    (drainAndResetBucket fault b now forced (b.buckets.get idx) current).map (fun r =>
      { b with
        buckets := b.buckets.set idx r.1
        sink := b.sink ++ r.2.toList.map (fun c =>
          { bucket := idx, start := c.1, encoder := c.2 }) })) b

/-- The method `dbBuffer.Write`, called with the time value of instant `timestamp` and tag
`loc`.  `now` is the clock reading taken by `Write` itself, `nowDrain` the one taken by the
`DrainAndReset` it calls when the bucket needs a reset.  The result is the buffer afterwards
and the returned error; `none` is a panic. -/
def dbBuffer.Write (fault : EncodeFault) (b : dbBuffer) (now nowDrain : Int)
    (timestamp : Int) (loc : Nat) (value : Nat) (unit : Nat) (ann : List Nat) :
    Option (dbBuffer × Option Error) :=
  let futureLimit := now + 1 * b.bufferFuture
  let pastLimit := now + (-1) * b.bufferPast
  if ¬ (futureLimit > timestamp) then some (b, some Error.errTooFuture)
  else if ¬ (pastLimit < timestamp) then some (b, some Error.errTooPast)
  else
    let bucketStart := Truncate timestamp b.blockSize
    (goDiv (UnixNano timestamp) b.blockSize).bind (fun q =>
      (bucketIndex (Int.tmod q bucketsLen)).bind (fun bucketIdx =>
        let needsReset := (b.bucketState now (b.buckets.get bucketIdx) bucketStart).2.2
        (if needsReset then b.DrainAndReset fault nowDrain false else some b).bind
          (fun b =>
            let r := (b.buckets.get bucketIdx).write fault timestamp loc value unit ann
            some (b.setBucket bucketIdx r.1, r.2.map Error.encode))))

/-- The method `dbBuffer.IsEmpty`, at clock reading `now`. -/
def dbBuffer.IsEmpty (b : dbBuffer) (now : Int) : Option Bool :=
  (b.forEachBucketAsc now (fun canReadAny idx current =>
    some (if !canReadAny then (b.bucketState now (b.buckets.get idx) current).1
      else canReadAny)) false).map (fun canReadAny => !canReadAny)

/-- The method `dbBuffer.NeedsDrain`, at clock reading `now`. -/
def dbBuffer.NeedsDrain (b : dbBuffer) (now : Int) : Option Bool :=
  b.forEachBucketAsc now (fun needsDrainAny idx current =>
    some (if !needsDrainAny then (b.bucketState now (b.buckets.get idx) current).2.1
      else needsDrainAny)) false

/-- The method `dbBuffer.readBucketStreams`: the streams passed to `streamFn`, in slot
order; nil streams are skipped. -/
def readBucketStreams (bucket : dbBufferBucket) : List SegmentReader :=
  bucket.encoders.filterMap (fun e => e.encoder.Stream)

/-- The method `dbBuffer.ReadEncoded` with, next to every group, the index of the bucket it
was read from. -/
def dbBuffer.readEncodedFrom (b : dbBuffer) (now : Int) (start end_ : Int) :
    Option (List (Fin 3 × List SegmentReader)) :=
  b.forEachBucketAsc now (fun results idx current =>
    let bucket := b.buckets.get idx
    let shouldRead := (b.bucketState now bucket current).1
    if !shouldRead then some results
    else if ¬ (start < bucket.start + b.blockSize) then some results
    else if ¬ (bucket.start < end_) then some results
    else some (results ++ [(idx, readBucketStreams bucket)])) []

/-- The method `dbBuffer.ReadEncoded`, at clock reading `now`. -/
def dbBuffer.ReadEncoded (b : dbBuffer) (now : Int) (start end_ : Int) :
    Option (List (List SegmentReader)) :=
  (b.readEncodedFrom now start end_).map (fun results => results.map Prod.snd)

/-- A `block.FetchBlockResult` as built by `NewFetchBlockResult(start, readers, nil)`. -/
structure FetchBlockResult where
  start : Int
  readers : List SegmentReader
deriving DecidableEq, Repr

/-- The loop `for _, start := range starts` of `FetchBlocks`: whether some entry of
`starts` is `==` to `bucket.start`.  `starts` lists the instants asked for;
`sameRepr i idx` says whether entry number `i` carries the same tag as the start of
`buckets[idx]`. -/
def startsFound (sameRepr : Nat → Fin 3 → Bool) (starts : List Int) (idx : Fin 3)
    (bucketStart : Int) : Bool :=
  starts.enum.any (fun start => decide (start.2 = bucketStart) && sameRepr start.1 idx)

/-- The method `dbBuffer.FetchBlocks` with, next to every result, the index of the bucket
it was read from. -/
def dbBuffer.fetchBlocksFrom (sameRepr : Nat → Fin 3 → Bool) (b : dbBuffer) (now : Int)
    (starts : List Int) : Option (List (Fin 3 × FetchBlockResult)) :=
  b.forEachBucketAsc now (fun res idx current =>
    let bucket := b.buckets.get idx
    let shouldRead := (b.bucketState now bucket current).1
    if !shouldRead then some res
    else if !(startsFound sameRepr starts idx bucket.start) then some res
    else some (res ++
      [(idx, { start := bucket.start, readers := readBucketStreams bucket })])) []

/-- The method `dbBuffer.FetchBlocks`, at clock reading `now`. -/
def dbBuffer.FetchBlocks (sameRepr : Nat → Fin 3 → Bool) (b : dbBuffer) (now : Int)
    (starts : List Int) : Option (List FetchBlockResult) :=
  (b.fetchBlocksFrom sameRepr now starts).map (fun res => res.map Prod.snd)

/-- A `block.FetchBlockMetadataResult` as built by
`NewFetchBlockMetadataResult(start, pSize, nil, nil)`: the checksum is always nil. -/
structure FetchBlockMetadataResult where
  start : Int
  size : Option Int
deriving DecidableEq, Repr

/-- The method `dbBuffer.FetchBlocksMetadata` with, next to every result, the index of the
bucket it was read from.  `segmentLen` gives `len(segment.Head) + len(segment.Tail)` of a
stream. -/
def dbBuffer.fetchBlocksMetadataFrom (segmentLen : SegmentReader → Int) (b : dbBuffer)
    (now : Int) (includeSizes : Bool) (includeChecksums : Bool) :
    Option (List (Fin 3 × FetchBlockMetadataResult)) :=
  b.forEachBucketAsc now (fun res idx current =>
    let bucket := b.buckets.get idx
    let shouldRead := (b.bucketState now bucket current).1
    if !shouldRead then some res
    else
      let size := ((readBucketStreams bucket).map segmentLen).sum
      if size = 0 then some res
      else
        let pSize := if includeSizes then some size else none
        let _ := includeChecksums
        some (res ++ [(idx, { start := bucket.start, size := pSize })])) []

/-- The method `dbBuffer.FetchBlocksMetadata`, at clock reading `now`. -/
def dbBuffer.FetchBlocksMetadata (segmentLen : SegmentReader → Int) (b : dbBuffer)
    (now : Int) (includeSizes : Bool) (includeChecksums : Bool) :
    Option (List FetchBlockMetadataResult) :=
  (b.fetchBlocksMetadataFrom segmentLen now includeSizes includeChecksums).map
    (fun res => res.map Prod.snd)

/-! ## The pairing of buckets with windows -/

/-- The local `pastMostBucketStart` of `forEachBucketAsc`. -/
def dbBuffer.pastMost (b : dbBuffer) (now : Int) : Int :=
  Truncate now b.blockSize + (-1) * b.blockSize

/-- The index `forEachBucketAsc` visits first (`0` when it panics). -/
def dbBuffer.firstIdx (b : dbBuffer) (now : Int) : Fin 3 :=
  (bucketIndex (Int.tmod (Int.tdiv (UnixNano (b.pastMost now)) b.blockSize) bucketsLen)).getD 0

/-- The start `forEachBucketAsc` passes to its callback together with `buckets[j]`. -/
def dbBuffer.paired (b : dbBuffer) (now : Int) (j : Fin 3) : Int :=
  b.pastMost now + int64 (((j - b.firstIdx now : Fin 3).val : Int) * b.blockSize)

/-- The value of `DrainAndReset` when `forEachBucketAsc` does not panic: the callback runs
on each of the three buckets once, in the order of the traversal. -/
def drainAndResetResult (fault : EncodeFault) (b : dbBuffer) (now : Int) (forced : Bool) :
    Option dbBuffer :=
  (drainAndResetBucket fault b now forced (b.buckets.get (b.firstIdx now))
    (b.paired now (b.firstIdx now))).bind (fun r0 =>
  (drainAndResetBucket fault b now forced (b.buckets.get (b.firstIdx now + 1))
    (b.paired now (b.firstIdx now + 1))).bind (fun r1 =>
  (drainAndResetBucket fault b now forced (b.buckets.get (b.firstIdx now + 2))
    (b.paired now (b.firstIdx now + 2))).bind (fun r2 =>
  some { b with
    buckets := ((b.buckets.set (b.firstIdx now) r0.1).set (b.firstIdx now + 1) r1.1).set
      (b.firstIdx now + 2) r2.1
    sink := ((b.sink
      ++ r0.2.toList.map (fun c =>
          { bucket := b.firstIdx now, start := c.1, encoder := c.2 }))
      ++ r1.2.toList.map (fun c =>
          { bucket := b.firstIdx now + 1, start := c.1, encoder := c.2 }))
      ++ r2.2.toList.map (fun c =>
          { bucket := b.firstIdx now + 2, start := c.1, encoder := c.2 }) })))

/-! ## Calls and reachable buffers -/

/-- One call made on a buffer, with the clock readings it takes and the behaviour of the
encoders during it. -/
inductive Call where
  | write (fault : EncodeFault) (now nowDrain timestamp : Int) (loc value unit : Nat)
      (ann : List Nat)
  | drainAndReset (fault : EncodeFault) (now : Int) (forced : Bool)
  | reset (now : Int)

/-- The buffer after a call; `none` when the call panics. -/
def dbBuffer.call (b : dbBuffer) : Call → Option dbBuffer
  | Call.write fault now nowDrain timestamp loc value unit ann =>
    (b.Write fault now nowDrain timestamp loc value unit ann).map Prod.fst
  | Call.drainAndReset fault now forced => b.DrainAndReset fault now forced
  | Call.reset now => b.Reset now

/-- The first clock reading of a call. -/
def Call.now : Call → Int
  | Call.write _ now _ _ _ _ _ _ => now
  | Call.drainAndReset _ now _ => now
  | Call.reset now => now

/-- The last clock reading of a call.  A `Write` that does not go through `DrainAndReset`
reads the clock once; `nowDrain` is then immaterial and may be taken equal to `now`. -/
def Call.last : Call → Int
  | Call.write _ _ nowDrain _ _ _ _ _ => nowDrain
  | Call.drainAndReset _ now _ => now
  | Call.reset now => now

/-- The encoder behaviour during a call (a `Reset` encodes nothing). -/
def Call.fault : Call → EncodeFault
  | Call.write fault _ _ _ _ _ _ _ => fault
  | Call.drainAndReset fault _ _ => fault
  | Call.reset _ => fun _ _ => none

/-- The buffers reachable from `newDatabaseBuffer` by `Write`, `DrainAndReset` and `Reset`
calls that return, together with the last clock reading.  `clock prev next` says which
reading `next` the clock may give after the reading `prev`; `allowed` says which calls
(with which encoder behaviour) are considered. -/
inductive Reachable (clock : Int → Int → Prop) (allowed : Call → Prop) :
    dbBuffer → Int → Prop where
  | init (opts : Options) (now : Int) (b : dbBuffer) :
      clock now now → newDatabaseBuffer opts now = some b → Reachable clock allowed b now
  | step (b : dbBuffer) (prev : Int) (c : Call) (b' : dbBuffer) :
      Reachable clock allowed b prev → clock prev c.now → clock c.now c.last → allowed c →
      b.call c = some b' → Reachable clock allowed b' c.last

/-- Any call, whatever the encoders do. -/
def anyCall : Call → Prop := fun _ => True

/-- The calls during which the encoders accept every datapoint they are writable for. -/
def accepting : Call → Prop := fun c => ∀ e p, c.fault e p = none

/-- Any clock at all. -/
def anyClock : Int → Int → Prop := fun _ _ => True

/-- Every reading is at least `blockSize` after the Unix epoch. -/
def clockFrom (blockSize : Int) : Int → Int → Prop := fun _ next => blockSize ≤ next

/-- A non-decreasing clock, every reading at least `blockSize` after the Unix epoch. -/
def monotoneFrom (blockSize : Int) : Int → Int → Prop :=
  fun prev next => prev ≤ next ∧ blockSize ≤ next

instance (blockSize prev next : Int) : Decidable (clockFrom blockSize prev next) :=
  inferInstanceAs (Decidable (blockSize ≤ next))

instance (blockSize prev next : Int) : Decidable (monotoneFrom blockSize prev next) :=
  inferInstanceAs (Decidable (prev ≤ next ∧ blockSize ≤ next))

/-- A non-decreasing clock. -/
def nonDecreasing : Int → Int → Prop := fun prev next => prev ≤ next

instance (prev next : Int) : Decidable (nonDecreasing prev next) :=
  inferInstanceAs (Decidable (prev ≤ next))

/-- Every reading is at least `blockSize` after the Unix epoch and within the range of
`UnixNano`. -/
def clockWithin (blockSize : Int) : Int → Int → Prop :=
  fun _ next => blockSize ≤ next ∧ next ≤ maxInt64

/-- A non-decreasing clock, every reading at least `blockSize` after the Unix epoch and
within the range of `UnixNano`. -/
def monotoneWithin (blockSize : Int) : Int → Int → Prop :=
  fun prev next => prev ≤ next ∧ blockSize ≤ next ∧ next ≤ maxInt64

instance (blockSize prev next : Int) : Decidable (clockWithin blockSize prev next) :=
  inferInstanceAs (Decidable (blockSize ≤ next ∧ next ≤ maxInt64))

instance (blockSize prev next : Int) : Decidable (monotoneWithin blockSize prev next) :=
  inferInstanceAs (Decidable (prev ≤ next ∧ blockSize ≤ next ∧ next ≤ maxInt64))

/-! ## Auxiliary notions and invariants -/

/-- The `notDrainedHasValues` of `bucketState`: written since the last reset and not yet
handed to the sink. -/
def dbBufferBucket.dirty (bucket : dbBufferBucket) : Bool :=
  !bucket.drained && !decide (bucket.lastWriteAt = timeZero)

/-- Whether the callback of `DrainAndReset` drains the bucket: `needsDrain` after the
`forced` override. -/
def drainNeeded (b : dbBuffer) (now : Int) (forced : Bool) (bucket : dbBufferBucket)
    (current : Int) : Bool :=
  if forced && !bucket.drained && !decide (bucket.lastWriteAt = timeZero) then true
  else (b.bucketState now bucket current).2.1

/-- Whether the callback of `DrainAndReset` resets the bucket: `needsReset` after the
`forced` override. -/
def resetNeeded (b : dbBuffer) (now : Int) (forced : Bool) (bucket : dbBufferBucket)
    (current : Int) : Bool :=
  if forced && !bucket.drained && !decide (bucket.lastWriteAt = timeZero) then true
  else (b.bucketState now bucket current).2.2

/-- The bucket after `encoders[0].encoder.Seal()` and `bucket.drained = true`. -/
def dbBufferBucket.handOff (bucket : dbBufferBucket) (first : inOrderEncoder)
    (rest : List inOrderEncoder) : dbBufferBucket :=
  { bucket with
    encoders := { first with encoder := first.encoder.Seal } :: rest
    drained := true }

/-- The timestamps encoded into an encoder, in encoding order. -/
def Encoder.timestamps (e : Encoder) : List Int :=
  e.points.map (fun p => p.datapoint.Timestamp)

/-- A slot whose encoded timestamps are strictly increasing and at most its watermark. -/
def inOrderEncoder.ordered (s : inOrderEncoder) : Prop :=
  s.encoder.timestamps.Pairwise (· < ·) ∧ ∀ t ∈ s.encoder.timestamps, t ≤ s.lastWriteAt

/-- A slot the scan of `write` passes over: the time value is not `==` to the slot's
watermark and is not after it. -/
def inOrderEncoder.passed (s : inOrderEncoder) (timestamp : Int) (loc : Nat) : Prop :=
  ¬ (timestamp = s.lastWriteAt ∧ loc = s.lastWriteLoc) ∧ timestamp ≤ s.lastWriteAt

/-- The bucket after the first two statements of `write`: `outOfOrder` latched and
`lastWriteAt` raised. -/
def dbBufferBucket.touch (b : dbBufferBucket) (timestamp : Int) (loc : Nat) :
    dbBufferBucket :=
  { b with
    outOfOrder := b.outOfOrder || decide (timestamp < b.lastWriteAt)
    lastWriteAt := max b.lastWriteAt timestamp
    lastWriteLoc := if timestamp > b.lastWriteAt then loc else b.lastWriteLoc }

/-- The slot `write` appends when no existing slot can take the timestamp. -/
def dbBufferBucket.nextSlot (b : dbBufferBucket) (timestamp : Int) : inOrderEncoder :=
  { lastWriteAt := timeZero
    lastWriteLoc := 0
    encoder := Encoder.Reset (Truncate timestamp b.opts.blockSize) b.opts.allocSize }

/-- Every slot of the bucket is ordered. -/
def dbBufferBucket.slotsOrdered (b : dbBufferBucket) : Prop :=
  ∀ s ∈ b.encoders, s.ordered

/-- What the bucket at `idx` contributes to `ReadEncoded`. -/
def dbBuffer.readEncodedKeep (b : dbBuffer) (start end_ : Int) (idx : Fin 3) :
    Option (List SegmentReader) :=
  if (b.buckets.get idx).dirty = true ∧ start < (b.buckets.get idx).start + b.blockSize ∧
      (b.buckets.get idx).start < end_
  then some (readBucketStreams (b.buckets.get idx)) else none

/-- What the bucket at `idx` contributes to `FetchBlocks`. -/
def dbBuffer.fetchBlocksKeep (sameRepr : Nat → Fin 3 → Bool) (b : dbBuffer)
    (starts : List Int) (idx : Fin 3) : Option FetchBlockResult :=
  if (b.buckets.get idx).dirty = true ∧
      startsFound sameRepr starts idx (b.buckets.get idx).start = true
  then some { start := (b.buckets.get idx).start,
              readers := readBucketStreams (b.buckets.get idx) }
  else none

/-- What the bucket at `idx` contributes to `FetchBlocksMetadata`. -/
def dbBuffer.fetchBlocksMetadataKeep (segmentLen : SegmentReader → Int) (b : dbBuffer)
    (includeSizes : Bool) (idx : Fin 3) : Option FetchBlockMetadataResult :=
  if (b.buckets.get idx).dirty = true ∧
      ((readBucketStreams (b.buckets.get idx)).map segmentLen).sum ≠ 0
  then some { start := (b.buckets.get idx).start,
              size := if includeSizes then
                some ((readBucketStreams (b.buckets.get idx)).map segmentLen).sum
                else none }
  else none

/-- The slot `target` of `write` after a successful `Encode`. -/
def inOrderEncoder.encoded (slot : inOrderEncoder) (timestamp : Int) (loc value unit : Nat)
    (ann : List Nat) : inOrderEncoder :=
  { lastWriteAt := timestamp
    lastWriteLoc := loc
    encoder := { slot.encoder with points := slot.encoder.points ++
      [{ datapoint := { Timestamp := timestamp, Value := value }, unit := unit, ann := ann }] } }

/-- A bucket that has not been handed to the sink holds no sealed encoder. -/
def dbBufferBucket.unsealed (b : dbBufferBucket) : Prop :=
  b.drained = false → ∀ s ∈ b.encoders, s.encoder.sealed = false

/-- The ring invariant: `buckets[j]` is bound to a non-negative multiple of the block size
whose quotient by the block size is `j` modulo three. -/
def dbBuffer.ringAligned (b : dbBuffer) : Prop :=
  ∀ j : Fin 3, ∃ m, 0 ≤ m ∧ (b.buckets.get j).start = b.blockSize * m ∧ m % 3 = (j.val : Int)

/-- Every bucket is bound to a window `forEachBucketAsc` pairs with it at some clock reading
at least one block after the Unix epoch and within the range of `UnixNano`. -/
def dbBuffer.ringPaired (b : dbBuffer) : Prop :=
  ∀ j : Fin 3, ∃ now, b.blockSize ≤ now ∧ now ≤ maxInt64 ∧
    (b.buckets.get j).start = b.paired now j

/-- A bucket whose watermarks are backed by encoded points: every slot's `lastWriteAt` is
unset or among the timestamps in its encoder, no encoder is closed, and, unless the bucket
has been handed to the sink, no encoder is sealed and the bucket's own `lastWriteAt` is
unset or among the timestamps encoded in one of its slots. -/
def dbBufferBucket.backed (b : dbBufferBucket) : Prop :=
  (∀ s ∈ b.encoders, s.encoder.closed = false ∧
    (s.lastWriteAt = timeZero ∨ s.lastWriteAt ∈ s.encoder.timestamps)) ∧
  (b.drained = false →
    (∀ s ∈ b.encoders, s.encoder.sealed = false) ∧
    (b.lastWriteAt = timeZero ∨ ∃ s ∈ b.encoders, b.lastWriteAt ∈ s.encoder.timestamps))

/-- Every drained bucket had aged out of the past tolerance at the last clock reading. -/
def dbBuffer.drainedAged (b : dbBuffer) (last : Int) : Prop :=
  ∀ j : Fin 3, (b.buckets.get j).drained = true →
    (b.buckets.get j).start + b.blockSize < last - b.bufferPast

/-- A bucket that is not out of order has a single slot, whose watermark is at most the
bucket's. -/
def dbBufferBucket.singleRun (b : dbBufferBucket) : Prop :=
  b.outOfOrder = false → ∃ s, b.encoders = [s] ∧ s.lastWriteAt ≤ b.lastWriteAt

/-- No bucket is bound to a window later than the one after the window of the last clock
reading. -/
def dbBuffer.startBounded (b : dbBuffer) (last : Int) : Prop :=
  ∀ j : Fin 3, (b.buckets.get j).start ≤ Truncate last b.blockSize + b.blockSize

/-- The bucket states reachable from `resetTo` by `write` (successful or failing) of time
values whose instant and tag satisfy `ok`, by `sort` and by the hand-off to the sink. -/
inductive ReachableBucket (ok : Int → Nat → Prop) : dbBufferBucket → Prop where
  | resetTo (b : dbBufferBucket) (start : Int) : ReachableBucket ok (b.resetTo start)
  | write (fault : EncodeFault) (b : dbBufferBucket) (timestamp : Int) (loc value unit : Nat)
      (ann : List Nat) : ReachableBucket ok b → ok timestamp loc →
      ReachableBucket ok (b.write fault timestamp loc value unit ann).1
  | sort (fault : EncodeFault) (b : dbBufferBucket) : ReachableBucket ok b →
      ReachableBucket ok (b.sort fault)
  | handOff (b : dbBufferBucket) (first : inOrderEncoder) (rest : List inOrderEncoder) :
      ReachableBucket ok b → b.encoders = first :: rest →
      ReachableBucket ok (b.handOff first rest)

/-- The time values after the zero time, whatever their tag. -/
def afterZero : Int → Nat → Prop := fun timestamp _ => timeZero < timestamp

/-- The time values after the zero time that carry the tag `l`. -/
def inLocation (l : Nat) : Int → Nat → Prop := fun timestamp loc =>
  timeZero < timestamp ∧ loc = l

/-- A watermark with its tag when every time value written is after the zero time and
carries the tag `l`: unset, the zero `time.Time`, with tag `0`; or set, with tag `l`. -/
def locatedAt (l : Nat) (lastWriteAt : Int) (lastWriteLoc : Nat) : Prop :=
  (lastWriteAt = timeZero ∧ lastWriteLoc = 0) ∨ (timeZero < lastWriteAt ∧ lastWriteLoc = l)

/-- Every watermark of the bucket that is set carries the tag `l`. -/
def dbBufferBucket.located (l : Nat) (b : dbBufferBucket) : Prop :=
  (∀ s ∈ b.encoders, locatedAt l s.lastWriteAt s.lastWriteLoc) ∧
    locatedAt l b.lastWriteAt b.lastWriteLoc

/-- The watermarks of the slots strictly decrease along the slot list. -/
def dbBufferBucket.watermarksDecreasing (b : dbBufferBucket) : Prop :=
  (b.encoders.map (fun s => s.lastWriteAt)).Pairwise (· > ·)

instance (timestamp : Int) (loc : Nat) : Decidable (afterZero timestamp loc) :=
  inferInstanceAs (Decidable (timeZero < timestamp))

instance (l : Nat) (timestamp : Int) (loc : Nat) : Decidable (inLocation l timestamp loc) :=
  inferInstanceAs (Decidable (timeZero < timestamp ∧ loc = l))

/-- The watermarks of the slots are at most the bucket's, which is not before the zero time,
and every encoded timestamp is after the zero time. -/
def dbBufferBucket.watermarksBounded (b : dbBufferBucket) : Prop :=
  (∀ s ∈ b.encoders, s.lastWriteAt ≤ b.lastWriteAt) ∧ timeZero ≤ b.lastWriteAt ∧
    ∀ s ∈ b.encoders, ∀ t ∈ s.encoder.timestamps, timeZero < t

/-- The slot a scan has chosen as target, if any. -/
def Scan.slot : Scan → Option inOrderEncoder
  | Scan.target _ slot _ => some slot
  | _ => none

/-- The arguments of one call of `write`, with the behaviour of the encoders during it. -/
structure WriteArgs where
  fault : EncodeFault
  timestamp : Int
  loc : Nat
  value : Nat
  unit : Nat
  ann : List Nat

/-- A sequence of calls of `write` on a bucket, errors ignored. -/
def dbBufferBucket.writeAll (b : dbBufferBucket) : List WriteArgs → dbBufferBucket
  | [] => b
  | w :: ws => (b.write w.fault w.timestamp w.loc w.value w.unit w.ann).1.writeAll ws

/-! ## Operations as the specification and the claims word them -/

/-- The bucket-state function as the specification words it: `needs_drain` tests the
bucket's own start, `bucket.start + block_size < now - buffer_past`. -/
def bucketStateSpec (b : dbBuffer) (now : Int) (bucket : dbBufferBucket)
    (expectedStart : Int) : Bool × Bool × Bool :=
  let notDrainedHasValues := !bucket.drained && !decide (bucket.lastWriteAt = timeZero)
  let shouldRead := notDrainedHasValues
  let needsReset := decide (bucket.start ≠ expectedStart)
  let needsDrain := notDrainedHasValues &&
    (needsReset || decide (bucket.start + b.blockSize < now - b.bufferPast))
  (shouldRead, needsDrain, needsReset)

/-- First fit as the specification words it: "pick the first slot with
`t > slot.last_write_at`", looking at every slot in turn. -/
def firstFit (timestamp : Int) : List inOrderEncoder → Scan
  | [] => Scan.absent
  | e :: rest =>
    if timestamp > e.lastWriteAt then Scan.target [] e rest
    else match firstFit timestamp rest with
      | Scan.target before slot after => Scan.target (e :: before) slot after
      | r => r

/-- The scan of `write` as the specification words it: "if any slot has
`slot.last_write_at == t`, return success without writing (dedup).  Otherwise pick the first
slot with `t > slot.last_write_at`." -/
def scanEncodersSpec (timestamp : Int) (encoders : List inOrderEncoder) : Scan :=
  if encoders.any (fun e => decide (e.lastWriteAt = timestamp)) then Scan.discard
  else firstFit timestamp encoders

/-- The operation `write` as the specification words it: the bucket's `out_of_order` and
`last_write_at` are updated, the slots are scanned as specified, a new slot is allocated if
the scan finds none, and the point is encoded into the chosen slot. -/
def dbBufferBucket.writeSpec (fault : EncodeFault) (b : dbBufferBucket)
    (timestamp : Int) (loc : Nat) (value : Nat) (unit : Nat) (ann : List Nat) :
    dbBufferBucket × Option EncodeError :=
  match scanEncodersSpec timestamp b.encoders with
  | Scan.discard => (b.touch timestamp loc, none)
  | Scan.target before slot after =>
    encodeTarget fault (b.touch timestamp loc) before slot after timestamp loc value unit ann
  | Scan.absent =>
    encodeTarget fault (b.touch timestamp loc) b.encoders (b.nextSlot timestamp) []
      timestamp loc value unit ann

/-- Best fit: the slot with the greatest `lastWriteAt` among all slots with
`lastWriteAt < t` (the first of them in the list, should two be equal). -/
def bestFit (timestamp : Int) : List inOrderEncoder → Option inOrderEncoder
  | [] => none
  | e :: rest =>
    match bestFit timestamp rest with
    | some s =>
      if e.lastWriteAt < timestamp ∧ s.lastWriteAt ≤ e.lastWriteAt then some e else some s
    | none => if e.lastWriteAt < timestamp then some e else none

/-! ## Sample values on which the theorems are exercised -/

/-- An encoder pool whose encoders never fail. -/
def noFault : EncodeFault := fun _ _ => none

/-- An encoder pool whose encoders always fail with code `7`. -/
def allFault : EncodeFault := fun _ _ => some 7

/-- Blocks of 10ns, 5ns of tolerance on both sides. -/
def sampleOptions : Options :=
  { blockSize := 10, bufferPast := 5, bufferFuture := 5, allocSize := 0,
    decodeLoc := 0 }

/-- The buffer `newDatabaseBuffer` builds from `sampleOptions` when the clock reads `100`:
the windows starting at `90`, `100` and `110` sit in `buckets[0]`, `buckets[1]` and
`buckets[2]`. -/
def sampleBuffer : dbBuffer :=
  { opts := sampleOptions
    buckets :=
      { b0 := (zeroBucket sampleOptions).resetTo 90
        b1 := (zeroBucket sampleOptions).resetTo 100
        b2 := (zeroBucket sampleOptions).resetTo 110 }
    blockSize := 10
    bufferPast := 5
    bufferFuture := 5
    sink := [] }

/-- The value of an optional buffer, `sampleBuffer` standing in for a panic. -/
def orSample (b : Option dbBuffer) : dbBuffer := b.getD sampleBuffer

/-- A write of `(103, 1)` at clock reading `100`. -/
def sampleWrite103 : Call := Call.write noFault 100 100 103 0 1 0 []

/-- A write of `(101, 2)` at clock reading `100`. -/
def sampleWrite101 : Call := Call.write noFault 100 100 101 0 2 0 []

/-- The buffer `sampleBuffer` after the write of `(103, 1)`. -/
def sampleOne : dbBuffer := orSample (sampleBuffer.call sampleWrite103)

/-- The buffer `sampleOne` after the out-of-order write of `(101, 2)`: its `buckets[1]` has
two slots. -/
def sampleTwo : dbBuffer := orSample (sampleOne.call sampleWrite101)

/-- The buffer `sampleBuffer` after a write of `(103, 1)` at clock reading `100`, the
timestamp carrying the tag `1`: in Go, `Write(time.Unix(0, 103), 1, ...)`, a time value in
the Location `Local`. -/
def sampleLocal : dbBuffer :=
  orSample ((sampleBuffer.Write noFault 100 100 103 1 1 0 []).map Prod.fst)

/-- The buffer `sampleLocal` after a write of `(103, 2)`, the instant already written, as
another time value, with the tag `0`: in Go, `Write(time.Unix(0, 103).UTC(), 2, ...)`.  Its
`buckets[1]` has two slots with the watermark `103`.  (Which of the two tags is that of the
zero `time.Time` plays no part: no watermark compared is unset at that instant.) -/
def sampleTwin : dbBuffer :=
  orSample ((sampleLocal.Write noFault 100 100 103 0 2 0 []).map Prod.fst)

/-- The buffer `sampleOne` after a write of `(101, 2)` whose `Encode` call fails. -/
def sampleFailed : dbBuffer :=
  orSample ((sampleOne.Write allFault 100 100 101 0 2 0 []).map Prod.fst)

/-- A non-forced `DrainAndReset` at clock reading `116`. -/
def sampleDrain116 : Call := Call.drainAndReset noFault 116 false

/-- The buffer `sampleOne` after `DrainAndReset(false)` at clock reading `116`: its
`buckets[1]`, bound to the window starting at `100`, has aged out and been handed to the
sink, but not reset. -/
def sampleDrained : dbBuffer := orSample (sampleOne.call sampleDrain116)

/-- Blocks of one week, ten minutes of tolerance on both sides. -/
def weekOptions : Options :=
  { blockSize := 604800 * 1000000000, bufferPast := 600 * 1000000000,
    bufferFuture := 600 * 1000000000, allocSize := 0,
    decodeLoc := 0 }

/-- Friday 2024-01-05T12:00:00Z.  `Truncate` to one week gives Monday 2024-01-01T00:00:00Z
(the zero time is a Monday), whereas the weeks counted by `UnixNano() / blockSize` start on
Thursdays. -/
def fridayNoon : Int := 1704456000 * 1000000000

/-- The buffer `newDatabaseBuffer` builds from `weekOptions` at `fridayNoon`. -/
def weekBuffer : dbBuffer := orSample (newDatabaseBuffer weekOptions fridayNoon)

/-- The buffer `sampleBuffer` after two writes whose `Encode` calls fail, of `103` and then
`101`, and a non-forced `DrainAndReset` at clock reading `116`: its `buckets[1]` has
watermark `103` but no encoded point. -/
def sampleUnbacked : dbBuffer :=
  orSample (((sampleBuffer.call (Call.write allFault 100 100 103 0 1 0 [])).bind
    (fun b => b.call (Call.write allFault 100 100 101 0 2 0 []))).bind
    (fun b => b.call (Call.drainAndReset noFault 116 false)))

/-- Blocks of 10ns with a future tolerance of ten blocks. -/
def wideOptions : Options :=
  { blockSize := 10, bufferPast := 0, bufferFuture := 100, allocSize := 0,
    decodeLoc := 0 }

/-- The buffer `newDatabaseBuffer` builds from `wideOptions` when the clock reads `105`. -/
def wideBuffer : dbBuffer := orSample (newDatabaseBuffer wideOptions 105)

/-- Blocks of one week, ten minutes of past tolerance, one week of future tolerance. -/
def weekWideOptions : Options :=
  { blockSize := 604800 * 1000000000, bufferPast := 600 * 1000000000,
    bufferFuture := 604800 * 1000000000, allocSize := 0,
    decodeLoc := 0 }

/-- Sunday 2024-01-07T12:00:00Z. -/
def sundayNoon : Int := 1704628800 * 1000000000

/-- Thursday 2024-01-11T12:00:00Z. -/
def thursdayNoon : Int := 1704974400 * 1000000000

/-- The buffer `newDatabaseBuffer` builds from `weekWideOptions` at `sundayNoon`. -/
def weekWideBuffer : dbBuffer := orSample (newDatabaseBuffer weekWideOptions sundayNoon)

/-- Blocks of 10ns, no past tolerance, one block of future tolerance. -/
def earlyOptions : Options :=
  { blockSize := 10, bufferPast := 0, bufferFuture := 10, allocSize := 0,
    decodeLoc := 0 }

/-- The buffer `newDatabaseBuffer` builds from `earlyOptions` when the clock reads `-11`,
that is 11ns before the Unix epoch. -/
def earlyBuffer : dbBuffer := orSample (newDatabaseBuffer earlyOptions (-11))

/-- The buffer `newDatabaseBuffer` builds from `sampleOptions` one nanosecond before the last
instant whose `UnixNano` fits an `int64`. -/
def lateBuffer : dbBuffer := orSample (newDatabaseBuffer sampleOptions (maxInt64 - 1))

/-- The configuration of the concrete scenarios: blocks of two hours, ten minutes of
tolerance on both sides. -/
def scenarioOptions : Options :=
  { blockSize := 7200 * 1000000000, bufferPast := 600 * 1000000000,
    bufferFuture := 600 * 1000000000, allocSize := 0,
    decodeLoc := 0 }

/-- The instant `seconds` after 2024-01-01T12:00:00Z, which is 1704110400 seconds after the
Unix epoch. -/
def scenarioTime (seconds : Int) : Int := (1704110400 + seconds) * 1000000000

/-- The instant `seconds` after 2300-01-01T00:00:00Z, which is 10413792000 seconds after
the Unix epoch: past 2262-04-11T23:47:16.854775807Z, the last instant whose `UnixNano` fits
an `int64`. -/
def wrapTime (seconds : Int) : Int := (10413792000 + seconds) * 1000000000

/-- The buffer `newDatabaseBuffer` builds from `scenarioOptions` at 2300-01-01T00:00:00Z. -/
def wrapBuffer : dbBuffer := orSample (newDatabaseBuffer scenarioOptions (wrapTime 0))

/-- Blocks of two hours, one hour of past tolerance, two hours of future tolerance. -/
def wrapWideOptions : Options :=
  { blockSize := 7200 * 1000000000, bufferPast := 3600 * 1000000000,
    bufferFuture := 7200 * 1000000000, allocSize := 0,
    decodeLoc := 0 }

/-- The buffer `newDatabaseBuffer` builds from `wrapWideOptions` at 2300-01-01T00:00:00Z. -/
def wrapWideBuffer : dbBuffer := orSample (newDatabaseBuffer wrapWideOptions (wrapTime 0))

/-- Blocks of 7766949600 seconds, about 246 years: one eighth of the distance between the
zero time and the Unix epoch, and in nanoseconds more than half the greatest `int64`; ten
minutes of tolerance on both sides. -/
def longOptions : Options :=
  { blockSize := 7766949600 * 1000000000, bufferPast := 600 * 1000000000,
    bufferFuture := 600 * 1000000000, allocSize := 0,
    decodeLoc := 0 }

/-- The instant `seconds` after 2216-02-16T06:00:00Z, which is 7766949600 seconds, one block
of `longOptions`, after the Unix epoch. -/
def longTime (seconds : Int) : Int := (7766949600 + seconds) * 1000000000

/-- The buffer `newDatabaseBuffer` builds from `longOptions` at 2216-02-16T06:00:00Z. -/
def longBuffer : dbBuffer := orSample (newDatabaseBuffer longOptions (longTime 0))

/-- The buffer `longBuffer` after two writes at 2216-02-16T06:00:05Z, of that instant and of
the instant ten seconds before: its `buckets[1]` and `buckets[0]` both hold a point. -/
def longTwo : dbBuffer :=
  orSample ((longBuffer.call
    (Call.write noFault (longTime 5) (longTime 5) (longTime 5) 0 1 0 [])).bind
    (fun b => b.call (Call.write noFault (longTime 5) (longTime 5) (longTime (-5)) 0 2 0 [])))

/-- The buffer `newDatabaseBuffer` builds from `scenarioOptions` at 12:00:00: the windows
starting at 10:00, 12:00 and 14:00 sit in `buckets[2]`, `buckets[0]` and `buckets[1]`. -/
def scenarioStart : dbBuffer := orSample (newDatabaseBuffer scenarioOptions (scenarioTime 0))

/-- The buffer `scenarioStart` after `Write(12:00:00, 1.0)` at 12:00:00. -/
def scenarioOne : dbBuffer :=
  orSample ((scenarioStart.Write noFault (scenarioTime 0) (scenarioTime 0) (scenarioTime 0) 0
    1 0 []).map Prod.fst)

/-- The buffer `scenarioOne` after `Write(14:00:00, 3.0)` at 14:00:05. -/
def scenarioTwo : dbBuffer :=
  orSample ((scenarioOne.Write noFault (scenarioTime 7205) (scenarioTime 7205)
    (scenarioTime 7200) 0 3 0 []).map Prod.fst)

/-- The buffer `sampleOne` after a further write of `(98, 4)` at clock reading `100`: its
`buckets[0]` and `buckets[1]`, bound to the windows starting at `90` and `100`, both hold a
point. -/
def staleBuffer : dbBuffer :=
  orSample (sampleOne.call (Call.write noFault 100 100 98 0 4 0 []))

/-- A bucket reset to the window starting at the zero time that has taken, in this order,
writes of `timeZero + 21`, of `timeZero - 5`, of `timeZero - 7` with a failing `Encode`, which
leaves a third slot with the zero time as watermark. -/
def ancientBucket : dbBufferBucket :=
  (((((zeroBucket sampleOptions).resetTo timeZero).write noFault (timeZero + 21) 0 1 0 []).1.write
    noFault (timeZero - 5) 0 2 0 []).1.write allFault (timeZero - 7) 0 3 0 []).1

/-! ## Basic facts -/

theorem Buckets.get_set (bs : Buckets) (i j : Fin 3) (x : dbBufferBucket) :
    (bs.set i x).get j = if j = i then x else bs.get j := by
  fin_cases i <;> fin_cases j <;> rfl

theorem Buckets.get_set_same (bs : Buckets) (i : Fin 3) (x : dbBufferBucket) :
    (bs.set i x).get i = x := by
  rw [Buckets.get_set, if_pos rfl]

theorem Buckets.get_set_ne (bs : Buckets) {i j : Fin 3} (x : dbBufferBucket) (h : j ≠ i) :
    (bs.set i x).get j = bs.get j := by
  rw [Buckets.get_set, if_neg h]

theorem Buckets.ext_get {bs bs' : Buckets} (h : ∀ j, bs.get j = bs'.get j) : bs = bs' := by
  cases bs; cases bs'
  have h0 := h 0
  have h1 := h 1
  have h2 := h 2
  simp only [Buckets.get] at h0 h1 h2
  subst h0 h1 h2
  rfl

theorem Buckets.set_get (bs : Buckets) (i : Fin 3) : bs.set i (bs.get i) = bs := by
  apply Buckets.ext_get
  intro j
  rw [Buckets.get_set]
  split
  · next h => rw [h]
  · rfl

theorem Truncate_pos (t d : Int) (hd : 0 < d) :
    Truncate t d = t - (t + unixToInternal) % d := by
  unfold Truncate timeZero
  rw [if_neg (by omega), sub_neg_eq_add]

theorem Truncate_le (t d : Int) (hd : 0 < d) : Truncate t d ≤ t := by
  rw [Truncate_pos t d hd]
  have := Int.emod_nonneg (t + unixToInternal) (ne_of_gt hd)
  omega

theorem lt_Truncate_add (t d : Int) (hd : 0 < d) : t < Truncate t d + d := by
  rw [Truncate_pos t d hd]
  have := Int.emod_lt_of_pos (t + unixToInternal) hd
  omega

/-- When the block size divides the distance between the zero time and the Unix epoch,
truncation is also aligned with the Unix epoch. -/
theorem Truncate_of_dvd (t d : Int) (hd : 0 < d) (hdvd : d ∣ unixToInternal) :
    Truncate t d = t - t % d := by
  rw [Truncate_pos t d hd]
  congr 1
  obtain ⟨k, hk⟩ := hdvd
  rw [hk, Int.add_mul_emod_self_left]

theorem tdiv_nonneg_of_neg_lt (x d : Int) (hd : 0 < d) (hx : -d < x) : 0 ≤ Int.tdiv x d := by
  rcases le_or_lt 0 x with h | h
  · exact Int.tdiv_nonneg h (le_of_lt hd)
  · have h1 : x = -(-x) := by omega
    rw [h1, Int.neg_tdiv, Int.tdiv_eq_ediv (by omega) (le_of_lt hd),
      Int.ediv_eq_zero_of_lt (by omega) (by omega)]
    simp

/-- Within the range of `int64`, `UnixNano` is the instant itself. -/
theorem UnixNano_eq (t : Int) (h1 : minInt64 ≤ t) (h2 : t ≤ maxInt64) : UnixNano t = t := by
  unfold minInt64 at h1
  unfold maxInt64 at h2
  unfold UnixNano int64
  omega

theorem UnixNano_of_nonneg (t : Int) (h1 : 0 ≤ t) (h2 : t ≤ maxInt64) : UnixNano t = t :=
  UnixNano_eq t (by unfold minInt64; omega) h2

/-- A product that fits an `int64` is computed exactly. -/
theorem int64_of_nonneg (x : Int) (h1 : 0 ≤ x) (h2 : x ≤ maxInt64) : int64 x = x := by
  unfold maxInt64 at h2
  unfold int64
  omega

/-- Wrapping around never increases a non-negative product. -/
theorem int64_le (x : Int) (h : 0 ≤ x) : int64 x ≤ x := by
  unfold int64
  omega

/-- A positive product below `2 ^ 64` that does not fit an `int64` wraps around to a
negative number. -/
theorem int64_of_gt (x : Int) (h1 : maxInt64 < x) (h2 : x ≤ 2 * maxInt64) :
    int64 x = x - 18446744073709551616 := by
  unfold maxInt64 at h1 h2
  unfold int64
  omega

/-! ## Admission -/

/-- Past the admission checks, `Write` is the routing-and-encode part. -/
theorem Write_of_admitted (fault : EncodeFault) (b : dbBuffer) (now nowDrain timestamp : Int)
    (loc value unit : Nat) (ann : List Nat)
    (hf : timestamp < now + b.bufferFuture) (hp : now - b.bufferPast < timestamp) :
    b.Write fault now nowDrain timestamp loc value unit ann =
      (goDiv (UnixNano timestamp) b.blockSize).bind (fun q =>
        (bucketIndex (Int.tmod q bucketsLen)).bind (fun bucketIdx =>
          (if (b.bucketState now (b.buckets.get bucketIdx)
                (Truncate timestamp b.blockSize)).2.2
            then b.DrainAndReset fault nowDrain false else some b).bind (fun b1 =>
            some (b1.setBucket bucketIdx
                      ((b1.buckets.get bucketIdx).write fault timestamp loc value unit
                        ann).1,
                  ((b1.buckets.get bucketIdx).write fault timestamp loc value unit
                        ann).2.map Error.encode)))) := by
  unfold dbBuffer.Write
  have h1 : ¬ ¬ (now + 1 * b.bufferFuture > timestamp) := by omega
  have h2 : ¬ ¬ (now + (-1) * b.bufferPast < timestamp) := by omega
  simp only [h1, h2, if_false]

theorem Write_tooFuture (fault : EncodeFault) (b : dbBuffer) (now nowDrain timestamp : Int)
    (loc value unit : Nat) (ann : List Nat)
    (hf : now + b.bufferFuture ≤ timestamp) :
    b.Write fault now nowDrain timestamp loc value unit ann =
      some (b, some Error.errTooFuture) := by
  unfold dbBuffer.Write
  have h1 : ¬ (now + 1 * b.bufferFuture > timestamp) := by omega
  simp only [h1, if_true, not_false_eq_true]

theorem Write_tooPast (fault : EncodeFault) (b : dbBuffer) (now nowDrain timestamp : Int)
    (loc value unit : Nat) (ann : List Nat)
    (hf : timestamp < now + b.bufferFuture) (hp : timestamp ≤ now - b.bufferPast) :
    b.Write fault now nowDrain timestamp loc value unit ann =
      some (b, some Error.errTooPast) := by
  unfold dbBuffer.Write
  have h1 : ¬ ¬ (now + 1 * b.bufferFuture > timestamp) := by omega
  have h2 : ¬ (now + (-1) * b.bufferPast < timestamp) := by omega
  simp only [h1, h2, if_true, if_false, not_false_eq_true]

/-- An admitted write fails, if at all, with the error of the encoder. -/
theorem Write_admitted_error (fault : EncodeFault) (b : dbBuffer) (now nowDrain timestamp : Int)
    (loc value unit : Nat) (ann : List Nat)
    (hf : timestamp < now + b.bufferFuture) (hp : now - b.bufferPast < timestamp)
    (b' : dbBuffer) (e : Error)
    (h : b.Write fault now nowDrain timestamp loc value unit ann = some (b', some e)) :
    ∃ x, e = Error.encode x := by
  rw [Write_of_admitted fault b now nowDrain timestamp loc value unit ann hf hp] at h
  simp only [Option.bind_eq_some, Option.some.injEq, Prod.mk.injEq] at h
  obtain ⟨q, -, idx, -, b1, -, -, h2⟩ := h
  cases hw : ((b1.buckets.get idx).write fault timestamp loc value unit ann).2 with
  | none => rw [hw] at h2; simp at h2
  | some x => rw [hw] at h2; simp at h2; exact ⟨x, h2.symm⟩

/-- C1: admission bounds of `Write`.  `Write` returns the too-future error exactly when
`now + bufferFuture <= timestamp`; it returns the too-past error exactly when the datapoint
is not too far in the future and `now - bufferPast >= timestamp`; and whenever it returns
success, `now - bufferPast < timestamp < now + bufferFuture`, strictly on both sides. -/
theorem C1_write_admission (fault : EncodeFault) (b : dbBuffer)
    (now nowDrain timestamp : Int) (loc value unit : Nat) (ann : List Nat) :
    ((∃ b', b.Write fault now nowDrain timestamp loc value unit ann
          = some (b', some Error.errTooFuture))
        ↔ now + b.bufferFuture ≤ timestamp) ∧
    ((∃ b', b.Write fault now nowDrain timestamp loc value unit ann
          = some (b', some Error.errTooPast))
        ↔ (¬ (now + b.bufferFuture ≤ timestamp) ∧ now - b.bufferPast ≥ timestamp)) ∧
    (∀ b', b.Write fault now nowDrain timestamp loc value unit ann = some (b', none) →
        now - b.bufferPast < timestamp ∧ timestamp < now + b.bufferFuture) := by
  rcases le_or_lt (now + b.bufferFuture) timestamp with hf | hf
  · have hw := Write_tooFuture fault b now nowDrain timestamp loc value unit ann hf
    refine ⟨⟨fun _ => hf, fun _ => ⟨b, hw⟩⟩, ⟨?_, fun h => absurd hf h.1⟩, ?_⟩
    · rintro ⟨b', h⟩
      rw [hw] at h
      simp at h
    · intro b' h
      rw [hw] at h
      simp at h
  · rcases le_or_lt timestamp (now - b.bufferPast) with hp | hp
    · have hw := Write_tooPast fault b now nowDrain timestamp loc value unit ann hf hp
      refine ⟨⟨?_, fun h => absurd h (not_le.mpr hf)⟩,
        ⟨fun _ => ⟨not_le.mpr hf, hp⟩, fun _ => ⟨b, hw⟩⟩, ?_⟩
      · rintro ⟨b', h⟩
        rw [hw] at h
        simp at h
      · intro b' h
        rw [hw] at h
        simp at h
    · refine ⟨⟨?_, fun h => absurd h (not_le.mpr hf)⟩, ⟨?_, fun h => ?_⟩, fun _ _ => ⟨hp, hf⟩⟩
      · rintro ⟨b', h⟩
        obtain ⟨x, hx⟩ := Write_admitted_error fault b now nowDrain timestamp loc value unit
          ann hf hp b' _ h
        cases hx
      · rintro ⟨b', h⟩
        obtain ⟨x, hx⟩ := Write_admitted_error fault b now nowDrain timestamp loc value unit
          ann hf hp b' _ h
        cases hx
      · have := h.2
        omega

/-- C2: a `Write` rejected by admission (too-future or too-past) leaves the buffer exactly as
it was, every bucket and slot included, and makes no call to the drain sink. -/
theorem C2_rejected_write_unchanged (fault : EncodeFault) (b b' : dbBuffer)
    (now nowDrain timestamp : Int) (loc value unit : Nat) (ann : List Nat) (e : Error)
    (hrej : e = Error.errTooFuture ∨ e = Error.errTooPast)
    (h : b.Write fault now nowDrain timestamp loc value unit ann = some (b', some e)) :
    b' = b ∧ b'.sink = b.sink := by
  have key : b' = b := by
    rcases le_or_lt (now + b.bufferFuture) timestamp with hf | hf
    · rw [Write_tooFuture fault b now nowDrain timestamp loc value unit ann hf] at h
      simp at h
      exact h.1.symm
    · rcases le_or_lt timestamp (now - b.bufferPast) with hp | hp
      · rw [Write_tooPast fault b now nowDrain timestamp loc value unit ann hf hp] at h
        simp at h
        exact h.1.symm
      · obtain ⟨x, hx⟩ := Write_admitted_error fault b now nowDrain timestamp loc value unit
          ann hf hp b' e h
        rcases hrej with r | r <;> rw [r] at hx <;> cases hx
  exact ⟨key, by rw [key]⟩

theorem sampleBuffer_eq : newDatabaseBuffer sampleOptions 100 = some sampleBuffer := by decide

theorem C2_rejected_write_unchanged_witness :
    sampleBuffer.Write noFault 100 100 105 0 1 0 [] =
        some (sampleBuffer, some Error.errTooFuture) ∧
      (sampleBuffer = sampleBuffer ∧ sampleBuffer.sink = sampleBuffer.sink) :=
  ⟨by decide, C2_rejected_write_unchanged noFault sampleBuffer sampleBuffer 100 100 105 0 1 0 []
    Error.errTooFuture (Or.inl rfl) (by decide)⟩

/-! ## The traversal of the ring -/

theorem pastMost_gt (b : dbBuffer) (now : Int) (hbs : 0 < b.blockSize)
    (hnow : b.blockSize ≤ now) : -b.blockSize < b.pastMost now := by
  unfold dbBuffer.pastMost
  have := lt_Truncate_add now b.blockSize hbs
  omega

/-- At a clock reading at least one block after the Unix epoch and within the range of
`UnixNano`, the past-most window start is within that range too. -/
theorem UnixNano_pastMost (b : dbBuffer) (now : Int) (hbs : 0 < b.blockSize)
    (hnow : b.blockSize ≤ now) (hmax : now ≤ maxInt64) :
    UnixNano (b.pastMost now) = b.pastMost now := by
  have h1 := pastMost_gt b now hbs hnow
  have h2 : b.pastMost now ≤ now := by
    unfold dbBuffer.pastMost
    have := Truncate_le now b.blockSize hbs
    omega
  apply UnixNano_eq
  · unfold minInt64
    unfold maxInt64 at hmax
    omega
  · omega

theorem bucketIndex_firstIdx (b : dbBuffer) (now : Int) (hbs : 0 < b.blockSize)
    (hnow : b.blockSize ≤ now) (hmax : now ≤ maxInt64) :
    bucketIndex (Int.tmod (Int.tdiv (UnixNano (b.pastMost now)) b.blockSize) bucketsLen)
      = some (b.firstIdx now) := by
  unfold dbBuffer.firstIdx
  rw [UnixNano_pastMost b now hbs hnow hmax]
  have hq := tdiv_nonneg_of_neg_lt _ _ hbs (pastMost_gt b now hbs hnow)
  generalize Int.tdiv (b.pastMost now) b.blockSize = q at hq ⊢
  have h3 : q.tmod bucketsLen = q % 3 := Int.tmod_eq_emod hq (by decide)
  rw [h3]
  have h1 := Int.emod_nonneg q (show (3 : Int) ≠ 0 by decide)
  have h2 := Int.emod_lt_of_pos q (show (0 : Int) < 3 by decide)
  generalize q % 3 = r at h1 h2 ⊢
  have : r = 0 ∨ r = 1 ∨ r = 2 := by omega
  rcases this with h | h | h <;> subst h <;> rfl

theorem fin3_add_sub (i k : Fin 3) : i + k - i = k := by
  revert i k; decide

/-- The window paired with the `k`-th bucket visited. -/
theorem paired_add (b : dbBuffer) (now : Int) (k : Fin 3) :
    b.paired now (b.firstIdx now + k)
      = b.pastMost now + int64 ((k.val : Int) * b.blockSize) := by
  unfold dbBuffer.paired
  rw [fin3_add_sub]

/-- The windows paired with the three buckets, in the order of the visits. -/
theorem paired_visit (b : dbBuffer) (now : Int) :
    b.paired now (b.firstIdx now) = b.pastMost now + int64 (0 * b.blockSize) ∧
    b.paired now (b.firstIdx now + 1) = b.pastMost now + int64 (1 * b.blockSize) ∧
    b.paired now (b.firstIdx now + 2) = b.pastMost now + int64 (2 * b.blockSize) := by
  have h0 := paired_add b now 0
  rw [add_zero] at h0
  exact ⟨h0, paired_add b now 1, paired_add b now 2⟩

theorem paired_first (b : dbBuffer) (now : Int) :
    b.paired now (b.firstIdx now) = b.pastMost now := by
  rw [(paired_visit b now).1, zero_mul]
  show b.pastMost now + 0 = b.pastMost now
  omega

/-- The second window, for a block size that fits an `int64`. -/
theorem paired_second (b : dbBuffer) (now : Int) (hbs : 0 < b.blockSize)
    (hle : b.blockSize ≤ maxInt64) :
    b.paired now (b.firstIdx now + 1) = b.pastMost now + b.blockSize := by
  rw [(paired_visit b now).2.1, one_mul, int64_of_nonneg _ (le_of_lt hbs) hle]

/-- The third window, for a block size whose double fits an `int64`. -/
theorem paired_third (b : dbBuffer) (now : Int) (hbs : 0 < b.blockSize)
    (hbs2 : 2 * b.blockSize ≤ maxInt64) :
    b.paired now (b.firstIdx now + 2) = b.pastMost now + 2 * b.blockSize := by
  rw [(paired_visit b now).2.2, int64_of_nonneg _ (by omega) hbs2]

/-- The third window when the double of the block size does not fit an `int64`: the paired
start lies before the Unix epoch. -/
theorem paired_third_wrapped (b : dbBuffer) (now : Int) (hle : b.blockSize ≤ maxInt64)
    (hbs2 : maxInt64 < 2 * b.blockSize) :
    b.paired now (b.firstIdx now + 2)
      = b.pastMost now + 2 * b.blockSize - 18446744073709551616 := by
  rw [(paired_visit b now).2.2, int64_of_gt _ hbs2 (by omega)]
  omega

/-- No window is paired with a start later than two blocks after the past-most one. -/
theorem paired_le (b : dbBuffer) (now : Int) (hbs : 0 < b.blockSize) (j : Fin 3) :
    b.paired now j ≤ b.pastMost now + 2 * b.blockSize := by
  obtain ⟨e0, e1, e2⟩ := paired_visit b now
  have h1 := int64_le (1 * b.blockSize) (by omega)
  have h2 := int64_le (2 * b.blockSize) (by omega)
  have hj : j = b.firstIdx now ∨ j = b.firstIdx now + 1 ∨ j = b.firstIdx now + 2 := by
    generalize b.firstIdx now = i
    revert i j; decide
  rcases hj with e | e | e <;> rw [e]
  · rw [paired_first]; omega
  · rw [e1]; omega
  · rw [e2]; omega

/-- At a clock reading at least one block after the Unix epoch and within the range of
`UnixNano`, `forEachBucketAsc` does not panic on its own: it calls `fn` on three distinct
buckets, each with the window paired with it. -/
theorem forEachBucketAsc_eq {σ : Type} (b : dbBuffer) (now : Int) (hbs : 0 < b.blockSize)
    (hnow : b.blockSize ≤ now) (hmax : now ≤ maxInt64)
    (fn : σ → Fin 3 → Int → Option σ) (s : σ) :
    b.forEachBucketAsc now fn s =
      (fn s (b.firstIdx now) (b.paired now (b.firstIdx now))).bind (fun s1 =>
        (fn s1 (b.firstIdx now + 1) (b.paired now (b.firstIdx now + 1))).bind (fun s2 =>
          fn s2 (b.firstIdx now + 2) (b.paired now (b.firstIdx now + 2)))) := by
  have hi := bucketIndex_firstIdx b now hbs hnow hmax
  have hpm : Truncate now b.blockSize + (-1) * b.blockSize = b.pastMost now := rfl
  rw [(paired_visit b now).1, (paired_visit b now).2.1, (paired_visit b now).2.2]
  simp only [dbBuffer.forEachBucketAsc, goDiv, if_neg (ne_of_gt hbs), Option.some_bind, hpm]
  rw [UnixNano_pastMost b now hbs hnow hmax] at hi ⊢
  have hq := tdiv_nonneg_of_neg_lt _ _ hbs (pastMost_gt b now hbs hnow)
  generalize b.firstIdx now = i0 at hi ⊢
  generalize Int.tdiv (b.pastMost now) b.blockSize = q at hq hi ⊢
  have h3 : q.tmod bucketsLen = q % 3 := Int.tmod_eq_emod hq (by decide)
  rw [h3] at hi ⊢
  have h1 := Int.emod_nonneg q (show (3 : Int) ≠ 0 by decide)
  have h2 := Int.emod_lt_of_pos q (show (0 : Int) < 3 by decide)
  generalize q % 3 = r at h1 h2 hi ⊢
  have : r = 0 ∨ r = 1 ∨ r = 2 := by omega
  rcases this with h | h | h <;> subst h <;>
    · have hi' : i0 = _ := (Option.some.inj hi).symm
      subst hi'
      simp [List.foldlM, bucketIndex, bucketsLen, Int.tmod]

theorem neg_lt_tmod_three (q : Int) : -3 < q.tmod 3 := by
  cases q with
  | ofNat n =>
    show -3 < ((n % 3 : Nat) : Int)
    omega
  | negSucc n =>
    show -3 < -(((n + 1) % 3 : Nat) : Int)
    omega

theorem bucketIndex_tmod_neg (r : Int) (hr : r = -2 ∨ r = -1) :
    bucketIndex (Int.tmod r 3) = none := by
  rcases hr with h | h <;> subst h <;> decide

theorem bucketIndex_tmod_nonneg (r : Int) (hr : r = 0 ∨ r = 1 ∨ r = 2) :
    bucketIndex (Int.tmod r 3) = some ((bucketIndex r).getD 0) ∧
    bucketIndex (Int.tmod (r + 1) 3) = some ((bucketIndex r).getD 0 + 1) ∧
    bucketIndex (Int.tmod (r + 2) 3) = some ((bucketIndex r).getD 0 + 2) := by
  rcases hr with h | h | h <;> subst h <;> decide

/-- Whatever the clock and the block size, `forEachBucketAsc` either panics before its
first callback or calls `fn` on three distinct buckets, each with the window paired with
it. -/
theorem forEachBucketAsc_cases (b : dbBuffer) (now : Int) :
    (∀ (σ : Type) (fn : σ → Fin 3 → Int → Option σ) (s : σ),
      b.forEachBucketAsc now fn s = none) ∨
    (∀ (σ : Type) (fn : σ → Fin 3 → Int → Option σ) (s : σ),
      b.forEachBucketAsc now fn s =
        (fn s (b.firstIdx now) (b.paired now (b.firstIdx now))).bind (fun s1 =>
          (fn s1 (b.firstIdx now + 1) (b.paired now (b.firstIdx now + 1))).bind (fun s2 =>
            fn s2 (b.firstIdx now + 2) (b.paired now (b.firstIdx now + 2))))) := by
  have hpm : Truncate now b.blockSize + (-1) * b.blockSize = b.pastMost now := rfl
  rw [(paired_visit b now).1, (paired_visit b now).2.1, (paired_visit b now).2.2]
  by_cases hz : b.blockSize = 0
  · left
    intro σ fn s
    simp [dbBuffer.forEachBucketAsc, goDiv, hz]
  · have h1 := Int.tmod_lt_of_pos (Int.tdiv (UnixNano (b.pastMost now)) b.blockSize)
      (show (0 : Int) < 3 by decide)
    have h2 := neg_lt_tmod_three (Int.tdiv (UnixNano (b.pastMost now)) b.blockSize)
    have hf : b.firstIdx now
        = (bucketIndex (Int.tmod (Int.tdiv (UnixNano (b.pastMost now)) b.blockSize)
        3)).getD 0 := rfl
    have key : ∀ (σ : Type) (fn : σ → Fin 3 → Int → Option σ) (s : σ),
        b.forEachBucketAsc now fn s =
          [(0 : Int), 1, 2].foldlM (fun s i =>
            (bucketIndex (Int.tmod (Int.tmod (Int.tdiv (UnixNano (b.pastMost now))
              b.blockSize) 3 + i)
              3)).bind (fun idx => fn s idx (b.pastMost now + int64 (i * b.blockSize)))) s := by
      intro σ fn s
      simp only [dbBuffer.forEachBucketAsc, goDiv, if_neg hz, Option.some_bind, hpm,
        bucketsLen]
    revert hf key
    generalize b.firstIdx now = i0
    generalize Int.tmod (Int.tdiv (UnixNano (b.pastMost now)) b.blockSize) 3 = r at h1 h2 ⊢
    intro hf key
    have hr : (r = -2 ∨ r = -1) ∨ (r = 0 ∨ r = 1 ∨ r = 2) := by omega
    rcases hr with h | h
    · left; intro σ fn s
      rw [key]
      simp only [List.foldlM_cons, Option.bind_eq_bind, add_zero, bucketIndex_tmod_neg r h,
        Option.none_bind]
    · right; intro σ fn s
      obtain ⟨e0, e1, e2⟩ := bucketIndex_tmod_nonneg r h
      rw [key, hf]
      simp only [List.foldlM_cons, List.foldlM_nil, Option.bind_eq_bind, e0, e1, e2,
        Option.some_bind, add_zero, Option.pure_def, Option.bind_some]

/-! ## `DrainAndReset`, `Reset` and `Write`, bucket by bucket -/

theorem fin3_cases (i j : Fin 3) : j = i ∨ j = i + 1 ∨ j = i + 2 := by
  revert i j; decide

theorem fin3_succ_ne (i : Fin 3) : i + 1 ≠ i ∧ i + 2 ≠ i ∧ i + 2 ≠ i + 1 := by
  revert i; decide

theorem bucketState_congr (b b' : dbBuffer) (h1 : b'.blockSize = b.blockSize)
    (h2 : b'.bufferPast = b.bufferPast) (now : Int) (bucket : dbBufferBucket) (c : Int) :
    b'.bucketState now bucket c = b.bucketState now bucket c := by
  simp only [dbBuffer.bucketState, h1, h2]

theorem drainAndResetBucket_congr (fault : EncodeFault) (b b' : dbBuffer)
    (h1 : b'.blockSize = b.blockSize) (h2 : b'.bufferPast = b.bufferPast) (now : Int)
    (forced : Bool) (bucket : dbBufferBucket) (c : Int) :
    drainAndResetBucket fault b' now forced bucket c
      = drainAndResetBucket fault b now forced bucket c := by
  simp only [drainAndResetBucket, bucketState_congr b b' h1 h2]

theorem drainAndResetBucket_with (fault : EncodeFault) (b : dbBuffer) (bk : Buckets)
    (sk : List DrainCall) (now : Int) (forced : Bool) (bucket : dbBufferBucket) (c : Int) :
    drainAndResetBucket fault { b with buckets := bk, sink := sk } now forced bucket c
      = drainAndResetBucket fault b now forced bucket c :=
  drainAndResetBucket_congr fault b _ rfl rfl now forced bucket c

theorem DrainAndReset_of_visit (fault : EncodeFault) (b : dbBuffer) (now : Int)
    (forced : Bool)
    (hv : ∀ (σ : Type) (fn : σ → Fin 3 → Int → Option σ) (s : σ),
      b.forEachBucketAsc now fn s =
        (fn s (b.firstIdx now) (b.paired now (b.firstIdx now))).bind (fun s1 =>
          (fn s1 (b.firstIdx now + 1) (b.paired now (b.firstIdx now + 1))).bind (fun s2 =>
            fn s2 (b.firstIdx now + 2) (b.paired now (b.firstIdx now + 2))))) :
    b.DrainAndReset fault now forced = drainAndResetResult fault b now forced := by
  unfold dbBuffer.DrainAndReset drainAndResetResult
  rw [hv]
  obtain ⟨n1, n2, n3⟩ := fin3_succ_ne (b.firstIdx now)
  cases h0 : drainAndResetBucket fault b now forced (b.buckets.get (b.firstIdx now))
      (b.paired now (b.firstIdx now)) with
  | none => simp
  | some r0 =>
    simp only [Option.map_some', Option.some_bind, drainAndResetBucket_with,
      Buckets.get_set_ne _ _ n1]
    cases h1 : drainAndResetBucket fault b now forced (b.buckets.get (b.firstIdx now + 1))
        (b.paired now (b.firstIdx now + 1)) with
    | none => simp
    | some r1 =>
      simp only [Option.map_some', Option.some_bind, drainAndResetBucket_with,
        Buckets.get_set_ne _ _ n3, Buckets.get_set_ne _ _ n2]
      cases h2 : drainAndResetBucket fault b now forced (b.buckets.get (b.firstIdx now + 2))
          (b.paired now (b.firstIdx now + 2)) with
      | none => simp
      | some r2 => simp

/-- With the clock past the Unix epoch plus one block, `DrainAndReset` visits all three
buckets. -/
theorem DrainAndReset_eq (fault : EncodeFault) (b : dbBuffer) (now : Int) (forced : Bool)
    (hbs : 0 < b.blockSize) (hnow : b.blockSize ≤ now) (hmax : now ≤ maxInt64) :
    b.DrainAndReset fault now forced = drainAndResetResult fault b now forced :=
  DrainAndReset_of_visit fault b now forced
    (fun _ fn s => forEachBucketAsc_eq b now hbs hnow hmax fn s)

/-- Whatever the clock, a `DrainAndReset` that returns has visited all three buckets. -/
theorem DrainAndReset_some (fault : EncodeFault) (b b' : dbBuffer) (now : Int)
    (forced : Bool) (h : b.DrainAndReset fault now forced = some b') :
    drainAndResetResult fault b now forced = some b' := by
  rcases forEachBucketAsc_cases b now with hv | hv
  · rw [dbBuffer.DrainAndReset, hv] at h
    cases h
  · rw [← DrainAndReset_of_visit fault b now forced hv]
    exact h

/-- What `drainAndResetResult` leaves in every bucket. -/
theorem drainAndResetResult_get (fault : EncodeFault) (b b' : dbBuffer) (now : Int)
    (forced : Bool) (h : drainAndResetResult fault b now forced = some b') (j : Fin 3) :
    ∃ r, drainAndResetBucket fault b now forced (b.buckets.get j) (b.paired now j) = some r ∧
      b'.buckets.get j = r.1 := by
  unfold drainAndResetResult at h
  simp only [Option.bind_eq_some, Option.some.injEq] at h
  obtain ⟨r0, h0, r1, h1, r2, h2, hb⟩ := h
  obtain ⟨n1, n2, n3⟩ := fin3_succ_ne (b.firstIdx now)
  subst hb
  rcases fin3_cases (b.firstIdx now) j with e | e | e <;> subst e
  · exact ⟨r0, h0, by
      simp only [Buckets.get_set_ne _ _ n2.symm, Buckets.get_set_ne _ _ n1.symm,
        Buckets.get_set_same]⟩
  · exact ⟨r1, h1, by
      simp only [Buckets.get_set_ne _ _ n3.symm, Buckets.get_set_same]⟩
  · exact ⟨r2, h2, by simp only [Buckets.get_set_same]⟩

theorem drainAndResetResult_fields (fault : EncodeFault) (b b' : dbBuffer) (now : Int)
    (forced : Bool) (h : drainAndResetResult fault b now forced = some b') :
    b'.opts = b.opts ∧ b'.blockSize = b.blockSize ∧ b'.bufferPast = b.bufferPast ∧
      b'.bufferFuture = b.bufferFuture := by
  unfold drainAndResetResult at h
  simp only [Option.bind_eq_some, Option.some.injEq] at h
  obtain ⟨r0, h0, r1, h1, r2, h2, hb⟩ := h
  subst hb
  exact ⟨rfl, rfl, rfl, rfl⟩

theorem resetTo_eq (bucket : dbBufferBucket) (start : Int) :
    bucket.resetTo start = (zeroBucket bucket.opts).resetTo start := rfl

theorem Reset_cases (b : dbBuffer) (now : Int) (b' : dbBuffer) (h : b.Reset now = some b') :
    b' = { b with buckets := ((b.buckets.set (b.firstIdx now)
                                ((zeroBucket b.opts).resetTo (b.paired now (b.firstIdx now)))).set
                              (b.firstIdx now + 1)
                                ((zeroBucket b.opts).resetTo
                                  (b.paired now (b.firstIdx now + 1)))).set
                              (b.firstIdx now + 2)
                                ((zeroBucket b.opts).resetTo
                                  (b.paired now (b.firstIdx now + 2))) } := by
  obtain ⟨n1, n2, n3⟩ := fin3_succ_ne (b.firstIdx now)
  rcases forEachBucketAsc_cases b now with hv | hv
  · rw [dbBuffer.Reset, hv] at h
    cases h
  · rw [dbBuffer.Reset, hv] at h
    simp only [Option.some_bind, Buckets.get_set_ne _ _ n1, Buckets.get_set_ne _ _ n2,
      Buckets.get_set_ne _ _ n3, Option.some.injEq] at h
    rw [← h]
    rfl

theorem Reset_get (b : dbBuffer) (now : Int) (b' : dbBuffer) (h : b.Reset now = some b')
    (j : Fin 3) :
    b'.buckets.get j = (zeroBucket b.opts).resetTo (b.paired now j) := by
  obtain ⟨n1, n2, n3⟩ := fin3_succ_ne (b.firstIdx now)
  rw [Reset_cases b now b' h]
  rcases fin3_cases (b.firstIdx now) j with e | e | e <;> subst e
  · simp only [Buckets.get_set_ne _ _ n2.symm, Buckets.get_set_ne _ _ n1.symm,
      Buckets.get_set_same]
  · simp only [Buckets.get_set_ne _ _ n3.symm, Buckets.get_set_same]
  · simp only [Buckets.get_set_same]

theorem Reset_fields (b : dbBuffer) (now : Int) (b' : dbBuffer) (h : b.Reset now = some b') :
    b'.opts = b.opts ∧ b'.blockSize = b.blockSize ∧ b'.bufferPast = b.bufferPast ∧
      b'.bufferFuture = b.bufferFuture ∧ b'.sink = b.sink := by
  rw [Reset_cases b now b' h]
  exact ⟨rfl, rfl, rfl, rfl, rfl⟩

/-- With the clock past the Unix epoch plus one block, `Reset` returns. -/
theorem Reset_isSome (b : dbBuffer) (now : Int) (hbs : 0 < b.blockSize)
    (hnow : b.blockSize ≤ now) (hmax : now ≤ maxInt64) : ∃ b', b.Reset now = some b' := by
  rw [dbBuffer.Reset, forEachBucketAsc_eq b now hbs hnow hmax]
  simp

/-- How an admitted `Write` is put together: the bucket is chosen from the timestamp, the
ring is first rotated by `DrainAndReset(false)` when that bucket is bound to another
window, and then the bucket takes the write. -/
theorem Write_admitted_cases (fault : EncodeFault) (b b' : dbBuffer)
    (now nowDrain timestamp : Int) (loc value unit : Nat) (ann : List Nat) (e : Option Error)
    (hf : timestamp < now + b.bufferFuture) (hp : now - b.bufferPast < timestamp)
    (h : b.Write fault now nowDrain timestamp loc value unit ann = some (b', e)) :
    ∃ idx b1, b.blockSize ≠ 0 ∧
      bucketIndex (Int.tmod (Int.tdiv (UnixNano timestamp) b.blockSize) bucketsLen) = some idx ∧
      (((b.buckets.get idx).start = Truncate timestamp b.blockSize ∧ b1 = b) ∨
       ((b.buckets.get idx).start ≠ Truncate timestamp b.blockSize ∧
          b.DrainAndReset fault nowDrain false = some b1)) ∧
      b' = b1.setBucket idx
              ((b1.buckets.get idx).write fault timestamp loc value unit ann).1 ∧
      e = ((b1.buckets.get idx).write fault timestamp loc value unit ann).2.map Error.encode := by
  rw [Write_of_admitted fault b now nowDrain timestamp loc value unit ann hf hp] at h
  simp only [Option.bind_eq_some, Option.some.injEq, Prod.mk.injEq] at h
  obtain ⟨q, hq, idx, hidx, b1, hb1, hb', he⟩ := h
  have hz : b.blockSize ≠ 0 := by
    intro hz
    simp [goDiv, hz] at hq
  have hq' : q = Int.tdiv (UnixNano timestamp) b.blockSize := by
    simp [goDiv, hz] at hq
    exact hq.symm
  subst hq'
  refine ⟨idx, b1, hz, hidx, ?_, hb'.symm, he.symm⟩
  by_cases hs : (b.buckets.get idx).start = Truncate timestamp b.blockSize
  · left
    refine ⟨hs, ?_⟩
    simp [dbBuffer.bucketState, hs] at hb1
    exact hb1.symm
  · right
    refine ⟨hs, ?_⟩
    simp [dbBuffer.bucketState, hs] at hb1
    exact hb1

theorem drainAndResetBucket_cases (fault : EncodeFault) (b : dbBuffer) (now : Int)
    (forced : Bool) (bucket : dbBufferBucket) (current : Int)
    (r : dbBufferBucket × Option (Int × Encoder))
    (h : drainAndResetBucket fault b now forced bucket current = some r) :
    (drainNeeded b now forced bucket current = false ∧ r.2 = none ∧
      r.1 = if resetNeeded b now forced bucket current then bucket.resetTo current
        else bucket) ∨
    (drainNeeded b now forced bucket current = true ∧
      ∃ first rest, (bucket.sort fault).encoders = first :: rest ∧
        r.2 = some (bucket.start, first.encoder.Seal) ∧
        r.1 = if resetNeeded b now forced bucket current then
            ((bucket.sort fault).handOff first rest).resetTo current
          else (bucket.sort fault).handOff first rest) := by
  unfold drainAndResetBucket at h
  simp only [Option.map_eq_some'] at h
  obtain ⟨a, ha, hr⟩ := h
  change (if drainNeeded b now forced bucket current = true then _ else _) = some a at ha
  change (if resetNeeded b now forced bucket current = true then _ else _, a.2) = r at hr
  cases hd : drainNeeded b now forced bucket current
  · left
    rw [hd] at ha
    simp only [Bool.false_eq_true, if_false, Option.some.injEq] at ha
    subst ha
    subst hr
    exact ⟨rfl, rfl, rfl⟩
  · right
    rw [hd] at ha
    simp only [if_true] at ha
    cases he : (bucket.sort fault).encoders with
    | nil => rw [he] at ha; cases ha
    | cons first rest =>
      rw [he] at ha
      simp only [Option.some.injEq] at ha
      subst ha
      subst hr
      refine ⟨rfl, first, rest, rfl, ?_, rfl⟩
      simp only [dbBufferBucket.sort]
      split <;> rfl

theorem drainAndResetBucket_isSome (fault : EncodeFault) (b : dbBuffer) (now : Int)
    (forced : Bool) (bucket : dbBufferBucket) (current : Int)
    (h : (bucket.sort fault).encoders ≠ []) :
    ∃ r, drainAndResetBucket fault b now forced bucket current = some r := by
  cases he : (bucket.sort fault).encoders with
  | nil => exact absurd he h
  | cons first rest =>
    simp only [drainAndResetBucket, he, Option.map_eq_some']
    split
    · simp
    · split <;> simp

theorem setBucket_get (b : dbBuffer) (i j : Fin 3) (x : dbBufferBucket) :
    (b.setBucket i x).buckets.get j = if j = i then x else b.buckets.get j :=
  Buckets.get_set b.buckets i j x

theorem drainNeeded_dirty (b : dbBuffer) (now : Int) (forced : Bool)
    (bucket : dbBufferBucket) (current : Int)
    (h : drainNeeded b now forced bucket current = true) : bucket.dirty = true := by
  unfold drainNeeded dbBuffer.bucketState at h
  unfold dbBufferBucket.dirty
  cases hd : bucket.drained <;> by_cases hl : bucket.lastWriteAt = timeZero <;>
    simp [hd, hl] at h ⊢

theorem drainAndResetBucket_invariant (P : dbBufferBucket → Prop)
    (hreset : ∀ opts start, P ((zeroBucket opts).resetTo start))
    (fault : EncodeFault)
    (hsort : ∀ bucket, P bucket → bucket.dirty = true → P (bucket.sort fault))
    (hoff : ∀ bucket first rest, P bucket → bucket.encoders = first :: rest →
      P (bucket.handOff first rest))
    (b : dbBuffer) (now : Int) (forced : Bool)
    (bucket : dbBufferBucket) (current : Int) (r : dbBufferBucket × Option (Int × Encoder))
    (h : drainAndResetBucket fault b now forced bucket current = some r) (hP : P bucket) :
    P r.1 := by
  rcases drainAndResetBucket_cases fault b now forced bucket current r h with
    ⟨-, -, h1⟩ | ⟨hd, first, rest, he, -, h1⟩
  · rw [h1]
    split
    · rw [resetTo_eq]; exact hreset _ _
    · exact hP
  · rw [h1]
    split
    · rw [resetTo_eq]; exact hreset _ _
    · exact hoff _ _ _ (hsort _ hP (drainNeeded_dirty b now forced bucket current hd)) he

/-- A property of single buckets that `resetTo` establishes and that `write`, `sort` (run
on a dirty bucket) and the hand-off to the sink preserve, for the encoder behaviours `F`
of the calls considered, holds of every bucket of every reachable buffer, whatever the
clock does. -/
theorem Reachable.bucket_invariant (P : dbBufferBucket → Prop) (F : EncodeFault → Prop)
    (hreset : ∀ opts start, P ((zeroBucket opts).resetTo start))
    (hwrite : ∀ fault bucket timestamp loc value unit ann, F fault → P bucket →
      P (dbBufferBucket.write fault bucket timestamp loc value unit ann).1)
    (hsort : ∀ fault bucket, F fault → P bucket → bucket.dirty = true →
      P (bucket.sort fault))
    (hoff : ∀ bucket first rest, P bucket → bucket.encoders = first :: rest →
      P (bucket.handOff first rest))
    {clock : Int → Int → Prop} {allowed : Call → Prop} (hF : ∀ c, allowed c → F c.fault)
    {b : dbBuffer} {last : Int} (h : Reachable clock allowed b last)
    (j : Fin 3) : P (b.buckets.get j) := by
  have hdrain : ∀ (fault : EncodeFault) (b b1 : dbBuffer) (now : Int) (forced : Bool),
      F fault → (∀ j, P (b.buckets.get j)) → b.DrainAndReset fault now forced = some b1 →
      ∀ j, P (b1.buckets.get j) := by
    intro fault b b1 now forced hfault hb hd j
    obtain ⟨r, hr, hj⟩ := drainAndResetResult_get fault b b1 now forced
      (DrainAndReset_some fault b b1 now forced hd) j
    rw [hj]
    exact drainAndResetBucket_invariant P hreset fault (fun bucket => hsort fault bucket hfault)
      hoff b now forced _ _ r hr (hb j)
  induction h generalizing j with
  | init opts now b _ hb =>
    rw [Reset_get _ now b hb j]
    exact hreset _ _
  | step b prev c b' _ _ _ hal hc ih =>
    have hFc := hF c hal
    cases c with
    | reset now =>
      rw [Reset_get b now b' hc j]
      exact hreset _ _
    | drainAndReset fault now forced =>
      exact hdrain fault b b' now forced hFc ih hc j
    | write fault now nowDrain timestamp loc value unit ann =>
      simp only [dbBuffer.call, Option.map_eq_some', Prod.exists, exists_and_right,
        exists_eq_right] at hc
      obtain ⟨e, hw⟩ := hc
      rcases le_or_lt (now + b.bufferFuture) timestamp with hf | hf
      · rw [Write_tooFuture fault b now nowDrain timestamp loc value unit ann hf] at hw
        simp only [Option.some.injEq, Prod.mk.injEq] at hw
        rw [← hw.1]; exact ih j
      · rcases le_or_lt timestamp (now - b.bufferPast) with hp | hp
        · rw [Write_tooPast fault b now nowDrain timestamp loc value unit ann hf hp] at hw
          simp only [Option.some.injEq, Prod.mk.injEq] at hw
          rw [← hw.1]; exact ih j
        · obtain ⟨idx, b1, -, -, hb1, hb', -⟩ := Write_admitted_cases fault b b' now nowDrain
            timestamp loc value unit ann e hf hp hw
          have h1 : ∀ j, P (b1.buckets.get j) := by
            rcases hb1 with ⟨-, rfl⟩ | ⟨-, hd⟩
            · exact ih
            · exact hdrain fault b b1 nowDrain false hFc ih hd
          rw [hb', setBucket_get]
          split
          · exact hwrite _ _ _ _ _ _ _ hFc (h1 idx)
          · exact h1 j

/-! ## The scan of `write`, the iterator and the loop of `sort` -/

theorem Encode_cases (fault : EncodeFault) (e : Encoder) (p : Encoded) :
    (∃ err, e.Encode fault p = (e, some err)) ∨
    (e.sealed = false ∧ e.closed = false ∧
      e.Encode fault p = ({ e with points := e.points ++ [p] }, none)) := by
  unfold Encoder.Encode
  cases hs : e.sealed <;> cases hc : e.closed <;> simp
  cases fault e p <;> simp

theorem scanEncoders_target (timestamp : Int) (loc : Nat)
    (l before after : List inOrderEncoder) (slot : inOrderEncoder)
    (h : scanEncoders timestamp loc l = Scan.target before slot after) :
    l = before ++ slot :: after ∧ slot.lastWriteAt < timestamp ∧
      ∀ s ∈ before, s.passed timestamp loc := by
  induction l generalizing before with
  | nil => simp [scanEncoders] at h
  | cons e rest ih =>
    unfold scanEncoders at h
    split at h
    · cases h
    · split at h
      · cases h
        exact ⟨rfl, by assumption, by simp⟩
      · next h1 h2 =>
        cases hr : scanEncoders timestamp loc rest with
        | discard => rw [hr] at h; cases h
        | absent => rw [hr] at h; cases h
        | target b s a =>
          rw [hr] at h
          cases h
          obtain ⟨r1, r2, r3⟩ := ih b hr
          refine ⟨by rw [r1]; rfl, r2, ?_⟩
          intro s hs
          rcases List.mem_cons.mp hs with rfl | hs
          · exact ⟨h1, by omega⟩
          · exact r3 s hs

theorem scanEncoders_absent (timestamp : Int) (loc : Nat) (l : List inOrderEncoder)
    (h : scanEncoders timestamp loc l = Scan.absent) : ∀ s ∈ l, s.passed timestamp loc := by
  induction l with
  | nil => simp
  | cons e rest ih =>
    unfold scanEncoders at h
    split at h
    · cases h
    · split at h
      · cases h
      · next h1 h2 =>
        cases hr : scanEncoders timestamp loc rest with
        | discard => rw [hr] at h; cases h
        | target b s a => rw [hr] at h; cases h
        | absent =>
          intro s hs
          rcases List.mem_cons.mp hs with rfl | hs
          · exact ⟨h1, by omega⟩
          · exact ih hr s hs

theorem scanEncoders_discard (timestamp : Int) (loc : Nat) (l : List inOrderEncoder)
    (h : scanEncoders timestamp loc l = Scan.discard) :
    ∃ before slot after, l = before ++ slot :: after ∧ slot.lastWriteAt = timestamp ∧
      slot.lastWriteLoc = loc ∧ ∀ s ∈ before, s.passed timestamp loc := by
  induction l with
  | nil => simp [scanEncoders] at h
  | cons e rest ih =>
    unfold scanEncoders at h
    split at h
    · next h1 => exact ⟨[], e, rest, rfl, h1.1.symm, h1.2.symm, by simp⟩
    · split at h
      · cases h
      · next h1 h2 =>
        cases hr : scanEncoders timestamp loc rest with
        | absent => rw [hr] at h; cases h
        | target b s a => rw [hr] at h; cases h
        | discard =>
          obtain ⟨b, s, a, r1, r2, r2', r3⟩ := ih hr
          refine ⟨e :: b, s, a, by rw [r1]; rfl, r2, r2', ?_⟩
          intro s hs
          rcases List.mem_cons.mp hs with rfl | hs
          · exact ⟨h1, by omega⟩
          · exact r3 s hs

theorem write_eq (fault : EncodeFault) (b : dbBufferBucket) (timestamp : Int)
    (loc value unit : Nat) (ann : List Nat) :
    b.write fault timestamp loc value unit ann =
      match scanEncoders timestamp loc b.encoders with
      | Scan.discard => (b.touch timestamp loc, none)
      | Scan.target before slot after =>
        encodeTarget fault (b.touch timestamp loc) before slot after timestamp loc value
          unit ann
      | Scan.absent =>
        encodeTarget fault (b.touch timestamp loc) b.encoders (b.nextSlot timestamp) []
          timestamp loc value unit ann := by
  have ht : (if timestamp >
        (if (!b.outOfOrder && decide (timestamp < b.lastWriteAt)) = true then
          { b with outOfOrder := true } else b).lastWriteAt then
      { (if (!b.outOfOrder && decide (timestamp < b.lastWriteAt)) = true then
          { b with outOfOrder := true } else b) with
        lastWriteAt := timestamp, lastWriteLoc := loc }
      else (if (!b.outOfOrder && decide (timestamp < b.lastWriteAt)) = true then
          { b with outOfOrder := true } else b)) = b.touch timestamp loc := by
    unfold dbBufferBucket.touch
    obtain ⟨opts, start, encoders, lwa, lwl, ooo, drained⟩ := b
    rcases lt_trichotomy timestamp lwa with h | h | h
    · have h1 : ¬ timestamp > lwa := by omega
      have h2 : max lwa timestamp = lwa := max_eq_left (le_of_lt h)
      cases ooo <;> simp [h, h1, h2]
    · subst h
      cases ooo <;> simp
    · have h1 : ¬ timestamp < lwa := by omega
      have h2 : max lwa timestamp = timestamp := max_eq_right (le_of_lt h)
      cases ooo <;> simp [h, h1, h2]
  unfold dbBufferBucket.write
  simp only [ht]
  have he : (b.touch timestamp loc).encoders = b.encoders := rfl
  have ho : (b.touch timestamp loc).opts = b.opts := rfl
  rw [he, ho]
  rfl

theorem encodeTarget_cases (fault : EncodeFault) (b : dbBufferBucket)
    (before : List inOrderEncoder) (slot : inOrderEncoder) (after : List inOrderEncoder)
    (timestamp : Int) (loc value unit : Nat) (ann : List Nat) :
    (∃ err, encodeTarget fault b before slot after timestamp loc value unit ann =
        ({ b with encoders := before ++ slot :: after }, some err)) ∨
    (slot.encoder.sealed = false ∧ slot.encoder.closed = false ∧
      encodeTarget fault b before slot after timestamp loc value unit ann =
        ({ b with encoders := before ++
            { lastWriteAt := timestamp
              lastWriteLoc := loc
              encoder := { slot.encoder with points := slot.encoder.points ++
                [{ datapoint := { Timestamp := timestamp, Value := value }
                   unit := unit, ann := ann }] } } :: after }, none)) := by
  rcases Encode_cases fault slot.encoder
      { datapoint := { Timestamp := timestamp, Value := value }, unit := unit, ann := ann }
    with ⟨err, h⟩ | ⟨h1, h2, h⟩
  · left
    exact ⟨err, by simp only [encodeTarget, h]⟩
  · right
    exact ⟨h1, h2, by simp only [encodeTarget, h]⟩

theorem orderedInsert_mem (p x : Encoded) (l : List Encoded)
    (h : x ∈ orderedInsert p l) : x = p ∨ x ∈ l := by
  induction l with
  | nil => simp [orderedInsert] at h; exact Or.inl h
  | cons q rest ih =>
    unfold orderedInsert at h
    split at h
    · rcases List.mem_cons.mp h with h | h
      · exact Or.inl h
      · exact Or.inr h
    · split at h
      · exact Or.inr h
      · rcases List.mem_cons.mp h with h | h
        · exact Or.inr (by rw [h]; exact List.mem_cons_self _ _)
        · rcases ih h with h | h
          · exact Or.inl h
          · exact Or.inr (List.mem_cons_of_mem _ h)

theorem orderedInsert_timestamps (p : Encoded) (l : List Encoded) (t : Int) :
    t ∈ (orderedInsert p l).map (fun x => x.datapoint.Timestamp) ↔
      t = p.datapoint.Timestamp ∨ t ∈ l.map (fun x => x.datapoint.Timestamp) := by
  induction l with
  | nil => simp [orderedInsert]
  | cons q rest ih =>
    unfold orderedInsert
    split
    · simp
    · split
      · next h1 h2 =>
        simp only [List.map_cons, List.mem_cons]
        constructor
        · intro h; exact Or.inr h
        · rintro (h | h)
          · exact Or.inl (h.trans h2)
          · exact h
      · simp only [List.map_cons, List.mem_cons, ih]
        tauto

theorem orderedInsert_sorted (p : Encoded) (l : List Encoded)
    (h : (l.map (fun x => x.datapoint.Timestamp)).Pairwise (· < ·)) :
    ((orderedInsert p l).map (fun x => x.datapoint.Timestamp)).Pairwise (· < ·) := by
  induction l with
  | nil => simp [orderedInsert]
  | cons q rest ih =>
    simp only [List.map_cons, List.pairwise_cons] at h
    unfold orderedInsert
    split
    · next h1 =>
      simp only [List.map_cons, List.pairwise_cons, List.mem_cons]
      refine ⟨?_, h⟩
      rintro t (rfl | ht)
      · exact h1
      · exact lt_trans h1 (h.1 t ht)
    · split
      · simp only [List.map_cons, List.pairwise_cons]
        exact h
      · next h1 h2 =>
        simp only [List.map_cons, List.pairwise_cons]
        refine ⟨?_, ih h.2⟩
        intro t ht
        rcases (orderedInsert_timestamps p rest t).mp ht with rfl | ht
        · omega
        · exact h.1 t ht

/-- The multi-reader iterator emits strictly increasing timestamps. -/
theorem multiReaderIterate_sorted (readers : List (Option SegmentReader)) :
    ((multiReaderIterate readers).map (fun x => x.datapoint.Timestamp)).Pairwise (· < ·) := by
  unfold multiReaderIterate
  generalize (readers.map (fun r => match r with
    | some s => s.points
    | none => [])).flatten = l
  induction l with
  | nil => simp
  | cons p rest ih => exact orderedInsert_sorted p _ ih

theorem foldr_orderedInsert_timestamps (l : List Encoded) (t : Int) :
    t ∈ (l.foldr orderedInsert []).map (fun x => x.datapoint.Timestamp) ↔
      t ∈ l.map (fun x => x.datapoint.Timestamp) := by
  induction l with
  | nil => simp
  | cons p rest ih =>
    simp only [List.foldr_cons, orderedInsert_timestamps, ih, List.map_cons, List.mem_cons]

theorem foldr_orderedInsert_mem (l : List Encoded) (x : Encoded)
    (h : x ∈ l.foldr orderedInsert []) : x ∈ l := by
  induction l with
  | nil => simp at h
  | cons p rest ih =>
    rcases orderedInsert_mem p x _ h with h | h
    · rw [h]; exact List.mem_cons_self _ _
    · exact List.mem_cons_of_mem _ (ih h)

theorem Encode_timestamps (fault : EncodeFault) (e : Encoder) (p : Encoded) :
    (e.Encode fault p).1.timestamps = e.timestamps ∨
    (e.Encode fault p).1.timestamps = e.timestamps ++ [p.datapoint.Timestamp] := by
  rcases Encode_cases fault e p with ⟨err, h⟩ | ⟨-, -, h⟩
  · left; rw [h]
  · right; rw [h]; simp [Encoder.timestamps]

theorem sortLoop_ordered (fault : EncodeFault) (l : List Encoded) (lw : Int) (enc : Encoder)
    (hl : (l.map (fun x => x.datapoint.Timestamp)).Pairwise (· < ·))
    (he : enc.timestamps.Pairwise (· < ·))
    (hlt : ∀ t ∈ enc.timestamps, ∀ q ∈ l.map (fun x => x.datapoint.Timestamp), t < q)
    (hle : ∀ t ∈ enc.timestamps, t ≤ lw) :
    (sortLoop fault l lw enc).2.timestamps.Pairwise (· < ·) ∧
      ∀ t ∈ (sortLoop fault l lw enc).2.timestamps, t ≤ (sortLoop fault l lw enc).1 := by
  induction l generalizing lw enc with
  | nil => exact ⟨he, hle⟩
  | cons p rest ih =>
    simp only [List.map_cons, List.pairwise_cons] at hl
    unfold sortLoop
    apply ih _ _ hl.2
    · rcases Encode_timestamps fault enc p with h | h <;> rw [h]
      · exact he
      · rw [List.pairwise_append]
        refine ⟨he, by simp, ?_⟩
        intro a ha b hb
        simp only [List.mem_singleton] at hb
        subst hb
        exact hlt a ha _ (by simp)
    · intro t ht q hq
      rcases Encode_timestamps fault enc p with h | h <;> rw [h] at ht
      · exact hlt t ht q (by simp [hq])
      · rcases List.mem_append.mp ht with ht | ht
        · exact hlt t ht q (by simp [hq])
        · simp only [List.mem_singleton] at ht
          subst ht
          exact hl.1 q hq
    · intro t ht
      rcases Encode_timestamps fault enc p with h | h <;> rw [h] at ht
      · exact le_of_lt (hlt t ht _ (by simp))
      · rcases List.mem_append.mp ht with ht | ht
        · exact le_of_lt (hlt t ht _ (by simp))
        · simp only [List.mem_singleton] at ht
          exact le_of_eq ht

theorem slotsOrdered_resetTo (opts : Options) (start : Int) :
    ((zeroBucket opts).resetTo start).slotsOrdered := by
  intro s hs
  simp only [dbBufferBucket.resetTo, List.mem_singleton] at hs
  subst hs
  simp [inOrderEncoder.ordered, Encoder.timestamps, Encoder.Reset]

theorem slotsOrdered_sort (fault : EncodeFault) (b : dbBufferBucket) (h : b.slotsOrdered) :
    (b.sort fault).slotsOrdered := by
  unfold dbBufferBucket.sort
  split
  · exact h
  · intro s hs
    simp only [List.mem_singleton] at hs
    subst hs
    exact sortLoop_ordered fault _ _ _ (multiReaderIterate_sorted _)
      (by simp [Encoder.timestamps, Encoder.Reset])
      (by simp [Encoder.timestamps, Encoder.Reset])
      (by simp [Encoder.timestamps, Encoder.Reset])

theorem slotsOrdered_handOff (b : dbBufferBucket) (first : inOrderEncoder)
    (rest : List inOrderEncoder) (h : b.slotsOrdered) (he : b.encoders = first :: rest) :
    (b.handOff first rest).slotsOrdered := by
  intro s hs
  simp only [dbBufferBucket.handOff, List.mem_cons] at hs
  rcases hs with rfl | hs
  · exact h first (by rw [he]; exact List.mem_cons_self _ _)
  · exact h s (by rw [he]; exact List.mem_cons_of_mem _ hs)

theorem slotsOrdered_write (fault : EncodeFault) (b : dbBufferBucket) (timestamp : Int)
    (loc value unit : Nat) (ann : List Nat) (h : b.slotsOrdered) :
    (b.write fault timestamp loc value unit ann).1.slotsOrdered := by
  rw [write_eq]
  have key : ∀ (before after : List inOrderEncoder) (slot : inOrderEncoder),
      (∀ s ∈ before ++ slot :: after, s.ordered) → slot.lastWriteAt < timestamp →
      (encodeTarget fault (b.touch timestamp loc) before slot after timestamp loc value unit
        ann).1.slotsOrdered := by
    intro before after slot hall hlt
    rcases encodeTarget_cases fault (b.touch timestamp loc) before slot after timestamp loc value
      unit ann with ⟨err, e⟩ | ⟨-, -, e⟩
    · rw [e]; exact hall
    · rw [e]
      intro s hs
      simp only [List.mem_append, List.mem_cons] at hs
      rcases hs with hs | rfl | hs
      · exact hall s (by simp [hs])
      · have hslot := hall slot (by simp)
        constructor
        · simp only [Encoder.timestamps, List.map_append, List.map_cons, List.map_nil]
          rw [List.pairwise_append]
          refine ⟨hslot.1, by simp, ?_⟩
          intro a ha c hc
          simp only [List.mem_singleton] at hc
          subst hc
          exact lt_of_le_of_lt (hslot.2 a ha) hlt
        · intro t ht
          simp only [Encoder.timestamps, List.map_append, List.map_cons, List.map_nil,
            List.mem_append, List.mem_singleton] at ht
          rcases ht with ht | ht
          · exact le_of_lt (lt_of_le_of_lt (hslot.2 t ht) hlt)
          · exact le_of_eq ht
      · exact hall s (by simp [hs])
  cases hscan : scanEncoders timestamp loc b.encoders with
  | discard => exact h
  | target before slot after =>
    obtain ⟨h1, h2, -⟩ := scanEncoders_target timestamp loc _ _ _ _ hscan
    exact key before after slot (by rw [← h1]; exact h) h2
  | absent =>
    have h2 := scanEncoders_absent timestamp loc _ hscan
    rcases encodeTarget_cases fault (b.touch timestamp loc) b.encoders (b.nextSlot timestamp) []
      timestamp loc value unit ann with ⟨err, e⟩ | ⟨-, -, e⟩
    · show (encodeTarget fault (b.touch timestamp loc) b.encoders (b.nextSlot timestamp) []
        timestamp loc value unit ann).1.slotsOrdered
      rw [e]
      intro s hs
      simp only [List.mem_append, List.mem_singleton] at hs
      rcases hs with hs | rfl
      · exact h s hs
      · simp [inOrderEncoder.ordered, Encoder.timestamps, Encoder.Reset,
          dbBufferBucket.nextSlot]
    · show (encodeTarget fault (b.touch timestamp loc) b.encoders (b.nextSlot timestamp) []
        timestamp loc value unit ann).1.slotsOrdered
      rw [e]
      intro s hs
      simp only [List.mem_append, List.mem_singleton] at hs
      rcases hs with hs | rfl
      · exact h s hs
      · simp [inOrderEncoder.ordered, Encoder.timestamps, Encoder.Reset,
          dbBufferBucket.nextSlot]

/-! ## Ordered slots -/

theorem sampleBuffer_reachable (clock : Int → Int → Prop) (allowed : Call → Prop)
    (h : clock 100 100) : Reachable clock allowed sampleBuffer 100 :=
  Reachable.init sampleOptions 100 sampleBuffer h (by decide)

theorem sampleOne_reachable (clock : Int → Int → Prop) (allowed : Call → Prop)
    (h : clock 100 100) (ha : allowed sampleWrite103) :
    Reachable clock allowed sampleOne 100 :=
  Reachable.step sampleBuffer 100 sampleWrite103 sampleOne
    (sampleBuffer_reachable clock allowed h) h h ha (by decide)

theorem sampleTwo_reachable (clock : Int → Int → Prop) (allowed : Call → Prop)
    (h : clock 100 100) (ha : allowed sampleWrite103) (ha' : allowed sampleWrite101) :
    Reachable clock allowed sampleTwo 100 :=
  Reachable.step sampleOne 100 sampleWrite101 sampleTwo
    (sampleOne_reachable clock allowed h ha) h h ha' (by decide)

theorem scenarioStart_reachable (clock : Int → Int → Prop) (allowed : Call → Prop)
    (h : clock (scenarioTime 0) (scenarioTime 0)) :
    Reachable clock allowed scenarioStart (scenarioTime 0) :=
  Reachable.init scenarioOptions (scenarioTime 0) scenarioStart h (by decide)

theorem scenarioOne_reachable (clock : Int → Int → Prop) (allowed : Call → Prop)
    (h : clock (scenarioTime 0) (scenarioTime 0))
    (ha : allowed (Call.write noFault (scenarioTime 0) (scenarioTime 0) (scenarioTime 0) 0 1 0
      [])) :
    Reachable clock allowed scenarioOne (scenarioTime 0) :=
  Reachable.step scenarioStart (scenarioTime 0)
    (Call.write noFault (scenarioTime 0) (scenarioTime 0) (scenarioTime 0) 0 1 0 []) scenarioOne
    (scenarioStart_reachable clock allowed h) h h ha (by decide)

/-- C8: in every buffer reachable from construction by `Write`, `DrainAndReset` and `Reset`
calls, under any clock and any behaviour of the encoders (failing `Encode` calls included),
the timestamps encoded into the encoder of every slot of every bucket are strictly
increasing. -/
theorem C8_slot_timestamps_strictly_increasing {b : dbBuffer} {last : Int}
    (h : Reachable anyClock anyCall b last) (j : Fin 3) :
    ∀ s ∈ (b.buckets.get j).encoders, s.encoder.timestamps.Pairwise (· < ·) := by
  intro s hs
  exact (Reachable.bucket_invariant dbBufferBucket.slotsOrdered (fun _ => True)
    slotsOrdered_resetTo
    (fun fault bucket timestamp loc value unit ann _ hb =>
      slotsOrdered_write fault bucket timestamp loc value unit ann hb)
    (fun fault bucket _ hb _ => slotsOrdered_sort fault bucket hb)
    slotsOrdered_handOff (fun _ _ => trivial) h j s hs).1

theorem C8_slot_timestamps_strictly_increasing_witness :
    Reachable anyClock anyCall sampleTwo 100 ∧
      ∀ s ∈ (sampleTwo.buckets.get 1).encoders, s.encoder.timestamps.Pairwise (· < ·) :=
  ⟨sampleTwo_reachable anyClock anyCall trivial trivial trivial,
    C8_slot_timestamps_strictly_increasing
      (sampleTwo_reachable anyClock anyCall trivial trivial trivial) 1⟩

/-! ## Merge on `sort` -/

theorem sortLoop_accepting (fault : EncodeFault) (hfault : ∀ e p, fault e p = none)
    (l : List Encoded) (lw : Int) (enc : Encoder) (hs : enc.sealed = false)
    (hc : enc.closed = false) :
    (sortLoop fault l lw enc).2.points = enc.points ++ l := by
  induction l generalizing lw enc with
  | nil => simp [sortLoop]
  | cons p rest ih =>
    unfold sortLoop
    have he : enc.Encode fault p = ({ enc with points := enc.points ++ [p] }, none) := by
      simp [Encoder.Encode, hs, hc, hfault]
    rw [he]
    simp only []
    rw [ih p.datapoint.Timestamp { enc with points := enc.points ++ [p] } hs hc]
    simp

theorem multiReaderIterate_streams (encoders : List inOrderEncoder) :
    multiReaderIterate (encoders.map (fun e => e.encoder.Stream)) =
      ((encoders.map (fun e => e.encoder.points)).flatten).foldr orderedInsert [] := by
  unfold multiReaderIterate
  congr 2
  rw [List.map_map]
  apply List.map_congr_left
  intro e _
  simp only [Function.comp, Encoder.Stream]
  by_cases h : e.encoder.points = []
  · simp [h]
  · simp [h]

/-- The timestamps the iterator emits from the streams of a slot list are exactly the
timestamps encoded in the slots. -/
theorem multiReaderIterate_timestamps (encoders : List inOrderEncoder) (t : Int) :
    t ∈ (multiReaderIterate (encoders.map (fun e => e.encoder.Stream))).map
        (fun x => x.datapoint.Timestamp) ↔
      ∃ s ∈ encoders, t ∈ s.encoder.timestamps := by
  rw [multiReaderIterate_streams, foldr_orderedInsert_timestamps]
  simp only [List.mem_map, List.mem_flatten, Encoder.timestamps]
  constructor
  · rintro ⟨x, ⟨l, ⟨s, hs, rfl⟩, hx⟩, rfl⟩
    exact ⟨s, hs, x, hx, rfl⟩
  · rintro ⟨s, hs, x, hx, rfl⟩
    exact ⟨x, ⟨_, ⟨s, hs, rfl⟩, hx⟩, rfl⟩

/-- C7: merge on `sort`.  For a bucket with `outOfOrder = true`, with the multi-reader
iterator modelled by its contract and encoders that accept every datapoint, `sort` leaves
exactly one slot; the timestamps encoded in it are strictly increasing and are exactly the
timestamps encoded in the slots before the sort; and `outOfOrder` is false. -/
theorem C7_sort_merges (fault : EncodeFault) (b : dbBufferBucket)
    (hfault : ∀ e p, fault e p = none) (hooo : b.outOfOrder = true) :
    ∃ slot, (b.sort fault).encoders = [slot] ∧
      slot.encoder.timestamps.Pairwise (· < ·) ∧
      (∀ t, t ∈ slot.encoder.timestamps ↔ ∃ s ∈ b.encoders, t ∈ s.encoder.timestamps) ∧
      (b.sort fault).outOfOrder = false := by
  have hpts : (sortLoop fault (multiReaderIterate (b.encoders.map (fun e => e.encoder.Stream)))
      b.lastWriteAt (Encoder.Reset b.start b.opts.allocSize)).2.points =
      multiReaderIterate (b.encoders.map (fun e => e.encoder.Stream)) := by
    rw [sortLoop_accepting fault hfault _ _ _ rfl rfl]
    rfl
  refine ⟨_, by simp only [dbBufferBucket.sort, hooo]; rfl, ?_, ?_, by
    simp only [dbBufferBucket.sort, hooo]; rfl⟩
  · simp only [Encoder.timestamps, hpts]
    exact multiReaderIterate_sorted _
  · intro t
    simp only [Encoder.timestamps, hpts]
    exact multiReaderIterate_timestamps b.encoders t

theorem C7_sort_merges_witness :
    (∀ e p, noFault e p = none) ∧ (sampleTwo.buckets.get 1).outOfOrder = true ∧
    ∃ slot, ((sampleTwo.buckets.get 1).sort noFault).encoders = [slot] ∧
      slot.encoder.timestamps.Pairwise (· < ·) ∧
      (∀ t, t ∈ slot.encoder.timestamps ↔
        ∃ s ∈ (sampleTwo.buckets.get 1).encoders, t ∈ s.encoder.timestamps) ∧
      ((sampleTwo.buckets.get 1).sort noFault).outOfOrder = false :=
  ⟨fun _ _ => rfl, by decide,
    C7_sort_merges noFault (sampleTwo.buckets.get 1) (fun _ _ => rfl) (by decide)⟩

/-! ## Encoder errors -/

/-- What a failing `write` leaves behind: it returns the error of the `Encode` call on its
target slot, keeps the bucket's window and `drained` flag, and changes no slot; at most a
new empty slot has been appended. -/
theorem write_error (fault : EncodeFault) (b : dbBufferBucket) (timestamp : Int)
    (loc value unit : Nat) (ann : List Nat) (err : EncodeError)
    (h : (b.write fault timestamp loc value unit ann).2 = some err) :
    (b.write fault timestamp loc value unit ann).1.start = b.start ∧
    (b.write fault timestamp loc value unit ann).1.drained = b.drained ∧
    (b.write fault timestamp loc value unit ann).1.opts = b.opts ∧
    ((b.write fault timestamp loc value unit ann).1.encoders = b.encoders ∨
      (b.write fault timestamp loc value unit ann).1.encoders
        = b.encoders ++ [b.nextSlot timestamp]) ∧
    ∃ slot ∈ (b.write fault timestamp loc value unit ann).1.encoders,
      slot.encoder.Encode fault
        { datapoint := { Timestamp := timestamp, Value := value }, unit := unit, ann := ann }
        = (slot.encoder, some err) := by
  have key : ∀ (before after : List inOrderEncoder) (slot : inOrderEncoder),
      (encodeTarget fault (b.touch timestamp loc) before slot after timestamp loc value unit ann).2
        = some err →
      (encodeTarget fault (b.touch timestamp loc) before slot after timestamp loc value unit ann).1
        = { b.touch timestamp loc with encoders := before ++ slot :: after } ∧
      slot.encoder.Encode fault
        { datapoint := { Timestamp := timestamp, Value := value }, unit := unit, ann := ann }
        = (slot.encoder, some err) := by
    intro before after slot he
    rcases Encode_cases fault slot.encoder
        { datapoint := { Timestamp := timestamp, Value := value }, unit := unit, ann := ann }
      with ⟨err', h'⟩ | ⟨-, -, h'⟩
    · simp only [encodeTarget, h', Option.some.injEq] at he
      subst he
      refine ⟨?_, h'⟩
      simp only [encodeTarget, h']
    · simp only [encodeTarget, h'] at he
      cases he
  rw [write_eq] at h ⊢
  cases hscan : scanEncoders timestamp loc b.encoders with
  | discard => rw [hscan] at h; cases h
  | target before slot after =>
    rw [hscan] at h
    simp only at h ⊢
    obtain ⟨h1, -, -⟩ := scanEncoders_target timestamp loc _ _ _ _ hscan
    obtain ⟨k1, k2⟩ := key before after slot h
    rw [k1]
    refine ⟨rfl, rfl, rfl, Or.inl h1.symm, slot, ?_, k2⟩
    simp
  | absent =>
    rw [hscan] at h
    simp only at h ⊢
    obtain ⟨k1, k2⟩ := key b.encoders [] (b.nextSlot timestamp) h
    rw [k1]
    refine ⟨rfl, rfl, rfl, Or.inr rfl, b.nextSlot timestamp, ?_, k2⟩
    simp

/-- C10 fails as stated: a `Write` whose `Encode` call fails still raises the bucket's
`lastWriteAt`; it can latch `outOfOrder` and append a slot; and it can rotate the ring,
rebinding buckets and calling the drain sink. -/
theorem C10_counterexample :
    (∃ b', sampleBuffer.Write allFault 100 100 103 0 1 0 []
        = some (b', some (Error.encode (EncodeError.failure 7))) ∧
      (sampleBuffer.buckets.get 1).lastWriteAt = timeZero ∧
      (b'.buckets.get 1).lastWriteAt = 103) ∧
    (∃ b', sampleOne.Write allFault 100 100 101 0 2 0 []
        = some (b', some (Error.encode (EncodeError.failure 7))) ∧
      (sampleOne.buckets.get 1).outOfOrder = false ∧
      (b'.buckets.get 1).outOfOrder = true ∧
      (sampleOne.buckets.get 1).encoders.length = 1 ∧
      (b'.buckets.get 1).encoders.length = 2) ∧
    (∃ b', sampleOne.Write allFault 125 125 123 0 3 0 []
        = some (b', some (Error.encode (EncodeError.failure 7))) ∧
      (sampleOne.buckets.get 1).start = 100 ∧ (b'.buckets.get 1).start = 130 ∧
      sampleOne.sink.length = 0 ∧ b'.sink.length = 1) := by
  refine ⟨⟨_, rfl, ?_, ?_⟩, ⟨_, rfl, ?_, ?_, ?_, ?_⟩, ⟨_, rfl, ?_, ?_, ?_, ?_⟩⟩ <;> decide

/-- C10 (amended): when the `Encode` call of `Write` fails, `Write` returns that same error,
encodes nothing and moves no slot's watermark.  With `b1` the buffer after the rotation
`Write` starts with (the non-forced `DrainAndReset`, run when the routed bucket is bound to
another window; otherwise `b1` is the buffer before the call): the sink and the other
buckets are as in `b1`, the routed bucket keeps its window and its `drained` flag, and its
slot list is that of `b1`, followed by at most one new, empty slot. -/
theorem C10_encode_error_effect (fault : EncodeFault) (b b' : dbBuffer)
    (now nowDrain timestamp : Int) (loc value unit : Nat) (ann : List Nat) (err : EncodeError)
    (h : b.Write fault now nowDrain timestamp loc value unit ann
      = some (b', some (Error.encode err))) :
    ∃ idx b1,
      bucketIndex (Int.tmod (Int.tdiv (UnixNano timestamp) b.blockSize) bucketsLen) = some idx ∧
      (((b.buckets.get idx).start = Truncate timestamp b.blockSize ∧ b1 = b) ∨
       ((b.buckets.get idx).start ≠ Truncate timestamp b.blockSize ∧
          b.DrainAndReset fault nowDrain false = some b1)) ∧
      b'.sink = b1.sink ∧
      (∀ j, j ≠ idx → b'.buckets.get j = b1.buckets.get j) ∧
      (b'.buckets.get idx).start = (b1.buckets.get idx).start ∧
      (b'.buckets.get idx).drained = (b1.buckets.get idx).drained ∧
      ((b'.buckets.get idx).encoders = (b1.buckets.get idx).encoders ∨
        (b'.buckets.get idx).encoders =
          (b1.buckets.get idx).encoders ++ [(b1.buckets.get idx).nextSlot timestamp]) ∧
      ∃ slot ∈ (b'.buckets.get idx).encoders,
        slot.encoder.Encode fault
          { datapoint := { Timestamp := timestamp, Value := value }, unit := unit,
            ann := ann } = (slot.encoder, some err) := by
  rcases le_or_lt (now + b.bufferFuture) timestamp with hf | hf
  · rw [Write_tooFuture fault b now nowDrain timestamp loc value unit ann hf] at h
    simp at h
  rcases le_or_lt timestamp (now - b.bufferPast) with hp | hp
  · rw [Write_tooPast fault b now nowDrain timestamp loc value unit ann hf hp] at h
    simp at h
  obtain ⟨idx, b1, -, hidx, hb1, hb', he⟩ := Write_admitted_cases fault b b' now nowDrain
    timestamp loc value unit ann _ hf hp h
  have he' : ((b1.buckets.get idx).write fault timestamp loc value unit ann).2 = some err := by
    cases hw : ((b1.buckets.get idx).write fault timestamp loc value unit ann).2 with
    | none => rw [hw] at he; cases he
    | some x => rw [hw] at he; simp only [Option.map_some', Option.some.injEq,
        Error.encode.injEq] at he; rw [he]
  obtain ⟨w1, w2, -, w4, w5⟩ := write_error fault (b1.buckets.get idx) timestamp loc value unit
    ann err he'
  have hget : b'.buckets.get idx
      = ((b1.buckets.get idx).write fault timestamp loc value unit ann).1 := by
    rw [hb', setBucket_get, if_pos rfl]
  refine ⟨idx, b1, hidx, hb1, by rw [hb']; rfl, ?_, ?_, ?_, ?_, ?_⟩
  · intro j hj
    rw [hb', setBucket_get, if_neg hj]
  · rw [hget, w1]
  · rw [hget, w2]
  · rw [hget]; exact w4
  · rw [hget]; exact w5

theorem C10_encode_error_effect_witness :
    sampleOne.Write allFault 100 100 101 0 2 0 []
        = some (sampleFailed, some (Error.encode (EncodeError.failure 7))) ∧
    ∃ idx b1,
      bucketIndex (Int.tmod (Int.tdiv 101 sampleOne.blockSize) bucketsLen) = some idx ∧
      (((sampleOne.buckets.get idx).start = Truncate 101 sampleOne.blockSize ∧
          b1 = sampleOne) ∨
       ((sampleOne.buckets.get idx).start ≠ Truncate 101 sampleOne.blockSize ∧
          sampleOne.DrainAndReset allFault 100 false = some b1)) ∧
      sampleFailed.sink = b1.sink ∧
      (∀ j, j ≠ idx → sampleFailed.buckets.get j = b1.buckets.get j) ∧
      (sampleFailed.buckets.get idx).start = (b1.buckets.get idx).start ∧
      (sampleFailed.buckets.get idx).drained = (b1.buckets.get idx).drained ∧
      ((sampleFailed.buckets.get idx).encoders = (b1.buckets.get idx).encoders ∨
        (sampleFailed.buckets.get idx).encoders =
          (b1.buckets.get idx).encoders ++ [(b1.buckets.get idx).nextSlot 101]) ∧
      ∃ slot ∈ (sampleFailed.buckets.get idx).encoders,
        slot.encoder.Encode allFault
          { datapoint := { Timestamp := 101, Value := 2 }, unit := 0, ann := [] }
          = (slot.encoder, some (EncodeError.failure 7)) :=
  ⟨by decide, C10_encode_error_effect allFault sampleOne sampleFailed 100 100 101 0 2 0 []
    (EncodeError.failure 7) (by decide)⟩

/-! ## Forced drain -/

theorem bucketState_shouldRead (b : dbBuffer) (now : Int) (bucket : dbBufferBucket)
    (c : Int) : (b.bucketState now bucket c).1 = bucket.dirty := rfl

theorem resetTo_dirty (bucket : dbBufferBucket) (start : Int) :
    (bucket.resetTo start).dirty = false := by
  simp [dbBufferBucket.resetTo, dbBufferBucket.dirty]

theorem handOff_dirty (bucket : dbBufferBucket) (first : inOrderEncoder)
    (rest : List inOrderEncoder) : (bucket.handOff first rest).dirty = false := by
  simp [dbBufferBucket.handOff, dbBufferBucket.dirty]

theorem sort_start (fault : EncodeFault) (bucket : dbBufferBucket) :
    (bucket.sort fault).start = bucket.start := by
  unfold dbBufferBucket.sort
  split <;> rfl

theorem sort_drained (fault : EncodeFault) (bucket : dbBufferBucket) :
    (bucket.sort fault).drained = bucket.drained := by
  unfold dbBufferBucket.sort
  split <;> rfl

theorem sort_opts (fault : EncodeFault) (bucket : dbBufferBucket) :
    (bucket.sort fault).opts = bucket.opts := by
  unfold dbBufferBucket.sort
  split <;> rfl

theorem sort_encoders_ne_nil (fault : EncodeFault) (bucket : dbBufferBucket)
    (h : bucket.encoders ≠ []) : (bucket.sort fault).encoders ≠ [] := by
  unfold dbBufferBucket.sort
  split
  · exact h
  · simp

theorem write_encoders_ne_nil (fault : EncodeFault) (b : dbBufferBucket) (timestamp : Int)
    (loc value unit : Nat) (ann : List Nat) (h : b.encoders ≠ []) :
    (b.write fault timestamp loc value unit ann).1.encoders ≠ [] := by
  rw [write_eq]
  cases hscan : scanEncoders timestamp loc b.encoders with
  | discard => exact h
  | target before slot after =>
    rcases encodeTarget_cases fault (b.touch timestamp loc) before slot after timestamp loc value
      unit ann with ⟨err, e⟩ | ⟨-, -, e⟩ <;> (simp only []; rw [e]; simp)
  | absent =>
    rcases encodeTarget_cases fault (b.touch timestamp loc) b.encoders (b.nextSlot timestamp) []
      timestamp loc value unit ann with ⟨err, e⟩ | ⟨-, -, e⟩ <;> (simp only []; rw [e]; simp)

/-- Every bucket of a reachable buffer has at least one slot. -/
theorem Reachable.encoders_ne_nil {clock : Int → Int → Prop} {allowed : Call → Prop}
    {b : dbBuffer} {last : Int} (h : Reachable clock allowed b last) (j : Fin 3) :
    (b.buckets.get j).encoders ≠ [] :=
  Reachable.bucket_invariant (fun bucket => bucket.encoders ≠ []) (fun _ => True)
    (fun _ _ => by simp [dbBufferBucket.resetTo])
    (fun fault bucket timestamp loc value unit ann _ hb =>
      write_encoders_ne_nil fault bucket timestamp loc value unit ann hb)
    (fun fault bucket _ hb _ => sort_encoders_ne_nil fault bucket hb)
    (fun _ _ _ _ _ => by simp [dbBufferBucket.handOff])
    (fun _ _ => trivial) h j

theorem drainNeeded_forced (b : dbBuffer) (now : Int) (bucket : dbBufferBucket) (c : Int) :
    drainNeeded b now true bucket c = bucket.dirty := by
  unfold drainNeeded dbBuffer.bucketState dbBufferBucket.dirty
  cases bucket.drained <;> by_cases hl : bucket.lastWriteAt = timeZero <;> simp [hl]

theorem resetNeeded_forced (b : dbBuffer) (now : Int) (bucket : dbBufferBucket) (c : Int)
    (h : bucket.dirty = true) : resetNeeded b now true bucket c = true := by
  unfold resetNeeded
  unfold dbBufferBucket.dirty at h
  simp [h]

/-- The forced callback of `DrainAndReset` on one bucket: the bucket is handed to the sink
exactly when it is dirty, with its own start and a sealed encoder, and is not dirty
afterwards. -/
theorem drainAndResetBucket_forced (fault : EncodeFault) (b : dbBuffer) (now : Int)
    (bucket : dbBufferBucket) (c : Int) (hne : bucket.encoders ≠ []) :
    ∃ r, drainAndResetBucket fault b now true bucket c = some r ∧ r.1.dirty = false ∧
      (bucket.dirty = false → r.2 = none) ∧
      (bucket.dirty = true → ∃ enc, r.2 = some (bucket.start, enc) ∧ enc.sealed = true) := by
  obtain ⟨r, hr⟩ := drainAndResetBucket_isSome fault b now true bucket c
    (sort_encoders_ne_nil fault bucket hne)
  refine ⟨r, hr, ?_⟩
  rcases drainAndResetBucket_cases fault b now true bucket c r hr with
    ⟨hd, h2, h1⟩ | ⟨hd, first, rest, he, h2, h1⟩
  · rw [drainNeeded_forced] at hd
    refine ⟨?_, fun _ => h2, fun h => by rw [hd] at h; cases h⟩
    rw [h1]
    split
    · exact resetTo_dirty _ _
    · exact hd
  · rw [drainNeeded_forced] at hd
    refine ⟨?_, fun h => (by rw [hd] at h; cases h), fun _ => ⟨_, h2, rfl⟩⟩
    rw [h1, resetNeeded_forced b now bucket c hd, if_pos rfl]
    exact resetTo_dirty _ _

/-- With the clock past the Unix epoch plus one block, `IsEmpty` returns and says whether
no bucket is dirty. -/
theorem IsEmpty_eq (b : dbBuffer) (now : Int) (hbs : 0 < b.blockSize)
    (hnow : b.blockSize ≤ now) (hmax : now ≤ maxInt64) :
    b.IsEmpty now = some (!((b.buckets.get (b.firstIdx now)).dirty ||
      (b.buckets.get (b.firstIdx now + 1)).dirty ||
      (b.buckets.get (b.firstIdx now + 2)).dirty)) := by
  unfold dbBuffer.IsEmpty
  rw [forEachBucketAsc_eq b now hbs hnow hmax]
  simp only [bucketState_shouldRead, Option.some_bind, Option.map_some', Bool.not_false,
    if_true, Option.some.injEq]
  cases (b.buckets.get (b.firstIdx now)).dirty <;>
    cases (b.buckets.get (b.firstIdx now + 1)).dirty <;>
    cases (b.buckets.get (b.firstIdx now + 2)).dirty <;> rfl

theorem IsEmpty_of_not_dirty (b : dbBuffer) (now : Int) (hbs : 0 < b.blockSize)
    (hnow : b.blockSize ≤ now) (hmax : now ≤ maxInt64)
    (h : ∀ j, (b.buckets.get j).dirty = false) :
    b.IsEmpty now = some true := by
  rw [IsEmpty_eq b now hbs hnow hmax, h, h, h]
  rfl

/-- C5 (amended): forced drain completeness.  For a reachable buffer with a positive block
size and a clock reading at least one block after the Unix epoch and within the range of
`UnixNano` (not after 2262-04-11T23:47:16.854775807Z), `DrainAndReset(true)` returns; the
calls it makes to the drain sink are, for each bucket that was dirty before the call
(`lastWriteAt` set, `drained` false), exactly one call, with that bucket's start and a
sealed encoder, and no call for any other bucket; and `IsEmpty()` at the same clock reading
is then true. -/
theorem C5_forced_drain_complete (fault : EncodeFault) {b : dbBuffer} {last : Int}
    (h : Reachable anyClock anyCall b last) (now : Int) (hbs : 0 < b.blockSize)
    (hnow : b.blockSize ≤ now) (hmax : now ≤ maxInt64) :
    ∃ b' calls, b.DrainAndReset fault now true = some b' ∧ b'.sink = b.sink ++ calls ∧
      (∀ j, (calls.filter (fun c => decide (c.bucket = j))).length
        = if (b.buckets.get j).dirty = true then 1 else 0) ∧
      (∀ c ∈ calls, c.start = (b.buckets.get c.bucket).start ∧ c.encoder.sealed = true) ∧
      b'.IsEmpty now = some true := by
  obtain ⟨n1, n2, n3⟩ := fin3_succ_ne (b.firstIdx now)
  obtain ⟨r0, h0, d0, u0, v0⟩ := drainAndResetBucket_forced fault b now
    (b.buckets.get (b.firstIdx now)) (b.paired now (b.firstIdx now))
    (Reachable.encoders_ne_nil h _)
  obtain ⟨r1, h1, d1, u1, v1⟩ := drainAndResetBucket_forced fault b now
    (b.buckets.get (b.firstIdx now + 1)) (b.paired now (b.firstIdx now + 1))
    (Reachable.encoders_ne_nil h _)
  obtain ⟨r2, h2, d2, u2, v2⟩ := drainAndResetBucket_forced fault b now
    (b.buckets.get (b.firstIdx now + 2)) (b.paired now (b.firstIdx now + 2))
    (Reachable.encoders_ne_nil h _)
  have hres : drainAndResetResult fault b now true = some
      { b with
        buckets := ((b.buckets.set (b.firstIdx now) r0.1).set (b.firstIdx now + 1) r1.1).set
          (b.firstIdx now + 2) r2.1
        sink := ((b.sink
          ++ r0.2.toList.map (fun c =>
              { bucket := b.firstIdx now, start := c.1, encoder := c.2 }))
          ++ r1.2.toList.map (fun c =>
              { bucket := b.firstIdx now + 1, start := c.1, encoder := c.2 }))
          ++ r2.2.toList.map (fun c =>
              { bucket := b.firstIdx now + 2, start := c.1, encoder := c.2 }) } := by
    simp only [drainAndResetResult, h0, h1, h2, Option.some_bind]
  refine ⟨_, (r0.2.toList.map (fun c =>
              { bucket := b.firstIdx now, start := c.1, encoder := c.2 }))
          ++ (r1.2.toList.map (fun c =>
              { bucket := b.firstIdx now + 1, start := c.1, encoder := c.2 })
          ++ r2.2.toList.map (fun c =>
              { bucket := b.firstIdx now + 2, start := c.1, encoder := c.2 })),
    (DrainAndReset_eq fault b now true hbs hnow hmax).trans hres, ?_, ?_, ?_, ?_⟩
  · simp only [List.append_assoc]
  · intro j
    have e0 : ∀ (i : Fin 3) (r : dbBufferBucket × Option (Int × Encoder)),
        ((b.buckets.get i).dirty = false → r.2 = none) →
        ((b.buckets.get i).dirty = true →
          ∃ enc, r.2 = some ((b.buckets.get i).start, enc) ∧ enc.sealed = true) →
        ((r.2.toList.map (fun c =>
            ({ bucket := i, start := c.1, encoder := c.2 } : DrainCall))).filter
          (fun c => decide (c.bucket = j))).length
          = if i = j ∧ (b.buckets.get i).dirty = true then 1 else 0 := by
      intro i r u v
      cases hd : (b.buckets.get i).dirty
      · rw [u hd]; simp
      · obtain ⟨enc, he, -⟩ := v hd
        rw [he]
        by_cases hij : i = j <;> simp [hij]
    simp only [List.filter_append, List.length_append, e0 _ r0 u0 v0, e0 _ r1 u1 v1,
      e0 _ r2 u2 v2]
    rcases fin3_cases (b.firstIdx now) j with e | e | e <;> subst e
    · simp [n1, n2]
    · simp [n1.symm, n3]
    · simp [n2.symm, n3.symm]
  · intro c hc
    have e0 : ∀ (i : Fin 3) (r : dbBufferBucket × Option (Int × Encoder)),
        ((b.buckets.get i).dirty = false → r.2 = none) →
        ((b.buckets.get i).dirty = true →
          ∃ enc, r.2 = some ((b.buckets.get i).start, enc) ∧ enc.sealed = true) →
        c ∈ r.2.toList.map (fun c =>
            ({ bucket := i, start := c.1, encoder := c.2 } : DrainCall)) →
        c.start = (b.buckets.get c.bucket).start ∧ c.encoder.sealed = true := by
      intro i r u v hc
      cases hd : (b.buckets.get i).dirty
      · rw [u hd] at hc; simp at hc
      · obtain ⟨enc, he, hs⟩ := v hd
        rw [he] at hc
        simp only [Option.toList_some, List.map_cons, List.map_nil, List.mem_singleton] at hc
        subst hc
        exact ⟨rfl, hs⟩
    simp only [List.mem_append] at hc
    rcases hc with hc | hc | hc
    · exact e0 _ r0 u0 v0 hc
    · exact e0 _ r1 u1 v1 hc
    · exact e0 _ r2 u2 v2 hc
  · obtain ⟨-, hbs', -, -⟩ := drainAndResetResult_fields fault b _ now true hres
    generalize hb' : ({ b with
        buckets := ((b.buckets.set (b.firstIdx now) r0.1).set (b.firstIdx now + 1) r1.1).set
          (b.firstIdx now + 2) r2.1
        sink := ((b.sink
          ++ r0.2.toList.map (fun c =>
              { bucket := b.firstIdx now, start := c.1, encoder := c.2 }))
          ++ r1.2.toList.map (fun c =>
              { bucket := b.firstIdx now + 1, start := c.1, encoder := c.2 }))
          ++ r2.2.toList.map (fun c =>
              { bucket := b.firstIdx now + 2, start := c.1, encoder := c.2 }) } : dbBuffer)
      = b' at hres hbs'
    refine IsEmpty_of_not_dirty b' now (by rw [hbs']; exact hbs) (by rw [hbs']; exact hnow)
      hmax ?_
    intro j
    obtain ⟨r, hr, hj⟩ := drainAndResetResult_get fault b _ now true hres j
    rw [hj]
    obtain ⟨r', hr', d', -, -⟩ := drainAndResetBucket_forced fault b now
      (b.buckets.get j) (b.paired now j) (Reachable.encoders_ne_nil h _)
    rw [hr] at hr'
    cases hr'
    exact d'

/-- C5 fails as stated once `UnixNano` wraps around.  In the buffer built with blocks of two
hours at 2024-01-01T12:00:00Z that has taken a write of that instant, `buckets[0]` is dirty;
at 2300-01-01T02:00:00Z the `int64` value of `pastMostBucketStart.UnixNano()` is negative,
the first index `forEachBucketAsc` computes is `-2`, and `DrainAndReset(true)` panics on
`b.buckets[idx]` before any bucket is handed to the sink. -/
theorem C5_counterexample :
    Reachable anyClock anyCall scenarioOne (scenarioTime 0) ∧
    0 < scenarioOne.blockSize ∧ scenarioOne.blockSize ≤ wrapTime 7200 ∧
    (scenarioOne.buckets.get 0).dirty = true ∧
    Int.tmod (Int.tdiv (UnixNano (scenarioOne.pastMost (wrapTime 7200))) scenarioOne.blockSize)
      bucketsLen = -2 ∧
    scenarioOne.DrainAndReset noFault (wrapTime 7200) true = none :=
  ⟨scenarioOne_reachable anyClock anyCall trivial trivial, by decide, by decide, by decide,
    by decide, by decide⟩

theorem C5_forced_drain_complete_witness :
    Reachable anyClock anyCall sampleTwo 100 ∧ 0 < sampleTwo.blockSize ∧
      sampleTwo.blockSize ≤ 100 ∧ (100 : Int) ≤ maxInt64 ∧
    ∃ b' calls, sampleTwo.DrainAndReset noFault 100 true = some b' ∧
      b'.sink = sampleTwo.sink ++ calls ∧
      (∀ j, (calls.filter (fun c => decide (c.bucket = j))).length
        = if (sampleTwo.buckets.get j).dirty = true then 1 else 0) ∧
      (∀ c ∈ calls, c.start = (sampleTwo.buckets.get c.bucket).start ∧
        c.encoder.sealed = true) ∧
      b'.IsEmpty 100 = some true :=
  ⟨sampleTwo_reachable anyClock anyCall trivial trivial trivial, by decide, by decide,
    by decide,
    C5_forced_drain_complete noFault
      (sampleTwo_reachable anyClock anyCall trivial trivial trivial) 100 (by decide)
      (by decide) (by decide)⟩

/-! ## The read paths -/

/-- A traversal that only collects: when it returns, the result lists what is kept of the
three buckets, in the order of the traversal. -/
theorem forEachBucketAsc_collect {β : Type} (b : dbBuffer) (now : Int)
    (keep : Fin 3 → Option β) (res : List (Fin 3 × β))
    (h : b.forEachBucketAsc now (fun acc idx _ =>
      some (acc ++ (keep idx).toList.map (fun x => (idx, x)))) [] = some res) :
    res = (keep (b.firstIdx now)).toList.map (fun x => (b.firstIdx now, x)) ++
      ((keep (b.firstIdx now + 1)).toList.map (fun x => (b.firstIdx now + 1, x)) ++
       (keep (b.firstIdx now + 2)).toList.map (fun x => (b.firstIdx now + 2, x))) := by
  rcases forEachBucketAsc_cases b now with hv | hv
  · rw [hv] at h; cases h
  · rw [hv] at h
    simp only [Option.some_bind, List.nil_append, Option.some.injEq, List.append_assoc] at h
    exact h.symm

theorem readEncodedFrom_eq (b : dbBuffer) (now start end_ : Int) :
    b.readEncodedFrom now start end_ =
      b.forEachBucketAsc now (fun acc idx _ =>
        some (acc ++ (b.readEncodedKeep start end_ idx).toList.map (fun x => (idx, x)))) [] := by
  unfold dbBuffer.readEncodedFrom
  congr 1
  funext acc idx current
  simp only [bucketState_shouldRead, dbBuffer.readEncodedKeep]
  by_cases h1 : (b.buckets.get idx).dirty = true
  · by_cases h2 : start < (b.buckets.get idx).start + b.blockSize
    · by_cases h3 : (b.buckets.get idx).start < end_ <;> simp [h1, h2, h3]
    · simp [h1, h2]
  · simp [h1]

theorem fetchBlocksFrom_eq (sameRepr : Nat → Fin 3 → Bool) (b : dbBuffer) (now : Int)
    (starts : List Int) :
    b.fetchBlocksFrom sameRepr now starts =
      b.forEachBucketAsc now (fun acc idx _ =>
        some (acc ++ (b.fetchBlocksKeep sameRepr starts idx).toList.map
          (fun x => (idx, x)))) [] := by
  unfold dbBuffer.fetchBlocksFrom
  congr 1
  funext acc idx current
  simp only [bucketState_shouldRead, dbBuffer.fetchBlocksKeep]
  by_cases h1 : (b.buckets.get idx).dirty = true
  · cases h2 : startsFound sameRepr starts idx (b.buckets.get idx).start <;> simp [h1]
  · simp [h1]

/-- An entry of `starts` that is `==` to a bucket start is that start. -/
theorem startsFound_mem (sameRepr : Nat → Fin 3 → Bool) (starts : List Int) (idx : Fin 3)
    (start : Int) (h : startsFound sameRepr starts idx start = true) : start ∈ starts := by
  unfold startsFound at h
  rw [List.any_eq_true] at h
  obtain ⟨x, hx, hd⟩ := h
  simp only [Bool.and_eq_true, decide_eq_true_eq] at hd
  rw [← hd.1]
  exact List.snd_mem_of_mem_enum hx

theorem fetchBlocksMetadataFrom_eq (segmentLen : SegmentReader → Int) (b : dbBuffer)
    (now : Int) (includeSizes includeChecksums : Bool) :
    b.fetchBlocksMetadataFrom segmentLen now includeSizes includeChecksums =
      b.forEachBucketAsc now (fun acc idx _ =>
        some (acc ++ (b.fetchBlocksMetadataKeep segmentLen includeSizes idx).toList.map
          (fun x => (idx, x)))) [] := by
  unfold dbBuffer.fetchBlocksMetadataFrom
  congr 1
  funext acc idx current
  simp only [bucketState_shouldRead, dbBuffer.fetchBlocksMetadataKeep]
  by_cases h1 : (b.buckets.get idx).dirty = true
  · by_cases h2 : ((readBucketStreams (b.buckets.get idx)).map segmentLen).sum = 0
    · simp [h1, h2]
    · simp [h1, h2]
  · simp [h1]

theorem collect_mem {β : Type} (keep : Fin 3 → Option β) (i : Fin 3) (x : Fin 3 × β)
    (h : x ∈ (keep i).toList.map (fun y => (i, y))) : keep x.1 = some x.2 := by
  cases hk : keep i with
  | none => rw [hk] at h; simp at h
  | some y =>
    rw [hk] at h
    simp only [Option.toList_some, List.map_cons, List.map_nil, List.mem_singleton] at h
    subst h
    exact hk

theorem forEachBucketAsc_collect_mem {β : Type} (b : dbBuffer) (now : Int)
    (keep : Fin 3 → Option β) (res : List (Fin 3 × β))
    (h : b.forEachBucketAsc now (fun acc idx _ =>
      some (acc ++ (keep idx).toList.map (fun x => (idx, x)))) [] = some res)
    (x : Fin 3 × β) (hx : x ∈ res) : keep x.1 = some x.2 := by
  rw [forEachBucketAsc_collect b now keep res h] at hx
  simp only [List.mem_append] at hx
  rcases hx with hx | hx | hx <;> exact collect_mem keep _ x hx

/-- Every group `ReadEncoded` returns comes from a dirty bucket overlapping the range and
holds that bucket's streams. -/
theorem readEncodedFrom_mem (b : dbBuffer) (now start end_ : Int)
    (res : List (Fin 3 × List SegmentReader)) (h : b.readEncodedFrom now start end_ = some res)
    (x : Fin 3 × List SegmentReader) (hx : x ∈ res) :
    (b.buckets.get x.1).dirty = true ∧ start < (b.buckets.get x.1).start + b.blockSize ∧
      (b.buckets.get x.1).start < end_ ∧ x.2 = readBucketStreams (b.buckets.get x.1) := by
  rw [readEncodedFrom_eq] at h
  have hk := forEachBucketAsc_collect_mem b now _ res h x hx
  unfold dbBuffer.readEncodedKeep at hk
  split at hk
  · next hc =>
    simp only [Option.some.injEq] at hk
    exact ⟨hc.1, hc.2.1, hc.2.2, hk.symm⟩
  · cases hk

/-- Every result of `FetchBlocks` comes from a dirty bucket whose start was asked for. -/
theorem fetchBlocksFrom_mem (sameRepr : Nat → Fin 3 → Bool) (b : dbBuffer) (now : Int)
    (starts : List Int) (res : List (Fin 3 × FetchBlockResult))
    (h : b.fetchBlocksFrom sameRepr now starts = some res)
    (x : Fin 3 × FetchBlockResult) (hx : x ∈ res) :
    (b.buckets.get x.1).dirty = true ∧ (b.buckets.get x.1).start ∈ starts ∧
      x.2 = { start := (b.buckets.get x.1).start,
              readers := readBucketStreams (b.buckets.get x.1) } := by
  rw [fetchBlocksFrom_eq] at h
  have hk := forEachBucketAsc_collect_mem b now _ res h x hx
  unfold dbBuffer.fetchBlocksKeep at hk
  split at hk
  · next hc =>
    simp only [Option.some.injEq] at hk
    exact ⟨hc.1, startsFound_mem sameRepr starts _ _ hc.2, hk.symm⟩
  · cases hk

/-- Every result of `FetchBlocksMetadata` comes from a dirty bucket. -/
theorem fetchBlocksMetadataFrom_mem (segmentLen : SegmentReader → Int) (b : dbBuffer)
    (now : Int) (includeSizes includeChecksums : Bool)
    (res : List (Fin 3 × FetchBlockMetadataResult))
    (h : b.fetchBlocksMetadataFrom segmentLen now includeSizes includeChecksums = some res)
    (x : Fin 3 × FetchBlockMetadataResult) (hx : x ∈ res) :
    (b.buckets.get x.1).dirty = true ∧ x.2.start = (b.buckets.get x.1).start := by
  rw [fetchBlocksMetadataFrom_eq] at h
  have hk := forEachBucketAsc_collect_mem b now _ res h x hx
  unfold dbBuffer.fetchBlocksMetadataKeep at hk
  split at hk
  · next hc =>
    simp only [Option.some.injEq] at hk
    exact ⟨hc.1, by rw [← hk]⟩
  · cases hk

theorem dirty_not_drained (bucket : dbBufferBucket) (h : bucket.dirty = true) :
    bucket.drained = false := by
  unfold dbBufferBucket.dirty at h
  cases hd : bucket.drained
  · rfl
  · rw [hd] at h; simp at h

/-- A property of buffers that construction establishes and that `Reset`, `DrainAndReset`
and the write into a bucket preserve holds of every reachable buffer. -/
theorem Reachable.invariant (Q : dbBuffer → Prop)
    (hinit : ∀ opts now b, newDatabaseBuffer opts now = some b → Q b)
    (hreset : ∀ b now b', Q b → b.Reset now = some b' → Q b')
    (hdrain : ∀ fault b now forced b', Q b →
      drainAndResetResult fault b now forced = some b' → Q b')
    (hwrite : ∀ fault (b : dbBuffer) idx timestamp loc value unit ann, Q b →
      Q (b.setBucket idx ((b.buckets.get idx).write fault timestamp loc value unit ann).1))
    {clock : Int → Int → Prop} {allowed : Call → Prop}
    {b : dbBuffer} {last : Int} (h : Reachable clock allowed b last) : Q b := by
  induction h with
  | init opts now b _ hb => exact hinit opts now b hb
  | step b prev c b' _ _ _ _ hc ih =>
    cases c with
    | reset now => exact hreset b now b' ih hc
    | drainAndReset fault now forced =>
      exact hdrain fault b now forced b' ih (DrainAndReset_some fault b b' now forced hc)
    | write fault now nowDrain timestamp loc value unit ann =>
      simp only [dbBuffer.call, Option.map_eq_some', Prod.exists, exists_and_right,
        exists_eq_right] at hc
      obtain ⟨e, hw⟩ := hc
      rcases le_or_lt (now + b.bufferFuture) timestamp with hf | hf
      · rw [Write_tooFuture fault b now nowDrain timestamp loc value unit ann hf] at hw
        simp only [Option.some.injEq, Prod.mk.injEq] at hw
        rw [← hw.1]; exact ih
      · rcases le_or_lt timestamp (now - b.bufferPast) with hp | hp
        · rw [Write_tooPast fault b now nowDrain timestamp loc value unit ann hf hp] at hw
          simp only [Option.some.injEq, Prod.mk.injEq] at hw
          rw [← hw.1]; exact ih
        · obtain ⟨idx, b1, -, -, hb1, hb', -⟩ := Write_admitted_cases fault b b' now nowDrain
            timestamp loc value unit ann e hf hp hw
          rw [hb']
          apply hwrite
          rcases hb1 with ⟨-, rfl⟩ | ⟨-, hd⟩
          · exact ih
          · exact hdrain fault b nowDrain false b1 ih
              (DrainAndReset_some fault b b1 nowDrain false hd)

/-- Everything the drain sink has received from a reachable buffer is sealed. -/
theorem Reachable.sink_sealed {clock : Int → Int → Prop} {allowed : Call → Prop}
    {b : dbBuffer} {last : Int} (h : Reachable clock allowed b last) :
    ∀ c ∈ b.sink, c.encoder.sealed = true := by
  refine Reachable.invariant (fun b => ∀ c ∈ b.sink, c.encoder.sealed = true) ?_ ?_ ?_ ?_ h
  · intro opts now b hb c hc
    rw [(Reset_fields _ now b hb).2.2.2.2] at hc
    simp at hc
  · intro b now b' ih hb c hc
    rw [(Reset_fields _ now b' hb).2.2.2.2] at hc
    exact ih c hc
  · intro fault b now forced b' ih hb c hc
    unfold drainAndResetResult at hb
    simp only [Option.bind_eq_some, Option.some.injEq] at hb
    obtain ⟨r0, h0, r1, h1, r2, h2, hb⟩ := hb
    subst hb
    have key : ∀ (i : Fin 3) (bucket : dbBufferBucket) (cur : Int)
        (r : dbBufferBucket × Option (Int × Encoder)),
        drainAndResetBucket fault b now forced bucket cur = some r →
        c ∈ r.2.toList.map (fun c => ({ bucket := i, start := c.1, encoder := c.2 } : DrainCall))
        → c.encoder.sealed = true := by
      intro i bucket cur r hr hc
      rcases drainAndResetBucket_cases fault b now forced bucket cur r hr with
        ⟨-, h2, -⟩ | ⟨-, first, rest, -, h2, -⟩
      · rw [h2] at hc; simp at hc
      · rw [h2] at hc
        simp only [Option.toList_some, List.map_cons, List.map_nil, List.mem_singleton] at hc
        subst hc
        rfl
    simp only [List.mem_append] at hc
    rcases hc with ((hc | hc) | hc) | hc
    · exact ih c hc
    · exact key _ _ _ r0 h0 hc
    · exact key _ _ _ r1 h1 hc
    · exact key _ _ _ r2 h2 hc
  · intro fault b idx timestamp loc value unit ann ih c hc
    exact ih c hc

theorem Encode_sealed (fault : EncodeFault) (e : Encoder) (p : Encoded) :
    (e.Encode fault p).1.sealed = e.sealed := by
  rcases Encode_cases fault e p with ⟨err, h⟩ | ⟨-, -, h⟩ <;> rw [h]

theorem sortLoop_sealed (fault : EncodeFault) (l : List Encoded) (lw : Int) (enc : Encoder) :
    (sortLoop fault l lw enc).2.sealed = enc.sealed := by
  induction l generalizing lw enc with
  | nil => rfl
  | cons p rest ih =>
    unfold sortLoop
    rw [ih, Encode_sealed]

/-- The three ways through `write`: the timestamp equals the watermark of a slot reached
by the scan and nothing is encoded; or a target slot is chosen (an existing slot with a
lower watermark, all slots before it having higher ones, or else a new slot at the end) and
`Encode` on it fails, leaving the slots as they were; or `Encode` succeeds and the target
slot takes the point and the timestamp as its watermark. -/
theorem write_cases (fault : EncodeFault) (b : dbBufferBucket) (timestamp : Int)
    (loc value unit : Nat) (ann : List Nat) :
    (b.write fault timestamp loc value unit ann = (b.touch timestamp loc, none) ∧
      ∃ before slot after, b.encoders = before ++ slot :: after ∧
        slot.lastWriteAt = timestamp ∧ slot.lastWriteLoc = loc ∧
        ∀ s ∈ before, s.passed timestamp loc) ∨
    ∃ before slot after,
      ((b.encoders = before ++ slot :: after ∧ slot.lastWriteAt < timestamp) ∨
        (before = b.encoders ∧ slot = b.nextSlot timestamp ∧ after = [])) ∧
      (∀ s ∈ before, s.passed timestamp loc) ∧
      ((∃ err, slot.encoder.Encode fault
            { datapoint := { Timestamp := timestamp, Value := value }, unit := unit,
              ann := ann } = (slot.encoder, some err) ∧
          b.write fault timestamp loc value unit ann =
            ({ b.touch timestamp loc with encoders := before ++ slot :: after }, some err)) ∨
       (slot.encoder.sealed = false ∧ slot.encoder.closed = false ∧
          b.write fault timestamp loc value unit ann =
            ({ b.touch timestamp loc with
                encoders := before ++ slot.encoded timestamp loc value unit ann :: after },
              none))) := by
  have key : ∀ (before after : List inOrderEncoder) (slot : inOrderEncoder),
      (∃ err, slot.encoder.Encode fault
            { datapoint := { Timestamp := timestamp, Value := value }, unit := unit,
              ann := ann } = (slot.encoder, some err) ∧
          encodeTarget fault (b.touch timestamp loc) before slot after timestamp loc value unit
              ann =
            ({ b.touch timestamp loc with encoders := before ++ slot :: after }, some err)) ∨
       (slot.encoder.sealed = false ∧ slot.encoder.closed = false ∧
          encodeTarget fault (b.touch timestamp loc) before slot after timestamp loc value unit
              ann =
            ({ b.touch timestamp loc with
                encoders := before ++ slot.encoded timestamp loc value unit ann :: after },
              none)) := by
    intro before after slot
    rcases Encode_cases fault slot.encoder
        { datapoint := { Timestamp := timestamp, Value := value }, unit := unit, ann := ann }
      with ⟨err, h'⟩ | ⟨h1, h2, h'⟩
    · left
      exact ⟨err, h', by simp only [encodeTarget, h']⟩
    · right
      exact ⟨h1, h2, by simp only [encodeTarget, h']; rfl⟩
  rw [write_eq]
  cases hscan : scanEncoders timestamp loc b.encoders with
  | discard =>
    left
    exact ⟨rfl, scanEncoders_discard timestamp loc _ hscan⟩
  | target before slot after =>
    right
    obtain ⟨h1, h2, h3⟩ := scanEncoders_target timestamp loc _ _ _ _ hscan
    exact ⟨before, slot, after, Or.inl ⟨h1, h2⟩, h3, key before after slot⟩
  | absent =>
    right
    exact ⟨b.encoders, b.nextSlot timestamp, [], Or.inr ⟨rfl, rfl, rfl⟩,
      scanEncoders_absent timestamp loc _ hscan, key b.encoders [] (b.nextSlot timestamp)⟩

/-- The fields of a bucket that `write` never touches. -/
theorem write_fields (fault : EncodeFault) (b : dbBufferBucket) (timestamp : Int)
    (loc value unit : Nat) (ann : List Nat) :
    (b.write fault timestamp loc value unit ann).1.start = b.start ∧
    (b.write fault timestamp loc value unit ann).1.drained = b.drained ∧
    (b.write fault timestamp loc value unit ann).1.opts = b.opts ∧
    (b.write fault timestamp loc value unit ann).1.lastWriteAt = max b.lastWriteAt timestamp := by
  rcases write_cases fault b timestamp loc value unit ann with
    ⟨h, -⟩ | ⟨before, slot, after, -, -, ⟨err, -, h⟩ | ⟨-, -, h⟩⟩ <;>
    (rw [h]; exact ⟨rfl, rfl, rfl, rfl⟩)

/-- The slots of a bucket after `write` are old slots, the new slot, or one of these after
taking the point; the latter was writable. -/
theorem write_mem (fault : EncodeFault) (b : dbBufferBucket) (timestamp : Int)
    (loc value unit : Nat) (ann : List Nat) (s : inOrderEncoder)
    (hs : s ∈ (b.write fault timestamp loc value unit ann).1.encoders) :
    s ∈ b.encoders ∨ s = b.nextSlot timestamp ∨
    ∃ slot, (slot ∈ b.encoders ∨ slot = b.nextSlot timestamp) ∧
      slot.encoder.sealed = false ∧ slot.encoder.closed = false ∧
      s = slot.encoded timestamp loc value unit ann := by
  rcases write_cases fault b timestamp loc value unit ann with
    ⟨h, -⟩ | ⟨before, slot, after, hsplit, -, ⟨err, -, h⟩ | ⟨h1, h2, h⟩⟩
  · rw [h] at hs
    exact Or.inl hs
  · rw [h] at hs
    simp only [List.mem_append, List.mem_cons] at hs
    rcases hsplit with ⟨e, -⟩ | ⟨e1, e2, e3⟩
    · left; rw [e]; simp only [List.mem_append, List.mem_cons]; exact hs
    · subst e1 e2 e3
      rcases hs with hs | hs | hs
      · exact Or.inl hs
      · exact Or.inr (Or.inl hs)
      · simp at hs
  · rw [h] at hs
    simp only [List.mem_append, List.mem_cons] at hs
    rcases hsplit with ⟨e, -⟩ | ⟨e1, e2, e3⟩
    · rcases hs with hs | hs | hs
      · left; rw [e]; simp [hs]
      · right; right
        exact ⟨slot, Or.inl (by rw [e]; simp), h1, h2, hs⟩
      · left; rw [e]; simp [hs]
    · subst e1 e2 e3
      rcases hs with hs | hs | hs
      · exact Or.inl hs
      · right; right
        exact ⟨_, Or.inr rfl, h1, h2, hs⟩
      · simp at hs

theorem unsealed_write (fault : EncodeFault) (b : dbBufferBucket) (timestamp : Int)
    (loc value unit : Nat) (ann : List Nat) (h : b.unsealed) :
    (b.write fault timestamp loc value unit ann).1.unsealed := by
  intro hd s hs
  rw [(write_fields fault b timestamp loc value unit ann).2.1] at hd
  rcases write_mem fault b timestamp loc value unit ann s hs with
    h1 | h1 | ⟨slot, -, h2, -, h3⟩
  · exact h hd s h1
  · rw [h1]; rfl
  · rw [h3]; exact h2

theorem unsealed_sort (fault : EncodeFault) (b : dbBufferBucket) (h : b.unsealed) :
    (b.sort fault).unsealed := by
  intro hd s hs
  rw [sort_drained] at hd
  unfold dbBufferBucket.sort at hs
  split at hs
  · exact h hd s hs
  · simp only [List.mem_singleton] at hs
    subst hs
    exact sortLoop_sealed fault _ _ _

theorem Reachable.unsealed {clock : Int → Int → Prop} {allowed : Call → Prop}
    {b : dbBuffer} {last : Int} (h : Reachable clock allowed b last) (j : Fin 3) :
    (b.buckets.get j).unsealed :=
  Reachable.bucket_invariant dbBufferBucket.unsealed (fun _ => True)
    (fun _ _ _ s hs => by
      simp only [dbBufferBucket.resetTo, List.mem_singleton] at hs
      subst hs
      rfl)
    (fun fault bucket timestamp loc value unit ann _ hb =>
      unsealed_write fault bucket timestamp loc value unit ann hb)
    (fun fault bucket _ hb _ => unsealed_sort fault bucket hb)
    (fun _ _ _ _ _ hd => by simp [dbBufferBucket.handOff] at hd)
    (fun _ _ => trivial) h j

theorem readBucketStreams_mem (bucket : dbBufferBucket) (stream : SegmentReader)
    (h : stream ∈ readBucketStreams bucket) :
    ∃ s ∈ bucket.encoders, s.encoder.Stream = some stream := by
  unfold readBucketStreams at h
  simp only [List.mem_filterMap] at h
  exact h

theorem sampleDrained_reachable :
    Reachable anyClock anyCall sampleDrained 116 :=
  Reachable.step sampleOne 100 sampleDrain116 sampleDrained
    (sampleOne_reachable anyClock anyCall trivial trivial) trivial trivial trivial (by decide)

/-- C6: no resurrection.  In every reachable buffer, whatever the clock and the encoders
do: every encoder the drain sink has received is sealed, whereas every stream returned by
`ReadEncoded` and `FetchBlocks`, and every entry of `FetchBlocksMetadata`, comes from a
bucket with `drained = false`, whose encoders are all unsealed, hence none of them handed to
the sink; a bucket with `drained = true` contributes to none of the three reads; `write`
leaves `drained` as it is, so this is also so after further writes to the bucket; and
`resetTo` clears `drained` only together with installing a single new, empty encoder. -/
theorem C6_no_resurrection {b : dbBuffer} {last : Int}
    (h : Reachable anyClock anyCall b last) :
    (∀ c ∈ b.sink, c.encoder.sealed = true) ∧
    (∀ now start end_ res, b.ReadEncoded now start end_ = some res →
      ∀ group ∈ res, ∀ stream ∈ group, ∃ j, (b.buckets.get j).drained = false ∧
        ∃ s ∈ (b.buckets.get j).encoders,
          s.encoder.sealed = false ∧ s.encoder.Stream = some stream) ∧
    (∀ sameRepr now starts res, b.FetchBlocks sameRepr now starts = some res →
      ∀ x ∈ res, ∀ stream ∈ x.readers, ∃ j, (b.buckets.get j).drained = false ∧
        ∃ s ∈ (b.buckets.get j).encoders,
          s.encoder.sealed = false ∧ s.encoder.Stream = some stream) ∧
    (∀ segmentLen now includeSizes includeChecksums res,
      b.FetchBlocksMetadata segmentLen now includeSizes includeChecksums = some res →
      ∀ x ∈ res, ∃ j, (b.buckets.get j).drained = false ∧
        x.start = (b.buckets.get j).start ∧
        ∀ s ∈ (b.buckets.get j).encoders, s.encoder.sealed = false) ∧
    (∀ j, (b.buckets.get j).drained = true → ∀ now,
      (∀ start end_ res, b.readEncodedFrom now start end_ = some res →
        ∀ x ∈ res, x.1 ≠ j) ∧
      (∀ sameRepr starts res, b.fetchBlocksFrom sameRepr now starts = some res →
        ∀ x ∈ res, x.1 ≠ j) ∧
      (∀ segmentLen includeSizes includeChecksums res,
        b.fetchBlocksMetadataFrom segmentLen now includeSizes includeChecksums = some res →
        ∀ x ∈ res, x.1 ≠ j)) ∧
    (∀ j fault timestamp loc value unit ann,
      ((b.buckets.get j).write fault timestamp loc value unit ann).1.drained
        = (b.buckets.get j).drained) ∧
    (∀ j start, ((b.buckets.get j).resetTo start).drained = false ∧
      ((b.buckets.get j).resetTo start).lastWriteAt = timeZero ∧
      ∃ s, ((b.buckets.get j).resetTo start).encoders = [s] ∧ s.encoder.points = [] ∧
        s.encoder.sealed = false) := by
  refine ⟨Reachable.sink_sealed h, ?_, ?_, ?_, ?_, ?_, ?_⟩
  · intro now start end_ res hres group hg stream hstream
    simp only [dbBuffer.ReadEncoded, Option.map_eq_some'] at hres
    obtain ⟨res', hres', rfl⟩ := hres
    simp only [List.mem_map] at hg
    obtain ⟨x, hx, rfl⟩ := hg
    obtain ⟨hd, -, -, hx2⟩ := readEncodedFrom_mem b now start end_ res' hres' x hx
    rw [hx2] at hstream
    obtain ⟨s, hs, hst⟩ := readBucketStreams_mem _ stream hstream
    exact ⟨x.1, dirty_not_drained _ hd, s, hs,
      Reachable.unsealed h x.1 (dirty_not_drained _ hd) s hs, hst⟩
  · intro sameRepr now starts res hres y hy stream hstream
    simp only [dbBuffer.FetchBlocks, Option.map_eq_some'] at hres
    obtain ⟨res', hres', rfl⟩ := hres
    simp only [List.mem_map] at hy
    obtain ⟨x, hx, rfl⟩ := hy
    obtain ⟨hd, -, hx2⟩ := fetchBlocksFrom_mem sameRepr b now starts res' hres' x hx
    rw [hx2] at hstream
    obtain ⟨s, hs, hst⟩ := readBucketStreams_mem _ stream hstream
    exact ⟨x.1, dirty_not_drained _ hd, s, hs,
      Reachable.unsealed h x.1 (dirty_not_drained _ hd) s hs, hst⟩
  · intro segmentLen now includeSizes includeChecksums res hres y hy
    simp only [dbBuffer.FetchBlocksMetadata, Option.map_eq_some'] at hres
    obtain ⟨res', hres', rfl⟩ := hres
    simp only [List.mem_map] at hy
    obtain ⟨x, hx, rfl⟩ := hy
    obtain ⟨hd, hx2⟩ := fetchBlocksMetadataFrom_mem segmentLen b now includeSizes
      includeChecksums res' hres' x hx
    exact ⟨x.1, dirty_not_drained _ hd, hx2,
      Reachable.unsealed h x.1 (dirty_not_drained _ hd)⟩
  · intro j hj now
    refine ⟨?_, ?_, ?_⟩
    · intro start end_ res hres x hx hxj
      have := dirty_not_drained _ (readEncodedFrom_mem b now start end_ res hres x hx).1
      rw [hxj, hj] at this
      cases this
    · intro sameRepr starts res hres x hx hxj
      have := dirty_not_drained _ (fetchBlocksFrom_mem sameRepr b now starts res hres x hx).1
      rw [hxj, hj] at this
      cases this
    · intro segmentLen includeSizes includeChecksums res hres x hx hxj
      have := dirty_not_drained _ (fetchBlocksMetadataFrom_mem segmentLen b now includeSizes
        includeChecksums res hres x hx).1
      rw [hxj, hj] at this
      cases this
  · intro j fault timestamp loc value unit ann
    exact (write_fields fault _ timestamp loc value unit ann).2.1
  · intro j start
    exact ⟨rfl, rfl, _, rfl, rfl, rfl⟩

theorem C6_no_resurrection_witness :
    Reachable anyClock anyCall sampleDrained 116 ∧
    (sampleDrained.buckets.get 1).drained = true ∧
    sampleDrained.sink.length = 1 ∧
    sampleDrained.ReadEncoded 116 0 1000 = some [] ∧
    ((∀ c ∈ sampleDrained.sink, c.encoder.sealed = true) ∧
    (∀ now start end_ res, sampleDrained.ReadEncoded now start end_ = some res →
      ∀ group ∈ res, ∀ stream ∈ group, ∃ j, (sampleDrained.buckets.get j).drained = false ∧
        ∃ s ∈ (sampleDrained.buckets.get j).encoders,
          s.encoder.sealed = false ∧ s.encoder.Stream = some stream) ∧
    (∀ sameRepr now starts res, sampleDrained.FetchBlocks sameRepr now starts = some res →
      ∀ x ∈ res, ∀ stream ∈ x.readers, ∃ j, (sampleDrained.buckets.get j).drained = false ∧
        ∃ s ∈ (sampleDrained.buckets.get j).encoders,
          s.encoder.sealed = false ∧ s.encoder.Stream = some stream) ∧
    (∀ segmentLen now includeSizes includeChecksums res,
      sampleDrained.FetchBlocksMetadata segmentLen now includeSizes includeChecksums
        = some res →
      ∀ x ∈ res, ∃ j, (sampleDrained.buckets.get j).drained = false ∧
        x.start = (sampleDrained.buckets.get j).start ∧
        ∀ s ∈ (sampleDrained.buckets.get j).encoders, s.encoder.sealed = false) ∧
    (∀ j, (sampleDrained.buckets.get j).drained = true → ∀ now,
      (∀ start end_ res, sampleDrained.readEncodedFrom now start end_ = some res →
        ∀ x ∈ res, x.1 ≠ j) ∧
      (∀ sameRepr starts res, sampleDrained.fetchBlocksFrom sameRepr now starts = some res →
        ∀ x ∈ res, x.1 ≠ j) ∧
      (∀ segmentLen includeSizes includeChecksums res,
        sampleDrained.fetchBlocksMetadataFrom segmentLen now includeSizes includeChecksums
          = some res →
        ∀ x ∈ res, x.1 ≠ j)) ∧
    (∀ j fault timestamp loc value unit ann,
      ((sampleDrained.buckets.get j).write fault timestamp loc value unit ann).1.drained
        = (sampleDrained.buckets.get j).drained) ∧
    (∀ j start, ((sampleDrained.buckets.get j).resetTo start).drained = false ∧
      ((sampleDrained.buckets.get j).resetTo start).lastWriteAt = timeZero ∧
      ∃ s, ((sampleDrained.buckets.get j).resetTo start).encoders = [s] ∧
        s.encoder.points = [] ∧ s.encoder.sealed = false)) :=
  ⟨sampleDrained_reachable, by decide, by decide, by decide,
    C6_no_resurrection sampleDrained_reachable⟩

/-! ## The ring invariant and routing -/

theorem fin3_sub_val (i j : Fin 3) :
    ((j - i : Fin 3).val : Int) = ((j.val : Int) - i.val + 3) % 3 := by
  revert i j; decide

theorem window_index (d n : Int) (hd : 0 < d) (hn : 0 ≤ n) :
    Int.tmod (Int.tdiv (d * n) d) bucketsLen = n % 3 := by
  rw [Int.tdiv_eq_ediv (Int.mul_nonneg (le_of_lt hd) hn) (le_of_lt hd),
    Int.mul_ediv_cancel_left _ (ne_of_gt hd)]
  exact Int.tmod_eq_emod hn (by decide)

/-- With a block size that divides the distance between the zero time and the Unix epoch,
the past-most window at a clock reading at least one block after the epoch is a
non-negative multiple of the block size. -/
theorem pastMost_eq (b : dbBuffer) (now : Int) (hbs : 0 < b.blockSize)
    (hdvd : b.blockSize ∣ unixToInternal) (hnow : b.blockSize ≤ now) :
    ∃ n, 0 ≤ n ∧ b.pastMost now = b.blockSize * n ∧
      b.blockSize * (n + 1) ≤ now ∧ now < b.blockSize * (n + 2) := by
  refine ⟨now / b.blockSize - 1, ?_, ?_, ?_, ?_⟩
  · have := Int.le_ediv_of_mul_le hbs (show 1 * b.blockSize ≤ now by omega)
    omega
  · unfold dbBuffer.pastMost
    rw [Truncate_of_dvd now b.blockSize hbs hdvd]
    have := Int.ediv_add_emod now b.blockSize
    rw [mul_sub, mul_one]
    omega
  · have := Int.ediv_add_emod now b.blockSize
    have := Int.emod_nonneg now (ne_of_gt hbs)
    rw [sub_add_cancel]
    omega
  · have := Int.ediv_add_emod now b.blockSize
    have := Int.emod_lt_of_pos now hbs
    have e : b.blockSize * (now / b.blockSize - 1 + 2)
        = b.blockSize * (now / b.blockSize) + b.blockSize := by ring
    rw [e]
    omega

theorem firstIdx_eq (b : dbBuffer) (now : Int) (n : Int) (hbs : 0 < b.blockSize)
    (hnow : b.blockSize ≤ now) (hmax : now ≤ maxInt64)
    (hn : 0 ≤ n) (hpm : b.pastMost now = b.blockSize * n) :
    (b.firstIdx now).val = (n % 3).toNat := by
  unfold dbBuffer.firstIdx
  rw [UnixNano_pastMost b now hbs hnow hmax, hpm, window_index _ _ hbs hn]
  have h1 := Int.emod_nonneg n (show (3 : Int) ≠ 0 by decide)
  have h2 := Int.emod_lt_of_pos n (show (0 : Int) < 3 by decide)
  generalize n % 3 = r at h1 h2
  have : r = 0 ∨ r = 1 ∨ r = 2 := by omega
  rcases this with h | h | h <;> subst h <;> rfl

/-- At a clock reading within the range of `UnixNano`, the window paired with `buckets[j]`
is a non-negative multiple of the block size whose ring index is `j`; of the bucket visited
last this holds when the double of the block size fits an `int64`. -/
theorem paired_index (b : dbBuffer) (now : Int) (hbs : 0 < b.blockSize)
    (hdvd : b.blockSize ∣ unixToInternal) (hnow : b.blockSize ≤ now) (hmax : now ≤ maxInt64)
    (j : Fin 3) (hj : j = b.firstIdx now + 2 → 2 * b.blockSize ≤ maxInt64) :
    ∃ m, 0 ≤ m ∧ b.paired now j = b.blockSize * m ∧ m % 3 = (j.val : Int) := by
  obtain ⟨n, hn, hpm, -, -⟩ := pastMost_eq b now hbs hdvd hnow
  have hf := firstIdx_eq b now n hbs hnow hmax hn hpm
  have h1 := Int.emod_nonneg n (show (3 : Int) ≠ 0 by decide)
  have h2 := Int.emod_lt_of_pos n (show (0 : Int) < 3 by decide)
  have hp : b.paired now j
      = b.pastMost now + ((j - b.firstIdx now : Fin 3).val : Int) * b.blockSize := by
    rcases fin3_cases (b.firstIdx now) j with e | e | e
    · rw [e, paired_first, sub_self]
      show b.pastMost now = b.pastMost now + 0 * b.blockSize
      omega
    · rw [e, paired_second b now hbs (le_trans hnow hmax), fin3_add_sub]
      show b.pastMost now + b.blockSize = b.pastMost now + 1 * b.blockSize
      omega
    · rw [e, paired_third b now hbs (hj e), fin3_add_sub]
      rfl
  rw [hp, hpm]
  generalize b.firstIdx now = i0 at hf ⊢
  refine ⟨n + ((j - i0 : Fin 3).val : Int), by omega, by ring, ?_⟩
  have hi : (i0.val : Int) = n % 3 := by omega
  rw [fin3_sub_val]
  have := j.isLt
  have := i0.isLt
  omega

/-- With a block size that divides the distance between the zero time and the Unix epoch
and whose double does not fit an `int64`, the window of every clock reading at least one
block after the Unix epoch and within the range of `UnixNano` is the second one after the
epoch: the past-most window starts at the epoch. -/
theorem pastMost_of_wide (b : dbBuffer) (now : Int) (hbs : 0 < b.blockSize)
    (hdvd : b.blockSize ∣ unixToInternal) (hnow : b.blockSize ≤ now) (hmax : now ≤ maxInt64)
    (hwide : maxInt64 < 2 * b.blockSize) : b.pastMost now = 0 := by
  obtain ⟨n, hn, hpm, h1, -⟩ := pastMost_eq b now hbs hdvd hnow
  have h2 : b.blockSize * (n + 1) < b.blockSize * 2 := by omega
  have h3 : n + 1 < 2 := Int.lt_of_mul_lt_mul_left h2 (le_of_lt hbs)
  have h4 : n = 0 := by omega
  rw [hpm, h4, mul_zero]

/-- The pairing depends on the clock reading only through the past-most window. -/
theorem paired_of_pastMost (b : dbBuffer) (now now' : Int)
    (h : b.pastMost now = b.pastMost now') (j : Fin 3) : b.paired now j = b.paired now' j := by
  simp only [dbBuffer.paired, dbBuffer.firstIdx, h]

/-- Distinct buckets are paired with distinct windows. -/
theorem paired_injective (b : dbBuffer) (now : Int) (hbs : 0 < b.blockSize)
    (hle : b.blockSize ≤ maxInt64) (i j : Fin 3) (h : b.paired now i = b.paired now j) :
    i = j := by
  obtain ⟨e0, e1, e2⟩ := paired_visit b now
  rw [zero_mul] at e0
  rw [one_mul, int64_of_nonneg _ (le_of_lt hbs) hle] at e1
  have h0 : int64 0 = 0 := by decide
  rw [h0] at e0
  have h2 : int64 (2 * b.blockSize) ≠ 0 ∧ int64 (2 * b.blockSize) ≠ b.blockSize := by
    unfold maxInt64 at hle
    unfold int64
    omega
  obtain ⟨n1, n2, n3⟩ := fin3_succ_ne (b.firstIdx now)
  rcases fin3_cases (b.firstIdx now) i with hi | hi | hi <;>
    rcases fin3_cases (b.firstIdx now) j with hj | hj | hj <;>
    subst hi <;> subst hj <;>
    first | rfl | (exfalso; simp only [e0, e1, e2] at h; omega)

theorem bucketIndex_val (x : Int) (j : Fin 3) (h : x = (j.val : Int)) :
    bucketIndex x = some j := by
  subst h
  revert j; decide

theorem bucketIndex_some (x : Int) (j : Fin 3) (h : bucketIndex x = some j) :
    x = (j.val : Int) := by
  unfold bucketIndex at h
  split at h
  · next h0 => cases h; rw [h0]; rfl
  · split at h
    · next h0 => cases h; rw [h0]; rfl
    · split at h
      · next h0 => cases h; rw [h0]; rfl
      · cases h

/-- Truncation in terms of the quotient by the block size, counted from the zero time. -/
theorem Truncate_quot (t d : Int) (hd : 0 < d) :
    Truncate t d = d * ((t + unixToInternal) / d) - unixToInternal := by
  rw [Truncate_pos t d hd]
  have := Int.ediv_add_emod (t + unixToInternal) d
  omega

/-- Three buckets suffice: with both tolerances at most one block, the window of an
admitted timestamp is the window before the one of `now`, that one, or the next. -/
theorem admitted_window (b : dbBuffer) (now timestamp : Int) (hbs : 0 < b.blockSize)
    (hpast : b.bufferPast ≤ b.blockSize) (hfuture : b.bufferFuture ≤ b.blockSize)
    (hp : now - b.bufferPast < timestamp) (hf : timestamp < now + b.bufferFuture) :
    Truncate timestamp b.blockSize = b.pastMost now ∨
    Truncate timestamp b.blockSize = b.pastMost now + b.blockSize ∨
    Truncate timestamp b.blockSize = b.pastMost now + 2 * b.blockSize := by
  unfold dbBuffer.pastMost
  rw [Truncate_quot timestamp _ hbs, Truncate_quot now _ hbs]
  have ex := Int.ediv_add_emod (timestamp + unixToInternal) b.blockSize
  have en := Int.ediv_add_emod (now + unixToInternal) b.blockSize
  have rx1 := Int.emod_nonneg (timestamp + unixToInternal) (ne_of_gt hbs)
  have rx2 := Int.emod_lt_of_pos (timestamp + unixToInternal) hbs
  have rn1 := Int.emod_nonneg (now + unixToInternal) (ne_of_gt hbs)
  have rn2 := Int.emod_lt_of_pos (now + unixToInternal) hbs
  generalize (timestamp + unixToInternal) / b.blockSize = qx at ex
  generalize (now + unixToInternal) / b.blockSize = qn at en
  generalize (timestamp + unixToInternal) % b.blockSize = rx at ex rx1 rx2
  generalize (now + unixToInternal) % b.blockSize = rn at en rn1 rn2
  have h1 : b.blockSize * (qx - qn) < b.blockSize * 2 := by
    rw [mul_sub]; omega
  have h2 : b.blockSize * (-2) < b.blockSize * (qx - qn) := by
    rw [mul_sub]; omega
  have h3 : qx - qn < 2 := Int.lt_of_mul_lt_mul_left h1 (le_of_lt hbs)
  have h4 : -2 < qx - qn := Int.lt_of_mul_lt_mul_left h2 (le_of_lt hbs)
  have h5 : qx = qn - 1 ∨ qx = qn ∨ qx = qn + 1 := by omega
  rcases h5 with h | h | h <;> subst h
  · left; rw [mul_sub]; omega
  · right; left; omega
  · right; right; rw [mul_add]; omega

/-- A window at most one block away from the window of `now` is one of the three windows
`forEachBucketAsc` passes to its callback at `now`. -/
theorem ring_window (b : dbBuffer) (now timestamp : Int) (hbs : 0 < b.blockSize)
    (h1 : Truncate now b.blockSize - b.blockSize ≤ Truncate timestamp b.blockSize)
    (h2 : Truncate timestamp b.blockSize ≤ Truncate now b.blockSize + b.blockSize) :
    Truncate timestamp b.blockSize = b.pastMost now ∨
    Truncate timestamp b.blockSize = b.pastMost now + b.blockSize ∨
    Truncate timestamp b.blockSize = b.pastMost now + 2 * b.blockSize := by
  unfold dbBuffer.pastMost
  rw [Truncate_quot timestamp _ hbs, Truncate_quot now _ hbs] at h1 h2 ⊢
  generalize (timestamp + unixToInternal) / b.blockSize = qx at h1 h2 ⊢
  generalize (now + unixToInternal) / b.blockSize = qn at h1 h2 ⊢
  have h3 : b.blockSize * (qx - qn) < b.blockSize * 2 := by
    rw [mul_sub]; omega
  have h4 : b.blockSize * (-2) < b.blockSize * (qx - qn) := by
    rw [mul_sub]; omega
  have h5 : qx - qn < 2 := Int.lt_of_mul_lt_mul_left h3 (le_of_lt hbs)
  have h6 : -2 < qx - qn := Int.lt_of_mul_lt_mul_left h4 (le_of_lt hbs)
  have h7 : qx = qn - 1 ∨ qx = qn ∨ qx = qn + 1 := by omega
  rcases h7 with h | h | h <;> subst h
  · left; rw [mul_sub]; omega
  · right; left; omega
  · right; right; rw [mul_add]; omega

/-- The window of a timestamp within the range of `UnixNano`, when it is at most one block
away from the window of `now`, is paired with a bucket; if that bucket is the one visited
last, the double of the block size fits an `int64`. -/
theorem paired_of_window (b : dbBuffer) (now timestamp : Int) (hbs : 0 < b.blockSize)
    (hdvd : b.blockSize ∣ unixToInternal) (hnow : b.blockSize ≤ now) (hmax : now ≤ maxInt64)
    (htmax : timestamp ≤ maxInt64)
    (h1 : Truncate now b.blockSize - b.blockSize ≤ Truncate timestamp b.blockSize)
    (h2 : Truncate timestamp b.blockSize ≤ Truncate now b.blockSize + b.blockSize) :
    ∃ j, b.paired now j = Truncate timestamp b.blockSize ∧
      (j = b.firstIdx now + 2 → 2 * b.blockSize ≤ maxInt64) := by
  obtain ⟨n1, n2, n3⟩ := fin3_succ_ne (b.firstIdx now)
  rcases ring_window b now timestamp hbs h1 h2 with h | h | h
  · exact ⟨b.firstIdx now, by rw [paired_first, h], fun e => absurd e.symm n2⟩
  · exact ⟨b.firstIdx now + 1,
      by rw [paired_second b now hbs (le_trans hnow hmax), h], fun e => absurd e.symm n3⟩
  · have hbs2 : 2 * b.blockSize ≤ maxInt64 := by
      obtain ⟨n, hn, hpm, -, -⟩ := pastMost_eq b now hbs hdvd hnow
      have h3 := Truncate_le timestamp b.blockSize hbs
      have h4 : 0 ≤ b.blockSize * n := Int.mul_nonneg (le_of_lt hbs) hn
      omega
    exact ⟨b.firstIdx now + 2, by rw [paired_third b now hbs hbs2, h], fun _ => hbs2⟩

/-- A timestamp whose window is at most one block before the window of a clock reading at
least one block after the Unix epoch is not before the epoch. -/
theorem window_nonneg (b : dbBuffer) (now timestamp : Int) (hbs : 0 < b.blockSize)
    (hdvd : b.blockSize ∣ unixToInternal) (hnow : b.blockSize ≤ now)
    (h1 : Truncate now b.blockSize - b.blockSize ≤ Truncate timestamp b.blockSize) :
    0 ≤ timestamp := by
  obtain ⟨n, hn, hpm, -, -⟩ := pastMost_eq b now hbs hdvd hnow
  unfold dbBuffer.pastMost at hpm
  have h3 := Truncate_le timestamp b.blockSize hbs
  have h4 : 0 ≤ b.blockSize * n := Int.mul_nonneg (le_of_lt hbs) hn
  omega

/-- A bucket bound to a non-negative multiple of the block size with its own ring index, and
to the window of a timestamp within the range of `UnixNano`, is the bucket `Write` computes
for that timestamp. -/
theorem index_of_window (d start timestamp m : Int) (j : Fin 3) (hd : 0 < d)
    (hdvd : d ∣ unixToInternal) (htmax : timestamp ≤ maxInt64) (hm : 0 ≤ m)
    (hstart : start = d * m) (hmod : m % 3 = (j.val : Int))
    (hj : start = Truncate timestamp d) :
    0 ≤ timestamp ∧
      bucketIndex (Int.tmod (Int.tdiv (UnixNano timestamp) d) bucketsLen) = some j := by
  rw [hstart, Truncate_of_dvd timestamp _ hd hdvd] at hj
  have e := Int.ediv_add_emod timestamp d
  have r1 := Int.emod_nonneg timestamp (ne_of_gt hd)
  have hm' : 0 ≤ d * m := Int.mul_nonneg (le_of_lt hd) hm
  have ht : 0 ≤ timestamp := by omega
  have hq : d * m = d * (timestamp / d) := by omega
  have hq' : m = timestamp / d := Int.eq_of_mul_eq_mul_left (ne_of_gt hd) hq
  refine ⟨ht, ?_⟩
  rw [UnixNano_of_nonneg timestamp ht htmax, Int.tdiv_eq_ediv ht (le_of_lt hd), ← hq',
    Int.tmod_eq_emod hm (by decide)]
  exact bucketIndex_val _ j hmod

/-- Routing agrees with the pairing of `forEachBucketAsc`: under a block size dividing the
distance between the zero time and the Unix epoch and a clock reading at least one block
after the epoch, clock reading and timestamp within the range of `UnixNano`, the index
`Write` computes for a timestamp whose window is at most one block away from the window of
`now` is that of the bucket `forEachBucketAsc` pairs with the timestamp's window. -/
theorem window_index_paired (b : dbBuffer) (now timestamp : Int) (hbs : 0 < b.blockSize)
    (hdvd : b.blockSize ∣ unixToInternal) (hnow : b.blockSize ≤ now) (hmax : now ≤ maxInt64)
    (htmax : timestamp ≤ maxInt64)
    (h1 : Truncate now b.blockSize - b.blockSize ≤ Truncate timestamp b.blockSize)
    (h2 : Truncate timestamp b.blockSize ≤ Truncate now b.blockSize + b.blockSize) :
    ∃ j, bucketIndex (Int.tmod (Int.tdiv (UnixNano timestamp) b.blockSize) bucketsLen)
        = some j ∧
      b.paired now j = Truncate timestamp b.blockSize := by
  obtain ⟨j, hj, hlast⟩ := paired_of_window b now timestamp hbs hdvd hnow hmax htmax h1 h2
  obtain ⟨m, hm, hpm, hmod⟩ := paired_index b now hbs hdvd hnow hmax j hlast
  exact ⟨j, (index_of_window b.blockSize _ timestamp m j hbs hdvd htmax hm hpm hmod hj).2, hj⟩

/-- The window of an admitted timestamp is at most one block away from the window of the
clock reading, when both tolerances are at most one block. -/
theorem admitted_ring (b : dbBuffer) (now timestamp : Int) (hbs : 0 < b.blockSize)
    (hpast : b.bufferPast ≤ b.blockSize) (hfuture : b.bufferFuture ≤ b.blockSize)
    (hp : now - b.bufferPast < timestamp) (hf : timestamp < now + b.bufferFuture) :
    Truncate now b.blockSize - b.blockSize ≤ Truncate timestamp b.blockSize ∧
      Truncate timestamp b.blockSize ≤ Truncate now b.blockSize + b.blockSize := by
  have h := admitted_window b now timestamp hbs hpast hfuture hp hf
  unfold dbBuffer.pastMost at h
  omega

/-- As `Reachable.invariant`, with the clock readings at which the ring is rotated known to
satisfy `R`. -/
theorem Reachable.invariant_clock (Q : dbBuffer → Prop) (R : Int → Prop)
    {clock : Int → Int → Prop} (hR : ∀ prev next, clock prev next → R next)
    (hinit : ∀ opts now b, R now → newDatabaseBuffer opts now = some b → Q b)
    (hreset : ∀ b now b', R now → Q b → b.Reset now = some b' → Q b')
    (hdrain : ∀ fault b now forced b', R now → Q b →
      drainAndResetResult fault b now forced = some b' → Q b')
    (hwrite : ∀ fault (b : dbBuffer) idx timestamp loc value unit ann, Q b →
      Q (b.setBucket idx ((b.buckets.get idx).write fault timestamp loc value unit ann).1))
    {allowed : Call → Prop}
    {b : dbBuffer} {last : Int} (h : Reachable clock allowed b last) : Q b := by
  induction h with
  | init opts now b hc hb => exact hinit opts now b (hR _ _ hc) hb
  | step b prev c b' _ hc1 hc2 _ hc ih =>
    cases c with
    | reset now => exact hreset b now b' (hR _ _ hc1) ih hc
    | drainAndReset fault now forced =>
      exact hdrain fault b now forced b' (hR _ _ hc1) ih
        (DrainAndReset_some fault b b' now forced hc)
    | write fault now nowDrain timestamp loc value unit ann =>
      simp only [dbBuffer.call, Option.map_eq_some', Prod.exists, exists_and_right,
        exists_eq_right] at hc
      obtain ⟨e, hw⟩ := hc
      rcases le_or_lt (now + b.bufferFuture) timestamp with hf | hf
      · rw [Write_tooFuture fault b now nowDrain timestamp loc value unit ann hf] at hw
        simp only [Option.some.injEq, Prod.mk.injEq] at hw
        rw [← hw.1]; exact ih
      · rcases le_or_lt timestamp (now - b.bufferPast) with hp | hp
        · rw [Write_tooPast fault b now nowDrain timestamp loc value unit ann hf hp] at hw
          simp only [Option.some.injEq, Prod.mk.injEq] at hw
          rw [← hw.1]; exact ih
        · obtain ⟨idx, b1, -, -, hb1, hb', -⟩ := Write_admitted_cases fault b b' now nowDrain
            timestamp loc value unit ann e hf hp hw
          rw [hb']
          apply hwrite
          rcases hb1 with ⟨-, rfl⟩ | ⟨-, hd⟩
          · exact ih
          · exact hdrain fault b nowDrain false b1 (hR _ _ hc2) ih
              (DrainAndReset_some fault b b1 nowDrain false hd)

theorem handOff_start (bucket : dbBufferBucket) (first : inOrderEncoder)
    (rest : List inOrderEncoder) : (bucket.handOff first rest).start = bucket.start := rfl

/-- The start of a bucket after the callback of `DrainAndReset`: the paired start when the
bucket is reset, its old start otherwise. -/
theorem drainAndResetBucket_start (fault : EncodeFault) (b : dbBuffer) (now : Int)
    (forced : Bool) (bucket : dbBufferBucket) (current : Int)
    (r : dbBufferBucket × Option (Int × Encoder))
    (h : drainAndResetBucket fault b now forced bucket current = some r) :
    r.1.start = if resetNeeded b now forced bucket current = true then current
      else bucket.start := by
  rcases drainAndResetBucket_cases fault b now forced bucket current r h with
    ⟨-, -, h1⟩ | ⟨-, first, rest, -, -, h1⟩ <;> rw [h1] <;> split
  · rfl
  · rfl
  · rfl
  · rw [handOff_start, sort_start]

theorem paired_congr (b b' : dbBuffer) (h : b'.blockSize = b.blockSize) (now : Int)
    (j : Fin 3) : b'.paired now j = b.paired now j := by
  simp only [dbBuffer.paired, dbBuffer.pastMost, dbBuffer.firstIdx, h]

theorem Reset_start (b : dbBuffer) (now : Int) (b' : dbBuffer) (h : b.Reset now = some b')
    (j : Fin 3) : (b'.buckets.get j).start = b'.paired now j := by
  rw [Reset_get b now b' h j, paired_congr b b' (Reset_fields b now b' h).2.1]
  rfl

/-- In every buffer reachable under a clock that never reads less than one block after the
Unix epoch nor beyond the range of `UnixNano`, every bucket is bound to a window paired with
it at one of the clock readings. -/
theorem Reachable.ringPaired {allowed : Call → Prop} {b : dbBuffer} {last : Int}
    (h : Reachable (clockWithin b.blockSize) allowed b last) : b.ringPaired := by
  have key : ∀ d : Int, ∀ (b : dbBuffer) (last : Int),
      Reachable (clockWithin d) allowed b last → b.blockSize = d → b.ringPaired := by
    intro d b last h
    refine Reachable.invariant_clock (fun b => b.blockSize = d → b.ringPaired)
      (fun n => d ≤ n ∧ n ≤ maxInt64) (fun _ _ hc => hc) ?_ ?_ ?_ ?_ h
    · intro opts now b hnow hb hbd j
      exact ⟨now, by rw [hbd]; exact hnow.1, hnow.2, Reset_start _ now b hb j⟩
    · intro b now b' hnow ih hb hbd j
      exact ⟨now, by rw [hbd]; exact hnow.1, hnow.2, Reset_start _ now b' hb j⟩
    · intro fault b now forced b' hnow ih hb hbd j
      have e : b'.blockSize = b.blockSize := (drainAndResetResult_fields fault b b' now
        forced hb).2.1
      obtain ⟨r, hr, hj⟩ := drainAndResetResult_get fault b b' now forced hb j
      have hstart := drainAndResetBucket_start fault b now forced _ _ r hr
      by_cases hres : resetNeeded b now forced (b.buckets.get j) (b.paired now j) = true
      · refine ⟨now, by rw [hbd]; exact hnow.1, hnow.2, ?_⟩
        rw [hj, hstart, if_pos hres, paired_congr b b' e]
      · obtain ⟨n, h1, h2, h3⟩ := ih (by omega) j
        refine ⟨n, by rw [e]; exact h1, h2, ?_⟩
        rw [hj, hstart, if_neg hres, h3, paired_congr b b' e]
    · intro fault b idx timestamp loc value unit ann ih hbd j
      obtain ⟨n, h1, h2, h3⟩ := ih hbd j
      refine ⟨n, h1, h2, ?_⟩
      show ((b.setBucket idx _).buckets.get j).start = b.paired n j
      rw [← h3, setBucket_get]
      split
      · next hji =>
        rw [(write_fields fault _ timestamp loc value unit ann).1, ← hji]
      · rfl
  exact key b.blockSize b last h rfl

/-- The ring invariant holds in every buffer reachable under a clock that never reads less
than one block after the Unix epoch nor beyond the range of `UnixNano`, when the block size
is positive, divides the distance between the zero time and the Unix epoch and has a double
that fits an `int64`. -/
theorem Reachable.ringAligned {allowed : Call → Prop} {b : dbBuffer} {last : Int}
    (h : Reachable (clockWithin b.blockSize) allowed b last) (hbs : 0 < b.blockSize)
    (hdvd : b.blockSize ∣ unixToInternal) (hbs2 : 2 * b.blockSize ≤ maxInt64) :
    b.ringAligned := by
  intro j
  obtain ⟨now, h1, h2, h3⟩ := Reachable.ringPaired h j
  rw [h3]
  exact paired_index b now hbs hdvd h1 h2 j (fun _ => hbs2)

/-! ## Watermarks backed by encoded points -/

theorem Encode_error_accepting (fault : EncodeFault) (hfault : ∀ e p, fault e p = none)
    (e : Encoder) (p : Encoded) (e' : Encoder) (err : EncodeError)
    (h : e.Encode fault p = (e', some err)) : e.sealed = true ∨ e.closed = true := by
  unfold Encoder.Encode at h
  cases hs : e.sealed
  · cases hc : e.closed
    · simp [hs, hc, hfault] at h
    · exact Or.inr rfl
  · exact Or.inl rfl

theorem sortLoop_fst (fault : EncodeFault) (l : List Encoded) (lw : Int) (enc : Encoder)
    (hl : l ≠ []) :
    (sortLoop fault l lw enc).1 ∈ l.map (fun x => x.datapoint.Timestamp) := by
  induction l generalizing lw enc with
  | nil => exact absurd rfl hl
  | cons p rest ih =>
    unfold sortLoop
    cases rest with
    | nil => simp [sortLoop]
    | cons q rest' =>
      have := ih p.datapoint.Timestamp (enc.Encode fault p).1 (by simp)
      exact List.mem_cons_of_mem _ this

theorem backed_resetTo (opts : Options) (start : Int) :
    ((zeroBucket opts).resetTo start).backed := by
  refine ⟨?_, fun _ => ⟨?_, Or.inl rfl⟩⟩
  · intro s hs
    simp only [dbBufferBucket.resetTo, List.mem_singleton] at hs
    subst hs
    exact ⟨rfl, Or.inl rfl⟩
  · intro s hs
    simp only [dbBufferBucket.resetTo, List.mem_singleton] at hs
    subst hs
    rfl

theorem backed_handOff (b : dbBufferBucket) (first : inOrderEncoder)
    (rest : List inOrderEncoder) (h : b.backed) (he : b.encoders = first :: rest) :
    (b.handOff first rest).backed := by
  refine ⟨?_, fun hd => by simp [dbBufferBucket.handOff] at hd⟩
  intro s hs
  simp only [dbBufferBucket.handOff, List.mem_cons] at hs
  rcases hs with rfl | hs
  · exact h.1 first (by rw [he]; exact List.mem_cons_self _ _)
  · exact h.1 s (by rw [he]; exact List.mem_cons_of_mem _ hs)

theorem backed_sort (fault : EncodeFault) (hfault : ∀ e p, fault e p = none)
    (b : dbBufferBucket) (h : b.backed) (hd : b.dirty = true) : (b.sort fault).backed := by
  have hdr := dirty_not_drained b hd
  have hlw : b.lastWriteAt ≠ timeZero := by
    unfold dbBufferBucket.dirty at hd
    simp [hdr] at hd
    exact hd
  unfold dbBufferBucket.sort
  split
  · exact h
  · have hpts : (sortLoop fault (multiReaderIterate (b.encoders.map (fun e => e.encoder.Stream)))
        b.lastWriteAt (Encoder.Reset b.start b.opts.allocSize)).2.points =
        multiReaderIterate (b.encoders.map (fun e => e.encoder.Stream)) := by
      rw [sortLoop_accepting fault hfault _ _ _ rfl rfl]
      rfl
    have hne : multiReaderIterate (b.encoders.map (fun e => e.encoder.Stream)) ≠ [] := by
      rcases (h.2 hdr).2 with h0 | ⟨s, hs, hmem⟩
      · exact absurd h0 hlw
      · intro hnil
        have := (multiReaderIterate_timestamps b.encoders b.lastWriteAt).mpr ⟨s, hs, hmem⟩
        rw [hnil] at this
        simp at this
    have hlast := sortLoop_fst fault _ b.lastWriteAt (Encoder.Reset b.start b.opts.allocSize)
      hne
    have hcl : (sortLoop fault (multiReaderIterate (b.encoders.map (fun e => e.encoder.Stream)))
        b.lastWriteAt (Encoder.Reset b.start b.opts.allocSize)).2.closed = false := by
      generalize multiReaderIterate (b.encoders.map (fun e => e.encoder.Stream)) = l
      generalize b.lastWriteAt = lw
      have : ∀ (l : List Encoded) (lw : Int) (enc : Encoder),
          (sortLoop fault l lw enc).2.closed = enc.closed := by
        intro l
        induction l with
        | nil => intro _ _; rfl
        | cons p rest ih =>
          intro lw enc
          unfold sortLoop
          rw [ih]
          rcases Encode_cases fault enc p with ⟨err, h⟩ | ⟨-, -, h⟩ <;> rw [h]
      rw [this]; rfl
    have hin : (sortLoop fault (multiReaderIterate (b.encoders.map (fun e => e.encoder.Stream)))
        b.lastWriteAt (Encoder.Reset b.start b.opts.allocSize)).1 ∈
        (sortLoop fault (multiReaderIterate (b.encoders.map (fun e => e.encoder.Stream)))
        b.lastWriteAt (Encoder.Reset b.start b.opts.allocSize)).2.timestamps := by
      simp only [Encoder.timestamps, hpts]
      exact hlast
    refine ⟨?_, fun _ => ⟨?_, Or.inr ⟨_, List.mem_singleton.mpr rfl, hin⟩⟩⟩
    · intro s hs
      simp only [List.mem_singleton] at hs
      subst hs
      exact ⟨hcl, Or.inr hin⟩
    · intro s hs
      simp only [List.mem_singleton] at hs
      subst hs
      exact sortLoop_sealed fault _ _ _

theorem encoded_timestamps (slot : inOrderEncoder) (timestamp : Int) (loc value unit : Nat)
    (ann : List Nat) :
    (slot.encoded timestamp loc value unit ann).encoder.timestamps
      = slot.encoder.timestamps ++ [timestamp] := by
  simp [inOrderEncoder.encoded, Encoder.timestamps]

theorem backed_write (fault : EncodeFault) (hfault : ∀ e p, fault e p = none)
    (b : dbBufferBucket) (timestamp : Int) (loc value unit : Nat) (ann : List Nat)
    (h : b.backed) : (b.write fault timestamp loc value unit ann).1.backed := by
  have hnext : (b.nextSlot timestamp).encoder.closed = false ∧
      ((b.nextSlot timestamp).lastWriteAt = timeZero ∨
        (b.nextSlot timestamp).lastWriteAt ∈ (b.nextSlot timestamp).encoder.timestamps) :=
    ⟨rfl, Or.inl rfl⟩
  have hmax : max b.lastWriteAt timestamp = b.lastWriteAt ∨
      max b.lastWriteAt timestamp = timestamp := by
    rcases le_total b.lastWriteAt timestamp with hle | hle
    · exact Or.inr (max_eq_right hle)
    · exact Or.inl (max_eq_left hle)
  rcases write_cases fault b timestamp loc value unit ann with
    ⟨hw, before, slot, after, hsplit, hlw, -⟩ |
    ⟨before, slot, after, hsplit, -, ⟨err, henc, hw⟩ | ⟨h1, h2, hw⟩⟩
  · -- the timestamp equals a watermark
    rw [hw]
    refine ⟨h.1, fun hd => ⟨(h.2 hd).1, ?_⟩⟩
    have hslot : slot ∈ b.encoders := by rw [hsplit]; simp
    show max b.lastWriteAt timestamp = timeZero ∨
      ∃ s ∈ b.encoders, max b.lastWriteAt timestamp ∈ s.encoder.timestamps
    rcases hmax with e | e <;> rw [e]
    · exact (h.2 hd).2
    · rcases (h.1 slot hslot).2 with h0 | h0
      · left; rw [← hlw, h0]
      · right; exact ⟨slot, hslot, by rw [← hlw]; exact h0⟩
  · -- `Encode` failed: the bucket has been handed to the sink
    rw [hw]
    have hall : ∀ s ∈ before ++ slot :: after, s ∈ b.encoders ∨ s = b.nextSlot timestamp := by
      intro s hs
      rcases hsplit with ⟨e, -⟩ | ⟨e1, e2, e3⟩
      · left; rw [e]; exact hs
      · subst e1 e2 e3
        simp only [List.mem_append, List.mem_singleton] at hs
        exact hs
    have hslot : slot ∈ before ++ slot :: after := by simp
    have hdr : b.drained = true := by
      cases hd : b.drained
      · exfalso
        rcases Encode_error_accepting fault hfault _ _ _ _ henc with hs | hc
        · rcases hall slot hslot with hm | hm
          · rw [(h.2 hd).1 slot hm] at hs; cases hs
          · rw [hm] at hs; cases hs
        · rcases hall slot hslot with hm | hm
          · rw [(h.1 slot hm).1] at hc; cases hc
          · rw [hm] at hc; cases hc
      · rfl
    refine ⟨?_, fun hd => ?_⟩
    · intro s hs
      rcases hall s hs with hm | hm
      · exact h.1 s hm
      · rw [hm]; exact hnext
    · change b.drained = false at hd
      rw [hdr] at hd; cases hd
  · -- `Encode` succeeded
    rw [hw]
    have hold : ∀ s ∈ before ++ after, s ∈ b.encoders := by
      intro s hs
      rcases hsplit with ⟨e, -⟩ | ⟨e1, e2, e3⟩
      · rw [e]
        simp only [List.mem_append, List.mem_cons] at hs ⊢
        tauto
      · subst e1 e2 e3
        simpa using hs
    have hslot : slot ∈ b.encoders ∨ slot = b.nextSlot timestamp := by
      rcases hsplit with ⟨e, -⟩ | ⟨e1, e2, e3⟩
      · left; rw [e]; simp
      · right; exact e2
    have hmem : ∀ s, s ∈ before ++ slot.encoded timestamp loc value unit ann :: after ↔
        s ∈ before ++ after ∨ s = slot.encoded timestamp loc value unit ann := by
      intro s
      simp only [List.mem_append, List.mem_cons]
      tauto
    have hts : timestamp ∈ (slot.encoded timestamp loc value unit ann).encoder.timestamps := by
      rw [encoded_timestamps]; simp
    refine ⟨?_, fun hd => ⟨?_, ?_⟩⟩
    · intro s hs
      rcases (hmem s).mp hs with hm | hm
      · exact h.1 s (hold s hm)
      · rw [hm]
        exact ⟨h2, Or.inr hts⟩
    · intro s hs
      rcases (hmem s).mp hs with hm | hm
      · exact (h.2 hd).1 s (hold s hm)
      · rw [hm]; exact h1
    · show max b.lastWriteAt timestamp = timeZero ∨
        ∃ s ∈ before ++ slot.encoded timestamp loc value unit ann :: after,
          max b.lastWriteAt timestamp ∈ s.encoder.timestamps
      rcases hmax with e | e <;> rw [e]
      · rcases (h.2 hd).2 with h0 | ⟨s, hs, hin⟩
        · exact Or.inl h0
        · right
          rcases hsplit with ⟨e', -⟩ | ⟨e1, e2, e3⟩
          · rw [e'] at hs
            simp only [List.mem_append, List.mem_cons] at hs
            rcases hs with hs | hs | hs
            · exact ⟨s, (hmem s).mpr (Or.inl (by simp [hs])), hin⟩
            · subst hs
              exact ⟨_, (hmem _).mpr (Or.inr rfl), by
                rw [encoded_timestamps]; simp [hin]⟩
            · exact ⟨s, (hmem s).mpr (Or.inl (by simp [hs])), hin⟩
          · subst e1 e2 e3
            exact ⟨s, (hmem s).mpr (Or.inl (by simp [hs])), hin⟩
      · exact Or.inr ⟨_, (hmem _).mpr (Or.inr rfl), hts⟩

/-- When the encoders accept every datapoint they are writable for, every bucket of a
reachable buffer has its watermarks backed by encoded points. -/
theorem Reachable.backed {clock : Int → Int → Prop} {allowed : Call → Prop}
    (hacc : ∀ c, allowed c → accepting c)
    {b : dbBuffer} {last : Int} (h : Reachable clock allowed b last) (j : Fin 3) :
    (b.buckets.get j).backed :=
  Reachable.bucket_invariant dbBufferBucket.backed (fun fault => ∀ e p, fault e p = none)
    backed_resetTo
    (fun fault bucket timestamp loc value unit ann hf hb =>
      backed_write fault hf bucket timestamp loc value unit ann hb)
    (fun fault bucket hf hb hd => backed_sort fault hf bucket hb hd)
    backed_handOff hacc h j

/-! ## Rotation correctness -/

theorem timeZero_neg : timeZero < 0 := by decide

theorem resetNeeded_unforced (b : dbBuffer) (now : Int) (bucket : dbBufferBucket) (c : Int) :
    resetNeeded b now false bucket c = !decide (bucket.start = c) := by
  simp [resetNeeded, dbBuffer.bucketState]

/-- A bucket the callback of `DrainAndReset` resets ends up bound to the paired start, not
drained, with a single slot whose watermark is unset. -/
theorem drainAndResetBucket_reset (fault : EncodeFault) (b : dbBuffer) (now : Int)
    (forced : Bool) (bucket : dbBufferBucket) (current : Int)
    (r : dbBufferBucket × Option (Int × Encoder))
    (h : drainAndResetBucket fault b now forced bucket current = some r)
    (hreset : resetNeeded b now forced bucket current = true) :
    r.1.start = current ∧ r.1.drained = false ∧ r.1.lastWriteAt = timeZero ∧
      ∃ s, r.1.encoders = [s] ∧ s.lastWriteAt = timeZero ∧ s.encoder.points = [] := by
  rcases drainAndResetBucket_cases fault b now forced bucket current r h with
    ⟨-, -, h1⟩ | ⟨-, first, rest, -, -, h1⟩ <;>
  · rw [h1, hreset, if_pos rfl]
    exact ⟨rfl, rfl, rfl, _, rfl, rfl, rfl⟩

/-- After a non-forced `DrainAndReset` every bucket is bound to the window paired with
it. -/
theorem drainAndResetResult_start (fault : EncodeFault) (b b' : dbBuffer) (now : Int)
    (h : drainAndResetResult fault b now false = some b') (j : Fin 3) :
    (b'.buckets.get j).start = b.paired now j := by
  obtain ⟨r, hr, hj⟩ := drainAndResetResult_get fault b b' now false h j
  rw [hj, drainAndResetBucket_start fault b now false _ _ r hr, resetNeeded_unforced]
  by_cases hs : (b.buckets.get j).start = b.paired now j
  · simp [hs]
  · simp [hs]

/-- A successful `write` leaves a slot whose watermark is the timestamp: either the slot
just encoded into, which now ends with the timestamp, or a slot that already had this
watermark, in which case nothing was encoded and the slots are unchanged. -/
theorem write_success (fault : EncodeFault) (b : dbBufferBucket) (timestamp : Int)
    (loc value unit : Nat) (ann : List Nat)
    (h : (b.write fault timestamp loc value unit ann).2 = none) :
    ∃ slot ∈ (b.write fault timestamp loc value unit ann).1.encoders,
      slot.lastWriteAt = timestamp ∧
      (timestamp ∈ slot.encoder.timestamps ∨
        (slot ∈ b.encoders ∧ (b.write fault timestamp loc value unit ann).1.encoders
          = b.encoders)) := by
  rcases write_cases fault b timestamp loc value unit ann with
    ⟨hw, before, slot, after, hsplit, hlw, -⟩ |
    ⟨before, slot, after, hsplit, -, ⟨err, henc, hw⟩ | ⟨h1, h2, hw⟩⟩
  · rw [hw]
    have hslot : slot ∈ b.encoders := by rw [hsplit]; simp
    exact ⟨slot, hslot, hlw, Or.inr ⟨hslot, rfl⟩⟩
  · rw [hw] at h; cases h
  · rw [hw]
    refine ⟨slot.encoded timestamp loc value unit ann, by simp, rfl, Or.inl ?_⟩
    rw [encoded_timestamps]; simp

/-- An admitted `Write` of a timestamp within the range of `UnixNano` whose window is at most
one block away from the window of the clock reading `DrainAndReset` takes, that reading being
at least one block after the Unix epoch and within the range of `UnixNano`, under a block
size dividing the distance between the zero time and the Unix epoch: after the rotation, if
any, the routed bucket is bound to the window of the timestamp, and then takes the write. -/
theorem Write_routed (fault : EncodeFault) (b b' : dbBuffer) (now nowDrain timestamp : Int)
    (loc value unit : Nat) (ann : List Nat) (e : Option Error)
    (hbs : 0 < b.blockSize) (hdvd : b.blockSize ∣ unixToInternal)
    (hnow : b.blockSize ≤ nowDrain) (hmax : nowDrain ≤ maxInt64)
    (htmax : timestamp ≤ maxInt64)
    (hring : Truncate nowDrain b.blockSize - b.blockSize ≤ Truncate timestamp b.blockSize ∧
      Truncate timestamp b.blockSize ≤ Truncate nowDrain b.blockSize + b.blockSize)
    (hf : timestamp < now + b.bufferFuture) (hp : now - b.bufferPast < timestamp)
    (h : b.Write fault now nowDrain timestamp loc value unit ann = some (b', e)) :
    ∃ idx b1,
      bucketIndex (Int.tmod (Int.tdiv (UnixNano timestamp) b.blockSize) bucketsLen)
        = some idx ∧
      b.paired nowDrain idx = Truncate timestamp b.blockSize ∧
      (((b.buckets.get idx).start = Truncate timestamp b.blockSize ∧ b1 = b) ∨
       ((b.buckets.get idx).start ≠ Truncate timestamp b.blockSize ∧
          drainAndResetResult fault b nowDrain false = some b1)) ∧
      (b1.buckets.get idx).start = Truncate timestamp b.blockSize ∧
      b' = b1.setBucket idx
        ((b1.buckets.get idx).write fault timestamp loc value unit ann).1 ∧
      e = ((b1.buckets.get idx).write fault timestamp loc value unit ann).2.map
        Error.encode := by
  obtain ⟨idx, b1, -, hidx, hb1, hb', he⟩ := Write_admitted_cases fault b b' now nowDrain
    timestamp loc value unit ann e hf hp h
  obtain ⟨j, hj, hpair⟩ := window_index_paired b nowDrain timestamp hbs hdvd hnow hmax htmax
    hring.1 hring.2
  rw [hidx] at hj
  cases hj
  refine ⟨idx, b1, hidx, hpair, ?_, ?_, hb', he⟩
  · rcases hb1 with h1 | ⟨h1, h2⟩
    · exact Or.inl h1
    · exact Or.inr ⟨h1, DrainAndReset_some fault b b1 nowDrain false h2⟩
  · rcases hb1 with ⟨h1, rfl⟩ | ⟨h1, h2⟩
    · exact h1
    · rw [drainAndResetResult_start fault b b1 nowDrain
        (DrainAndReset_some fault b b1 nowDrain false h2) idx, hpair]

theorem Write_success_admitted (fault : EncodeFault) (b b' : dbBuffer)
    (now nowDrain timestamp : Int) (loc value unit : Nat) (ann : List Nat)
    (h : b.Write fault now nowDrain timestamp loc value unit ann = some (b', none)) :
    timestamp < now + b.bufferFuture ∧ now - b.bufferPast < timestamp := by
  rcases le_or_lt (now + b.bufferFuture) timestamp with hf | hf
  · rw [Write_tooFuture fault b now nowDrain timestamp loc value unit ann hf] at h
    simp at h
  rcases le_or_lt timestamp (now - b.bufferPast) with hp | hp
  · rw [Write_tooPast fault b now nowDrain timestamp loc value unit ann hf hp] at h
    simp at h
  exact ⟨hf, hp⟩

/-- C3 (amended): rotation correctness.  Take a buffer reachable by `Write`, `DrainAndReset`
and `Reset` calls under a clock never reading less than one block after the Unix epoch nor
beyond the range of `UnixNano` (2262-04-11T23:47:16.854775807Z), with a positive block size
that divides the distance between the zero time and the Unix epoch.  Take a `Write` of a
timestamp `t` within the range of `UnixNano` whose window `truncate(t, blockSize)` is at most
one block away from the window of the clock reading `DrainAndReset` takes inside `Write`
(as it is when that reading admits `t` and both tolerances are at most one block), that
reading being again at least one block after the epoch and within range.  If the `Write`
returns success, then afterwards exactly one bucket is bound to the window
`truncate(t, blockSize)`, it is `buckets[(t / blockSize) mod 3]`, and one of its slots has
watermark `t`: either `t` is in the encoded sequence of that slot, or the slot was there
before the call, already with watermark `t` (the write was dropped as a duplicate).  If
moreover no `Encode` call on a writable encoder has failed in the calls that led to the
buffer, `t` is in the encoded sequence of that slot in both cases. -/
theorem C3_rotation_correct {allowed : Call → Prop} {b : dbBuffer} {last : Int}
    (h : Reachable (clockWithin b.blockSize) allowed b last)
    (hbs : 0 < b.blockSize) (hdvd : b.blockSize ∣ unixToInternal)
    (fault : EncodeFault) (now nowDrain timestamp : Int) (loc value unit : Nat) (ann : List Nat)
    (b' : dbBuffer) (hnow : b.blockSize ≤ nowDrain) (hmax : nowDrain ≤ maxInt64)
    (htmax : timestamp ≤ maxInt64)
    (hring : Truncate nowDrain b.blockSize - b.blockSize ≤ Truncate timestamp b.blockSize ∧
      Truncate timestamp b.blockSize ≤ Truncate nowDrain b.blockSize + b.blockSize)
    (hw : b.Write fault now nowDrain timestamp loc value unit ann = some (b', none)) :
    ∃ idx, bucketIndex (Int.tmod (Int.tdiv (UnixNano timestamp) b.blockSize) bucketsLen)
        = some idx ∧
      UnixNano timestamp = timestamp ∧
      (∀ j, (b'.buckets.get j).start = Truncate timestamp b.blockSize ↔ j = idx) ∧
      ∃ slot ∈ (b'.buckets.get idx).encoders, slot.lastWriteAt = timestamp ∧
        (timestamp ∈ slot.encoder.timestamps ∨ slot ∈ (b.buckets.get idx).encoders) ∧
        ((∀ c, allowed c → accepting c) → timestamp ∈ slot.encoder.timestamps) := by
  obtain ⟨hf, hp⟩ := Write_success_admitted fault b b' now nowDrain timestamp loc value unit
    ann hw
  obtain ⟨idx, b1, hidx, hpair, hb1, hstart, hb', he⟩ := Write_routed fault b b' now nowDrain
    timestamp loc value unit ann none hbs hdvd hnow hmax htmax hring hf hp hw
  have hget : b'.buckets.get idx
      = ((b1.buckets.get idx).write fault timestamp loc value unit ann).1 := by
    rw [hb', setBucket_get, if_pos rfl]
  have hwr : ((b1.buckets.get idx).write fault timestamp loc value unit ann).2 = none := by
    cases hx : ((b1.buckets.get idx).write fault timestamp loc value unit ann).2 with
    | none => rfl
    | some x => rw [hx] at he; cases he
  -- only the routed bucket of `b1` is bound to the window of the timestamp
  have huniq : ∀ j, (b1.buckets.get j).start = Truncate timestamp b.blockSize → j = idx := by
    intro j hj
    rcases le_or_lt (2 * b.blockSize) maxInt64 with hbs2 | hwide
    · -- every bucket of `b1` is bound to a window with its own ring index
      have hring1 : ∀ j, ∃ m, 0 ≤ m ∧ (b1.buckets.get j).start = b.blockSize * m ∧
          m % 3 = (j.val : Int) := by
        intro j
        rcases hb1 with ⟨-, rfl⟩ | ⟨-, h2⟩
        · exact Reachable.ringAligned h hbs hdvd hbs2 j
        · rw [drainAndResetResult_start fault b b1 nowDrain h2 j]
          exact paired_index b nowDrain hbs hdvd hnow hmax j (fun _ => hbs2)
      obtain ⟨m, -, hm, hmod⟩ := hring1 j
      obtain ⟨m', -, hm', hmod'⟩ := hring1 idx
      rw [hstart] at hm'
      rw [hj, hm'] at hm
      have : m' = m := Int.eq_of_mul_eq_mul_left (ne_of_gt hbs) hm
      subst this
      apply Fin.ext
      omega
    · -- the pairing is the same at every clock reading: the ring never rotates
      have hcur : ∀ j, (b1.buckets.get j).start = b.paired nowDrain j := by
        intro j
        rcases hb1 with ⟨-, rfl⟩ | ⟨-, h2⟩
        · obtain ⟨n, h1, h2, h3⟩ := Reachable.ringPaired h j
          rw [h3]
          apply paired_of_pastMost
          rw [pastMost_of_wide b1 n hbs hdvd h1 h2 hwide,
            pastMost_of_wide b1 nowDrain hbs hdvd hnow hmax hwide]
        · exact drainAndResetResult_start fault b b1 nowDrain h2 j
      apply paired_injective b nowDrain hbs (le_trans hnow hmax)
      rw [← hcur j, ← hcur idx, hj, hstart]
  have ht0 : 0 ≤ timestamp := window_nonneg b nowDrain timestamp hbs hdvd hnow hring.1
  have ht : timeZero < timestamp := by
    have := timeZero_neg
    omega
  refine ⟨idx, hidx, UnixNano_of_nonneg timestamp ht0 htmax, ?_, ?_⟩
  · intro j
    constructor
    · intro hj
      by_contra hne
      rw [hb', setBucket_get, if_neg hne] at hj
      exact hne (huniq j hj)
    · rintro rfl
      rw [hget, (write_fields fault _ timestamp loc value unit ann).1, hstart]
  · obtain ⟨slot, hslot, hlw, hcase⟩ := write_success fault (b1.buckets.get idx) timestamp
      loc value unit ann hwr
    rw [← hget] at hslot
    rcases hcase with hin | ⟨hold, -⟩
    · exact ⟨slot, hslot, hlw, Or.inl hin, fun _ => hin⟩
    · -- the write was dropped as a duplicate: no rotation can have happened
      rcases hb1 with ⟨-, rfl⟩ | ⟨hne, h2⟩
      · refine ⟨slot, hslot, hlw, Or.inr hold, fun hacc => ?_⟩
        rcases ((Reachable.backed hacc h idx).1 slot hold).2 with h0 | h0
        · rw [hlw] at h0; omega
        · rw [hlw] at h0; exact h0
      · exfalso
        obtain ⟨r, hr, hj⟩ := drainAndResetResult_get fault b b1 nowDrain false h2 idx
        have hres : resetNeeded b nowDrain false (b.buckets.get idx) (b.paired nowDrain idx)
            = true := by
          rw [resetNeeded_unforced, hpair]
          simp [hne]
        obtain ⟨-, -, -, s, hs, hs0, -⟩ := drainAndResetBucket_reset fault b nowDrain false _ _
          r hr hres
        rw [hj, hs, List.mem_singleton] at hold
        rw [hold, hs0] at hlw
        omega

theorem sampleUnbacked_reachable :
    Reachable (clockWithin 10) anyCall sampleUnbacked 116 :=
  Reachable.step _ 100 (Call.drainAndReset noFault 116 false) sampleUnbacked
    (Reachable.step _ 100 (Call.write allFault 100 100 101 0 2 0 [])
      (orSample ((sampleBuffer.call (Call.write allFault 100 100 103 0 1 0 [])).bind
        (fun b => b.call (Call.write allFault 100 100 101 0 2 0 []))))
      (Reachable.step sampleBuffer 100 (Call.write allFault 100 100 103 0 1 0 [])
        (orSample (sampleBuffer.call (Call.write allFault 100 100 103 0 1 0 [])))
        (sampleBuffer_reachable (clockWithin 10) anyCall (by decide))
        (by decide) (by decide) trivial (by decide))
      (by decide) (by decide) trivial (by decide))
    (by decide) (by decide) trivial (by decide)

/-- C3 fails as stated, in four ways.  (1) `Write` reads the clock for the admission test and
`DrainAndReset`, inside `Write`, reads it again: in the buffer built at `100` with blocks of
`10`, a write of `128` admitted at reading `132` is routed to `buckets[0]`, bound to `90`;
the rotation, at reading `140`, binds that bucket to `150`, the write lands there and no
bucket is bound to `truncate(128) = 120`.  (2) `UnixNano` wraps around: in the buffer built
one nanosecond before the last instant of its range, the admitted timestamp four
nanoseconds later has a negative `UnixNano`, is routed to `buckets[0]` and lands there,
while the bucket bound to its window is `buckets[1]`.  (3) With blocks of one week, which do
not divide the distance between the zero time and the Unix epoch, the windows of `Truncate`
start on Mondays and those of the ring index on Thursdays: a write on a Friday lands in
`buckets[1]`, bound to the following Monday, while the bucket bound to the window of the
timestamp stays empty.  (4) After `Encode` failures followed by a drain and a clock that goes
back, `Write` returns success for a timestamp that no slot holds. -/
theorem C3_counterexample :
    (Reachable (clockFrom sampleBuffer.blockSize) anyCall sampleBuffer 100 ∧
      sampleBuffer.blockSize ∣ unixToInternal ∧
      0 ≤ sampleBuffer.bufferPast ∧ sampleBuffer.bufferPast ≤ sampleBuffer.blockSize ∧
      0 ≤ sampleBuffer.bufferFuture ∧ sampleBuffer.bufferFuture ≤ sampleBuffer.blockSize ∧
      ∃ b', sampleBuffer.Write noFault 132 140 128 0 1 0 [] = some (b', none) ∧
        bucketIndex (Int.tmod (Int.tdiv (UnixNano 128) sampleBuffer.blockSize) bucketsLen)
          = some 0 ∧
        (b'.buckets.get 0).start = 150 ∧
        ∀ j, (b'.buckets.get j).start ≠ Truncate 128 sampleBuffer.blockSize) ∧
    (Reachable (clockWithin lateBuffer.blockSize) anyCall lateBuffer (maxInt64 - 1) ∧
      lateBuffer.blockSize ∣ unixToInternal ∧
      0 ≤ lateBuffer.bufferPast ∧ lateBuffer.bufferPast ≤ lateBuffer.blockSize ∧
      0 ≤ lateBuffer.bufferFuture ∧ lateBuffer.bufferFuture ≤ lateBuffer.blockSize ∧
      ∃ b', lateBuffer.Write noFault (maxInt64 - 1) (maxInt64 - 1) (maxInt64 + 3) 0 1 0 []
          = some (b', none) ∧
        UnixNano (maxInt64 + 3) = minInt64 + 2 ∧
        bucketIndex (Int.tmod (Int.tdiv (UnixNano (maxInt64 + 3)) lateBuffer.blockSize)
          bucketsLen) = some 0 ∧
        (b'.buckets.get 0).start ≠ Truncate (maxInt64 + 3) lateBuffer.blockSize ∧
        (b'.buckets.get 1).start = Truncate (maxInt64 + 3) lateBuffer.blockSize ∧
        ∀ s ∈ (b'.buckets.get 1).encoders, (maxInt64 + 3) ∉ s.encoder.timestamps) ∧
    (Reachable (clockWithin weekBuffer.blockSize) anyCall weekBuffer fridayNoon ∧
      0 < weekBuffer.blockSize ∧
      0 ≤ weekBuffer.bufferPast ∧ weekBuffer.bufferPast ≤ weekBuffer.blockSize ∧
      0 ≤ weekBuffer.bufferFuture ∧ weekBuffer.bufferFuture ≤ weekBuffer.blockSize ∧
      weekBuffer.blockSize ≤ fridayNoon ∧
      ∃ b', weekBuffer.Write noFault fridayNoon fridayNoon fridayNoon 0 1 0 []
          = some (b', none) ∧
        bucketIndex (Int.tmod (Int.tdiv (UnixNano fridayNoon) weekBuffer.blockSize)
          bucketsLen) = some 1 ∧
        (b'.buckets.get 1).start ≠ Truncate fridayNoon weekBuffer.blockSize ∧
        (b'.buckets.get 0).start = Truncate fridayNoon weekBuffer.blockSize ∧
        ∀ s ∈ (b'.buckets.get 0).encoders, fridayNoon ∉ s.encoder.timestamps) ∧
    (Reachable (clockWithin sampleUnbacked.blockSize) anyCall sampleUnbacked 116 ∧
      sampleUnbacked.blockSize ∣ unixToInternal ∧
      ∃ b', sampleUnbacked.Write noFault 100 100 103 0 5 0 [] = some (b', none) ∧
        ∀ j, ∀ s ∈ (b'.buckets.get j).encoders, (103 : Int) ∉ s.encoder.timestamps) := by
  refine ⟨⟨sampleBuffer_reachable _ anyCall (by decide), by decide, by decide, by decide,
      by decide, by decide, _, rfl, by decide, by decide, by decide⟩,
    ⟨Reachable.init sampleOptions (maxInt64 - 1) lateBuffer (by decide) (by decide),
      by decide, by decide, by decide, by decide, by decide,
      _, rfl, by decide, by decide, by decide, by decide, by decide⟩,
    ⟨Reachable.init weekOptions fridayNoon weekBuffer (by decide) (by decide),
      by decide, by decide, by decide, by decide, by decide, by decide,
      _, rfl, by decide, by decide, by decide, by decide⟩,
    sampleUnbacked_reachable, by decide, _, rfl, by decide⟩

theorem C3_rotation_correct_witness :
    Reachable (clockWithin sampleBuffer.blockSize) anyCall sampleBuffer 100 ∧
    0 < sampleBuffer.blockSize ∧ sampleBuffer.blockSize ∣ unixToInternal ∧
    sampleBuffer.blockSize ≤ 100 ∧ (100 : Int) ≤ maxInt64 ∧ (103 : Int) ≤ maxInt64 ∧
    (Truncate 100 sampleBuffer.blockSize - sampleBuffer.blockSize
        ≤ Truncate 103 sampleBuffer.blockSize ∧
      Truncate 103 sampleBuffer.blockSize
        ≤ Truncate 100 sampleBuffer.blockSize + sampleBuffer.blockSize) ∧
    sampleBuffer.Write noFault 100 100 103 0 1 0 [] = some (sampleOne, none) ∧
    ∃ idx, bucketIndex (Int.tmod (Int.tdiv (UnixNano 103) sampleBuffer.blockSize) bucketsLen)
        = some idx ∧
      UnixNano 103 = 103 ∧
      (∀ j, (sampleOne.buckets.get j).start = Truncate 103 sampleBuffer.blockSize ↔ j = idx) ∧
      ∃ slot ∈ (sampleOne.buckets.get idx).encoders, slot.lastWriteAt = 103 ∧
        ((103 : Int) ∈ slot.encoder.timestamps ∨
          slot ∈ (sampleBuffer.buckets.get idx).encoders) ∧
        ((∀ c, anyCall c → accepting c) → (103 : Int) ∈ slot.encoder.timestamps) :=
  ⟨sampleBuffer_reachable _ anyCall (by decide), by decide, by decide, by decide, by decide,
    by decide, by decide, by decide,
    C3_rotation_correct (sampleBuffer_reachable _ anyCall (by decide)) (by decide) (by decide)
      noFault 100 100 103 0 1 0 [] sampleOne (by decide) (by decide) (by decide) (by decide)
      (by decide)⟩

/-! ## Duplicate timestamps -/

theorem scanEncoders_of_watermark (timestamp : Int) (loc : Nat)
    (before after : List inOrderEncoder) (slot : inOrderEncoder)
    (hlw : slot.lastWriteAt = timestamp) (hloc : slot.lastWriteLoc = loc)
    (hb : ∀ s ∈ before, s.passed timestamp loc) :
    scanEncoders timestamp loc (before ++ slot :: after) = Scan.discard := by
  induction before with
  | nil => simp [scanEncoders, hlw, hloc]
  | cons e rest ih =>
    have he := hb e (List.mem_cons_self _ _)
    have h1 : ¬ (timestamp = e.lastWriteAt ∧ loc = e.lastWriteLoc) := he.1
    have h2 : ¬ timestamp > e.lastWriteAt := not_lt.mpr he.2
    have ih' := ih (fun s hs => hb s (List.mem_cons_of_mem _ hs))
    simp only [List.cons_append, scanEncoders, h1, h2, if_false]
    change (match scanEncoders timestamp loc (rest ++ slot :: after) with
      | Scan.target before slot after => Scan.target (e :: before) slot after
      | r => r) = Scan.discard
    rw [ih']

theorem touch_touch (b : dbBufferBucket) (timestamp : Int) (loc : Nat)
    (encoders : List inOrderEncoder) :
    ({ b.touch timestamp loc with encoders := encoders } : dbBufferBucket).touch timestamp loc
      = { b.touch timestamp loc with encoders := encoders } := by
  unfold dbBufferBucket.touch
  have h1 : max (max b.lastWriteAt timestamp) timestamp = max b.lastWriteAt timestamp := by
    simp
  have h2 : (b.outOfOrder || decide (timestamp < b.lastWriteAt) ||
      decide (timestamp < max b.lastWriteAt timestamp))
      = (b.outOfOrder || decide (timestamp < b.lastWriteAt)) := by
    by_cases h : timestamp < b.lastWriteAt
    · simp [h]
    · have : max b.lastWriteAt timestamp = timestamp := max_eq_right (by omega)
      simp [h, this]
  have h3 : ¬ timestamp > max b.lastWriteAt timestamp :=
    not_lt.mpr (le_max_right _ _)
  simp only [h1, h2, h3, if_false]

/-- A `write` that succeeded is idempotent: writing the same time value again, with any
value, unit and annotation and whatever the encoders do, returns success and changes
nothing. -/
theorem write_idempotent (fault : EncodeFault) (b : dbBufferBucket) (timestamp : Int)
    (loc value unit : Nat) (ann : List Nat)
    (h : (b.write fault timestamp loc value unit ann).2 = none)
    (fault' : EncodeFault) (value' unit' : Nat) (ann' : List Nat) :
    (b.write fault timestamp loc value unit ann).1.write fault' timestamp loc value' unit' ann'
      = ((b.write fault timestamp loc value unit ann).1, none) := by
  rcases write_cases fault b timestamp loc value unit ann with
    ⟨hw, before, slot, after, hsplit, hlw, hloc, hb⟩ |
    ⟨before, slot, after, hsplit, hb, ⟨err, henc, hw⟩ | ⟨h1, h2, hw⟩⟩
  · rw [hw]
    have e : b.touch timestamp loc
        = { b.touch timestamp loc with encoders := before ++ slot :: after } := by
      rw [← hsplit]; rfl
    rw [write_eq]
    have hscan : scanEncoders timestamp loc (b.touch timestamp loc).encoders
        = Scan.discard := by
      show scanEncoders timestamp loc b.encoders = Scan.discard
      rw [hsplit]
      exact scanEncoders_of_watermark timestamp loc before after slot hlw hloc hb
    rw [hscan]
    simp only
    rw [e, touch_touch]
  · rw [hw] at h; cases h
  · rw [hw]
    rw [write_eq]
    have hscan : scanEncoders timestamp loc
        ({ b.touch timestamp loc with
            encoders := before ++ slot.encoded timestamp loc value unit ann :: after } :
          dbBufferBucket).encoders = Scan.discard :=
      scanEncoders_of_watermark timestamp loc before after _ rfl rfl hb
    rw [hscan]
    simp only
    rw [touch_touch]

/-- C9 (amended): duplicate-timestamp idempotence.  With a positive block size dividing the
distance between the zero time and the Unix epoch, take a `Write` of a timestamp `t` within
the range of `UnixNano` whose window is at most one block away from the window of the clock
reading `DrainAndReset` takes inside `Write` (as it is when that reading admits `t` and both
tolerances are at most one block), that reading being at least one block after the Unix
epoch and within the range of `UnixNano`.  If the `Write` returns success, an immediately
following `Write` of the same time value admitted at the same clock reading, with any value,
unit and annotation, whatever the encoders do and whatever `DrainAndReset` would read,
returns success and leaves the whole buffer, sink included, exactly as the first write left
it. -/
theorem C9_duplicate_write_idempotent (fault : EncodeFault) (b b' : dbBuffer)
    (now nowDrain timestamp : Int) (loc value unit : Nat) (ann : List Nat)
    (hbs : 0 < b.blockSize) (hdvd : b.blockSize ∣ unixToInternal)
    (hnow : b.blockSize ≤ nowDrain) (hmax : nowDrain ≤ maxInt64)
    (htmax : timestamp ≤ maxInt64)
    (hring : Truncate nowDrain b.blockSize - b.blockSize ≤ Truncate timestamp b.blockSize ∧
      Truncate timestamp b.blockSize ≤ Truncate nowDrain b.blockSize + b.blockSize)
    (hw : b.Write fault now nowDrain timestamp loc value unit ann = some (b', none))
    (fault' : EncodeFault) (nowDrain' : Int) (value' unit' : Nat) (ann' : List Nat) :
    b'.Write fault' now nowDrain' timestamp loc value' unit' ann' = some (b', none) := by
  obtain ⟨hf, hp⟩ := Write_success_admitted fault b b' now nowDrain timestamp loc value unit
    ann hw
  obtain ⟨idx, b1, hidx, hpair, hb1, hstart, hb', he⟩ := Write_routed fault b b' now nowDrain
    timestamp loc value unit ann none hbs hdvd hnow hmax htmax hring hf hp hw
  have hwr : ((b1.buckets.get idx).write fault timestamp loc value unit ann).2 = none := by
    cases hx : ((b1.buckets.get idx).write fault timestamp loc value unit ann).2 with
    | none => rfl
    | some x => rw [hx] at he; cases he
  have hfields : b1.blockSize = b.blockSize ∧ b1.bufferPast = b.bufferPast ∧
      b1.bufferFuture = b.bufferFuture := by
    rcases hb1 with ⟨-, rfl⟩ | ⟨-, h2⟩
    · exact ⟨rfl, rfl, rfl⟩
    · obtain ⟨-, f1, f2, f3⟩ := drainAndResetResult_fields fault b b1 nowDrain false h2
      exact ⟨f1, f2, f3⟩
  have hfields' : b'.blockSize = b.blockSize ∧ b'.bufferPast = b.bufferPast ∧
      b'.bufferFuture = b.bufferFuture := by
    rw [hb']
    exact hfields
  have hget : b'.buckets.get idx
      = ((b1.buckets.get idx).write fault timestamp loc value unit ann).1 := by
    rw [hb', setBucket_get, if_pos rfl]
  rw [Write_of_admitted fault' b' now nowDrain' timestamp loc value' unit' ann'
    (by rw [hfields'.2.2]; exact hf) (by rw [hfields'.2.1]; exact hp)]
  have hstart' : (b'.buckets.get idx).start = Truncate timestamp b'.blockSize := by
    rw [hget, (write_fields fault _ timestamp loc value unit ann).1, hstart, hfields'.1]
  simp only [goDiv, hfields'.1, if_neg (ne_of_gt hbs), Option.some_bind, hidx]
  have hno : (b'.bucketState now (b'.buckets.get idx) (Truncate timestamp b.blockSize)).2.2
      = false := by
    rw [← hfields'.1]
    simp [dbBuffer.bucketState, hstart']
  rw [hno]
  simp only [Bool.false_eq_true, if_false, Option.some_bind]
  rw [hget, write_idempotent fault _ timestamp loc value unit ann hwr]
  simp only [Option.map_none']
  rw [← hget]
  unfold dbBuffer.setBucket
  rw [Buckets.set_get]

/-- C9 fails as stated, in four ways; each time an accepted write lands in a bucket bound
to another window than its own and a second, identical `Write`, admitted at the same clock
reading, rotates the ring again, hands that bucket to the sink and marks it drained.
(1) `Write` reads the clock for the admission test and `DrainAndReset`, inside `Write`,
reads it again: in the buffer built at `100` with blocks of `10`, a write of `128` admitted
at reading `132` with the rotation at reading `167` lands in `buckets[0]`, which the rotation
binds to `150`, the past-most window at `167`; the second `Write` has the same two
readings.  (2) `UnixNano` wraps around: in the buffer built one nanosecond before the last
instant of its range, the admitted timestamp four nanoseconds later lands in `buckets[0]`,
bound to the window before its own; the second `Write`, whose rotation reads the clock ten
nanoseconds later, drains that bucket.  (3) With a future tolerance above one block the
write of `125` at `105` lands in the bucket of the past-most window.  (4) So does, with
blocks of one week, which do not divide the distance between the zero time and the Unix
epoch, a write on a Thursday at a clock reading of the Sunday before. -/
theorem C9_counterexample :
    (Reachable (monotoneFrom sampleBuffer.blockSize) anyCall sampleBuffer 100 ∧
      sampleBuffer.blockSize ∣ unixToInternal ∧
      0 ≤ sampleBuffer.bufferPast ∧ sampleBuffer.bufferPast ≤ sampleBuffer.blockSize ∧
      0 ≤ sampleBuffer.bufferFuture ∧ sampleBuffer.bufferFuture ≤ sampleBuffer.blockSize ∧
      ∃ b1 b2, sampleBuffer.Write noFault 132 167 128 0 1 0 [] = some (b1, none) ∧
        b1.Write noFault 132 167 128 0 9 0 [] = some (b2, none) ∧
        (b1.buckets.get 0).start = 150 ∧
        b1.sink.length = 0 ∧ b2.sink.length = 1 ∧
        (b1.buckets.get 0).drained = false ∧ (b2.buckets.get 0).drained = true) ∧
    (Reachable (clockWithin lateBuffer.blockSize) anyCall lateBuffer (maxInt64 - 1) ∧
      lateBuffer.blockSize ∣ unixToInternal ∧
      0 ≤ lateBuffer.bufferPast ∧ lateBuffer.bufferPast ≤ lateBuffer.blockSize ∧
      0 ≤ lateBuffer.bufferFuture ∧ lateBuffer.bufferFuture ≤ lateBuffer.blockSize ∧
      ∃ b1 b2, lateBuffer.Write noFault (maxInt64 - 1) (maxInt64 - 1) (maxInt64 + 3) 0 1 0 []
          = some (b1, none) ∧
        b1.Write noFault (maxInt64 - 1) (maxInt64 + 9) (maxInt64 + 3) 0 9 0 []
          = some (b2, none) ∧
        (b1.buckets.get 0).start = Truncate (maxInt64 + 3) lateBuffer.blockSize
          - lateBuffer.blockSize ∧
        b1.sink.length = 0 ∧ b2.sink.length = 1 ∧
        (b1.buckets.get 0).drained = false ∧ (b2.buckets.get 0).drained = true) ∧
    (Reachable anyClock anyCall wideBuffer 105 ∧
      ∃ b1 b2, wideBuffer.Write noFault 105 105 125 0 1 0 [] = some (b1, none) ∧
        b1.Write noFault 105 105 125 0 9 0 [] = some (b2, none) ∧
        b1.sink.length = 0 ∧ b2.sink.length = 1 ∧
        (b1.buckets.get 0).drained = false ∧ (b2.buckets.get 0).drained = true) ∧
    (Reachable (clockFrom weekWideBuffer.blockSize) anyCall weekWideBuffer sundayNoon ∧
      0 < weekWideBuffer.blockSize ∧
      0 ≤ weekWideBuffer.bufferPast ∧
      weekWideBuffer.bufferPast ≤ weekWideBuffer.blockSize ∧
      0 ≤ weekWideBuffer.bufferFuture ∧
      weekWideBuffer.bufferFuture ≤ weekWideBuffer.blockSize ∧
      weekWideBuffer.blockSize ≤ sundayNoon ∧
      ∃ b1 b2, weekWideBuffer.Write noFault sundayNoon sundayNoon thursdayNoon 0 1 0 []
          = some (b1, none) ∧
        b1.Write noFault sundayNoon sundayNoon thursdayNoon 0 9 0 [] = some (b2, none) ∧
        b1.sink.length = 0 ∧ b2.sink.length = 1) := by
  refine ⟨⟨sampleBuffer_reachable _ anyCall (by decide), by decide, by decide, by decide,
      by decide, by decide, _, _, rfl, rfl, by decide, by decide, by decide, by decide,
      by decide⟩,
    ⟨Reachable.init sampleOptions (maxInt64 - 1) lateBuffer (by decide) (by decide),
      by decide, by decide, by decide, by decide, by decide, _, _, rfl, rfl, by decide,
      by decide, by decide, by decide, by decide⟩,
    ⟨Reachable.init wideOptions 105 wideBuffer trivial (by decide),
      _, _, rfl, rfl, by decide, by decide, by decide, by decide⟩,
    Reachable.init weekWideOptions sundayNoon weekWideBuffer (by decide) (by decide),
    by decide, by decide, by decide, by decide, by decide, by decide,
    _, _, rfl, rfl, by decide, by decide⟩

theorem C9_duplicate_write_idempotent_witness :
    0 < sampleBuffer.blockSize ∧ sampleBuffer.blockSize ∣ unixToInternal ∧
    sampleBuffer.blockSize ≤ 101 ∧ (101 : Int) ≤ maxInt64 ∧ (103 : Int) ≤ maxInt64 ∧
    (Truncate 101 sampleBuffer.blockSize - sampleBuffer.blockSize
        ≤ Truncate 103 sampleBuffer.blockSize ∧
      Truncate 103 sampleBuffer.blockSize
        ≤ Truncate 101 sampleBuffer.blockSize + sampleBuffer.blockSize) ∧
    sampleBuffer.Write noFault 100 101 103 0 1 0 [] = some (sampleOne, none) ∧
    sampleOne.Write allFault 100 102 103 0 9 2 [1] = some (sampleOne, none) :=
  ⟨by decide, by decide, by decide, by decide, by decide, by decide, by decide,
    C9_duplicate_write_idempotent noFault sampleBuffer sampleOne 100 101 103 0 1 0 []
      (by decide) (by decide) (by decide) (by decide) (by decide) (by decide) (by decide)
      allFault 102 9 2 [1]⟩

/-! ## Accepted writes are readable -/

theorem drainNeeded_unforced (b : dbBuffer) (now : Int) (bucket : dbBufferBucket) (c : Int)
    (h : drainNeeded b now false bucket c = true)
    (hr : resetNeeded b now false bucket c = false) :
    bucket.start = c ∧ c + b.blockSize < now - b.bufferPast := by
  rw [resetNeeded_unforced] at hr
  have hs : bucket.start = c := by simpa using hr
  refine ⟨hs, ?_⟩
  simp only [drainNeeded, dbBuffer.bucketState, Bool.false_and, Bool.false_eq_true, if_false,
    hs, decide_True, Bool.not_true, Bool.and_false, Bool.false_or, Bool.and_eq_true,
    decide_eq_true_eq] at h
  omega

theorem resetNeeded_of_forced_drain (b : dbBuffer) (now : Int) (bucket : dbBufferBucket)
    (c : Int) (h : drainNeeded b now true bucket c = true) :
    resetNeeded b now true bucket c = true :=
  resetNeeded_forced b now bucket c (by rw [← drainNeeded_forced b now bucket c]; exact h)

theorem drainAndResetResult_drainedAged (fault : EncodeFault) (b b' : dbBuffer)
    (prev now : Int) (forced : Bool) (hle : prev ≤ now) (h : b.drainedAged prev)
    (hd : drainAndResetResult fault b now forced = some b') : b'.drainedAged now := by
  intro j hj
  obtain ⟨-, f1, f2, -⟩ := drainAndResetResult_fields fault b b' now forced hd
  obtain ⟨r, hr, hget⟩ := drainAndResetResult_get fault b b' now forced hd j
  rw [hget] at hj ⊢
  rw [f1, f2]
  rcases drainAndResetBucket_cases fault b now forced _ _ r hr with
    ⟨-, -, h1⟩ | ⟨hdn, first, rest, -, -, h1⟩
  · rw [h1] at hj ⊢
    split at hj
    · cases hj
    · next hres =>
      rw [if_neg hres]
      have := h j hj
      omega
  · rw [h1] at hj ⊢
    split at hj
    · cases hj
    · next hres =>
      rw [if_neg hres, handOff_start, sort_start]
      have hres' : resetNeeded b now forced (b.buckets.get j) (b.paired now j) = false := by
        simpa using hres
      cases forced
      · obtain ⟨hs, hlt⟩ := drainNeeded_unforced b now _ _ hdn hres'
        rw [hs]; exact hlt
      · rw [resetNeeded_of_forced_drain b now _ _ hdn] at hres'
        cases hres'

/-- Under a non-decreasing clock, every drained bucket of a reachable buffer had aged out of
the past tolerance at the last clock reading. -/
theorem Reachable.drainedAged {clock : Int → Int → Prop} {allowed : Call → Prop}
    (hclock : ∀ prev next, clock prev next → prev ≤ next) {b : dbBuffer} {last : Int}
    (h : Reachable clock allowed b last) : b.drainedAged last := by
  induction h with
  | init opts now b _ hb =>
    intro j hj
    rw [Reset_get _ now b hb j] at hj
    cases hj
  | step b prev c b' _ hc1 hc2 _ hc ih =>
    cases c with
    | reset now =>
      intro j hj
      rw [Reset_get b now b' hc j] at hj
      cases hj
    | drainAndReset fault now forced =>
      exact drainAndResetResult_drainedAged fault b b' prev now forced (hclock _ _ hc1) ih
        (DrainAndReset_some fault b b' now forced hc)
    | write fault now nowDrain timestamp loc value unit ann =>
      have hle : prev ≤ nowDrain := le_trans (hclock _ _ hc1) (hclock _ _ hc2)
      have hmono : b.drainedAged nowDrain := by
        intro j hj
        have := ih j hj
        omega
      simp only [dbBuffer.call, Option.map_eq_some', Prod.exists, exists_and_right,
        exists_eq_right] at hc
      obtain ⟨e, hw⟩ := hc
      rcases le_or_lt (now + b.bufferFuture) timestamp with hf | hf
      · rw [Write_tooFuture fault b now nowDrain timestamp loc value unit ann hf] at hw
        simp only [Option.some.injEq, Prod.mk.injEq] at hw
        rw [← hw.1]; exact hmono
      · rcases le_or_lt timestamp (now - b.bufferPast) with hp | hp
        · rw [Write_tooPast fault b now nowDrain timestamp loc value unit ann hf hp] at hw
          simp only [Option.some.injEq, Prod.mk.injEq] at hw
          rw [← hw.1]; exact hmono
        · obtain ⟨idx, b1, -, -, hb1, hb', -⟩ := Write_admitted_cases fault b b' now nowDrain
            timestamp loc value unit ann e hf hp hw
          have h1 : b1.drainedAged nowDrain := by
            rcases hb1 with ⟨-, rfl⟩ | ⟨-, hd⟩
            · exact hmono
            · exact drainAndResetResult_drainedAged fault b b1 prev nowDrain false hle ih
                (DrainAndReset_some fault b b1 nowDrain false hd)
          intro j hj
          rw [hb'] at hj ⊢
          rw [setBucket_get] at hj ⊢
          split at hj
          · next hji =>
            rw [if_pos hji]
            rw [(write_fields fault _ timestamp loc value unit ann).2.1] at hj
            rw [(write_fields fault _ timestamp loc value unit ann).1]
            rw [← hji] at hj ⊢
            exact h1 j hj
          · next hji =>
            rw [if_neg hji]
            exact h1 j hj

/-- With the clock past the Unix epoch plus one block, a traversal that only collects
returns what is kept of each of the three buckets. -/
theorem forEachBucketAsc_collect_some {β : Type} (b : dbBuffer) (now : Int)
    (hbs : 0 < b.blockSize) (hnow : b.blockSize ≤ now) (hmax : now ≤ maxInt64)
    (keep : Fin 3 → Option β) :
    ∃ res, b.forEachBucketAsc now (fun acc idx _ =>
        some (acc ++ (keep idx).toList.map (fun x => (idx, x)))) [] = some res ∧
      ∀ idx x, keep idx = some x → (idx, x) ∈ res := by
  rw [forEachBucketAsc_eq b now hbs hnow hmax]
  simp only [Option.some_bind, List.nil_append]
  refine ⟨_, rfl, ?_⟩
  intro idx x hk
  simp only [List.mem_append]
  rcases fin3_cases (b.firstIdx now) idx with e | e | e <;> subst e
  · left; left; rw [hk]; simp
  · left; right; rw [hk]; simp
  · right; rw [hk]; simp

theorem IsEmpty_of_dirty (b : dbBuffer) (now : Int) (hbs : 0 < b.blockSize)
    (hnow : b.blockSize ≤ now) (hmax : now ≤ maxInt64) (idx : Fin 3)
    (h : (b.buckets.get idx).dirty = true) :
    b.IsEmpty now = some false := by
  rw [IsEmpty_eq b now hbs hnow hmax]
  rcases fin3_cases (b.firstIdx now) idx with e | e | e <;> subst e <;> simp [h]

/-- C4 (amended): accepted writes are readable.  Take a buffer reachable by `Write`,
`DrainAndReset` and `Reset` calls under a non-decreasing clock, with a positive block size
that divides the distance between the zero time and the Unix epoch.  Take a `Write` of a
timestamp `t` within the range of `UnixNano`, admitted at a clock reading not before the last
one, whose window is at most one block away from the window of the clock reading
`DrainAndReset` takes inside `Write` (as it is when that reading admits `t` and both
tolerances are at most one block), that reading being at least one block after the Unix
epoch and within the range of `UnixNano`.  If the `Write` returns success, then the bucket
`buckets[(t / blockSize) mod 3]` is bound to `truncate(t, blockSize)` and is not drained,
and at every clock reading at least one block after the Unix epoch and within the range of
`UnixNano` `IsEmpty()` is false and `ReadEncoded(start, end)` returns, for every
`start <= t < end`, a group read from that bucket. -/
theorem C4_accepted_write_readable {allowed : Call → Prop} {b : dbBuffer} {last : Int}
    (h : Reachable nonDecreasing allowed b last)
    (hbs : 0 < b.blockSize) (hdvd : b.blockSize ∣ unixToInternal)
    (fault : EncodeFault) (now nowDrain timestamp : Int) (loc value unit : Nat) (ann : List Nat)
    (b' : dbBuffer) (hmono : last ≤ now)
    (hnow : b.blockSize ≤ nowDrain) (hmax : nowDrain ≤ maxInt64)
    (htmax : timestamp ≤ maxInt64)
    (hring : Truncate nowDrain b.blockSize - b.blockSize ≤ Truncate timestamp b.blockSize ∧
      Truncate timestamp b.blockSize ≤ Truncate nowDrain b.blockSize + b.blockSize)
    (hw : b.Write fault now nowDrain timestamp loc value unit ann = some (b', none))
    (nowRead : Int) (hread : b.blockSize ≤ nowRead) (hreadmax : nowRead ≤ maxInt64) :
    b'.IsEmpty nowRead = some false ∧
    ∃ idx, bucketIndex (Int.tmod (Int.tdiv (UnixNano timestamp) b.blockSize) bucketsLen)
        = some idx ∧
      UnixNano timestamp = timestamp ∧
      (b'.buckets.get idx).start = Truncate timestamp b.blockSize ∧
      (b'.buckets.get idx).drained = false ∧
      ∀ start end_, start ≤ timestamp → timestamp < end_ →
        ∃ res, b'.readEncodedFrom nowRead start end_ = some res ∧
          b'.ReadEncoded nowRead start end_ = some (res.map Prod.snd) ∧
          (idx, readBucketStreams (b'.buckets.get idx)) ∈ res := by
  obtain ⟨hf, hp⟩ := Write_success_admitted fault b b' now nowDrain timestamp loc value unit
    ann hw
  obtain ⟨idx, b1, hidx, hpair, hb1, hstart, hb', he⟩ := Write_routed fault b b' now nowDrain
    timestamp loc value unit ann none hbs hdvd hnow hmax htmax hring hf hp hw
  have ht0 : 0 ≤ timestamp := window_nonneg b nowDrain timestamp hbs hdvd hnow hring.1
  have ht : timeZero < timestamp := by
    have := timeZero_neg
    omega
  have hget : b'.buckets.get idx
      = ((b1.buckets.get idx).write fault timestamp loc value unit ann).1 := by
    rw [hb', setBucket_get, if_pos rfl]
  obtain ⟨w1, w2, -, w4⟩ := write_fields fault (b1.buckets.get idx) timestamp loc value unit ann
  have hbs' : b'.blockSize = b.blockSize := by
    rw [hb']
    rcases hb1 with ⟨-, rfl⟩ | ⟨-, h2⟩
    · rfl
    · exact (drainAndResetResult_fields fault b b1 nowDrain false h2).2.1
  have hdr1 : (b1.buckets.get idx).drained = false := by
    rcases hb1 with ⟨hs, rfl⟩ | ⟨hne, h2⟩
    · cases hd : (b1.buckets.get idx).drained
      · rfl
      · exfalso
        have h1 := Reachable.drainedAged (fun _ _ hc => hc) h idx hd
        have h2 := lt_Truncate_add timestamp b1.blockSize hbs
        rw [hs] at h1
        omega
    · obtain ⟨r, hr, hj⟩ := drainAndResetResult_get fault b b1 nowDrain false h2 idx
      have hres : resetNeeded b nowDrain false (b.buckets.get idx) (b.paired nowDrain idx)
          = true := by
        rw [resetNeeded_unforced, hpair]
        simp [hne]
      rw [hj]
      exact (drainAndResetBucket_reset fault b nowDrain false _ _ r hr hres).2.1
  have hstart' : (b'.buckets.get idx).start = Truncate timestamp b.blockSize := by
    rw [hget, w1, hstart]
  have hdr' : (b'.buckets.get idx).drained = false := by
    rw [hget, w2, hdr1]
  have hdirty : (b'.buckets.get idx).dirty = true := by
    unfold dbBufferBucket.dirty
    rw [hdr']
    have hl : (b'.buckets.get idx).lastWriteAt ≠ timeZero := by
      rw [hget, w4]
      have := le_max_right (b1.buckets.get idx).lastWriteAt timestamp
      omega
    simp [hl]
  refine ⟨IsEmpty_of_dirty b' nowRead (by rw [hbs']; exact hbs) (by rw [hbs']; exact hread)
    hreadmax idx hdirty, idx, hidx, UnixNano_of_nonneg timestamp ht0 htmax, hstart', hdr', ?_⟩
  intro start end_ hs1 hs2
  obtain ⟨res, hres, hmem⟩ := forEachBucketAsc_collect_some b' nowRead
    (by rw [hbs']; exact hbs) (by rw [hbs']; exact hread) hreadmax
    (b'.readEncodedKeep start end_)
  refine ⟨res, by rw [readEncodedFrom_eq]; exact hres, ?_, ?_⟩
  · rw [dbBuffer.ReadEncoded, readEncodedFrom_eq, hres]
    rfl
  · apply hmem
    unfold dbBuffer.readEncodedKeep
    have h1 := Truncate_le timestamp b.blockSize hbs
    have h2 := lt_Truncate_add timestamp b.blockSize hbs
    rw [if_pos]
    refine ⟨hdirty, ?_, ?_⟩
    · rw [hstart', hbs']; omega
    · rw [hstart']; omega

/-- C4 fails as stated, in four ways; each time `Write` returns success and `ReadEncoded`
over a range around the timestamp returns no group at all.  (1) `Write` reads the clock for
the admission test and `DrainAndReset`, inside `Write`, reads it again: in the buffer built
at `100` with blocks of `10`, a write of `128` admitted at reading `132`, with the rotation
at reading `140`, lands in `buckets[0]`, which the rotation binds to `150`.  (2) `UnixNano`
wraps around: in the buffer built one nanosecond before the last instant of its range, the
admitted timestamp four nanoseconds later lands in the bucket of the window before its own.
(3) With blocks of one week, which do not divide the distance between the zero time and the
Unix epoch, a write on a Friday lands in the bucket bound to the following Monday.  (4) With
a clock before the Unix epoch Go's integer division rounds the ring index toward zero. -/
theorem C4_counterexample :
    (Reachable (monotoneFrom sampleBuffer.blockSize) anyCall sampleBuffer 100 ∧
      sampleBuffer.blockSize ∣ unixToInternal ∧
      0 ≤ sampleBuffer.bufferPast ∧ sampleBuffer.bufferPast ≤ sampleBuffer.blockSize ∧
      0 ≤ sampleBuffer.bufferFuture ∧ sampleBuffer.bufferFuture ≤ sampleBuffer.blockSize ∧
      ∃ b', sampleBuffer.Write noFault 132 140 128 0 1 0 [] = some (b', none) ∧
        b'.ReadEncoded 132 128 129 = some [] ∧ b'.ReadEncoded 140 128 129 = some []) ∧
    (Reachable (monotoneWithin lateBuffer.blockSize) anyCall lateBuffer (maxInt64 - 1) ∧
      lateBuffer.blockSize ∣ unixToInternal ∧
      0 ≤ lateBuffer.bufferPast ∧ lateBuffer.bufferPast ≤ lateBuffer.blockSize ∧
      0 ≤ lateBuffer.bufferFuture ∧ lateBuffer.bufferFuture ≤ lateBuffer.blockSize ∧
      ∃ b', lateBuffer.Write noFault (maxInt64 - 1) (maxInt64 - 1) (maxInt64 + 3) 0 1 0 []
          = some (b', none) ∧
        b'.ReadEncoded (maxInt64 - 1) (maxInt64 + 3) (maxInt64 + 4) = some []) ∧
    (Reachable (monotoneWithin weekBuffer.blockSize) anyCall weekBuffer fridayNoon ∧
      0 < weekBuffer.blockSize ∧
      0 ≤ weekBuffer.bufferPast ∧ weekBuffer.bufferPast ≤ weekBuffer.blockSize ∧
      0 ≤ weekBuffer.bufferFuture ∧ weekBuffer.bufferFuture ≤ weekBuffer.blockSize ∧
      ∃ b', weekBuffer.Write noFault fridayNoon fridayNoon fridayNoon 0 1 0 []
          = some (b', none) ∧
        b'.ReadEncoded fridayNoon fridayNoon (fridayNoon + 1) = some []) ∧
    (Reachable nonDecreasing anyCall earlyBuffer (-11) ∧
      0 < earlyBuffer.blockSize ∧ earlyBuffer.blockSize ∣ unixToInternal ∧
      0 ≤ earlyBuffer.bufferPast ∧ earlyBuffer.bufferPast ≤ earlyBuffer.blockSize ∧
      0 ≤ earlyBuffer.bufferFuture ∧ earlyBuffer.bufferFuture ≤ earlyBuffer.blockSize ∧
      ∃ b', earlyBuffer.Write noFault (-11) (-11) (-2) 0 1 0 [] = some (b', none) ∧
        b'.ReadEncoded (-11) (-2) (-1) = some []) := by
  refine ⟨⟨sampleBuffer_reachable _ anyCall (by decide), by decide, by decide, by decide,
      by decide, by decide, _, rfl, by decide, by decide⟩,
    ⟨Reachable.init sampleOptions (maxInt64 - 1) lateBuffer (by decide) (by decide),
      by decide, by decide, by decide, by decide, by decide, _, rfl, by decide⟩,
    ⟨Reachable.init weekOptions fridayNoon weekBuffer (by decide) (by decide),
      by decide, by decide, by decide, by decide, by decide, _, rfl, by decide⟩,
    Reachable.init earlyOptions (-11) earlyBuffer (by decide) (by decide),
    by decide, by decide, by decide, by decide, by decide, by decide, _, rfl, by decide⟩

theorem C4_accepted_write_readable_witness :
    Reachable nonDecreasing anyCall sampleBuffer 100 ∧
    0 < sampleBuffer.blockSize ∧ sampleBuffer.blockSize ∣ unixToInternal ∧
    (100 : Int) ≤ 100 ∧ sampleBuffer.blockSize ≤ 101 ∧ (101 : Int) ≤ maxInt64 ∧
    (103 : Int) ≤ maxInt64 ∧
    (Truncate 101 sampleBuffer.blockSize - sampleBuffer.blockSize
        ≤ Truncate 103 sampleBuffer.blockSize ∧
      Truncate 103 sampleBuffer.blockSize
        ≤ Truncate 101 sampleBuffer.blockSize + sampleBuffer.blockSize) ∧
    sampleBuffer.Write noFault 100 101 103 0 1 0 [] = some (sampleOne, none) ∧
    sampleBuffer.blockSize ≤ 102 ∧ (102 : Int) ≤ maxInt64 ∧
    (sampleOne.IsEmpty 102 = some false ∧
    ∃ idx, bucketIndex (Int.tmod (Int.tdiv (UnixNano 103) sampleBuffer.blockSize) bucketsLen)
        = some idx ∧
      UnixNano 103 = 103 ∧
      (sampleOne.buckets.get idx).start = Truncate 103 sampleBuffer.blockSize ∧
      (sampleOne.buckets.get idx).drained = false ∧
      ∀ start end_, start ≤ 103 → 103 < end_ →
        ∃ res, sampleOne.readEncodedFrom 102 start end_ = some res ∧
          sampleOne.ReadEncoded 102 start end_ = some (res.map Prod.snd) ∧
          (idx, readBucketStreams (sampleOne.buckets.get idx)) ∈ res) :=
  ⟨sampleBuffer_reachable _ anyCall (by decide), by decide, by decide, by decide, by decide,
    by decide, by decide, by decide, by decide, by decide, by decide,
    C4_accepted_write_readable (sampleBuffer_reachable _ anyCall (by decide)) (by decide)
      (by decide) noFault 100 101 103 0 1 0 [] sampleOne (by decide) (by decide) (by decide)
      (by decide) (by decide) (by decide) 102 (by decide) (by decide)⟩

/-! ## Three buckets suffice -/

/-- C12 (amended): three buckets suffice.  With a positive block size and both tolerances at
most one block, the window `truncate(t, blockSize)` of a timestamp `t` with
`now - bufferPast < t < now + bufferFuture` is `truncate(now) - blockSize`, `truncate(now)`
or `truncate(now) + blockSize`; and when the double of the block size fits an `int64` (blocks
of less than about 146 years) these are, in this order, the three windows `forEachBucketAsc`
passes to its callback at `now`, whenever it gets to call it, as it does when `now` is at
least one block after the Unix epoch and within the range of `UnixNano`, that is not after
2262-04-11T23:47:16.854775807Z. -/
theorem C12_three_buckets_suffice (b : dbBuffer) (now timestamp : Int)
    (hbs : 0 < b.blockSize) (hpast : b.bufferPast ≤ b.blockSize)
    (hfuture : b.bufferFuture ≤ b.blockSize)
    (hp : now - b.bufferPast < timestamp) (hf : timestamp < now + b.bufferFuture) :
    (Truncate timestamp b.blockSize = Truncate now b.blockSize - b.blockSize ∨
      Truncate timestamp b.blockSize = Truncate now b.blockSize ∨
      Truncate timestamp b.blockSize = Truncate now b.blockSize + b.blockSize) ∧
    (2 * b.blockSize ≤ maxInt64 →
      ∀ ws, b.forEachBucketAsc now (fun acc _ start => some (acc ++ [start])) [] = some ws →
      ws = [Truncate now b.blockSize - b.blockSize, Truncate now b.blockSize,
            Truncate now b.blockSize + b.blockSize]) ∧
    (b.blockSize ≤ now → now ≤ maxInt64 →
      ∃ ws, b.forEachBucketAsc now (fun acc _ start => some (acc ++ [start])) [] = some ws) := by
  refine ⟨?_, ?_, ?_⟩
  · have h := admitted_window b now timestamp hbs hpast hfuture hp hf
    unfold dbBuffer.pastMost at h
    omega
  · intro hbs2 ws hws
    rcases forEachBucketAsc_cases b now with hn | hv
    · rw [hn] at hws
      cases hws
    · rw [hv] at hws
      simp only [Option.some_bind, List.nil_append, List.cons_append, Option.some.injEq]
        at hws
      rw [← hws, paired_first, paired_second b now hbs (by omega),
        paired_third b now hbs hbs2]
      unfold dbBuffer.pastMost
      have e1 : Truncate now b.blockSize + -1 * b.blockSize
          = Truncate now b.blockSize - b.blockSize := by omega
      have e2 : Truncate now b.blockSize + -1 * b.blockSize + b.blockSize
          = Truncate now b.blockSize := by omega
      have e3 : Truncate now b.blockSize + -1 * b.blockSize + 2 * b.blockSize
          = Truncate now b.blockSize + b.blockSize := by omega
      rw [e2, e3, e1]
  · intro hnow hmax
    rw [forEachBucketAsc_eq b now hbs hnow hmax]
    exact ⟨_, rfl⟩

/-- C12 fails as stated, in three ways.  (1) The offset `time.Duration(i) * b.blockSize` is an
`int64` product: with blocks of 7766949600 seconds (about 246 years, one eighth of the
distance between the zero time and the Unix epoch) and a future tolerance of one block, at
2216-02-16T06:00:05Z the timestamp 2462-04-01T12:00:00Z is within the tolerances and its
window is `truncate(now) + blockSize`, but the third window `forEachBucketAsc` passes to its
callback starts `2 ^ 64` nanoseconds earlier, in 1877.  (2) With blocks of two hours, at
2300-01-01T02:00:00Z `forEachBucketAsc` panics on the index `-2` and passes no window at all.
(3) So it does, on the index `-1`, with blocks of `10` at clock reading `5`, less than one
block after the Unix epoch. -/
theorem C12_counterexample :
    (0 < longBuffer.blockSize ∧ longBuffer.bufferPast ≤ longBuffer.blockSize ∧
      longBuffer.blockSize ∣ unixToInternal ∧
      longBuffer.blockSize ≤ longTime 5 ∧ longTime 5 ≤ maxInt64 ∧
      longTime 5 - longBuffer.bufferPast < longTime 7766949600 ∧
      longTime 7766949600 < longTime 5 + longBuffer.blockSize ∧
      ({ longBuffer with bufferFuture := longBuffer.blockSize } : dbBuffer).forEachBucketAsc
          (longTime 5) (fun acc _ start => some (acc ++ [start])) []
        = some [0, longBuffer.blockSize, 2 * longBuffer.blockSize - 18446744073709551616] ∧
      Truncate (longTime 7766949600) longBuffer.blockSize
        = Truncate (longTime 5) longBuffer.blockSize + longBuffer.blockSize ∧
      Truncate (longTime 7766949600) longBuffer.blockSize = 2 * longBuffer.blockSize ∧
      Truncate (longTime 7766949600) longBuffer.blockSize
        ∉ [0, longBuffer.blockSize, 2 * longBuffer.blockSize - 18446744073709551616]) ∧
    (0 < scenarioOne.blockSize ∧ scenarioOne.bufferPast ≤ scenarioOne.blockSize ∧
      scenarioOne.bufferFuture ≤ scenarioOne.blockSize ∧
      scenarioOne.blockSize ≤ wrapTime 7200 ∧
      wrapTime 7200 - scenarioOne.bufferPast < wrapTime 7200 ∧
      wrapTime 7200 < wrapTime 7200 + scenarioOne.bufferFuture ∧
      scenarioOne.forEachBucketAsc (wrapTime 7200) (fun acc _ start => some (acc ++ [start])) []
        = none) ∧
    (0 < sampleBuffer.blockSize ∧ sampleBuffer.bufferPast ≤ sampleBuffer.blockSize ∧
      sampleBuffer.bufferFuture ≤ sampleBuffer.blockSize ∧
      (5 : Int) - sampleBuffer.bufferPast < 5 ∧ (5 : Int) < 5 + sampleBuffer.bufferFuture ∧
      sampleBuffer.forEachBucketAsc 5 (fun acc _ start => some (acc ++ [start])) [] = none) := by
  refine ⟨⟨by decide, by decide, by decide, by decide, by decide, by decide, by decide,
      by decide, by decide, by decide, by decide⟩,
    ⟨by decide, by decide, by decide, by decide, by decide, by decide, by decide⟩,
    by decide, by decide, by decide, by decide, by decide, by decide⟩

theorem C12_three_buckets_suffice_witness :
    0 < sampleBuffer.blockSize ∧ sampleBuffer.bufferPast ≤ sampleBuffer.blockSize ∧
    sampleBuffer.bufferFuture ≤ sampleBuffer.blockSize ∧
    (110 : Int) - sampleBuffer.bufferPast < 114 ∧ (114 : Int) < 110 + sampleBuffer.bufferFuture ∧
    ((Truncate 114 sampleBuffer.blockSize
        = Truncate 110 sampleBuffer.blockSize - sampleBuffer.blockSize ∨
      Truncate 114 sampleBuffer.blockSize = Truncate 110 sampleBuffer.blockSize ∨
      Truncate 114 sampleBuffer.blockSize
        = Truncate 110 sampleBuffer.blockSize + sampleBuffer.blockSize) ∧
    (2 * sampleBuffer.blockSize ≤ maxInt64 →
      ∀ ws, sampleBuffer.forEachBucketAsc 110 (fun acc _ start => some (acc ++ [start])) []
        = some ws →
      ws = [Truncate 110 sampleBuffer.blockSize - sampleBuffer.blockSize,
            Truncate 110 sampleBuffer.blockSize,
            Truncate 110 sampleBuffer.blockSize + sampleBuffer.blockSize]) ∧
    (sampleBuffer.blockSize ≤ 110 → (110 : Int) ≤ maxInt64 →
      ∃ ws, sampleBuffer.forEachBucketAsc 110 (fun acc _ start => some (acc ++ [start])) []
        = some ws)) :=
  ⟨by decide, by decide, by decide, by decide, by decide,
    C12_three_buckets_suffice sampleBuffer 110 114 (by decide) (by decide) (by decide)
      (by decide) (by decide)⟩

/-! ## The bucket-state function -/

/-- When `bucketState` reports `needsDrain`, in terms of the bucket's own start. -/
theorem bucketState_needsDrain_iff (b : dbBuffer) (now : Int) (bucket : dbBufferBucket)
    (expectedStart : Int) :
    (b.bucketState now bucket expectedStart).2.1 = true ↔
      ((bucket.drained = false ∧ bucket.lastWriteAt ≠ timeZero) ∧
        (bucket.start ≠ expectedStart ∨
          bucket.start + b.blockSize < now - b.bufferPast)) := by
  unfold dbBuffer.bucketState
  simp only [Bool.or_eq_true, Bool.and_eq_true, Bool.not_eq_true', decide_eq_false_iff_not,
    decide_eq_true_eq]
  constructor
  · rintro (⟨hd, hr⟩ | ⟨hd, ha⟩)
    · exact ⟨hd, Or.inl hr⟩
    · refine ⟨hd, ?_⟩
      by_cases hs : bucket.start = expectedStart
      · right
        rw [hs]
        omega
      · exact Or.inl hs
  · rintro ⟨hd, hr | ha⟩
    · exact Or.inl ⟨hd, hr⟩
    · by_cases hs : bucket.start = expectedStart
      · right
        refine ⟨hd, ?_⟩
        rw [← hs]
        omega
      · exact Or.inl ⟨hd, hs⟩

/-- C19: the bucket-state function computes the specified triple.  `shouldRead` is "not
drained and `lastWriteAt` set", `needsReset` is "`bucket.start` differs from the expected
start", and `needsDrain`, which the code computes by testing the expected start passed in
against `now - bufferPast`, equals the specified
`not_drained_has_values && (needs_reset || bucket.start + block_size < now - buffer_past)`,
which tests the bucket's own start. -/
theorem C19_bucketState_refines_spec (b : dbBuffer) (now : Int) (bucket : dbBufferBucket)
    (expectedStart : Int) :
    b.bucketState now bucket expectedStart = bucketStateSpec b now bucket expectedStart ∧
    ((b.bucketState now bucket expectedStart).1 = true ↔
      (bucket.drained = false ∧ bucket.lastWriteAt ≠ timeZero)) ∧
    ((b.bucketState now bucket expectedStart).2.2 = true ↔ bucket.start ≠ expectedStart) ∧
    ((b.bucketState now bucket expectedStart).2.1 = true ↔
      ((bucket.drained = false ∧ bucket.lastWriteAt ≠ timeZero) ∧
        (bucket.start ≠ expectedStart ∨
          bucket.start + b.blockSize < now - b.bufferPast))) := by
  have key := bucketState_needsDrain_iff b now bucket expectedStart
  refine ⟨?_, ?_, ?_, key⟩
  · have hsr : (b.bucketState now bucket expectedStart).1
        = (bucketStateSpec b now bucket expectedStart).1 := rfl
    have hnr : (b.bucketState now bucket expectedStart).2.2
        = (bucketStateSpec b now bucket expectedStart).2.2 := by
      unfold dbBuffer.bucketState bucketStateSpec
      simp
    have hnd : (b.bucketState now bucket expectedStart).2.1
        = (bucketStateSpec b now bucket expectedStart).2.1 := by
      rw [Bool.eq_iff_iff, key]
      unfold bucketStateSpec
      simp only [Bool.or_eq_true, Bool.and_eq_true, Bool.not_eq_true',
        decide_eq_false_iff_not, decide_eq_true_eq, ne_eq]
    exact Prod.ext hsr (Prod.ext hnd hnr)
  · unfold dbBuffer.bucketState
    simp
  · unfold dbBuffer.bucketState
    simp

/-! ## Construction and `Reset` -/

theorem bucketState_needsDrain_dirty (b : dbBuffer) (now : Int) (bucket : dbBufferBucket)
    (c : Int) (h : bucket.dirty = false) : (b.bucketState now bucket c).2.1 = false := by
  unfold dbBufferBucket.dirty at h
  unfold dbBuffer.bucketState
  simp only [h, Bool.false_and, Bool.or_self]

/-- With the clock past the Unix epoch plus one block, `NeedsDrain` returns and says
whether `bucketState` reports `needsDrain` for one of the buckets. -/
theorem NeedsDrain_eq (b : dbBuffer) (now : Int) (hbs : 0 < b.blockSize)
    (hnow : b.blockSize ≤ now) (hmax : now ≤ maxInt64) :
    b.NeedsDrain now = some
      ((b.bucketState now (b.buckets.get (b.firstIdx now))
          (b.paired now (b.firstIdx now))).2.1 ||
       (b.bucketState now (b.buckets.get (b.firstIdx now + 1))
          (b.paired now (b.firstIdx now + 1))).2.1 ||
       (b.bucketState now (b.buckets.get (b.firstIdx now + 2))
          (b.paired now (b.firstIdx now + 2))).2.1) := by
  unfold dbBuffer.NeedsDrain
  rw [forEachBucketAsc_eq b now hbs hnow hmax]
  simp only [Option.some_bind, Bool.not_false, if_true, Option.some.injEq]
  cases (b.bucketState now (b.buckets.get (b.firstIdx now))
      (b.paired now (b.firstIdx now))).2.1 <;>
    cases (b.bucketState now (b.buckets.get (b.firstIdx now + 1))
      (b.paired now (b.firstIdx now + 1))).2.1 <;>
    cases (b.bucketState now (b.buckets.get (b.firstIdx now + 2))
      (b.paired now (b.firstIdx now + 2))).2.1 <;> rfl

theorem NeedsDrain_of_not_dirty (b : dbBuffer) (now : Int) (hbs : 0 < b.blockSize)
    (hnow : b.blockSize ≤ now) (hmax : now ≤ maxInt64)
    (h : ∀ j, (b.buckets.get j).dirty = false) :
    b.NeedsDrain now = some false := by
  rw [NeedsDrain_eq b now hbs hnow hmax, bucketState_needsDrain_dirty _ _ _ _ (h _),
    bucketState_needsDrain_dirty _ _ _ _ (h _), bucketState_needsDrain_dirty _ _ _ _ (h _)]
  rfl

/-- What `Reset` at a clock reading at least one block after the Unix epoch and within the
range of `UnixNano` leaves, when the double of the block size fits an `int64`. -/
theorem Reset_fresh (b0 b : dbBuffer) (now : Int) (hbs : 0 < b0.blockSize)
    (hbs2 : 2 * b0.blockSize ≤ maxInt64)
    (hnow : b0.blockSize ≤ now) (hmax : now ≤ maxInt64) (h : b0.Reset now = some b) :
    b.blockSize = b0.blockSize ∧
    (∃ i : Fin 3, (b.buckets.get i).start = Truncate now b.blockSize - b.blockSize ∧
      (b.buckets.get (i + 1)).start = Truncate now b.blockSize ∧
      (b.buckets.get (i + 2)).start = Truncate now b.blockSize + b.blockSize) ∧
    (∀ j, (∃ s, (b.buckets.get j).encoders = [s] ∧ s.lastWriteAt = timeZero ∧
        s.encoder.points = [] ∧ s.encoder.sealed = false ∧ s.encoder.closed = false ∧
        s.encoder.start = (b.buckets.get j).start) ∧
      (b.buckets.get j).lastWriteAt = timeZero ∧ (b.buckets.get j).outOfOrder = false ∧
      (b.buckets.get j).drained = false) ∧
    b.IsEmpty now = some true ∧ b.NeedsDrain now = some false := by
  obtain ⟨_, hb, _, _, _⟩ := Reset_fields b0 now b h
  have hd : ∀ j, (b.buckets.get j).dirty = false := by
    intro j
    rw [Reset_get b0 now b h j]
    exact resetTo_dirty _ _
  refine ⟨hb, ⟨b0.firstIdx now, ?_, ?_, ?_⟩, ?_,
    IsEmpty_of_not_dirty b now (hb ▸ hbs) (hb ▸ hnow) hmax hd,
    NeedsDrain_of_not_dirty b now (hb ▸ hbs) (hb ▸ hnow) hmax hd⟩
  · rw [Reset_get b0 now b h, hb]
    show b0.paired now (b0.firstIdx now) = _
    rw [paired_first]
    unfold dbBuffer.pastMost
    omega
  · rw [Reset_get b0 now b h, hb]
    show b0.paired now (b0.firstIdx now + 1) = _
    rw [paired_second b0 now hbs (by omega)]
    unfold dbBuffer.pastMost
    omega
  · rw [Reset_get b0 now b h, hb]
    show b0.paired now (b0.firstIdx now + 2) = _
    rw [paired_third b0 now hbs hbs2]
    unfold dbBuffer.pastMost
    omega
  · intro j
    rw [Reset_get b0 now b h j]
    exact ⟨⟨_, rfl, rfl, rfl, rfl, rfl, rfl⟩, rfl, rfl, rfl⟩

/-- C17 (amended): construction and `Reset`.  With a positive block size whose double fits
an `int64` (blocks of less than about 146 years) and a clock reading `now` at least one block
after the Unix epoch and within the range of `UnixNano` (not after
2262-04-11T23:47:16.854775807Z), `newDatabaseBuffer` and `Reset` return, and the buffer
they leave has its three buckets bound, in ring order, to the windows
`truncate(now) - blockSize`, `truncate(now)` and `truncate(now) + blockSize`; every bucket
has exactly one slot, with an empty, writable encoder and an unset `lastWriteAt`, an unset
bucket `lastWriteAt`, `outOfOrder = false` and `drained = false`; `IsEmpty()` is true and
`NeedsDrain()` is false. -/
theorem C17_construction_and_reset (opts : Options) (b0 : dbBuffer) (now : Int)
    (hopts : 0 < opts.blockSize) (hopts2 : 2 * opts.blockSize ≤ maxInt64)
    (hnow : opts.blockSize ≤ now)
    (hbs0 : 0 < b0.blockSize) (hbs02 : 2 * b0.blockSize ≤ maxInt64)
    (hnow0 : b0.blockSize ≤ now) (hmax : now ≤ maxInt64) :
    (∃ b, newDatabaseBuffer opts now = some b ∧ b.blockSize = opts.blockSize) ∧
    (∃ b, b0.Reset now = some b ∧ b.blockSize = b0.blockSize) ∧
    ∀ b, (newDatabaseBuffer opts now = some b ∨ b0.Reset now = some b) →
      (∃ i : Fin 3, (b.buckets.get i).start = Truncate now b.blockSize - b.blockSize ∧
        (b.buckets.get (i + 1)).start = Truncate now b.blockSize ∧
        (b.buckets.get (i + 2)).start = Truncate now b.blockSize + b.blockSize) ∧
      (∀ j, (∃ s, (b.buckets.get j).encoders = [s] ∧ s.lastWriteAt = timeZero ∧
          s.encoder.points = [] ∧ s.encoder.sealed = false ∧ s.encoder.closed = false ∧
          s.encoder.start = (b.buckets.get j).start) ∧
        (b.buckets.get j).lastWriteAt = timeZero ∧ (b.buckets.get j).outOfOrder = false ∧
        (b.buckets.get j).drained = false) ∧
      b.IsEmpty now = some true ∧ b.NeedsDrain now = some false := by
  refine ⟨?_, ?_, ?_⟩
  · obtain ⟨b, hb⟩ := Reset_isSome
      { opts := opts
        buckets := { b0 := zeroBucket opts, b1 := zeroBucket opts, b2 := zeroBucket opts }
        blockSize := opts.blockSize
        bufferPast := opts.bufferPast
        bufferFuture := opts.bufferFuture
        sink := [] } now hopts hnow hmax
    exact ⟨b, hb, (Reset_fields _ now b hb).2.1⟩
  · obtain ⟨b, hb⟩ := Reset_isSome b0 now hbs0 hnow0 hmax
    exact ⟨b, hb, (Reset_fields _ now b hb).2.1⟩
  · rintro b (hb | hb)
    · exact (Reset_fresh _ b now hopts hopts2 hnow hmax hb).2
    · exact (Reset_fresh b0 b now hbs0 hbs02 hnow0 hmax hb).2

/-- C17 fails as stated, in two ways.  (1) `UnixNano` wraps around: with blocks of two hours,
at 2300-01-01T02:00:00Z the past-most window starts at 00:00:00Z; the `int64` value of its
`UnixNano()` is negative, the first index `forEachBucketAsc` computes is `-2`, and both
`newDatabaseBuffer` and `Reset` panic on `b.buckets[idx]`.  (2) The offset
`time.Duration(i) * b.blockSize` is an `int64` product: with blocks of 7766949600 seconds
(about 246 years), at 2216-02-16T06:00:00Z, one block after the Unix epoch,
`newDatabaseBuffer` and `Reset` bind `buckets[2]` to the start of the window after the
current one less `2 ^ 64` nanoseconds, an instant of 1877, and no bucket to
`truncate(now) + blockSize`. -/
theorem C17_counterexample :
    (0 < scenarioOptions.blockSize ∧ scenarioOptions.blockSize ≤ wrapTime 7200 ∧
      0 < scenarioOne.blockSize ∧ scenarioOne.blockSize ≤ wrapTime 7200 ∧
      Truncate (wrapTime 7200) scenarioOptions.blockSize - scenarioOptions.blockSize
        = wrapTime 0 ∧
      UnixNano (wrapTime 0) = wrapTime 0 - 18446744073709551616 ∧
      Int.tmod (Int.tdiv (UnixNano (wrapTime 0)) scenarioOptions.blockSize) bucketsLen = -2 ∧
      newDatabaseBuffer scenarioOptions (wrapTime 7200) = none ∧
      scenarioOne.Reset (wrapTime 7200) = none) ∧
    (0 < longOptions.blockSize ∧ longOptions.blockSize ≤ longTime 0 ∧
      longTime 0 ≤ maxInt64 ∧
      newDatabaseBuffer longOptions (longTime 0) = some longBuffer ∧
      longBuffer.Reset (longTime 0) = some longBuffer ∧
      (longBuffer.buckets.get 2).start
        = Truncate (longTime 0) longBuffer.blockSize + longBuffer.blockSize
          - 18446744073709551616 ∧
      ∀ j, (longBuffer.buckets.get j).start
        ≠ Truncate (longTime 0) longBuffer.blockSize + longBuffer.blockSize) := by
  refine ⟨⟨by decide, by decide, by decide, by decide, by decide, by decide, by decide,
    by decide, by decide⟩, by decide, by decide, by decide, by decide, by decide, by decide,
    by decide⟩

theorem C17_construction_and_reset_witness :
    0 < sampleOptions.blockSize ∧ 2 * sampleOptions.blockSize ≤ maxInt64 ∧
    sampleOptions.blockSize ≤ 100 ∧
    0 < sampleTwo.blockSize ∧ 2 * sampleTwo.blockSize ≤ maxInt64 ∧
    sampleTwo.blockSize ≤ 100 ∧ (100 : Int) ≤ maxInt64 ∧
    newDatabaseBuffer sampleOptions 100 = some sampleBuffer ∧
    sampleTwo.Reset 100 = some sampleBuffer ∧
    ((∃ b, newDatabaseBuffer sampleOptions 100 = some b ∧
        b.blockSize = sampleOptions.blockSize) ∧
    (∃ b, sampleTwo.Reset 100 = some b ∧ b.blockSize = sampleTwo.blockSize) ∧
    ∀ b, (newDatabaseBuffer sampleOptions 100 = some b ∨ sampleTwo.Reset 100 = some b) →
      (∃ i : Fin 3, (b.buckets.get i).start = Truncate 100 b.blockSize - b.blockSize ∧
        (b.buckets.get (i + 1)).start = Truncate 100 b.blockSize ∧
        (b.buckets.get (i + 2)).start = Truncate 100 b.blockSize + b.blockSize) ∧
      (∀ j, (∃ s, (b.buckets.get j).encoders = [s] ∧ s.lastWriteAt = timeZero ∧
          s.encoder.points = [] ∧ s.encoder.sealed = false ∧ s.encoder.closed = false ∧
          s.encoder.start = (b.buckets.get j).start) ∧
        (b.buckets.get j).lastWriteAt = timeZero ∧ (b.buckets.get j).outOfOrder = false ∧
        (b.buckets.get j).drained = false) ∧
      b.IsEmpty 100 = some true ∧ b.NeedsDrain 100 = some false) :=
  ⟨by decide, by decide, by decide, by decide, by decide, by decide, by decide, by decide,
    by decide,
    C17_construction_and_reset sampleOptions sampleTwo 100 (by decide) (by decide)
      (by decide) (by decide) (by decide) (by decide) (by decide)⟩

/-! ## Selection by `ReadEncoded` -/

/-- In the result of a collecting traversal, a bucket occurs exactly when something is kept
of it, and at most once. -/
theorem forEachBucketAsc_collect_iff {β : Type} (b : dbBuffer) (now : Int)
    (keep : Fin 3 → Option β) (res : List (Fin 3 × β))
    (h : b.forEachBucketAsc now (fun acc idx _ =>
      some (acc ++ (keep idx).toList.map (fun x => (idx, x)))) [] = some res) (j : Fin 3) :
    (∀ x, (j, x) ∈ res ↔ keep j = some x) ∧
      (res.filter (fun x => decide (x.1 = j))).length ≤ 1 := by
  have hres := forEachBucketAsc_collect b now keep res h
  obtain ⟨n1, n2, n3⟩ := fin3_succ_ne (b.firstIdx now)
  have m1 : b.firstIdx now ≠ b.firstIdx now + 1 := fun e => n1 e.symm
  have m2 : b.firstIdx now ≠ b.firstIdx now + 2 := fun e => n2 e.symm
  have m3 : b.firstIdx now + 1 ≠ b.firstIdx now + 2 := fun e => n3 e.symm
  rw [hres]
  rcases fin3_cases (b.firstIdx now) j with hj | hj | hj <;> rw [hj] <;>
    cases keep (b.firstIdx now) <;> cases keep (b.firstIdx now + 1) <;>
    cases keep (b.firstIdx now + 2) <;>
    simp [n1, n2, n3, m1, m2, m3, eq_comm]

/-- C15: selection by `ReadEncoded`.  Whenever `ReadEncoded` returns (as it does when the
block size is positive and the clock reads at least one block after the Unix epoch and
within the range of `UnixNano`, that is not after 2262-04-11T23:47:16.854775807Z), a
bucket contributes a group to the result if and only if it is readable (`drained = false`
and `lastWriteAt` set) and `start < bucket.start + blockSize` and `bucket.start < end`; each
bucket contributes at most one group; and the group of a bucket holds one stream for each
slot whose encoder returns a non-nil stream, in slot order, unmerged. -/
theorem C15_readEncoded_selection (b : dbBuffer) (now start end_ : Int) :
    (0 < b.blockSize → b.blockSize ≤ now → now ≤ maxInt64 →
      ∃ res, b.readEncodedFrom now start end_ = some res) ∧
    ∀ res, b.readEncodedFrom now start end_ = some res →
      b.ReadEncoded now start end_ = some (res.map Prod.snd) ∧
      (∀ j, (∃ group, (j, group) ∈ res) ↔
        ((b.buckets.get j).drained = false ∧ (b.buckets.get j).lastWriteAt ≠ timeZero ∧
          start < (b.buckets.get j).start + b.blockSize ∧
          (b.buckets.get j).start < end_)) ∧
      (∀ j, (res.filter (fun x => decide (x.1 = j))).length ≤ 1) ∧
      (∀ x ∈ res,
        x.2 = (b.buckets.get x.1).encoders.filterMap (fun e => e.encoder.Stream)) := by
  have hkeep : ∀ j, (∃ group, b.readEncodedKeep start end_ j = some group) ↔
      ((b.buckets.get j).drained = false ∧ (b.buckets.get j).lastWriteAt ≠ timeZero ∧
        start < (b.buckets.get j).start + b.blockSize ∧
        (b.buckets.get j).start < end_) := by
    intro j
    unfold dbBuffer.readEncodedKeep dbBufferBucket.dirty
    simp only [Bool.and_eq_true, Bool.not_eq_true', decide_eq_false_iff_not]
    constructor
    · rintro ⟨group, hg⟩
      split at hg
      · next hc => exact ⟨hc.1.1, hc.1.2, hc.2.1, hc.2.2⟩
      · cases hg
    · rintro ⟨h1, h2, h3, h4⟩
      exact ⟨_, if_pos ⟨⟨h1, h2⟩, h3, h4⟩⟩
  refine ⟨?_, ?_⟩
  · intro hbs hnow hmax
    rw [readEncodedFrom_eq]
    obtain ⟨res, hres, _⟩ := forEachBucketAsc_collect_some b now hbs hnow hmax
      (b.readEncodedKeep start end_)
    exact ⟨res, hres⟩
  · intro res hres
    have hres' := hres
    rw [readEncodedFrom_eq] at hres'
    refine ⟨?_, ?_, ?_, ?_⟩
    · unfold dbBuffer.ReadEncoded
      rw [hres]
      rfl
    · intro j
      rw [← hkeep j]
      constructor
      · rintro ⟨group, hg⟩
        exact ⟨group, ((forEachBucketAsc_collect_iff b now _ res hres' j).1 group).1 hg⟩
      · rintro ⟨group, hg⟩
        exact ⟨group, ((forEachBucketAsc_collect_iff b now _ res hres' j).1 group).2 hg⟩
    · intro j
      exact (forEachBucketAsc_collect_iff b now _ res hres' j).2
    · intro x hx
      exact (readEncodedFrom_mem b now start end_ res hres x hx).2.2.2

/-! ## The ring invariant -/

/-- What the ring invariant says in the operations of the code: the start of `buckets[j]` is
a multiple of the block size, its quotient by the block size is `j` modulo three, distinct
buckets hold distinct windows, and only `buckets[j]` with `j` the index `Write` computes
from a timestamp within the range of `UnixNano` can be bound to the window of that
timestamp. -/
theorem ringAligned_routing (b : dbBuffer) (h : b.ringAligned) (hbs : 0 < b.blockSize)
    (hdvd : b.blockSize ∣ unixToInternal) :
    (∀ j : Fin 3, Int.tmod (b.buckets.get j).start b.blockSize = 0 ∧
      Int.tmod (Int.tdiv (b.buckets.get j).start b.blockSize) bucketsLen = (j.val : Int)) ∧
    (∀ i j : Fin 3, i ≠ j → (b.buckets.get i).start ≠ (b.buckets.get j).start) ∧
    (∀ t (j : Fin 3), t ≤ maxInt64 → (b.buckets.get j).start = Truncate t b.blockSize →
      bucketIndex (Int.tmod (Int.tdiv (UnixNano t) b.blockSize) bucketsLen) = some j) := by
  have hidx : ∀ j : Fin 3,
      Int.tmod (Int.tdiv (b.buckets.get j).start b.blockSize) bucketsLen = (j.val : Int) := by
    intro j
    obtain ⟨m, hm, hs, hj⟩ := h j
    rw [hs, window_index b.blockSize m hbs hm, hj]
  refine ⟨fun j => ⟨?_, hidx j⟩, ?_, ?_⟩
  · obtain ⟨m, hm, hs, hj⟩ := h j
    rw [hs]
    exact Int.mul_tmod_right _ _
  · intro i j hij he
    have hi := hidx i
    rw [he, hidx j] at hi
    exact hij (Fin.ext (by omega))
  · intro t j htmax ht
    obtain ⟨m, hm, hs, hj⟩ := h j
    exact (index_of_window b.blockSize _ t m j hbs hdvd htmax hm hs hj ht).2

/-- C14 (amended): the ring invariant.  In every buffer reachable by `Write`, `DrainAndReset`
and `Reset` calls under a clock never reading less than one block after the Unix epoch nor
beyond the range of `UnixNano` (2262-04-11T23:47:16.854775807Z), with a positive block size
that divides the distance between the zero time and the Unix epoch and whose double fits an
`int64` (blocks of less than about 146 years): for each index `j`,
`buckets[j].start` is a multiple of the block size and
`(buckets[j].start / blockSize) mod 3 = j`; hence the three buckets hold pairwise distinct
windows, and a bucket bound to the window of a timestamp within the range of `UnixNano` is
the bucket the timestamp is routed to. -/
theorem C14_ring_invariant {allowed : Call → Prop} {b : dbBuffer} {last : Int}
    (h : Reachable (clockWithin b.blockSize) allowed b last) (hbs : 0 < b.blockSize)
    (hdvd : b.blockSize ∣ unixToInternal) (hbs2 : 2 * b.blockSize ≤ maxInt64) :
    (∀ j : Fin 3, Int.tmod (b.buckets.get j).start b.blockSize = 0 ∧
      Int.tmod (Int.tdiv (b.buckets.get j).start b.blockSize) bucketsLen = (j.val : Int)) ∧
    (∀ i j : Fin 3, i ≠ j → (b.buckets.get i).start ≠ (b.buckets.get j).start) ∧
    (∀ t (j : Fin 3), t ≤ maxInt64 → (b.buckets.get j).start = Truncate t b.blockSize →
      bucketIndex (Int.tmod (Int.tdiv (UnixNano t) b.blockSize) bucketsLen) = some j) :=
  ringAligned_routing b (Reachable.ringAligned h hbs hdvd hbs2) hbs hdvd

/-- C14 fails as stated, in three ways.  (1) `UnixNano` wraps around: with blocks of two hours,
which divide the distance between the zero time and the Unix epoch, the buffer built at
2300-01-01T00:00:00Z has the window starting at 22:00:00Z of the day before in `buckets[0]`,
the index computed from the negative `int64` value of its `UnixNano()`, while
`(start / blockSize) mod 3` is `2`; and the timestamp 23:59:00Z, in that window, is routed
to no bucket at all (the index `Write` computes for it is `-2`).  (2) With blocks of one
week, which do not divide that distance, the buckets are bound to Mondays (`Truncate` counts
from the zero time, a Monday), which are not multiples of one week since the Unix epoch, a
Thursday.  (3) The offset `time.Duration(i) * b.blockSize` is an `int64` product: with blocks
of 7766949600 seconds (about 246 years), which divide that distance, the buffer built at
2216-02-16T06:00:00Z, one block after the Unix epoch, has `buckets[2]` bound to the start of
the window after the current one less `2 ^ 64` nanoseconds, an instant of 1877 that is not a
multiple of the block size. -/
theorem C14_counterexample :
    (Reachable (clockFrom wrapBuffer.blockSize) anyCall wrapBuffer (wrapTime 0) ∧
      0 < wrapBuffer.blockSize ∧ wrapBuffer.blockSize ∣ unixToInternal ∧
      wrapBuffer.blockSize ≤ wrapTime 0 ∧
      (wrapBuffer.buckets.get 0).start = wrapTime (-7200) ∧
      Int.tmod (wrapBuffer.buckets.get 0).start wrapBuffer.blockSize = 0 ∧
      Int.tmod (Int.tdiv (wrapBuffer.buckets.get 0).start wrapBuffer.blockSize) bucketsLen
        = 2 ∧
      (wrapBuffer.buckets.get 0).start = Truncate (wrapTime (-60)) wrapBuffer.blockSize ∧
      Int.tmod (Int.tdiv (UnixNano (wrapTime (-60))) wrapBuffer.blockSize) bucketsLen
        = -2 ∧
      bucketIndex (Int.tmod (Int.tdiv (UnixNano (wrapTime (-60))) wrapBuffer.blockSize)
        bucketsLen) = none) ∧
    (Reachable (clockWithin weekBuffer.blockSize) anyCall weekBuffer fridayNoon ∧
      0 < weekBuffer.blockSize ∧ weekBuffer.blockSize ≤ fridayNoon ∧
      ∀ j, Int.tmod (weekBuffer.buckets.get j).start weekBuffer.blockSize ≠ 0) ∧
    (Reachable (clockWithin longBuffer.blockSize) anyCall longBuffer (longTime 0) ∧
      0 < longBuffer.blockSize ∧ longBuffer.blockSize ∣ unixToInternal ∧
      longBuffer.blockSize ≤ longTime 0 ∧ longTime 0 ≤ maxInt64 ∧
      (longBuffer.buckets.get 2).start
        = Truncate (longTime 0) longBuffer.blockSize + longBuffer.blockSize
          - 18446744073709551616 ∧
      Int.tmod (longBuffer.buckets.get 2).start longBuffer.blockSize ≠ 0) :=
  ⟨⟨Reachable.init scenarioOptions (wrapTime 0) wrapBuffer (by decide) (by decide),
      by decide, by decide, by decide, by decide, by decide, by decide, by decide,
      by decide, by decide⟩,
    ⟨Reachable.init weekOptions fridayNoon weekBuffer (by decide) (by decide),
      by decide, by decide, by decide⟩,
    Reachable.init longOptions (longTime 0) longBuffer (by decide) (by decide),
    by decide, by decide, by decide, by decide, by decide, by decide⟩

theorem C14_ring_invariant_witness :
    Reachable (clockWithin sampleTwo.blockSize) anyCall sampleTwo 100 ∧
    0 < sampleTwo.blockSize ∧ sampleTwo.blockSize ∣ unixToInternal ∧
    2 * sampleTwo.blockSize ≤ maxInt64 ∧
    ((∀ j : Fin 3, Int.tmod (sampleTwo.buckets.get j).start sampleTwo.blockSize = 0 ∧
      Int.tmod (Int.tdiv (sampleTwo.buckets.get j).start sampleTwo.blockSize) bucketsLen
        = (j.val : Int)) ∧
    (∀ i j : Fin 3, i ≠ j →
      (sampleTwo.buckets.get i).start ≠ (sampleTwo.buckets.get j).start) ∧
    (∀ t (j : Fin 3), t ≤ maxInt64 →
      (sampleTwo.buckets.get j).start = Truncate t sampleTwo.blockSize →
      bucketIndex (Int.tmod (Int.tdiv (UnixNano t) sampleTwo.blockSize) bucketsLen)
        = some j)) :=
  ⟨sampleTwo_reachable _ anyCall (by decide) trivial trivial, by decide, by decide,
    by decide,
    C14_ring_invariant (sampleTwo_reachable _ anyCall (by decide) trivial trivial)
      (by decide) (by decide) (by decide)⟩

/-! ## The bucket rotation scenario -/

/-- C13 fails as stated: in the scenario, `Write(14:00:00, 3.0)` at 14:00:05 succeeds
without draining anything.  The bucket it is routed to has been bound to the 14:00 window
since construction, so `needsReset` is false and `DrainAndReset` is not called: the drain
sink has received nothing and the 12:00 bucket is not drained. -/
theorem C13_counterexample :
    newDatabaseBuffer scenarioOptions (scenarioTime 0) = some scenarioStart ∧
    scenarioStart.Write noFault (scenarioTime 0) (scenarioTime 0) (scenarioTime 0) 0 1 0 []
      = some (scenarioOne, none) ∧
    ∃ b', scenarioOne.Write noFault (scenarioTime 7205) (scenarioTime 7205)
        (scenarioTime 7200) 0 3 0 [] = some (b', none) ∧
      b'.sink = [] ∧
      (b'.buckets.get 0).start = scenarioTime 0 ∧ (b'.buckets.get 0).drained = false := by
  refine ⟨by decide, by decide, scenarioTwo, by decide, by decide, by decide, by decide⟩

/-- C13 (amended): the bucket rotation scenario.  With blocks of two hours and ten minutes
of tolerance on both sides, in the buffer constructed at 12:00:00 in which
`Write(12:00:00, 1.0)` has succeeded: at 14:00:05 the call `Write(14:00:00, 3.0)` succeeds
and the new point lands in the 14:00 bucket, `buckets[1]`, bound to that window since
construction; the write runs no `DrainAndReset`, the drain sink receives nothing and the
12:00 bucket, `buckets[0]`, is left as it was, undrained.  The 12:00 bucket is handed to the
sink by a later pass: `Write(16:00:00, 4.0)` at 15:55:00 is routed to `buckets[2]`, still
bound to 10:00, and so drains first; the sink then receives the 12:00 bucket's sealed
encoder with start 12:00, and that point lands in the bucket reset to 16:00. -/
theorem C13_rotation_scenario :
    newDatabaseBuffer scenarioOptions (scenarioTime 0) = some scenarioStart ∧
    scenarioStart.Write noFault (scenarioTime 0) (scenarioTime 0) (scenarioTime 0) 0 1 0 []
      = some (scenarioOne, none) ∧
    (scenarioOne.buckets.get 1).start = scenarioTime 7200 ∧
    scenarioOne.Write noFault (scenarioTime 7205) (scenarioTime 7205) (scenarioTime 7200) 0
      3 0 [] = some (scenarioTwo, none) ∧
    scenarioTwo.sink = [] ∧
    scenarioTwo.buckets.get 0 = scenarioOne.buckets.get 0 ∧
    (scenarioTwo.buckets.get 0).start = scenarioTime 0 ∧
    (scenarioTwo.buckets.get 0).drained = false ∧
    (scenarioTwo.buckets.get 1).start = scenarioTime 7200 ∧
    (scenarioTwo.buckets.get 1).encoders.map (fun s => s.encoder.points)
      = [[{ datapoint := { Timestamp := scenarioTime 7200, Value := 3 },
            unit := 0, ann := [] }]] ∧
    (scenarioTwo.buckets.get 2).start = scenarioTime (-7200) ∧
    ∃ b', scenarioTwo.Write noFault (scenarioTime 14100) (scenarioTime 14100)
        (scenarioTime 14400) 0 4 0 [] = some (b', none) ∧
      b'.sink = [{ bucket := 0, start := scenarioTime 0,
                   encoder := { start := scenarioTime 0, allocSize := 0,
                                points := [{ datapoint :=
                                               { Timestamp := scenarioTime 0, Value := 1 },
                                             unit := 0, ann := [] }],
                                sealed := true, closed := false } }] ∧
      (b'.buckets.get 0).drained = true ∧
      (b'.buckets.get 2).start = scenarioTime 14400 ∧
      (b'.buckets.get 2).encoders.map (fun s => s.encoder.points)
        = [[{ datapoint := { Timestamp := scenarioTime 14400, Value := 4 },
              unit := 0, ann := [] }]] := by
  refine ⟨by decide, by decide, by decide, by decide, by decide, by decide, by decide,
    by decide, by decide, by decide, by decide, _, rfl, by decide, by decide, by decide,
    by decide⟩

/-! ## The order of the read results -/

/-- The results of a collecting traversal come in strictly ascending order of the windows
paired with the buckets they were read from. -/
theorem forEachBucketAsc_collect_sorted {β : Type} (b : dbBuffer) (now : Int)
    (hbs : 0 < b.blockSize) (hbs2 : 2 * b.blockSize ≤ maxInt64)
    (keep : Fin 3 → Option β) (res : List (Fin 3 × β))
    (h : b.forEachBucketAsc now (fun acc idx _ =>
      some (acc ++ (keep idx).toList.map (fun x => (idx, x)))) [] = some res) :
    (res.map (fun x => b.paired now x.1)).Pairwise (· < ·) ∧
    ((∀ x ∈ res, (b.buckets.get x.1).start = b.paired now x.1) →
      (res.map (fun x => (b.buckets.get x.1).start)).Pairwise (· < ·)) := by
  have hsorted : (res.map (fun x => b.paired now x.1)).Pairwise (· < ·) := by
    rw [forEachBucketAsc_collect b now keep res h]
    cases keep (b.firstIdx now) <;> cases keep (b.firstIdx now + 1) <;>
      cases keep (b.firstIdx now + 2) <;>
      simp [paired_first, paired_second b now hbs (by omega),
        paired_third b now hbs hbs2] <;> omega
  refine ⟨hsorted, fun hcur => ?_⟩
  rw [List.map_congr_left hcur]
  exact hsorted

/-- After `DrainAndReset`, forced or not, every bucket is bound to the window paired with
it. -/
theorem drainAndResetResult_current (fault : EncodeFault) (b b' : dbBuffer) (now : Int)
    (forced : Bool) (h : drainAndResetResult fault b now forced = some b') (j : Fin 3) :
    (b'.buckets.get j).start = b'.paired now j := by
  obtain ⟨r, hr, hj⟩ := drainAndResetResult_get fault b b' now forced h j
  rw [hj, drainAndResetBucket_start fault b now forced _ _ r hr,
    paired_congr b b' (drainAndResetResult_fields fault b b' now forced h).2.1]
  split
  · rfl
  · next hn =>
    unfold resetNeeded dbBuffer.bucketState at hn
    split at hn
    · exact absurd rfl hn
    · simpa using hn

theorem longTwo_reachable : Reachable nonDecreasing anyCall longTwo (longTime 5) :=
  Reachable.step _ (longTime 5)
    (Call.write noFault (longTime 5) (longTime 5) (longTime (-5)) 0 2 0 []) longTwo
    (Reachable.step longBuffer (longTime 0)
      (Call.write noFault (longTime 5) (longTime 5) (longTime 5) 0 1 0 [])
      (orSample (longBuffer.call
        (Call.write noFault (longTime 5) (longTime 5) (longTime 5) 0 1 0 [])))
      (Reachable.init longOptions (longTime 0) longBuffer (by decide) (by decide))
      (by decide) (by decide) trivial (by decide))
    (by decide) (by decide) trivial (by decide)

/-- C16 fails as stated, in two ways.  (1) In the buffer reached from construction at clock
reading `100` by writes of `103` and `98`, `ReadEncoded` at clock reading `115` visits
`buckets[1]`, bound to the window starting at `100`, before `buckets[0]`, still bound to the
window starting at `90`; the two groups come in descending order of bucket start.  (2) The
offset `time.Duration(i) * b.blockSize` is an `int64` product: with blocks of 7766949600
seconds (about 246 years), in the buffer built at 2216-02-16T06:00:00Z that has taken two
writes five seconds later, one into `buckets[1]` and one into `buckets[0]`, `ReadEncoded` at
2462-04-01T12:00:00Z visits `buckets[1]`, paired with the window starting in 2216, before
`buckets[0]`, paired with that start plus two blocks less `2 ^ 64` nanoseconds, an instant
of 2123: the two groups come in descending order of the paired windows, and of the bucket
starts. -/
theorem C16_counterexample :
    (Reachable nonDecreasing anyCall staleBuffer 100 ∧
      ∃ res, staleBuffer.readEncodedFrom 115 0 1000 = some res ∧
        staleBuffer.ReadEncoded 115 0 1000 = some (res.map Prod.snd) ∧
        res.map (fun x => (staleBuffer.buckets.get x.1).start) = [100, 90] ∧
        ¬ (res.map (fun x => (staleBuffer.buckets.get x.1).start)).Pairwise (· < ·)) ∧
    (Reachable nonDecreasing anyCall longTwo (longTime 5) ∧
      0 < longTwo.blockSize ∧ longTwo.blockSize ∣ unixToInternal ∧
      ∃ res, longTwo.readEncodedFrom (longTime 7766949600) 0 (longTime 10) = some res ∧
        longTwo.ReadEncoded (longTime 7766949600) 0 (longTime 10)
          = some (res.map Prod.snd) ∧
        res.map (fun x => x.1) = [1, 0] ∧
        res.map (fun x => longTwo.paired (longTime 7766949600) x.1)
          = [longTwo.blockSize, 3 * longTwo.blockSize - 18446744073709551616] ∧
        ¬ (res.map (fun x => longTwo.paired (longTime 7766949600) x.1)).Pairwise (· < ·) ∧
        res.map (fun x => (longTwo.buckets.get x.1).start) = [longTwo.blockSize, 0]) := by
  refine ⟨⟨?_, _, rfl, by decide, by decide, by decide⟩,
    longTwo_reachable, by decide, by decide, _, rfl, by decide, by decide, by decide,
    by decide, by decide⟩
  exact Reachable.step sampleOne 100 (Call.write noFault 100 100 98 0 4 0 []) staleBuffer
    (sampleOne_reachable _ _ (by decide) trivial) (by decide) (by decide) trivial
    (by decide)

/-- C16 (amended): the order of the read results.  For every buffer with a positive block
size whose double fits an `int64` (blocks of less than about 146 years), every clock reading
and every range: the groups `ReadEncoded` returns come in strictly
ascending order of the window `forEachBucketAsc` pairs, at that clock reading, with the
bucket each group was read from; this is the strictly ascending order of the starts of those
buckets when each of them is bound to the window paired with it, as all buckets are right
after `DrainAndReset` and `Reset` at that clock reading.  Likewise for the results of
`FetchBlocks` and of `FetchBlocksMetadata`. -/
theorem C16_read_order (b : dbBuffer) (now : Int) (hbs : 0 < b.blockSize)
    (hbs2 : 2 * b.blockSize ≤ maxInt64) :
    (∀ start end_ res, b.readEncodedFrom now start end_ = some res →
      b.ReadEncoded now start end_ = some (res.map Prod.snd) ∧
      (res.map (fun x => b.paired now x.1)).Pairwise (· < ·) ∧
      ((∀ x ∈ res, (b.buckets.get x.1).start = b.paired now x.1) →
        (res.map (fun x => (b.buckets.get x.1).start)).Pairwise (· < ·))) ∧
    (∀ sameRepr starts res, b.fetchBlocksFrom sameRepr now starts = some res →
      b.FetchBlocks sameRepr now starts = some (res.map Prod.snd) ∧
      (res.map (fun x => b.paired now x.1)).Pairwise (· < ·) ∧
      ((∀ x ∈ res, (b.buckets.get x.1).start = b.paired now x.1) →
        (res.map (fun x => x.2.start)).Pairwise (· < ·))) ∧
    (∀ segmentLen includeSizes includeChecksums res,
      b.fetchBlocksMetadataFrom segmentLen now includeSizes includeChecksums = some res →
      b.FetchBlocksMetadata segmentLen now includeSizes includeChecksums
        = some (res.map Prod.snd) ∧
      (res.map (fun x => b.paired now x.1)).Pairwise (· < ·) ∧
      ((∀ x ∈ res, (b.buckets.get x.1).start = b.paired now x.1) →
        (res.map (fun x => x.2.start)).Pairwise (· < ·))) ∧
    (∀ fault forced (b0 : dbBuffer), b0.DrainAndReset fault now forced = some b →
      ∀ j, (b.buckets.get j).start = b.paired now j) ∧
    (∀ b0 : dbBuffer, b0.Reset now = some b → ∀ j, (b.buckets.get j).start = b.paired now j) := by
  refine ⟨?_, ?_, ?_, ?_, ?_⟩
  · intro start end_ res hres
    have hres' := hres
    rw [readEncodedFrom_eq] at hres'
    refine ⟨?_, forEachBucketAsc_collect_sorted b now hbs hbs2 _ res hres'⟩
    unfold dbBuffer.ReadEncoded
    rw [hres]
    rfl
  · intro sameRepr starts res hres
    have hres' := hres
    rw [fetchBlocksFrom_eq] at hres'
    obtain ⟨h1, h2⟩ := forEachBucketAsc_collect_sorted b now hbs hbs2 _ res hres'
    refine ⟨?_, h1, fun hcur => ?_⟩
    · unfold dbBuffer.FetchBlocks
      rw [hres]
      rfl
    · have he : ∀ x ∈ res, x.2.start = (b.buckets.get x.1).start := by
        intro x hx
        rw [(fetchBlocksFrom_mem sameRepr b now starts res hres x hx).2.2]
      rw [List.map_congr_left he]
      exact h2 hcur
  · intro segmentLen includeSizes includeChecksums res hres
    have hres' := hres
    rw [fetchBlocksMetadataFrom_eq] at hres'
    obtain ⟨h1, h2⟩ := forEachBucketAsc_collect_sorted b now hbs hbs2 _ res hres'
    refine ⟨?_, h1, fun hcur => ?_⟩
    · unfold dbBuffer.FetchBlocksMetadata
      rw [hres]
      rfl
    · have he : ∀ x ∈ res, x.2.start = (b.buckets.get x.1).start := by
        intro x hx
        exact (fetchBlocksMetadataFrom_mem segmentLen b now includeSizes includeChecksums
          res hres x hx).2
      rw [List.map_congr_left he]
      exact h2 hcur
  · intro fault forced b0 hd j
    exact drainAndResetResult_current fault b0 b now forced
      (DrainAndReset_some fault b0 b now forced hd) j
  · intro b0 hr j
    exact Reset_start b0 now b hr j

theorem C16_read_order_witness :
    0 < staleBuffer.blockSize ∧ 2 * staleBuffer.blockSize ≤ maxInt64 ∧
    staleBuffer.readEncodedFrom 100 0 1000 =
      some [(0, readBucketStreams (staleBuffer.buckets.get 0)),
            (1, readBucketStreams (staleBuffer.buckets.get 1))] ∧
    ((∀ start end_ res, staleBuffer.readEncodedFrom 100 start end_ = some res →
      staleBuffer.ReadEncoded 100 start end_ = some (res.map Prod.snd) ∧
      (res.map (fun x => staleBuffer.paired 100 x.1)).Pairwise (· < ·) ∧
      ((∀ x ∈ res, (staleBuffer.buckets.get x.1).start = staleBuffer.paired 100 x.1) →
        (res.map (fun x => (staleBuffer.buckets.get x.1).start)).Pairwise (· < ·))) ∧
    (∀ sameRepr starts res, staleBuffer.fetchBlocksFrom sameRepr 100 starts = some res →
      staleBuffer.FetchBlocks sameRepr 100 starts = some (res.map Prod.snd) ∧
      (res.map (fun x => staleBuffer.paired 100 x.1)).Pairwise (· < ·) ∧
      ((∀ x ∈ res, (staleBuffer.buckets.get x.1).start = staleBuffer.paired 100 x.1) →
        (res.map (fun x => x.2.start)).Pairwise (· < ·))) ∧
    (∀ segmentLen includeSizes includeChecksums res,
      staleBuffer.fetchBlocksMetadataFrom segmentLen 100 includeSizes includeChecksums
        = some res →
      staleBuffer.FetchBlocksMetadata segmentLen 100 includeSizes includeChecksums
        = some (res.map Prod.snd) ∧
      (res.map (fun x => staleBuffer.paired 100 x.1)).Pairwise (· < ·) ∧
      ((∀ x ∈ res, (staleBuffer.buckets.get x.1).start = staleBuffer.paired 100 x.1) →
        (res.map (fun x => x.2.start)).Pairwise (· < ·))) ∧
    (∀ fault forced (b0 : dbBuffer), b0.DrainAndReset fault 100 forced = some staleBuffer →
      ∀ j, (staleBuffer.buckets.get j).start = staleBuffer.paired 100 j) ∧
    (∀ b0 : dbBuffer, b0.Reset 100 = some staleBuffer →
      ∀ j, (staleBuffer.buckets.get j).start = staleBuffer.paired 100 j)) :=
  ⟨by decide, by decide, by decide, C16_read_order staleBuffer 100 (by decide) (by decide)⟩

/-! ## The hand-off of a drain pass -/

/-- The calls a drain pass makes to the sink: one for each bucket the callback decides to
drain, with the start the bucket had and the sealed first encoder of the sorted bucket. -/
theorem drainAndResetResult_sink (fault : EncodeFault) (b b' : dbBuffer) (now : Int)
    (forced : Bool) (h : drainAndResetResult fault b now forced = some b') :
    ∃ calls, b'.sink = b.sink ++ calls ∧
      (∀ j, (calls.filter (fun c => decide (c.bucket = j))).length
        = if drainNeeded b now forced (b.buckets.get j) (b.paired now j) = true
          then 1 else 0) ∧
      (∀ c ∈ calls, c.start = (b.buckets.get c.bucket).start ∧
        ∃ first rest, ((b.buckets.get c.bucket).sort fault).encoders = first :: rest ∧
          c.encoder = first.encoder.Seal) := by
  obtain ⟨n1, n2, n3⟩ := fin3_succ_ne (b.firstIdx now)
  simp only [drainAndResetResult, Option.bind_eq_some, Option.some.injEq] at h
  obtain ⟨r0, h0, r1, h1, r2, h2, hb'⟩ := h
  have e0 : ∀ (i j : Fin 3) (r : dbBufferBucket × Option (Int × Encoder)),
      drainAndResetBucket fault b now forced (b.buckets.get i) (b.paired now i) = some r →
      ((r.2.toList.map (fun c =>
          ({ bucket := i, start := c.1, encoder := c.2 } : DrainCall))).filter
        (fun c => decide (c.bucket = j))).length
        = if i = j ∧ drainNeeded b now forced (b.buckets.get i) (b.paired now i) = true
          then 1 else 0 := by
    intro i j r hr
    rcases drainAndResetBucket_cases fault b now forced _ _ r hr with
      ⟨hd, hn, -⟩ | ⟨hd, first, rest, -, hn, -⟩
    · rw [hn, hd]; simp
    · rw [hn, hd]
      by_cases hij : i = j <;> simp [hij]
  have e1 : ∀ (i : Fin 3) (r : dbBufferBucket × Option (Int × Encoder)) (c : DrainCall),
      drainAndResetBucket fault b now forced (b.buckets.get i) (b.paired now i) = some r →
      c ∈ r.2.toList.map (fun c =>
          ({ bucket := i, start := c.1, encoder := c.2 } : DrainCall)) →
      c.start = (b.buckets.get c.bucket).start ∧
        ∃ first rest, ((b.buckets.get c.bucket).sort fault).encoders = first :: rest ∧
          c.encoder = first.encoder.Seal := by
    intro i r c hr hc
    rcases drainAndResetBucket_cases fault b now forced _ _ r hr with
      ⟨hd, hn, -⟩ | ⟨hd, first, rest, hsort, hn, -⟩
    · rw [hn] at hc; simp at hc
    · rw [hn] at hc
      simp only [Option.toList_some, List.map_cons, List.map_nil, List.mem_singleton] at hc
      subst hc
      exact ⟨rfl, first, rest, hsort, rfl⟩
  refine ⟨(r0.2.toList.map (fun c =>
              { bucket := b.firstIdx now, start := c.1, encoder := c.2 }))
          ++ (r1.2.toList.map (fun c =>
              { bucket := b.firstIdx now + 1, start := c.1, encoder := c.2 })
          ++ r2.2.toList.map (fun c =>
              { bucket := b.firstIdx now + 2, start := c.1, encoder := c.2 })), ?_, ?_, ?_⟩
  · rw [← hb']
    simp only [List.append_assoc]
  · intro j
    simp only [List.filter_append, List.length_append, e0 _ j r0 h0, e0 _ j r1 h1,
      e0 _ j r2 h2]
    rcases fin3_cases (b.firstIdx now) j with e | e | e <;> subst e
    · simp [n1, n2]
    · simp [n1.symm, n3]
    · simp [n2.symm, n3.symm]
  · intro c hc
    simp only [List.mem_append] at hc
    rcases hc with hc | hc | hc
    · exact e1 _ r0 c h0 hc
    · exact e1 _ r1 c h1 hc
    · exact e1 _ r2 c h2 hc

theorem drainNeeded_unforced_eq (b : dbBuffer) (now : Int) (bucket : dbBufferBucket)
    (c : Int) : drainNeeded b now false bucket c = (b.bucketState now bucket c).2.1 := by
  unfold drainNeeded
  simp

/-- With a positive block size and the clock at least one block after the Unix epoch, a
drain pass over a buffer whose buckets all have a slot returns. -/
theorem DrainAndReset_isSome (fault : EncodeFault) (b : dbBuffer) (now : Int) (forced : Bool)
    (hbs : 0 < b.blockSize) (hnow : b.blockSize ≤ now) (hmax : now ≤ maxInt64)
    (hne : ∀ j, (b.buckets.get j).encoders ≠ []) :
    ∃ b', b.DrainAndReset fault now forced = some b' := by
  rw [DrainAndReset_eq fault b now forced hbs hnow hmax]
  obtain ⟨r0, h0⟩ := drainAndResetBucket_isSome fault b now forced
    (b.buckets.get (b.firstIdx now)) (b.paired now (b.firstIdx now))
    (sort_encoders_ne_nil fault _ (hne _))
  obtain ⟨r1, h1⟩ := drainAndResetBucket_isSome fault b now forced
    (b.buckets.get (b.firstIdx now + 1)) (b.paired now (b.firstIdx now + 1))
    (sort_encoders_ne_nil fault _ (hne _))
  obtain ⟨r2, h2⟩ := drainAndResetBucket_isSome fault b now forced
    (b.buckets.get (b.firstIdx now + 2)) (b.paired now (b.firstIdx now + 2))
    (sort_encoders_ne_nil fault _ (hne _))
  simp only [drainAndResetResult, h0, h1, h2, Option.some_bind]
  exact ⟨_, rfl⟩

/-- What `sort` leaves of the slots: the one merged slot when the bucket is out of order,
the slots as they were otherwise. -/
theorem sort_encoders (fault : EncodeFault) (b : dbBufferBucket) :
    (b.outOfOrder = true → ∃ s, (b.sort fault).encoders = [s]) ∧
      (b.outOfOrder = false → b.sort fault = b) := by
  unfold dbBufferBucket.sort
  cases ho : b.outOfOrder <;> simp

/-- C18 (amended): the hand-off of a non-forced drain.  For a reachable buffer and any clock
reading, whenever `DrainAndReset(false)` returns (as it does when the block size is positive
and the clock reads at least one block after the Unix epoch and within the range of
`UnixNano`, that is not after 2262-04-11T23:47:16.854775807Z): it calls the drain sink once
for each bucket for which `bucketState` reports `needsDrain`, and for no other; `needsDrain`
holds of a bucket exactly when it is dirty (`drained = false`, `lastWriteAt` set) and either
bound to a window other than the one `forEachBucketAsc` pairs with it or with
`start + blockSize < now - bufferPast`; each call passes the start the bucket held before
the pass and the encoder of the first slot the bucket has after `sort`, sealed, which is the
single merged encoder when the bucket was out of order, and the first of the slots the
bucket had when it was not; and a dirty bucket that holds the window paired with it and has
not aged out is left exactly as it was. -/
theorem C18_unforced_drain_handoff (fault : EncodeFault) {b : dbBuffer} {last : Int}
    (h : Reachable anyClock anyCall b last) (now : Int) :
    (0 < b.blockSize → b.blockSize ≤ now → now ≤ maxInt64 →
      ∃ b', b.DrainAndReset fault now false = some b') ∧
    ∀ b', b.DrainAndReset fault now false = some b' →
      (∃ calls, b'.sink = b.sink ++ calls ∧
        (∀ j, (calls.filter (fun c => decide (c.bucket = j))).length
          = if (b.bucketState now (b.buckets.get j) (b.paired now j)).2.1 = true
            then 1 else 0) ∧
        (∀ c ∈ calls, c.start = (b.buckets.get c.bucket).start ∧
          c.encoder.sealed = true ∧
          ∃ first rest, ((b.buckets.get c.bucket).sort fault).encoders = first :: rest ∧
            c.encoder = first.encoder.Seal ∧
            ((b.buckets.get c.bucket).outOfOrder = true → rest = []) ∧
            ((b.buckets.get c.bucket).outOfOrder = false →
              (b.buckets.get c.bucket).encoders = first :: rest))) ∧
      (∀ j, (b.bucketState now (b.buckets.get j) (b.paired now j)).2.1 = true ↔
        (((b.buckets.get j).drained = false ∧ (b.buckets.get j).lastWriteAt ≠ timeZero) ∧
          ((b.buckets.get j).start ≠ b.paired now j ∨
            (b.buckets.get j).start + b.blockSize < now - b.bufferPast))) ∧
      (∀ j, (b.buckets.get j).start = b.paired now j →
        ¬ ((b.buckets.get j).start + b.blockSize < now - b.bufferPast) →
        b'.buckets.get j = b.buckets.get j) := by
  refine ⟨fun hbs hnow hmax => DrainAndReset_isSome fault b now false hbs hnow hmax
    (fun j => Reachable.encoders_ne_nil h j), ?_⟩
  intro b' hd
  have hres := DrainAndReset_some fault b b' now false hd
  refine ⟨?_, fun j => bucketState_needsDrain_iff b now _ _, ?_⟩
  · obtain ⟨calls, hsink, hcount, hcalls⟩ := drainAndResetResult_sink fault b b' now false hres
    refine ⟨calls, hsink, ?_, ?_⟩
    · intro j
      rw [hcount j, drainNeeded_unforced_eq]
    · intro c hc
      obtain ⟨hstart, first, rest, hsort, henc⟩ := hcalls c hc
      obtain ⟨h1, h2⟩ := sort_encoders fault (b.buckets.get c.bucket)
      refine ⟨hstart, by rw [henc]; rfl, first, rest, hsort, henc, fun ho => ?_, fun ho => ?_⟩
      · obtain ⟨slot, hslot⟩ := h1 ho
        rw [hslot] at hsort
        simp only [List.cons.injEq] at hsort
        exact hsort.2.symm
      · rw [h2 ho] at hsort
        exact hsort
  · intro j hcur hage
    obtain ⟨r, hr, hj⟩ := drainAndResetResult_get fault b b' now false hres j
    have hnd : drainNeeded b now false (b.buckets.get j) (b.paired now j) = false := by
      rw [drainNeeded_unforced_eq]
      cases hx : (b.bucketState now (b.buckets.get j) (b.paired now j)).2.1
      · rfl
      · rcases ((bucketState_needsDrain_iff b now _ _).1 hx).2 with h1 | h1
        · exact absurd hcur h1
        · exact absurd h1 hage
    have hnr : resetNeeded b now false (b.buckets.get j) (b.paired now j) = false := by
      rw [resetNeeded_unforced]
      simp [hcur]
    rcases drainAndResetBucket_cases fault b now false _ _ r hr with
      ⟨-, -, hr1⟩ | ⟨hd', -⟩
    · rw [hj, hr1, hnr]
      rfl
    · rw [hnd] at hd'
      cases hd'

/-- C18 fails as stated once `UnixNano` wraps around.  In the buffer built with blocks of two
hours at 2024-01-01T12:00:00Z that has taken a write of that instant, `buckets[0]` is dirty
and bound to the window of that day; at 2300-01-01T02:00:00Z `bucketState` reports
`needsDrain` for it against any of the three windows of the ring, but
`DrainAndReset(false)` panics on the index `-2` and hands nothing to the sink. -/
theorem C18_counterexample :
    Reachable anyClock anyCall scenarioOne (scenarioTime 0) ∧
    0 < scenarioOne.blockSize ∧ scenarioOne.blockSize ≤ wrapTime 7200 ∧
    (∀ k : Fin 3, (scenarioOne.bucketState (wrapTime 7200) (scenarioOne.buckets.get 0)
      (scenarioOne.pastMost (wrapTime 7200) + (k.val : Int) * scenarioOne.blockSize)).2.1
        = true) ∧
    Int.tmod (Int.tdiv (UnixNano (scenarioOne.pastMost (wrapTime 7200))) scenarioOne.blockSize)
      bucketsLen = -2 ∧
    scenarioOne.DrainAndReset noFault (wrapTime 7200) false = none :=
  ⟨scenarioOne_reachable anyClock anyCall trivial trivial, by decide, by decide, by decide,
    by decide, by decide⟩

theorem C18_unforced_drain_handoff_witness :
    Reachable anyClock anyCall sampleOne 100 ∧
    sampleOne.DrainAndReset noFault 116 false = some sampleDrained ∧
    sampleDrained.sink.length = 1 ∧
    ((0 < sampleOne.blockSize → sampleOne.blockSize ≤ 116 → (116 : Int) ≤ maxInt64 →
      ∃ b', sampleOne.DrainAndReset noFault 116 false = some b') ∧
    ∀ b', sampleOne.DrainAndReset noFault 116 false = some b' →
      (∃ calls, b'.sink = sampleOne.sink ++ calls ∧
        (∀ j, (calls.filter (fun c => decide (c.bucket = j))).length
          = if (sampleOne.bucketState 116 (sampleOne.buckets.get j)
                  (sampleOne.paired 116 j)).2.1 = true
            then 1 else 0) ∧
        (∀ c ∈ calls, c.start = (sampleOne.buckets.get c.bucket).start ∧
          c.encoder.sealed = true ∧
          ∃ first rest, ((sampleOne.buckets.get c.bucket).sort noFault).encoders
              = first :: rest ∧
            c.encoder = first.encoder.Seal ∧
            ((sampleOne.buckets.get c.bucket).outOfOrder = true → rest = []) ∧
            ((sampleOne.buckets.get c.bucket).outOfOrder = false →
              (sampleOne.buckets.get c.bucket).encoders = first :: rest))) ∧
      (∀ j, (sampleOne.bucketState 116 (sampleOne.buckets.get j)
              (sampleOne.paired 116 j)).2.1 = true ↔
        (((sampleOne.buckets.get j).drained = false ∧
            (sampleOne.buckets.get j).lastWriteAt ≠ timeZero) ∧
          ((sampleOne.buckets.get j).start ≠ sampleOne.paired 116 j ∨
            (sampleOne.buckets.get j).start + sampleOne.blockSize
              < 116 - sampleOne.bufferPast))) ∧
      (∀ j, (sampleOne.buckets.get j).start = sampleOne.paired 116 j →
        ¬ ((sampleOne.buckets.get j).start + sampleOne.blockSize
            < 116 - sampleOne.bufferPast) →
        b'.buckets.get j = sampleOne.buckets.get j)) :=
  ⟨sampleOne_reachable anyClock anyCall trivial trivial, by decide, by decide,
    C18_unforced_drain_handoff noFault (sampleOne_reachable anyClock anyCall trivial trivial)
      116⟩

/-! ## No write lands in a drained bucket -/

theorem Truncate_mono (s t d : Int) (hd : 0 < d) (h : s ≤ t) : Truncate s d ≤ Truncate t d := by
  rw [Truncate_quot s d hd, Truncate_quot t d hd]
  have h1 : (s + unixToInternal) / d ≤ (t + unixToInternal) / d :=
    Int.ediv_le_ediv hd (by omega)
  have h2 := Int.mul_le_mul_of_nonneg_left h1 (le_of_lt hd)
  omega

/-- Every window paired with a bucket starts at the past-most window or later, unless the
offset of the last one wraps around. -/
theorem paired_ge (b : dbBuffer) (now : Int) (hbs : 0 < b.blockSize)
    (hle : b.blockSize ≤ maxInt64) (j : Fin 3)
    (hj : j = b.firstIdx now + 2 → 2 * b.blockSize ≤ maxInt64) :
    b.pastMost now ≤ b.paired now j := by
  rcases fin3_cases (b.firstIdx now) j with e | e | e
  · rw [e, paired_first]
  · rw [e, paired_second b now hbs hle]; omega
  · rw [e, paired_third b now hbs (hj e)]; omega

/-- With a block size whose double does not fit an `int64`, no timestamp is routed to the
third bucket of the ring. -/
theorem index_of_wide (d t : Int) (j : Fin 3) (hd : maxInt64 < 2 * d)
    (h : bucketIndex (Int.tmod (Int.tdiv (UnixNano t) d) bucketsLen) = some j) :
    j = 0 ∨ j = 1 := by
  have hu : minInt64 ≤ UnixNano t ∧ UnixNano t ≤ maxInt64 := by
    unfold UnixNano int64 minInt64 maxInt64
    omega
  have hd0 : 0 < d := by
    unfold maxInt64 at hd
    omega
  have hj := bucketIndex_some _ j h
  generalize UnixNano t = u at hu hj
  have hq : -2 ≤ Int.tdiv u d ∧ Int.tdiv u d ≤ 1 := by
    unfold minInt64 maxInt64 at hu
    unfold maxInt64 at hd
    rcases le_or_lt 0 u with h0 | h0
    · rw [Int.tdiv_eq_ediv h0 (le_of_lt hd0)]
      have e1 := Int.ediv_nonneg h0 (le_of_lt hd0)
      have e2 : u / d < 2 := Int.ediv_lt_of_lt_mul hd0 (by omega)
      omega
    · have hu' : u = -(-u) := by omega
      rw [hu', Int.neg_tdiv, Int.tdiv_eq_ediv (by omega) (le_of_lt hd0)]
      have e1 : 0 ≤ -u / d := Int.ediv_nonneg (by omega) (le_of_lt hd0)
      have e2 : -u / d < 3 := Int.ediv_lt_of_lt_mul hd0 (by omega)
      omega
  generalize Int.tdiv u d = q at hq hj
  have hq' : q = -2 ∨ q = -1 ∨ q = 0 ∨ q = 1 := by omega
  have hjv := j.isLt
  rcases hq' with e | e | e | e <;> subst e
  · have : Int.tmod (-2) bucketsLen = -2 := by decide
    omega
  · have : Int.tmod (-1) bucketsLen = -1 := by decide
    omega
  · left
    apply Fin.ext
    have : Int.tmod 0 bucketsLen = 0 := by decide
    show j.val = 0
    omega
  · right
    apply Fin.ext
    have : Int.tmod 1 bucketsLen = 1 := by decide
    show j.val = 1
    omega

/-- The window paired with the bucket a timestamp is routed to starts at the past-most
window or later. -/
theorem paired_ge_of_index (b : dbBuffer) (now t : Int) (idx : Fin 3) (hbs : 0 < b.blockSize)
    (hdvd : b.blockSize ∣ unixToInternal) (hnow : b.blockSize ≤ now) (hmax : now ≤ maxInt64)
    (hidx : bucketIndex (Int.tmod (Int.tdiv (UnixNano t) b.blockSize) bucketsLen) = some idx) :
    b.pastMost now ≤ b.paired now idx := by
  apply paired_ge b now hbs (le_trans hnow hmax)
  intro e
  by_contra hwide
  have hwide' : maxInt64 < 2 * b.blockSize := by omega
  have hf := firstIdx_eq b now 0 hbs hnow hmax (le_refl 0)
    (by rw [pastMost_of_wide b now hbs hdvd hnow hmax hwide', mul_zero])
  have hf0 : b.firstIdx now = 0 := Fin.ext hf
  rw [hf0] at e
  rcases index_of_wide b.blockSize t idx hwide' hidx with h | h <;> rw [h] at e <;>
    exact absurd e (by decide)

theorem paired_bounds (b : dbBuffer) (now : Int) (hbs : 0 < b.blockSize)
    (hbs2 : 2 * b.blockSize ≤ maxInt64) (j : Fin 3) :
    b.pastMost now ≤ b.paired now j ∧ b.paired now j ≤ b.pastMost now + 2 * b.blockSize :=
  ⟨paired_ge b now hbs (by omega) j (fun _ => hbs2), paired_le b now hbs j⟩

theorem pastMost_mono (b : dbBuffer) (s t : Int) (hbs : 0 < b.blockSize) (h : s ≤ t) :
    b.pastMost s ≤ b.pastMost t := by
  have := Truncate_mono s t b.blockSize hbs h
  unfold dbBuffer.pastMost
  omega

theorem startBounded_mono (b : dbBuffer) (s t : Int) (hbs : 0 < b.blockSize) (h : s ≤ t)
    (hb : b.startBounded s) : b.startBounded t := by
  intro j
  have := hb j
  have := Truncate_mono s t b.blockSize hbs h
  omega

theorem startBounded_of_current (b : dbBuffer) (now : Int) (hbs : 0 < b.blockSize)
    (h : ∀ j, (b.buckets.get j).start = b.paired now j) : b.startBounded now := by
  intro j
  rw [h j]
  have := paired_le b now hbs j
  unfold dbBuffer.pastMost at this
  omega

/-- Under a non-decreasing clock no bucket of a reachable buffer is bound to a window later
than the one after the window of the last clock reading. -/
theorem Reachable.startBounded {clock : Int → Int → Prop} {allowed : Call → Prop}
    (hclock : ∀ prev next, clock prev next → prev ≤ next) {b : dbBuffer} {last : Int}
    (h : Reachable clock allowed b last) (hbs : 0 < b.blockSize) :
    b.startBounded last := by
  induction h with
  | init opts now b _ hb =>
    exact startBounded_of_current b now hbs (Reset_start _ now b hb)
  | step b prev c b' _ hc1 hc2 _ hc ih =>
    cases c with
    | reset now =>
      exact startBounded_of_current b' now hbs (Reset_start b now b' hc)
    | drainAndReset fault now forced =>
      exact startBounded_of_current b' now hbs
        (drainAndResetResult_current fault b b' now forced
          (DrainAndReset_some fault b b' now forced hc))
    | write fault now nowDrain timestamp loc value unit ann =>
      have hle : prev ≤ nowDrain := le_trans (hclock _ _ hc1) (hclock _ _ hc2)
      simp only [dbBuffer.call, Option.map_eq_some', Prod.exists, exists_and_right,
        exists_eq_right] at hc
      obtain ⟨e, hw⟩ := hc
      rcases le_or_lt (now + b.bufferFuture) timestamp with hf | hf
      · rw [Write_tooFuture fault b now nowDrain timestamp loc value unit ann hf] at hw
        simp only [Option.some.injEq, Prod.mk.injEq] at hw
        rw [← hw.1] at hbs ⊢
        exact startBounded_mono b prev nowDrain hbs hle (ih hbs)
      · rcases le_or_lt timestamp (now - b.bufferPast) with hp | hp
        · rw [Write_tooPast fault b now nowDrain timestamp loc value unit ann hf hp] at hw
          simp only [Option.some.injEq, Prod.mk.injEq] at hw
          rw [← hw.1] at hbs ⊢
          exact startBounded_mono b prev nowDrain hbs hle (ih hbs)
        · obtain ⟨idx, b1, -, -, hb1, hb', -⟩ := Write_admitted_cases fault b b' now nowDrain
            timestamp loc value unit ann e hf hp hw
          have hbs1 : 0 < b1.blockSize := by
            rw [hb'] at hbs
            exact hbs
          have h1 : b1.startBounded nowDrain := by
            rcases hb1 with ⟨-, rfl⟩ | ⟨-, hd⟩
            · exact startBounded_mono b1 prev nowDrain hbs1 hle (ih hbs1)
            · exact startBounded_of_current b1 nowDrain hbs1
                (drainAndResetResult_current fault b b1 nowDrain false
                  (DrainAndReset_some fault b b1 nowDrain false hd))
          intro j
          rw [hb']
          show ((b1.setBucket idx _).buckets.get j).start ≤ Truncate nowDrain b1.blockSize
            + b1.blockSize
          rw [setBucket_get]
          split
          · next hji =>
            rw [(write_fields fault _ timestamp loc value unit ann).1, ← hji]
            exact h1 j
          · exact h1 j

/-- Two windows with the same ring index that are at most two blocks apart are the same
window. -/
theorem window_eq_of_index (d m n : Int) (hd : 0 < d) (hmod : m % 3 = n % 3)
    (h1 : d * m ≤ d * n + 2 * d) (h2 : d * n ≤ d * m + 2 * d) : m = n := by
  have e1 : d * m ≤ d * (n + 2) := by rw [mul_add]; omega
  have e2 : d * n ≤ d * (m + 2) := by rw [mul_add]; omega
  have f1 := le_of_mul_le_mul_left e1 hd
  have f2 := le_of_mul_le_mul_left e2 hd
  omega

/-- C11 (amended): no write lands in a drained bucket.  Take a buffer reachable by `Write`,
`DrainAndReset` and `Reset` calls under a non-decreasing clock, with a positive block size
that divides the distance between the zero time and the Unix epoch and a future tolerance of
at most one block, and a `Write` of a timestamp within the range of `UnixNano` whose clock
readings are not before the last one, at least one block after the Unix epoch and within the
range of `UnixNano` (not after 2262-04-11T23:47:16.854775807Z).  Either the write is rejected
by admission and changes nothing, or the bucket handed to `bucket.write`, after the rotation
if any, has `drained = false`; every other bucket is left as the rotation left it, so a
bucket that is drained after the call has taken no write. -/
theorem C11_no_write_into_drained {allowed : Call → Prop} {b : dbBuffer} {last : Int}
    (h : Reachable nonDecreasing allowed b last)
    (hbs : 0 < b.blockSize) (hdvd : b.blockSize ∣ unixToInternal)
    (hfuture : b.bufferFuture ≤ b.blockSize)
    (fault : EncodeFault) (now nowDrain timestamp : Int) (loc value unit : Nat) (ann : List Nat)
    (b' : dbBuffer) (e : Option Error)
    (hmono : last ≤ now) (hnow : b.blockSize ≤ now) (hdrain : now ≤ nowDrain)
    (hmax : nowDrain ≤ maxInt64) (htmax : timestamp ≤ maxInt64)
    (hw : b.Write fault now nowDrain timestamp loc value unit ann = some (b', e)) :
    (b' = b ∧ (e = some Error.errTooFuture ∨ e = some Error.errTooPast)) ∨
    ∃ idx b1,
      bucketIndex (Int.tmod (Int.tdiv (UnixNano timestamp) b.blockSize) bucketsLen)
        = some idx ∧
      (((b.buckets.get idx).start = Truncate timestamp b.blockSize ∧ b1 = b) ∨
       ((b.buckets.get idx).start ≠ Truncate timestamp b.blockSize ∧
          b.DrainAndReset fault nowDrain false = some b1)) ∧
      (b1.buckets.get idx).drained = false ∧
      b' = b1.setBucket idx
        ((b1.buckets.get idx).write fault timestamp loc value unit ann).1 ∧
      (∀ j, (b'.buckets.get j).drained = true → b'.buckets.get j = b1.buckets.get j) := by
  have hmono' : ∀ prev next, nonDecreasing prev next → prev ≤ next := fun _ _ hc => hc
  rcases le_or_lt (now + b.bufferFuture) timestamp with hf | hf
  · rw [Write_tooFuture fault b now nowDrain timestamp loc value unit ann hf] at hw
    simp only [Option.some.injEq, Prod.mk.injEq] at hw
    exact Or.inl ⟨hw.1.symm, Or.inl hw.2.symm⟩
  rcases le_or_lt timestamp (now - b.bufferPast) with hp | hp
  · rw [Write_tooPast fault b now nowDrain timestamp loc value unit ann hf hp] at hw
    simp only [Option.some.injEq, Prod.mk.injEq] at hw
    exact Or.inl ⟨hw.1.symm, Or.inr hw.2.symm⟩
  right
  obtain ⟨idx, b1, -, hidx, hb1, hb', -⟩ := Write_admitted_cases fault b b' now nowDrain
    timestamp loc value unit ann e hf hp hw
  have hdr : (b1.buckets.get idx).drained = false := by
    rcases hb1 with ⟨hs, rfl⟩ | ⟨hs, hd⟩
    · cases hx : (b1.buckets.get idx).drained
      · rfl
      · have haged := Reachable.drainedAged hmono' h idx hx
        have hlt := lt_Truncate_add timestamp b1.blockSize hbs
        rw [hs] at haged
        omega
    · have hres := DrainAndReset_some fault b b1 nowDrain false hd
      obtain ⟨r, hr, hget⟩ := drainAndResetResult_get fault b b1 nowDrain false hres idx
      cases hreset : resetNeeded b nowDrain false (b.buckets.get idx) (b.paired nowDrain idx)
      · cases hx : (b1.buckets.get idx).drained
        · rfl
        · exfalso
          rw [resetNeeded_unforced] at hreset
          have hcur : (b.buckets.get idx).start = b.paired nowDrain idx := by
            simpa using hreset
          have haged := drainAndResetResult_drainedAged fault b b1 last nowDrain false
            (le_trans hmono hdrain) (Reachable.drainedAged hmono' h) hres idx hx
          obtain ⟨-, f1, f2, -⟩ := drainAndResetResult_fields fault b b1 nowDrain false hres
          rw [drainAndResetResult_start fault b b1 nowDrain hres idx, f1, f2] at haged
          have hge := paired_ge_of_index b nowDrain timestamp idx hbs hdvd
            (le_trans hnow hdrain) hmax hidx
          have hltd := lt_Truncate_add nowDrain b.blockSize hbs
          have hpmd : b.pastMost nowDrain = Truncate nowDrain b.blockSize - b.blockSize := by
            unfold dbBuffer.pastMost
            omega
          have hpast : b.bufferPast ≤ b.blockSize := by omega
          have hring := admitted_ring b now timestamp hbs hpast hfuture hp hf
          obtain ⟨j, hj, hpj⟩ := window_index_paired b now timestamp hbs hdvd hnow
            (le_trans hdrain hmax) htmax hring.1 hring.2
          rw [hidx] at hj
          cases hj
          apply hs
          rw [hcur, ← hpj]
          rcases le_or_lt (2 * b.blockSize) maxInt64 with hbs2 | hwide
          · have hb1 := paired_bounds b nowDrain hbs hbs2 idx
            have hb2 := paired_bounds b now hbs hbs2 idx
            obtain ⟨m, -, hm, hm3⟩ := paired_index b nowDrain hbs hdvd (le_trans hnow hdrain)
              hmax idx (fun _ => hbs2)
            obtain ⟨n, -, hn, hn3⟩ := paired_index b now hbs hdvd hnow (le_trans hdrain hmax)
              idx (fun _ => hbs2)
            have hpm := pastMost_mono b now nowDrain hbs hdrain
            have hsb := Reachable.startBounded hmono' h hbs idx
            have htr := Truncate_mono last now b.blockSize hbs hmono
            have hpmnow : b.pastMost now = Truncate now b.blockSize - b.blockSize := by
              unfold dbBuffer.pastMost
              omega
            have hmn : m = n := by
              apply window_eq_of_index b.blockSize m n hbs (by rw [hm3, hn3])
              · rw [← hm, ← hn]; omega
              · rw [← hm, ← hn]; omega
            rw [hm, hmn, ← hn]
          · apply paired_of_pastMost
            rw [pastMost_of_wide b nowDrain hbs hdvd (le_trans hnow hdrain) hmax hwide,
              pastMost_of_wide b now hbs hdvd hnow (le_trans hdrain hmax) hwide]
      · rw [hget]
        exact (drainAndResetBucket_reset fault b nowDrain false _ _ r hr hreset).2.1
  refine ⟨idx, b1, hidx, hb1, hdr, hb', ?_⟩
  intro j hj
  rw [hb'] at hj ⊢
  rw [setBucket_get] at hj ⊢
  split at hj
  · rw [(write_fields fault _ timestamp loc value unit ann).2.1, hdr] at hj
    cases hj
  · next hji => rw [if_neg hji]

/-- C11 fails as stated, in five ways.  (1) When the clock goes back: in the buffer reached
from construction at clock reading `100` by a write of `103` and a non-forced
`DrainAndReset` at clock reading `116`, `buckets[1]` has been handed to the sink and is still
bound to the window starting at `100`; with the clock back at `100`, `Write` of `101` is
admitted, finds the bucket bound to the window of `101`, opens a second slot in it and
encodes the point there.  In the other four the clock stands still or advances and a write
is routed to the bucket paired with the past-most window, which the rotation drains without
resetting it before `bucket.write` is called on it: (2) when `UnixNano` wraps around, with
blocks of two hours, one hour of past tolerance and two hours of future tolerance, in the
buffer built at 2300-01-01T00:00:00Z, after a write of 23:15:00Z of the day before, by the
write of 03:40:00Z at 01:59:59Z, for which `Write` computes the index `0` (here the drained
bucket has its `lastWriteAt` raised to 03:40:00Z and the point is offered to its sealed
encoder, which refuses it; in the other three the point is encoded); (3) with a future
tolerance above one block; (4) with a block size (one week) that does not divide the
distance between the zero time and the Unix epoch; (5) with a clock before the Unix epoch. -/
theorem C11_counterexample :
    (Reachable (clockFrom sampleDrained.blockSize) anyCall sampleDrained 116 ∧
      0 < sampleDrained.blockSize ∧ sampleDrained.blockSize ∣ unixToInternal ∧
      sampleDrained.bufferFuture ≤ sampleDrained.blockSize ∧
      (sampleDrained.buckets.get 1).drained = true ∧
      (∀ s ∈ (sampleDrained.buckets.get 1).encoders, (101 : Int) ∉ s.encoder.timestamps) ∧
      ∃ b', sampleDrained.Write noFault 100 100 101 0 2 0 [] = some (b', none) ∧
        (b'.buckets.get 1).drained = true ∧
        ∃ s ∈ (b'.buckets.get 1).encoders, (101 : Int) ∈ s.encoder.timestamps) ∧
    (Reachable (monotoneFrom wrapWideBuffer.blockSize) anyCall wrapWideBuffer (wrapTime 0) ∧
      0 < wrapWideBuffer.blockSize ∧ wrapWideBuffer.blockSize ∣ unixToInternal ∧
      wrapWideBuffer.bufferFuture ≤ wrapWideBuffer.blockSize ∧
      ∃ b1 b2 err, wrapWideBuffer.Write noFault (wrapTime 0) (wrapTime 0) (wrapTime (-2700)) 0
          1 0 [] = some (b1, none) ∧
        b1.Write noFault (wrapTime 7199) (wrapTime 7199) (wrapTime 13200) 0 2 0 []
          = some (b2, some (Error.encode err)) ∧
        Int.tmod (Int.tdiv (UnixNano (wrapTime 13200)) wrapWideBuffer.blockSize) bucketsLen
          = 0 ∧
        (b1.buckets.get 0).lastWriteAt = wrapTime (-2700) ∧
        (b2.buckets.get 0).drained = true ∧
        (b2.buckets.get 0).start = wrapTime (-7200) ∧
        (b2.buckets.get 0).lastWriteAt = wrapTime 13200) ∧
    (Reachable (monotoneFrom wideBuffer.blockSize) anyCall wideBuffer 105 ∧
      0 < wideBuffer.blockSize ∧ wideBuffer.blockSize ∣ unixToInternal ∧
      ∃ b1 b2, wideBuffer.Write noFault 105 105 125 0 1 0 [] = some (b1, none) ∧
        b1.Write noFault 105 105 124 0 2 0 [] = some (b2, none) ∧
        (b2.buckets.get 0).drained = true ∧
        (b2.buckets.get 0).encoders.map (fun s => s.encoder.timestamps) = [[125], [124]]) ∧
    (Reachable (monotoneFrom weekWideBuffer.blockSize) anyCall weekWideBuffer sundayNoon ∧
      0 < weekWideBuffer.blockSize ∧
      weekWideBuffer.bufferFuture ≤ weekWideBuffer.blockSize ∧
      ∃ b1 b2, weekWideBuffer.Write noFault sundayNoon sundayNoon thursdayNoon 0 1 0 []
          = some (b1, none) ∧
        b1.Write noFault sundayNoon sundayNoon (thursdayNoon - 1) 0 2 0 [] = some (b2, none) ∧
        (b2.buckets.get 2).drained = true ∧
        (b2.buckets.get 2).encoders.map (fun s => s.encoder.timestamps)
          = [[thursdayNoon], [thursdayNoon - 1]]) ∧
    (Reachable nonDecreasing anyCall earlyBuffer (-11) ∧
      0 < earlyBuffer.blockSize ∧ earlyBuffer.blockSize ∣ unixToInternal ∧
      earlyBuffer.bufferFuture ≤ earlyBuffer.blockSize ∧
      ∃ b1 b2, earlyBuffer.Write noFault (-11) (-11) (-2) 0 1 0 [] = some (b1, none) ∧
        b1.Write noFault (-11) (-11) (-3) 0 2 0 [] = some (b2, none) ∧
        (b2.buckets.get 0).drained = true ∧
        (b2.buckets.get 0).encoders.map (fun s => s.encoder.timestamps) = [[-2], [-3]]) := by
  refine ⟨⟨?_, by decide, by decide, by decide, by decide, by decide, _, rfl,
      by decide, by decide⟩,
    ⟨Reachable.init wrapWideOptions (wrapTime 0) wrapWideBuffer (by decide) (by decide),
      by decide, by decide, by decide, _, _, _, rfl, rfl, by decide, by decide, by decide,
      by decide, by decide⟩,
    ⟨Reachable.init wideOptions 105 wideBuffer (by decide) (by decide), by decide, by decide,
      _, _, rfl, rfl, by decide, by decide⟩,
    ⟨Reachable.init weekWideOptions sundayNoon weekWideBuffer (by decide) (by decide),
      by decide, by decide, _, _, rfl, rfl, by decide, by decide⟩,
    ⟨Reachable.init earlyOptions (-11) earlyBuffer (by decide) (by decide), by decide,
      by decide, by decide, _, _, rfl, rfl, by decide, by decide⟩⟩
  exact Reachable.step sampleOne 100 sampleDrain116 sampleDrained
    (sampleOne_reachable _ _ (by decide) trivial) (by decide) (by decide) trivial
    (by decide)

theorem C11_no_write_into_drained_witness :
    Reachable nonDecreasing anyCall sampleOne 100 ∧
    0 < sampleOne.blockSize ∧ sampleOne.blockSize ∣ unixToInternal ∧
    sampleOne.bufferFuture ≤ sampleOne.blockSize ∧
    (100 : Int) ≤ 100 ∧ sampleOne.blockSize ≤ 100 ∧ (100 : Int) ≤ 101 ∧
    (101 : Int) ≤ maxInt64 ∧ (101 : Int) ≤ maxInt64 ∧
    sampleOne.Write noFault 100 101 101 0 2 0 [] = some (sampleTwo, none) ∧
    ((sampleTwo = sampleOne ∧
        ((none : Option Error) = some Error.errTooFuture ∨
          (none : Option Error) = some Error.errTooPast)) ∨
    ∃ idx b1,
      bucketIndex (Int.tmod (Int.tdiv (UnixNano 101) sampleOne.blockSize) bucketsLen)
        = some idx ∧
      (((sampleOne.buckets.get idx).start = Truncate 101 sampleOne.blockSize ∧
          b1 = sampleOne) ∨
       ((sampleOne.buckets.get idx).start ≠ Truncate 101 sampleOne.blockSize ∧
          sampleOne.DrainAndReset noFault 101 false = some b1)) ∧
      (b1.buckets.get idx).drained = false ∧
      sampleTwo = b1.setBucket idx
        ((b1.buckets.get idx).write noFault 101 0 2 0 []).1 ∧
      (∀ j, (sampleTwo.buckets.get j).drained = true →
        sampleTwo.buckets.get j = b1.buckets.get j)) :=
  ⟨sampleOne_reachable _ anyCall (by decide) trivial, by decide, by decide, by decide,
    by decide, by decide, by decide, by decide, by decide, by decide,
    C11_no_write_into_drained (sampleOne_reachable _ anyCall (by decide) trivial)
      (by decide) (by decide) (by decide) noFault 100 101 101 0 2 0 [] sampleTwo
      none (by decide) (by decide) (by decide) (by decide) (by decide) (by decide)⟩

/-! ## The order of the slot watermarks -/

theorem sortLoop_timestamps_mem (fault : EncodeFault) (l : List Encoded) (lw : Int)
    (enc : Encoder) (t : Int) (h : t ∈ (sortLoop fault l lw enc).2.timestamps) :
    t ∈ enc.timestamps ∨ t ∈ l.map (fun x => x.datapoint.Timestamp) := by
  induction l generalizing lw enc with
  | nil => exact Or.inl h
  | cons p rest ih =>
    unfold sortLoop at h
    rcases ih _ _ h with h1 | h1
    · rcases Encode_timestamps fault enc p with e | e
      · rw [e] at h1
        exact Or.inl h1
      · rw [e, List.mem_append, List.mem_singleton] at h1
        rcases h1 with h1 | h1
        · exact Or.inl h1
        · exact Or.inr (by rw [h1]; simp)
    · exact Or.inr (List.mem_cons_of_mem _ h1)

theorem sortLoopLoc_of_ne_nil (decodeLoc : Nat) (l : List Encoded) (lastWriteLoc : Nat)
    (hl : l ≠ []) : sortLoopLoc decodeLoc l lastWriteLoc = decodeLoc := by
  induction l generalizing lastWriteLoc with
  | nil => exact absurd rfl hl
  | cons p rest ih =>
    unfold sortLoopLoc
    cases rest with
    | nil => rfl
    | cons q rest' => exact ih decodeLoc (by simp)

theorem watermarksBounded_resetTo (b : dbBufferBucket) (start : Int) :
    (b.resetTo start).watermarksBounded := by
  refine ⟨?_, le_refl _, ?_⟩
  · intro s hs
    simp only [dbBufferBucket.resetTo, List.mem_singleton] at hs
    subst hs
    exact le_refl _
  · intro s hs t ht
    simp only [dbBufferBucket.resetTo, List.mem_singleton] at hs
    subst hs
    simp [Encoder.timestamps, Encoder.Reset] at ht

theorem watermarksBounded_handOff (b : dbBufferBucket) (first : inOrderEncoder)
    (rest : List inOrderEncoder) (h : b.watermarksBounded) (he : b.encoders = first :: rest) :
    (b.handOff first rest).watermarksBounded := by
  obtain ⟨h1, h2, h3⟩ := h
  rw [he] at h1 h3
  refine ⟨?_, h2, ?_⟩
  · intro s hs
    simp only [dbBufferBucket.handOff, List.mem_cons] at hs
    rcases hs with rfl | hs
    · exact h1 first (List.mem_cons_self _ _)
    · exact h1 s (List.mem_cons_of_mem _ hs)
  · intro s hs t ht
    simp only [dbBufferBucket.handOff, List.mem_cons] at hs
    rcases hs with rfl | hs
    · exact h3 first (List.mem_cons_self _ _) t ht
    · exact h3 s (List.mem_cons_of_mem _ hs) t ht

theorem watermarksBounded_sort (fault : EncodeFault) (b : dbBufferBucket)
    (h : b.watermarksBounded) : (b.sort fault).watermarksBounded := by
  unfold dbBufferBucket.sort
  cases ho : b.outOfOrder
  · simpa [ho] using h
  · obtain ⟨h1, h2, h3⟩ := h
    simp only [Bool.not_true, Bool.false_eq_true, if_false]
    have hiter : ∀ t ∈ (multiReaderIterate (b.encoders.map (fun e => e.encoder.Stream))).map
        (fun x => x.datapoint.Timestamp), timeZero < t := by
      intro t ht
      obtain ⟨s, hs, hts⟩ := (multiReaderIterate_timestamps b.encoders t).1 ht
      exact h3 s hs t hts
    refine ⟨?_, ?_, ?_⟩
    · intro s hs
      simp only [List.mem_singleton] at hs
      subst hs
      exact le_refl _
    · show timeZero ≤ (sortLoop fault _ b.lastWriteAt _).1
      by_cases hnil : multiReaderIterate (b.encoders.map (fun e => e.encoder.Stream)) = []
      · rw [hnil]
        exact h2
      · exact le_of_lt (hiter _ (sortLoop_fst fault _ _ _ hnil))
    · intro s hs t ht
      simp only [List.mem_singleton] at hs
      subst hs
      rcases sortLoop_timestamps_mem fault _ _ _ t ht with h4 | h4
      · simp [Encoder.timestamps, Encoder.Reset] at h4
      · exact hiter t h4

theorem watermarksBounded_write (fault : EncodeFault) (b : dbBufferBucket)
    (timestamp : Int) (loc value unit : Nat) (ann : List Nat) (ht : timeZero < timestamp)
    (h : b.watermarksBounded) :
    (b.write fault timestamp loc value unit ann).1.watermarksBounded := by
  obtain ⟨h1, h2, h3⟩ := h
  have hlw := (write_fields fault b timestamp loc value unit ann).2.2.2
  have hnext : (b.nextSlot timestamp).lastWriteAt = timeZero ∧
      (b.nextSlot timestamp).encoder.timestamps = [] := ⟨rfl, rfl⟩
  refine ⟨?_, ?_, ?_⟩
  · intro s hs
    rw [hlw]
    rcases write_mem fault b timestamp loc value unit ann s hs with h4 | h4 |
      ⟨slot, -, -, -, h4⟩
    · exact le_trans (h1 s h4) (le_max_left _ _)
    · rw [h4, hnext.1]
      exact le_trans h2 (le_max_left _ _)
    · rw [h4]
      exact le_max_right _ _
  · rw [hlw]
    exact le_trans h2 (le_max_left _ _)
  · intro s hs t hts
    rcases write_mem fault b timestamp loc value unit ann s hs with h4 | h4 |
      ⟨slot, hslot, -, -, h4⟩
    · exact h3 s h4 t hts
    · rw [h4, hnext.2] at hts
      cases hts
    · rw [h4, encoded_timestamps, List.mem_append, List.mem_singleton] at hts
      rcases hts with hts | hts
      · rcases hslot with hslot | hslot
        · exact h3 slot hslot t hts
        · rw [hslot, hnext.2] at hts
          cases hts
      · rw [hts]
        exact ht

/-- In every bucket reachable by writes of timestamps after the zero time, no slot has a
watermark above the bucket's. -/
theorem ReachableBucket.watermarksBounded {ok : Int → Nat → Prop}
    (hok : ∀ timestamp loc, ok timestamp loc → timeZero < timestamp) {b : dbBufferBucket}
    (h : ReachableBucket ok b) : b.watermarksBounded := by
  induction h with
  | resetTo b start => exact watermarksBounded_resetTo b start
  | write fault b timestamp loc value unit ann _ ht ih =>
    exact watermarksBounded_write fault b timestamp loc value unit ann (hok _ _ ht) ih
  | sort fault b _ ih => exact watermarksBounded_sort fault b ih
  | handOff b first rest _ he ih => exact watermarksBounded_handOff b first rest ih he

/-! ## The scan of the slots -/

/-- A set watermark with the tag `l` and a time value after the zero time with the tag `l`
that are the same instant are the same time value. -/
theorem locatedAt_same (l : Nat) (lastWriteAt : Int) (lastWriteLoc : Nat) (timestamp : Int)
    (loc : Nat) (hs : locatedAt l lastWriteAt lastWriteLoc) (ht : inLocation l timestamp loc)
    (he : lastWriteAt = timestamp) : lastWriteLoc = loc := by
  rcases hs with ⟨h0, -⟩ | ⟨-, hl⟩
  · have := ht.1
    omega
  · rw [hl, ht.2]

/-- A slot the scan has passed for a time value that is no other time value of the same
instant as the slot's watermark has a watermark above the timestamp. -/
theorem passed_lt (s : inOrderEncoder) (timestamp : Int) (loc : Nat)
    (hsame : s.lastWriteAt = timestamp → s.lastWriteLoc = loc)
    (hp : s.passed timestamp loc) : timestamp < s.lastWriteAt := by
  obtain ⟨hne, hle⟩ := hp
  rcases lt_or_eq_of_le hle with h | h
  · exact h
  · exact absurd ⟨h, (hsame h.symm).symm⟩ hne

theorem located_resetTo (l : Nat) (b : dbBufferBucket) (start : Int) :
    (b.resetTo start).located l := by
  refine ⟨?_, Or.inl ⟨rfl, rfl⟩⟩
  intro s hs
  simp only [dbBufferBucket.resetTo, List.mem_singleton] at hs
  subst hs
  exact Or.inl ⟨rfl, rfl⟩

theorem located_handOff (l : Nat) (b : dbBufferBucket) (first : inOrderEncoder)
    (rest : List inOrderEncoder) (h : b.located l) (he : b.encoders = first :: rest) :
    (b.handOff first rest).located l := by
  obtain ⟨h1, h2⟩ := h
  rw [he] at h1
  refine ⟨?_, h2⟩
  intro s hs
  simp only [dbBufferBucket.handOff, List.mem_cons] at hs
  rcases hs with rfl | hs
  · exact h1 first (List.mem_cons_self _ _)
  · exact h1 s (List.mem_cons_of_mem _ hs)

theorem located_sort (l : Nat) (fault : EncodeFault) (b : dbBufferBucket)
    (hdec : b.opts.decodeLoc = l) (hb : b.watermarksBounded) (h : b.located l) :
    (b.sort fault).located l := by
  unfold dbBufferBucket.sort
  cases ho : b.outOfOrder
  · simpa [ho] using h
  · simp only [Bool.not_true, Bool.false_eq_true, if_false]
    have hmerged : locatedAt l
        (sortLoop fault (multiReaderIterate (b.encoders.map (fun e => e.encoder.Stream)))
          b.lastWriteAt (Encoder.Reset b.start b.opts.allocSize)).1
        (sortLoopLoc b.opts.decodeLoc
          (multiReaderIterate (b.encoders.map (fun e => e.encoder.Stream)))
          b.lastWriteLoc) := by
      by_cases hnil : multiReaderIterate (b.encoders.map (fun e => e.encoder.Stream)) = []
      · rw [hnil]
        exact h.2
      · right
        refine ⟨?_, by rw [sortLoopLoc_of_ne_nil _ _ _ hnil, hdec]⟩
        obtain ⟨s, hs, hts⟩ := (multiReaderIterate_timestamps b.encoders _).1
          (sortLoop_fst fault _ b.lastWriteAt (Encoder.Reset b.start b.opts.allocSize) hnil)
        exact hb.2.2 s hs _ hts
    refine ⟨?_, hmerged⟩
    intro s hs
    simp only [List.mem_singleton] at hs
    subst hs
    exact hmerged

theorem located_write (l : Nat) (fault : EncodeFault) (b : dbBufferBucket)
    (timestamp : Int) (loc value unit : Nat) (ann : List Nat)
    (ht : inLocation l timestamp loc) (h : b.located l) :
    (b.write fault timestamp loc value unit ann).1.located l := by
  have htouch : locatedAt l (b.touch timestamp loc).lastWriteAt
      (b.touch timestamp loc).lastWriteLoc := by
    unfold dbBufferBucket.touch
    by_cases hgt : timestamp > b.lastWriteAt
    · right
      simp only [hgt, if_true]
      exact ⟨lt_of_lt_of_le ht.1 (le_max_right _ _), ht.2⟩
    · have hmax : max b.lastWriteAt timestamp = b.lastWriteAt := max_eq_left (by omega)
      simp only [hgt, if_false, hmax]
      exact h.2
  have hbucket : locatedAt l (b.write fault timestamp loc value unit ann).1.lastWriteAt
      (b.write fault timestamp loc value unit ann).1.lastWriteLoc := by
    rcases write_cases fault b timestamp loc value unit ann with
      ⟨hw, -⟩ | ⟨before, slot, after, -, -, ⟨err, -, hw⟩ | ⟨-, -, hw⟩⟩ <;>
    · rw [hw]
      exact htouch
  refine ⟨?_, hbucket⟩
  intro s hs
  rcases write_mem fault b timestamp loc value unit ann s hs with h4 | h4 | ⟨slot, -, -, -, h4⟩
  · exact h.1 s h4
  · rw [h4]
    exact Or.inl ⟨rfl, rfl⟩
  · rw [h4]
    exact Or.inr ⟨ht.1, ht.2⟩

/-- In every bucket reachable by writes of time values after the zero time that all carry
the tag `l`, which is also the tag of the timestamps the iterator of `sort` decodes, every
watermark that is set carries the tag `l`. -/
theorem ReachableBucket.located {l : Nat} {b : dbBufferBucket}
    (h : ReachableBucket (inLocation l) b) (hdec : b.opts.decodeLoc = l) : b.located l := by
  induction h with
  | resetTo b start => exact located_resetTo l b start
  | write fault b timestamp loc value unit ann _ ht ih =>
    rw [(write_fields fault b timestamp loc value unit ann).2.2.1] at hdec
    exact located_write l fault b timestamp loc value unit ann ht (ih hdec)
  | sort fault b hb ih =>
    rw [sort_opts] at hdec
    exact located_sort l fault b hdec
      (ReachableBucket.watermarksBounded (fun _ _ hok => hok.1) hb) (ih hdec)
  | handOff b first rest _ he ih => exact located_handOff l b first rest (ih hdec) he

/-- The tags of the watermarks of a bucket whose set watermarks carry the tag `l` agree with
the tag of a time value after the zero time that carries the tag `l`. -/
theorem located_same (l : Nat) (b : dbBufferBucket) (timestamp : Int) (loc : Nat)
    (h : b.located l) (ht : inLocation l timestamp loc) :
    ∀ s ∈ b.encoders, s.lastWriteAt = timestamp → s.lastWriteLoc = loc :=
  fun s hs he => locatedAt_same l _ _ timestamp loc (h.1 s hs) ht he

/-- On a slot list with strictly decreasing watermarks, for a time value that is no other
time value of the same instant as a watermark, the scan of the code finds what the scan of
the specification finds. -/
theorem scanEncoders_eq_spec (timestamp : Int) (loc : Nat) (l : List inOrderEncoder)
    (h : (l.map (fun s => s.lastWriteAt)).Pairwise (· > ·))
    (hsame : ∀ s ∈ l, s.lastWriteAt = timestamp → s.lastWriteLoc = loc) :
    scanEncoders timestamp loc l = scanEncodersSpec timestamp l := by
  induction l with
  | nil => rfl
  | cons e rest ih =>
    simp only [List.map_cons, List.pairwise_cons, List.mem_map, forall_exists_index,
      and_imp, forall_apply_eq_imp_iff₂] at h
    obtain ⟨hlt, hrest⟩ := h
    have ih' := ih hrest (fun s hs => hsame s (List.mem_cons_of_mem _ hs))
    unfold scanEncodersSpec at ih' ⊢
    unfold scanEncoders
    by_cases h1 : timestamp = e.lastWriteAt
    · have h1' : timestamp = e.lastWriteAt ∧ loc = e.lastWriteLoc :=
        ⟨h1, (hsame e (List.mem_cons_self _ _) h1.symm).symm⟩
      rw [if_pos h1']
      simp [h1]
    · have h1' : ¬ (timestamp = e.lastWriteAt ∧ loc = e.lastWriteLoc) := fun hc => h1 hc.1
      rw [if_neg h1']
      have h1'' : ¬ e.lastWriteAt = timestamp := fun e' => h1 e'.symm
      by_cases h2 : timestamp > e.lastWriteAt
      · have hnone : rest.any (fun e => decide (e.lastWriteAt = timestamp)) = false := by
          rw [List.any_eq_false]
          intro s hs
          have := hlt s hs
          simp only [decide_eq_true_eq]
          omega
        simp [h2, h1'', hnone, firstFit]
      · rw [if_neg h2, ih']
        simp only [List.any_cons, h1'', decide_False, Bool.false_or]
        cases hany : rest.any (fun e => decide (e.lastWriteAt = timestamp))
        · simp only [Bool.false_eq_true, if_false]
          conv => rhs; unfold firstFit
          rw [if_neg h2]
        · simp

theorem watermarksDecreasing_resetTo (b : dbBufferBucket) (start : Int) :
    (b.resetTo start).watermarksDecreasing := by
  unfold dbBufferBucket.watermarksDecreasing dbBufferBucket.resetTo
  simp

theorem watermarksDecreasing_sort (fault : EncodeFault) (b : dbBufferBucket)
    (h : b.watermarksDecreasing) : (b.sort fault).watermarksDecreasing := by
  unfold dbBufferBucket.sort
  cases ho : b.outOfOrder
  · simpa [ho] using h
  · unfold dbBufferBucket.watermarksDecreasing
    simp

theorem watermarksDecreasing_handOff (b : dbBufferBucket) (first : inOrderEncoder)
    (rest : List inOrderEncoder) (h : b.watermarksDecreasing) (he : b.encoders = first :: rest) :
    (b.handOff first rest).watermarksDecreasing := by
  unfold dbBufferBucket.watermarksDecreasing at h ⊢
  rw [he] at h
  exact h

theorem pairwise_gt_replace (before after : List Int) (x t : Int)
    (h : (before ++ x :: after).Pairwise (· > ·)) (hx : x < t) (hb : ∀ a ∈ before, t < a) :
    (before ++ t :: after).Pairwise (· > ·) := by
  rw [List.pairwise_append, List.pairwise_cons] at h ⊢
  obtain ⟨h1, ⟨h2, h3⟩, h4⟩ := h
  refine ⟨h1, ⟨fun a ha => ?_, h3⟩, fun a ha c hc => ?_⟩
  · have := h2 a ha
    show t > a
    omega
  · rcases List.mem_cons.1 hc with rfl | hc
    · exact hb a ha
    · exact h4 a ha c (List.mem_cons_of_mem _ hc)

theorem pairwise_gt_append (l : List Int) (y t : Int) (h : l.Pairwise (· > ·))
    (hy : y ≤ t) (hl : ∀ a ∈ l, t < a) : (l ++ [y]).Pairwise (· > ·) := by
  rw [List.pairwise_append]
  refine ⟨h, List.pairwise_singleton _ _, fun a ha c hc => ?_⟩
  rw [List.mem_singleton] at hc
  subst hc
  have := hl a ha
  show a > c
  omega

/-- A `write` of a time value after the zero time that is no other time value of the same
instant as a slot watermark keeps the watermarks of the slots strictly decreasing along the
slot list. -/
theorem watermarksDecreasing_write (fault : EncodeFault) (b : dbBufferBucket)
    (timestamp : Int) (loc value unit : Nat) (ann : List Nat) (ht : timeZero < timestamp)
    (hsame : ∀ s ∈ b.encoders, s.lastWriteAt = timestamp → s.lastWriteLoc = loc)
    (h : b.watermarksDecreasing) :
    (b.write fault timestamp loc value unit ann).1.watermarksDecreasing := by
  unfold dbBufferBucket.watermarksDecreasing at h ⊢
  rcases write_cases fault b timestamp loc value unit ann with ⟨hw, -⟩ |
    ⟨before, slot, after, hsplit, hbefore, hw⟩
  · rw [hw]
    exact h
  · have hmem : ∀ s ∈ before, s ∈ b.encoders := by
      intro s hs
      rcases hsplit with ⟨he, -⟩ | ⟨he, -, -⟩
      · rw [he]
        exact List.mem_append_left _ hs
      · rw [← he]
        exact hs
    have hb' : ∀ a ∈ before.map (fun s => s.lastWriteAt), timestamp < a := by
      intro a ha
      obtain ⟨s, hs, rfl⟩ := List.mem_map.1 ha
      exact passed_lt s timestamp loc (hsame s (hmem s hs)) (hbefore s hs)
    rcases hsplit with ⟨he, hlt⟩ | ⟨he, hslot, hafter⟩
    · rw [he, List.map_append, List.map_cons] at h
      rcases hw with ⟨err, -, hw⟩ | ⟨-, -, hw⟩
      · rw [hw]
        show ((before ++ slot :: after).map (fun s => s.lastWriteAt)).Pairwise (· > ·)
        rw [List.map_append, List.map_cons]
        exact h
      · rw [hw]
        show ((before ++ slot.encoded timestamp loc value unit ann :: after).map
          (fun s => s.lastWriteAt)).Pairwise (· > ·)
        rw [List.map_append, List.map_cons]
        exact pairwise_gt_replace _ _ slot.lastWriteAt timestamp h hlt hb'
    · subst he hslot hafter
      rcases hw with ⟨err, -, hw⟩ | ⟨-, -, hw⟩
      · rw [hw]
        show ((b.encoders ++ [b.nextSlot timestamp]).map
          (fun s => s.lastWriteAt)).Pairwise (· > ·)
        rw [List.map_append]
        exact pairwise_gt_append _ timeZero timestamp h (le_of_lt ht) hb'
      · rw [hw]
        show ((b.encoders ++ [(b.nextSlot timestamp).encoded timestamp loc value unit
          ann]).map (fun s => s.lastWriteAt)).Pairwise (· > ·)
        rw [List.map_append]
        exact pairwise_gt_append _ timestamp timestamp h (le_refl _) hb'

/-- In every bucket reachable by writes of time values after the zero time that all carry
the tag `l`, which is also the tag of the timestamps the iterator of `sort` decodes, the
watermarks of the slots strictly decrease along the slot list. -/
theorem ReachableBucket.watermarksDecreasing {l : Nat} {b : dbBufferBucket}
    (h : ReachableBucket (inLocation l) b) (hdec : b.opts.decodeLoc = l) :
    b.watermarksDecreasing := by
  induction h with
  | resetTo b start => exact watermarksDecreasing_resetTo b start
  | write fault b timestamp loc value unit ann hb ht ih =>
    rw [(write_fields fault b timestamp loc value unit ann).2.2.1] at hdec
    exact watermarksDecreasing_write fault b timestamp loc value unit ann ht.1
      (located_same l b timestamp loc (ReachableBucket.located hb hdec) ht) (ih hdec)
  | sort fault b _ ih =>
    rw [sort_opts] at hdec
    exact watermarksDecreasing_sort fault b (ih hdec)
  | handOff b first rest _ he ih => exact watermarksDecreasing_handOff b first rest (ih hdec) he

theorem write_eq_writeSpec (fault : EncodeFault) (b : dbBufferBucket) (timestamp : Int)
    (loc value unit : Nat) (ann : List Nat) (h : b.watermarksDecreasing)
    (hsame : ∀ s ∈ b.encoders, s.lastWriteAt = timestamp → s.lastWriteLoc = loc) :
    b.write fault timestamp loc value unit ann
      = b.writeSpec fault timestamp loc value unit ann := by
  rw [write_eq, dbBufferBucket.writeSpec, scanEncoders_eq_spec timestamp loc b.encoders h hsame]

/-- What `write` does when no slot reached by its scan has the timestamp as watermark: it
encodes into the first slot with a lower watermark, or into a new slot at the end when no
slot has a lower watermark. -/
theorem write_first_fit (fault : EncodeFault) (b : dbBufferBucket) (timestamp : Int)
    (loc value unit : Nat) (ann : List Nat)
    (hne : ¬ ∃ s ∈ b.encoders, s.lastWriteAt = timestamp) :
    (∃ before slot after, b.encoders = before ++ slot :: after ∧
      slot.lastWriteAt < timestamp ∧ (∀ s ∈ before, ¬ s.lastWriteAt < timestamp) ∧
      b.write fault timestamp loc value unit ann =
        encodeTarget fault (b.touch timestamp loc) before slot after timestamp loc value unit
          ann) ∨
    ((∀ s ∈ b.encoders, ¬ s.lastWriteAt < timestamp) ∧
      b.write fault timestamp loc value unit ann =
        encodeTarget fault (b.touch timestamp loc) b.encoders (b.nextSlot timestamp) []
          timestamp loc value unit ann) := by
  rw [write_eq]
  cases hscan : scanEncoders timestamp loc b.encoders with
  | discard =>
    obtain ⟨before, slot, after, he, hlw, -⟩ := scanEncoders_discard timestamp loc _ hscan
    exact absurd ⟨slot, by rw [he]; simp, hlw⟩ hne
  | target before slot after =>
    obtain ⟨he, hlt, hb⟩ := scanEncoders_target timestamp loc _ before after slot hscan
    exact Or.inl ⟨before, slot, after, he, hlt,
      fun s hs => by have := (hb s hs).2; omega, rfl⟩
  | absent =>
    exact Or.inr ⟨fun s hs => by
      have := (scanEncoders_absent timestamp loc _ hscan s hs).2
      omega, rfl⟩

/-- A `write` that returns success and leaves every slot as it was has found a slot with the
timestamp as watermark. -/
theorem write_discard (fault : EncodeFault) (b : dbBufferBucket) (timestamp : Int)
    (loc value unit : Nat) (ann : List Nat)
    (h : b.write fault timestamp loc value unit ann = (b.touch timestamp loc, none)) :
    ∃ s ∈ b.encoders, s.lastWriteAt = timestamp := by
  rcases write_cases fault b timestamp loc value unit ann with
    ⟨-, before, slot, after, he, hlw, -⟩ | ⟨before, slot, after, hsplit, hbefore, hw⟩
  · exact ⟨slot, by rw [he]; simp, hlw⟩
  · exfalso
    rcases hw with ⟨err, -, hw⟩ | ⟨-, -, hw⟩
    · rw [hw] at h
      simp only [Prod.mk.injEq] at h
      cases h.2
    · rw [hw] at h
      simp only [Prod.mk.injEq] at h
      have henc := congrArg dbBufferBucket.encoders h.1
      change before ++ slot.encoded timestamp loc value unit ann :: after = b.encoders at henc
      rcases hsplit with ⟨he, hlt⟩ | ⟨he, -, hafter⟩
      · rw [he] at henc
        have := List.append_cancel_left henc
        simp only [List.cons.injEq] at this
        have hlw := congrArg inOrderEncoder.lastWriteAt this.1
        change timestamp = slot.lastWriteAt at hlw
        omega
      · subst he hafter
        have := congrArg List.length henc
        simp at this

/-! ## Slot routing -/

theorem ancientBucket_reachable : ReachableBucket (fun _ _ => True) ancientBucket :=
  ReachableBucket.write _ _ _ _ _ _ _
    (ReachableBucket.write _ _ _ _ _ _ _
      (ReachableBucket.write _ _ _ _ _ _ _ (ReachableBucket.resetTo _ _) trivial) trivial)
    trivial

/-- C20 fails as stated when timestamps before the zero time have been written.  A slot
opened for a write whose `Encode` fails keeps the zero time as its watermark; when it sits
behind a slot with a watermark before the zero time, a `write` of the zero time stops at that
earlier slot and encodes into it, although a later slot has the timestamp as watermark, as
the same time value. -/
theorem C20_counterexample :
    ReachableBucket (fun _ _ => True) ancientBucket ∧
    ancientBucket.encoders.map (fun s => (s.lastWriteAt, s.lastWriteLoc))
      = [(timeZero + 21, 0), (timeZero - 5, 0), (timeZero, 0)] ∧
    (∃ s ∈ ancientBucket.encoders, s.lastWriteAt = timeZero ∧ s.lastWriteLoc = 0) ∧
    (ancientBucket.write noFault timeZero 0 4 0 []).2 = none ∧
    ancientBucket.write noFault timeZero 0 4 0 [] ≠ (ancientBucket.touch timeZero 0, none) ∧
    ancientBucket.encoders.map (fun s => s.encoder.timestamps)
      = [[timeZero + 21], [timeZero - 5], []] ∧
    (ancientBucket.write noFault timeZero 0 4 0 []).1.encoders.map
        (fun s => s.encoder.timestamps)
      = [[timeZero + 21], [timeZero - 5, timeZero], []] :=
  ⟨ancientBucket_reachable, by decide, by decide, by decide, by decide, by decide,
    by decide⟩

/-- C20 (amended): slot routing matches the specified scan.  Take a bucket reachable through
`resetTo`, `write` (successful or failing) of time values after the zero time that all carry
one Location, the one of the timestamps the iterator of `sort` decodes, `sort` and the
hand-off to the sink; and a time value `t` that is no other time value of the same instant
as the watermark of a slot (as it is when `t` is after the zero time and carries that
Location).  Then `write` does what the specified scan prescribes; it returns success leaving
every slot as it was if and only if some slot, at any index, has `lastWriteAt = t`;
otherwise it encodes into the first slot with `lastWriteAt < t`, or into a newly appended
slot when no slot has `lastWriteAt < t`. -/
theorem C20_slot_routing_refines_spec {l : Nat} {b : dbBufferBucket}
    (h : ReachableBucket (inLocation l) b) (hdec : b.opts.decodeLoc = l)
    (fault : EncodeFault) (timestamp : Int) (loc value unit : Nat) (ann : List Nat)
    (hsame : ∀ s ∈ b.encoders, s.lastWriteAt = timestamp → s.lastWriteLoc = loc) :
    b.write fault timestamp loc value unit ann
      = b.writeSpec fault timestamp loc value unit ann ∧
    (b.write fault timestamp loc value unit ann = (b.touch timestamp loc, none) ↔
      ∃ s ∈ b.encoders, s.lastWriteAt = timestamp) ∧
    ((¬ ∃ s ∈ b.encoders, s.lastWriteAt = timestamp) →
      ((∃ before slot after, b.encoders = before ++ slot :: after ∧
        slot.lastWriteAt < timestamp ∧ (∀ s ∈ before, ¬ s.lastWriteAt < timestamp) ∧
        b.write fault timestamp loc value unit ann =
          encodeTarget fault (b.touch timestamp loc) before slot after timestamp loc value unit
            ann) ∨
      ((∀ s ∈ b.encoders, ¬ s.lastWriteAt < timestamp) ∧
        b.write fault timestamp loc value unit ann =
          encodeTarget fault (b.touch timestamp loc) b.encoders (b.nextSlot timestamp) []
            timestamp loc value unit ann))) ∧
    (inLocation l timestamp loc →
      ∀ s ∈ b.encoders, s.lastWriteAt = timestamp → s.lastWriteLoc = loc) := by
  have hspec := write_eq_writeSpec fault b timestamp loc value unit ann
    (ReachableBucket.watermarksDecreasing h hdec) hsame
  refine ⟨hspec, ⟨write_discard fault b timestamp loc value unit ann, ?_⟩,
    write_first_fit fault b timestamp loc value unit ann,
    fun ht => located_same l b timestamp loc (ReachableBucket.located h hdec) ht⟩
  rintro ⟨s, hs, hlw⟩
  rw [hspec]
  unfold dbBufferBucket.writeSpec scanEncodersSpec
  have hany : b.encoders.any (fun e => decide (e.lastWriteAt = timestamp)) = true := by
    rw [List.any_eq_true]
    exact ⟨s, hs, by simpa using hlw⟩
  rw [if_pos hany]

theorem sampleTwo_bucket_reachable :
    ReachableBucket (inLocation 0) (sampleTwo.buckets.get 1) :=
  ReachableBucket.write noFault _ 101 0 2 0 []
    (ReachableBucket.write noFault _ 103 0 1 0 []
      (ReachableBucket.resetTo (zeroBucket sampleOptions) 100) (by decide)) (by decide)

theorem C20_slot_routing_refines_spec_witness :
    ReachableBucket (inLocation 0) (sampleTwo.buckets.get 1) ∧
    (sampleTwo.buckets.get 1).opts.decodeLoc = 0 ∧
    (∀ s ∈ (sampleTwo.buckets.get 1).encoders, s.lastWriteAt = 102 → s.lastWriteLoc = 0) ∧
    (sampleTwo.buckets.get 1).encoders.map (fun s => s.lastWriteAt) = [103, 101] ∧
    ((sampleTwo.buckets.get 1).write noFault 102 0 3 0 []
        = (sampleTwo.buckets.get 1).writeSpec noFault 102 0 3 0 [] ∧
    ((sampleTwo.buckets.get 1).write noFault 102 0 3 0 []
        = ((sampleTwo.buckets.get 1).touch 102 0, none) ↔
      ∃ s ∈ (sampleTwo.buckets.get 1).encoders, s.lastWriteAt = 102) ∧
    ((¬ ∃ s ∈ (sampleTwo.buckets.get 1).encoders, s.lastWriteAt = 102) →
      ((∃ before slot after, (sampleTwo.buckets.get 1).encoders = before ++ slot :: after ∧
        slot.lastWriteAt < 102 ∧ (∀ s ∈ before, ¬ s.lastWriteAt < 102) ∧
        (sampleTwo.buckets.get 1).write noFault 102 0 3 0 [] =
          encodeTarget noFault ((sampleTwo.buckets.get 1).touch 102 0) before slot after 102
            0 3 0 []) ∨
      ((∀ s ∈ (sampleTwo.buckets.get 1).encoders, ¬ s.lastWriteAt < 102) ∧
        (sampleTwo.buckets.get 1).write noFault 102 0 3 0 [] =
          encodeTarget noFault ((sampleTwo.buckets.get 1).touch 102 0)
            (sampleTwo.buckets.get 1).encoders ((sampleTwo.buckets.get 1).nextSlot 102) []
            102 0 3 0 []))) ∧
    (inLocation 0 102 0 →
      ∀ s ∈ (sampleTwo.buckets.get 1).encoders, s.lastWriteAt = 102 → s.lastWriteLoc = 0)) :=
  ⟨sampleTwo_bucket_reachable, by decide, by decide, by decide,
    C20_slot_routing_refines_spec sampleTwo_bucket_reachable (by decide) noFault 102 0 3 0 []
      (by decide)⟩

/-! ## The pairing of the ring iteration -/

/-- Every timestamp within the range of `UnixNano` inside a window that is a non-negative
multiple of the block size is routed to the ring index of that window. -/
theorem window_routing (d m t : Int) (j : Fin 3) (hd : 0 < d) (hm : 0 ≤ m)
    (hj : m % 3 = (j.val : Int)) (h1 : d * m ≤ t) (h2 : t < d * m + d)
    (htmax : t ≤ maxInt64) :
    bucketIndex (Int.tmod (Int.tdiv (UnixNano t) d) bucketsLen) = some j := by
  apply bucketIndex_val
  have hmul : 0 ≤ d * m := Int.mul_nonneg (le_of_lt hd) hm
  have ht0 : 0 ≤ t := by omega
  have hq : t / d = m := by
    have e1 := Int.emod_add_ediv t d
    have e2 := Int.emod_nonneg t (ne_of_gt hd)
    have e3 := Int.emod_lt_of_pos t hd
    have f1 : d * m < d * (t / d + 1) := by rw [mul_add]; omega
    have f2 : d * (t / d) < d * (m + 1) := by rw [mul_add]; omega
    have g1 := lt_of_mul_lt_mul_left f1 (le_of_lt hd)
    have g2 := lt_of_mul_lt_mul_left f2 (le_of_lt hd)
    omega
  rw [UnixNano_of_nonneg t ht0 htmax, Int.tdiv_eq_ediv ht0 (le_of_lt hd), hq]
  show Int.tmod m 3 = _
  rw [Int.tmod_eq_emod hm (by decide), hj]

/-- C21 (amended): the ring iteration pairs buckets with their own windows.  With a positive
block size that divides the distance between the zero time and the Unix epoch and whose
double fits an `int64` (blocks of less than about 146 years), and a clock
reading `now` at least one block after the Unix epoch and within the range of `UnixNano`
(not after 2262-04-11T23:47:16.854775807Z), `forEachBucketAsc` calls its callback three
times, on three distinct buckets (hence on each of `buckets[0]`, `buckets[1]`, `buckets[2]`
exactly once); the visit number `k` (`k = 0, 1, 2`) is paired with the window
`truncate(now) - blockSize + k * blockSize`; the index visited is `(w / blockSize) mod 3` for
that window `w`, and it is the index `Write` computes for every timestamp inside `w` that is
within the range of `UnixNano`. -/
theorem C21_ring_iteration (b : dbBuffer) (now : Int) (hbs : 0 < b.blockSize)
    (hdvd : b.blockSize ∣ unixToInternal) (hbs2 : 2 * b.blockSize ≤ maxInt64)
    (hnow : b.blockSize ≤ now) (hmax : now ≤ maxInt64) :
    ∃ i : Fin 3,
      (∀ (σ : Type) (fn : σ → Fin 3 → Int → Option σ) (s : σ),
        b.forEachBucketAsc now fn s =
          (fn s i (Truncate now b.blockSize - b.blockSize)).bind (fun s1 =>
            (fn s1 (i + 1) (Truncate now b.blockSize)).bind (fun s2 =>
              fn s2 (i + 2) (Truncate now b.blockSize + b.blockSize)))) ∧
      (i + 1 ≠ i ∧ i + 2 ≠ i ∧ i + 2 ≠ i + 1) ∧
      (∀ j : Fin 3, j = i ∨ j = i + 1 ∨ j = i + 2) ∧
      (∀ k : Fin 3,
        Int.tmod (Int.tdiv (Truncate now b.blockSize - b.blockSize + (k.val : Int) * b.blockSize)
          b.blockSize) bucketsLen = ((i + k).val : Int) ∧
        ∀ t, Truncate now b.blockSize - b.blockSize + (k.val : Int) * b.blockSize ≤ t →
          t < Truncate now b.blockSize - b.blockSize + (k.val : Int) * b.blockSize
            + b.blockSize →
          t ≤ maxInt64 →
          bucketIndex (Int.tmod (Int.tdiv (UnixNano t) b.blockSize) bucketsLen)
            = some (i + k)) := by
  have hpm : b.pastMost now = Truncate now b.blockSize - b.blockSize := by
    unfold dbBuffer.pastMost
    omega
  refine ⟨b.firstIdx now, ?_, fin3_succ_ne _, fun j => fin3_cases _ j, ?_⟩
  · intro σ fn s
    rw [forEachBucketAsc_eq b now hbs hnow hmax, paired_first,
      paired_second b now hbs (by omega), paired_third b now hbs hbs2, hpm]
    have e1 : Truncate now b.blockSize - b.blockSize + b.blockSize
        = Truncate now b.blockSize := by omega
    have e2 : Truncate now b.blockSize - b.blockSize + 2 * b.blockSize
        = Truncate now b.blockSize + b.blockSize := by omega
    rw [e1, e2]
  · intro k
    obtain ⟨m, hm, hw, hm3⟩ := paired_index b now hbs hdvd hnow hmax (b.firstIdx now + k)
      (fun _ => hbs2)
    have hk : int64 ((k.val : Int) * b.blockSize) = (k.val : Int) * b.blockSize := by
      have hk2 := k.isLt
      have h0 : 0 ≤ (k.val : Int) * b.blockSize :=
        Int.mul_nonneg (by omega) (le_of_lt hbs)
      have h2 : (k.val : Int) * b.blockSize ≤ 2 * b.blockSize :=
        Int.mul_le_mul_of_nonneg_right (by omega) (le_of_lt hbs)
      exact int64_of_nonneg _ h0 (by omega)
    rw [paired_add, hk, hpm] at hw
    rw [hw]
    refine ⟨?_, fun t h1 h2 h3 => window_routing b.blockSize m t _ hbs hm hm3 h1 h2 h3⟩
    rw [window_index b.blockSize m hbs hm, hm3]

/-- C21 fails as stated, in three ways.  (1) `UnixNano` wraps around: with blocks of two hours,
which divide the distance between the zero time and the Unix epoch, at 2300-01-01T00:00:00Z
the first visit of `forEachBucketAsc` is `buckets[0]`, the index computed from the negative
`int64` value of the window's `UnixNano()`, paired with the window `w` starting at 22:00:00Z
of the day before, for which `(w / blockSize) mod 3` is `2`; for the timestamp 23:59:00Z
inside `w`, `Write` computes the index `-2`; and at 02:00:00Z the traversal visits no bucket
at all: it panics on the index `-2`.  (2) With blocks of one week, which do not divide that
distance, at Friday 2024-01-05T12:00:00Z the second visit of `forEachBucketAsc` is
`buckets[0]`, paired with the window starting on Monday 2024-01-01, the window of the clock
reading itself; but `Write` computes index `1` for that timestamp, which lies inside the
window.  (3) The offset `time.Duration(i) * b.blockSize` is an `int64` product: with blocks of
7766949600 seconds (about 246 years), which divide that distance, at 2216-02-16T06:00:00Z,
one block after the Unix epoch, the third visit is paired with
`truncate(now) + blockSize` less `2 ^ 64` nanoseconds, an instant of 1877. -/
theorem C21_counterexample :
    (0 < wrapBuffer.blockSize ∧ wrapBuffer.blockSize ∣ unixToInternal ∧
      wrapBuffer.blockSize ≤ wrapTime 0 ∧
      wrapBuffer.forEachBucketAsc (wrapTime 0)
          (fun acc idx start => some (acc ++ [(idx, start)])) []
        = some [(0, wrapTime (-7200)), (1, wrapTime 0), (2, wrapTime 7200)] ∧
      Truncate (wrapTime 0) wrapBuffer.blockSize - wrapBuffer.blockSize = wrapTime (-7200) ∧
      Int.tmod (Int.tdiv (wrapTime (-7200)) wrapBuffer.blockSize) bucketsLen = 2 ∧
      Int.tmod (Int.tdiv (UnixNano (wrapTime (-60))) wrapBuffer.blockSize) bucketsLen = -2 ∧
      wrapBuffer.forEachBucketAsc (wrapTime 7200)
          (fun acc idx start => some (acc ++ [(idx, start)])) [] = none) ∧
    (0 < weekBuffer.blockSize ∧ weekBuffer.blockSize ≤ fridayNoon ∧
      weekBuffer.forEachBucketAsc fridayNoon
          (fun acc idx start => some (acc ++ [(idx, start)])) []
        = some [(2, Truncate fridayNoon weekBuffer.blockSize - weekBuffer.blockSize),
                (0, Truncate fridayNoon weekBuffer.blockSize),
                (1, Truncate fridayNoon weekBuffer.blockSize + weekBuffer.blockSize)] ∧
      Truncate fridayNoon weekBuffer.blockSize ≤ fridayNoon ∧
      fridayNoon < Truncate fridayNoon weekBuffer.blockSize + weekBuffer.blockSize ∧
      bucketIndex (Int.tmod (Int.tdiv (UnixNano fridayNoon) weekBuffer.blockSize) bucketsLen)
        = some 1) ∧
    (0 < longBuffer.blockSize ∧ longBuffer.blockSize ∣ unixToInternal ∧
      longBuffer.blockSize ≤ longTime 0 ∧ longTime 0 ≤ maxInt64 ∧
      longBuffer.forEachBucketAsc (longTime 0)
          (fun acc idx start => some (acc ++ [(idx, start)])) []
        = some [(0, Truncate (longTime 0) longBuffer.blockSize - longBuffer.blockSize),
                (1, Truncate (longTime 0) longBuffer.blockSize),
                (2, Truncate (longTime 0) longBuffer.blockSize + longBuffer.blockSize
                      - 18446744073709551616)]) := by
  refine ⟨⟨by decide, by decide, by decide, by decide, by decide, by decide, by decide,
    by decide⟩, ⟨by decide, by decide, by decide, by decide, by decide, by decide⟩,
    by decide, by decide, by decide, by decide, by decide⟩

theorem C21_ring_iteration_witness :
    0 < sampleBuffer.blockSize ∧ sampleBuffer.blockSize ∣ unixToInternal ∧
    2 * sampleBuffer.blockSize ≤ maxInt64 ∧
    sampleBuffer.blockSize ≤ 100 ∧ (100 : Int) ≤ maxInt64 ∧
    ∃ i : Fin 3,
      (∀ (σ : Type) (fn : σ → Fin 3 → Int → Option σ) (s : σ),
        sampleBuffer.forEachBucketAsc 100 fn s =
          (fn s i (Truncate 100 sampleBuffer.blockSize - sampleBuffer.blockSize)).bind
            (fun s1 => (fn s1 (i + 1) (Truncate 100 sampleBuffer.blockSize)).bind (fun s2 =>
              fn s2 (i + 2) (Truncate 100 sampleBuffer.blockSize + sampleBuffer.blockSize)))) ∧
      (i + 1 ≠ i ∧ i + 2 ≠ i ∧ i + 2 ≠ i + 1) ∧
      (∀ j : Fin 3, j = i ∨ j = i + 1 ∨ j = i + 2) ∧
      (∀ k : Fin 3,
        Int.tmod (Int.tdiv (Truncate 100 sampleBuffer.blockSize - sampleBuffer.blockSize
            + (k.val : Int) * sampleBuffer.blockSize)
          sampleBuffer.blockSize) bucketsLen = ((i + k).val : Int) ∧
        ∀ t, Truncate 100 sampleBuffer.blockSize - sampleBuffer.blockSize
            + (k.val : Int) * sampleBuffer.blockSize ≤ t →
          t < Truncate 100 sampleBuffer.blockSize - sampleBuffer.blockSize
            + (k.val : Int) * sampleBuffer.blockSize + sampleBuffer.blockSize →
          t ≤ maxInt64 →
          bucketIndex (Int.tmod (Int.tdiv (UnixNano t) sampleBuffer.blockSize) bucketsLen)
            = some (i + k)) :=
  ⟨by decide, by decide, by decide, by decide, by decide,
    C21_ring_iteration sampleBuffer 100 (by decide) (by decide) (by decide) (by decide)
      (by decide)⟩

/-! ## The fixed point of a drain pass -/

/-- The traversal depends on the buffer only through its block size. -/
theorem forEachBucketAsc_congr {σ : Type} (b b' : dbBuffer) (h : b'.blockSize = b.blockSize)
    (now : Int) (fn : σ → Fin 3 → Int → Option σ) (s : σ) :
    b'.forEachBucketAsc now fn s = b.forEachBucketAsc now fn s := by
  unfold dbBuffer.forEachBucketAsc
  rw [h]

/-- The bucket the callback of `DrainAndReset` leaves does not need a drain, at the same
clock reading and against the same window. -/
theorem drainAndResetBucket_settled (fault : EncodeFault) (b : dbBuffer) (now : Int)
    (forced : Bool) (bucket : dbBufferBucket) (current : Int)
    (r : dbBufferBucket × Option (Int × Encoder))
    (h : drainAndResetBucket fault b now forced bucket current = some r) :
    (b.bucketState now r.1 current).2.1 = false := by
  rcases drainAndResetBucket_cases fault b now forced bucket current r h with
    ⟨hd, -, h1⟩ | ⟨-, first, rest, -, -, h1⟩
  · rw [h1]
    split
    · exact bucketState_needsDrain_dirty b now _ current (resetTo_dirty _ _)
    · unfold drainNeeded at hd
      split at hd
      · cases hd
      · exact hd
  · rw [h1]
    split
    · exact bucketState_needsDrain_dirty b now _ current (resetTo_dirty _ _)
    · exact bucketState_needsDrain_dirty b now _ current (handOff_dirty _ _ _)

/-- C23: a drain pass reaches a fixed point.  Whenever `DrainAndReset(forced)` returns, for
either value of `forced`, `NeedsDrain()` at the same clock reading returns false; and for a
reachable buffer with a positive block size and a clock reading at least one block after the
Unix epoch and within the range of `UnixNano` (not after 2262-04-11T23:47:16.854775807Z),
`DrainAndReset(forced)` does return. -/
theorem C23_drain_fixed_point (fault : EncodeFault) {b : dbBuffer} {last : Int}
    (h : Reachable anyClock anyCall b last) (now : Int) (forced : Bool) :
    (0 < b.blockSize → b.blockSize ≤ now → now ≤ maxInt64 →
      ∃ b', b.DrainAndReset fault now forced = some b') ∧
    ∀ b', b.DrainAndReset fault now forced = some b' → b'.NeedsDrain now = some false := by
  refine ⟨fun hbs hnow hmax => DrainAndReset_isSome fault b now forced hbs hnow hmax
    (fun j => Reachable.encoders_ne_nil h j), ?_⟩
  intro b' hd
  have hres := DrainAndReset_some fault b b' now forced hd
  obtain ⟨-, f1, f2, -⟩ := drainAndResetResult_fields fault b b' now forced hres
  have hsettled : ∀ j, (b'.bucketState now (b'.buckets.get j) (b'.paired now j)).2.1
      = false := by
    intro j
    obtain ⟨r, hr, hj⟩ := drainAndResetResult_get fault b b' now forced hres j
    rw [bucketState_congr b b' f1 f2, paired_congr b b' f1, hj]
    exact drainAndResetBucket_settled fault b now forced _ _ r hr
  have hvisit : ∀ (σ : Type) (fn : σ → Fin 3 → Int → Option σ) (s : σ),
      b'.forEachBucketAsc now fn s =
        (fn s (b'.firstIdx now) (b'.paired now (b'.firstIdx now))).bind (fun s1 =>
          (fn s1 (b'.firstIdx now + 1) (b'.paired now (b'.firstIdx now + 1))).bind (fun s2 =>
            fn s2 (b'.firstIdx now + 2) (b'.paired now (b'.firstIdx now + 2)))) := by
    rcases forEachBucketAsc_cases b' now with hn | hv
    · exfalso
      have := hn dbBuffer (fun b idx current =>
        (drainAndResetBucket fault b now forced (b.buckets.get idx) current).map (fun r =>
          { b with
            buckets := b.buckets.set idx r.1
            sink := b.sink ++ r.2.toList.map (fun c =>
              { bucket := idx, start := c.1, encoder := c.2 }) })) b
      rw [forEachBucketAsc_congr b b' f1] at this
      unfold dbBuffer.DrainAndReset at hd
      rw [this] at hd
      cases hd
    · exact hv
  unfold dbBuffer.NeedsDrain
  have h0 := hsettled (b'.firstIdx now)
  have h1 := hsettled (b'.firstIdx now + 1)
  have h2 := hsettled (b'.firstIdx now + 2)
  rw [hvisit]
  simp only [h0, h1, h2, Option.some_bind, Bool.not_false, if_true]

theorem C23_drain_fixed_point_witness :
    Reachable anyClock anyCall sampleOne 100 ∧
    sampleOne.NeedsDrain 116 = some true ∧
    sampleOne.DrainAndReset noFault 116 false = some sampleDrained ∧
    sampleDrained.NeedsDrain 116 = some false ∧
    ((0 < sampleOne.blockSize → sampleOne.blockSize ≤ 116 → (116 : Int) ≤ maxInt64 →
      ∃ b', sampleOne.DrainAndReset noFault 116 false = some b') ∧
    ∀ b', sampleOne.DrainAndReset noFault 116 false = some b' →
      b'.NeedsDrain 116 = some false) :=
  ⟨sampleOne_reachable anyClock anyCall trivial trivial, by decide, by decide, by decide,
    C23_drain_fixed_point noFault (sampleOne_reachable anyClock anyCall trivial trivial)
      116 false⟩

/-! ## The single encoder handed to the sink -/

theorem sampleTwin_reachable : Reachable anyClock anyCall sampleTwin 100 :=
  Reachable.step sampleLocal 100 (Call.write noFault 100 100 103 0 2 0 []) sampleTwin
    (Reachable.step sampleBuffer 100 (Call.write noFault 100 100 103 1 1 0 []) sampleLocal
      (sampleBuffer_reachable anyClock anyCall trivial) trivial trivial trivial (by decide))
    trivial trivial trivial (by decide)

/-- C22, at its failing inputs.  (1) In the buffer built at clock reading `100` with blocks
of `10`, after `Write` of the instant `103` and `Write` of the same instant in another
Location (`time.Unix(0, 103)`, then `time.Unix(0, 103).UTC()`): the test
`timestamp == b.encoders[i].lastWriteAt` of `bucket.write` compares the two `time.Time`
structs, fails, and a second slot is appended with `outOfOrder` still false; `sort` returns
at once, the bucket keeps two encoders, and `DrainAndReset(true)` hands `encoders[0]`, with
the first point only, to the sink and resets the bucket: the second point is lost.  (2) In
the out-of-order bucket of `sampleTwo`, holding `103` and `101` in two slots, a forced
`DrainAndReset` during which `Encode` fails hands an empty encoder to the sink: `sort`
ignores the result of `encoder.Encode`, which `bucket.write` returns to its caller. -/
theorem C22_failing_input :
    (Reachable anyClock anyCall sampleTwin 100 ∧
      sampleBuffer.Write noFault 100 100 103 1 1 0 [] = some (sampleLocal, none) ∧
      sampleLocal.Write noFault 100 100 103 0 2 0 [] = some (sampleTwin, none) ∧
      (sampleTwin.buckets.get 1).outOfOrder = false ∧
      (sampleTwin.buckets.get 1).encoders.map
          (fun s => (s.lastWriteAt, s.lastWriteLoc, s.encoder.points.map
            (fun p => (p.datapoint.Timestamp, p.datapoint.Value))))
        = [(103, 1, [(103, 1)]), (103, 0, [(103, 2)])] ∧
      ((sampleTwin.buckets.get 1).sort noFault).encoders.length = 2 ∧
      ∃ b', sampleTwin.DrainAndReset noFault 100 true = some b' ∧
        b'.sink.map (fun c => (c.bucket, c.start, c.encoder.points.map
            (fun p => (p.datapoint.Timestamp, p.datapoint.Value))))
          = [(1, 100, [(103, 1)])] ∧
        ∀ j, (b'.buckets.get j).encoders.map (fun s => s.encoder.points) = [[]]) ∧
    (Reachable anyClock anyCall sampleTwo 100 ∧
      (sampleTwo.buckets.get 1).encoders.map (fun s => s.encoder.timestamps)
        = [[103], [101]] ∧
      ∃ b', sampleTwo.DrainAndReset allFault 100 true = some b' ∧
        b'.sink.map (fun c => (c.bucket, c.start, c.encoder.timestamps)) = [(1, 100, [])]) :=
  ⟨⟨sampleTwin_reachable, by decide, by decide, by decide, by decide, by decide, _, rfl,
      by decide, by decide⟩,
    sampleTwo_reachable anyClock anyCall trivial trivial trivial, by decide, _, rfl,
    by decide⟩

/-! ## Two slots with one watermark -/

theorem sampleTwin_bucket_reachable : ReachableBucket afterZero (sampleTwin.buckets.get 1) :=
  ReachableBucket.write noFault _ 103 0 2 0 []
    (ReachableBucket.write noFault _ 103 1 1 0 []
      (ReachableBucket.resetTo (zeroBucket sampleOptions) 100) (by decide)) (by decide)

/-- C24, at its failing input.  After `resetTo(100)`, `write` of the instant `103` and
`write` of the same instant in another Location (`time.Unix(0, 103)`, then
`time.Unix(0, 103).UTC()`), both after the zero time, the test
`timestamp == b.encoders[i].lastWriteAt` compares the two `time.Time` structs and fails, no
slot has a watermark before `103`, and a second slot is appended: the slot watermarks are
`103` and `103`, not strictly decreasing, and `outOfOrder` is false. -/
theorem C24_failing_input :
    ReachableBucket afterZero (sampleTwin.buckets.get 1) ∧
    sampleTwin.buckets.get 1
      = ((((zeroBucket sampleOptions).resetTo 100).write noFault 103 1 1 0 []).1.write
          noFault 103 0 2 0 []).1 ∧
    (sampleTwin.buckets.get 1).encoders.map (fun s => (s.lastWriteAt, s.lastWriteLoc))
      = [(103, 1), (103, 0)] ∧
    ¬ ((sampleTwin.buckets.get 1).encoders.map (fun s => s.lastWriteAt)).Pairwise (· > ·) ∧
    (sampleTwin.buckets.get 1).outOfOrder = false :=
  ⟨sampleTwin_bucket_reachable, by decide, by decide, by decide, by decide⟩

/-! ## First fit and best fit -/

theorem bestFit_mem (timestamp : Int) (l : List inOrderEncoder) (s : inOrderEncoder)
    (h : bestFit timestamp l = some s) : s ∈ l ∧ s.lastWriteAt < timestamp := by
  induction l generalizing s with
  | nil => cases h
  | cons e rest ih =>
    unfold bestFit at h
    cases hb : bestFit timestamp rest with
    | none =>
      rw [hb] at h
      simp only at h
      split at h
      · next hlt =>
        cases h
        exact ⟨List.mem_cons_self _ _, hlt⟩
      · cases h
    | some s' =>
      rw [hb] at h
      simp only at h
      split at h
      · next hc =>
        cases h
        exact ⟨List.mem_cons_self _ _, hc.1⟩
      · cases h
        exact ⟨List.mem_cons_of_mem _ (ih s hb).1, (ih s hb).2⟩

/-- On a slot list with strictly decreasing watermarks, none of them equal to the timestamp,
the scan of `write` chooses the best fit. -/
theorem scanEncoders_slot_eq_bestFit (timestamp : Int) (loc : Nat) (l : List inOrderEncoder)
    (h : (l.map (fun s => s.lastWriteAt)).Pairwise (· > ·))
    (hne : ¬ ∃ s ∈ l, s.lastWriteAt = timestamp) :
    (scanEncoders timestamp loc l).slot = bestFit timestamp l := by
  induction l with
  | nil => rfl
  | cons e rest ih =>
    simp only [List.map_cons, List.pairwise_cons, List.mem_map, forall_exists_index,
      and_imp, forall_apply_eq_imp_iff₂] at h
    obtain ⟨hlt, hrest⟩ := h
    have hne' : ¬ ∃ s ∈ rest, s.lastWriteAt = timestamp := by
      rintro ⟨s, hs, he⟩
      exact hne ⟨s, List.mem_cons_of_mem _ hs, he⟩
    have h1 : ¬ (timestamp = e.lastWriteAt ∧ loc = e.lastWriteLoc) := fun he =>
      hne ⟨e, List.mem_cons_self _ _, he.1.symm⟩
    have ih' := ih hrest hne'
    unfold scanEncoders bestFit
    rw [if_neg h1]
    by_cases h2 : timestamp > e.lastWriteAt
    · rw [if_pos h2]
      cases hb : bestFit timestamp rest with
      | none => simp [Scan.slot, show e.lastWriteAt < timestamp from h2]
      | some s =>
        have hs := hlt s (bestFit_mem timestamp rest s hb).1
        have hc : e.lastWriteAt < timestamp ∧ s.lastWriteAt ≤ e.lastWriteAt :=
          ⟨h2, by omega⟩
        simp [Scan.slot, hc]
    · rw [if_neg h2]
      have h3 : ¬ e.lastWriteAt < timestamp := h2
      rw [← ih']
      cases hscan : scanEncoders timestamp loc rest <;> simp [Scan.slot, h3]

theorem encodeTarget_length (fault : EncodeFault) (b : dbBufferBucket)
    (before : List inOrderEncoder) (slot : inOrderEncoder) (after : List inOrderEncoder)
    (timestamp : Int) (loc value unit : Nat) (ann : List Nat) :
    (encodeTarget fault b before slot after timestamp loc value unit ann).1.encoders.length
      = before.length + after.length + 1 := by
  rcases encodeTarget_cases fault b before slot after timestamp loc value unit ann with
    ⟨err, he⟩ | ⟨-, -, he⟩ <;> rw [he] <;> simp <;> omega

theorem write_outOfOrder (fault : EncodeFault) (b : dbBufferBucket) (timestamp : Int)
    (loc value unit : Nat) (ann : List Nat) :
    (b.write fault timestamp loc value unit ann).1.outOfOrder
      = (b.outOfOrder || decide (timestamp < b.lastWriteAt)) := by
  rcases write_cases fault b timestamp loc value unit ann with ⟨hw, -⟩ |
    ⟨before, slot, after, -, -, (⟨err, -, hw⟩ | ⟨-, -, hw⟩)⟩ <;> rw [hw] <;> rfl

theorem singleRun_resetTo (b : dbBufferBucket) (start : Int) :
    (b.resetTo start).singleRun :=
  fun _ => ⟨_, rfl, le_refl _⟩

/-- A `write` above the watermark of a bucket that is in order, with its single slot, goes
into that slot. -/
theorem singleRun_write_above (fault : EncodeFault) (b : dbBufferBucket) (timestamp : Int)
    (loc value unit : Nat) (ann : List Nat) (h : b.singleRun) (ho : b.outOfOrder = false)
    (hlt : b.lastWriteAt < timestamp) :
    (b.write fault timestamp loc value unit ann).1.singleRun := by
  intro _
  have hfld := write_fields fault b timestamp loc value unit ann
  obtain ⟨s, hs, hle⟩ := h ho
  rw [hfld.2.2.2]
  rcases write_cases fault b timestamp loc value unit ann with ⟨hw, -⟩ |
    ⟨before, slot, after, hsplit, hbefore, hw⟩
  · rw [hw]
    exact ⟨s, hs, le_trans hle (le_max_left _ _)⟩
  · have hshape : before = [] ∧ slot = s ∧ after = [] := by
      rcases hsplit with ⟨he, -⟩ | ⟨he, -, -⟩
      · rw [hs] at he
        cases before with
        | nil =>
          simp only [List.nil_append, List.cons.injEq] at he
          exact ⟨rfl, he.1.symm, he.2.symm⟩
        | cons x xs =>
          simp only [List.cons_append, List.cons.injEq] at he
          have hlen := congrArg List.length he.2
          simp only [List.length_nil, List.length_append, List.length_cons] at hlen
          omega
      · have hp := (hbefore s (by rw [he, hs]; exact List.mem_singleton_self s)).2
        omega
    obtain ⟨rfl, rfl, rfl⟩ := hshape
    rcases hw with ⟨err, -, hw⟩ | ⟨-, -, hw⟩
    · rw [hw]
      exact ⟨slot, rfl, le_trans hle (le_max_left _ _)⟩
    · rw [hw]
      exact ⟨_, rfl, le_max_right _ _⟩

/-- Writes of strictly increasing timestamps, all above the bucket's watermark, into a bucket
that is in order leave it in order, with its single slot. -/
theorem writeAll_in_order (ws : List WriteArgs) (b : dbBufferBucket) (hs : b.singleRun)
    (ho : b.outOfOrder = false)
    (hsorted : (ws.map (fun w => w.timestamp)).Pairwise (· < ·))
    (hlw : ∀ w ∈ ws, b.lastWriteAt < w.timestamp) :
    (b.writeAll ws).outOfOrder = false ∧ ∃ s, (b.writeAll ws).encoders = [s] := by
  induction ws generalizing b with
  | nil =>
    obtain ⟨s, he, -⟩ := hs ho
    exact ⟨ho, s, he⟩
  | cons w rest ih =>
    simp only [List.map_cons, List.pairwise_cons, List.mem_map, forall_exists_index,
      and_imp, forall_apply_eq_imp_iff₂] at hsorted
    have hw := hlw w (List.mem_cons_self _ _)
    unfold dbBufferBucket.writeAll
    apply ih
    · exact singleRun_write_above w.fault b w.timestamp w.loc w.value w.unit w.ann hs ho hw
    · rw [write_outOfOrder, ho]
      simp only [Bool.false_or, decide_eq_false_iff_not, not_lt]
      exact le_of_lt hw
    · exact hsorted.2
    · intro w' hw'
      rw [(write_fields w.fault b w.timestamp w.loc w.value w.unit w.ann).2.2.2]
      have := hsorted.1 w' hw'
      have := hlw w' (List.mem_cons_of_mem _ hw')
      exact max_lt (by omega) (by omega)

/-- C25 (amended): first fit coincides with best fit.  Take a bucket reachable through
`resetTo`, `write` (successful or failing) of time values after the zero time that all carry
one Location, the one of the timestamps the iterator of `sort` decodes, `sort` and the
hand-off to the sink; and a time value `t` that is no other time value of the same instant
as the watermark of a slot (as it is when `t` is after the zero time and carries that
Location) and that `write` does not deduplicate: its scan does not take the early return.
Then no slot has `t` as watermark; the slot the scan of `write` selects (the first slot with
`lastWriteAt < t`) is the best fit, the slot with the greatest `lastWriteAt` among all slots
with `lastWriteAt < t`, and `write` encodes into it without changing the number of slots;
when no slot has `lastWriteAt < t` there is no best fit and `write` appends one slot; so a
slot is appended if and only if `t` is strictly below the `lastWriteAt` of every slot.  In
particular a strictly increasing sequence of writes of timestamps after the zero time into a
freshly reset bucket, whatever their Locations and whatever the encoders do, leaves a single
slot and `outOfOrder` false. -/
theorem C25_first_fit_is_best_fit {l : Nat} {b : dbBufferBucket}
    (h : ReachableBucket (inLocation l) b) (hdec : b.opts.decodeLoc = l)
    (fault : EncodeFault) (timestamp : Int) (loc value unit : Nat) (ann : List Nat)
    (hsame : ∀ s ∈ b.encoders, s.lastWriteAt = timestamp → s.lastWriteLoc = loc)
    (hnd : scanEncoders timestamp loc b.encoders ≠ Scan.discard) :
    (¬ ∃ s ∈ b.encoders, s.lastWriteAt = timestamp) ∧
    (scanEncoders timestamp loc b.encoders).slot = bestFit timestamp b.encoders ∧
    ((∃ before slot after, b.encoders = before ++ slot :: after ∧
        slot.lastWriteAt < timestamp ∧ (∀ s ∈ before, ¬ s.lastWriteAt < timestamp) ∧
        (∀ s ∈ b.encoders, s.lastWriteAt < timestamp → s.lastWriteAt ≤ slot.lastWriteAt) ∧
        bestFit timestamp b.encoders = some slot ∧
        b.write fault timestamp loc value unit ann =
          encodeTarget fault (b.touch timestamp loc) before slot after timestamp loc value unit
            ann ∧
        (b.write fault timestamp loc value unit ann).1.encoders.length = b.encoders.length) ∨
      ((∀ s ∈ b.encoders, timestamp < s.lastWriteAt) ∧
        bestFit timestamp b.encoders = none ∧
        b.write fault timestamp loc value unit ann =
          encodeTarget fault (b.touch timestamp loc) b.encoders (b.nextSlot timestamp) []
            timestamp loc value unit ann ∧
        (b.write fault timestamp loc value unit ann).1.encoders.length
          = b.encoders.length + 1)) ∧
    ((b.write fault timestamp loc value unit ann).1.encoders.length = b.encoders.length + 1 ↔
      ∀ s ∈ b.encoders, timestamp < s.lastWriteAt) ∧
    (inLocation l timestamp loc →
      ∀ s ∈ b.encoders, s.lastWriteAt = timestamp → s.lastWriteLoc = loc) ∧
    (∀ (b0 : dbBufferBucket) (start : Int) (ws : List WriteArgs),
      (ws.map (fun w => w.timestamp)).Pairwise (· < ·) →
      (∀ w ∈ ws, afterZero w.timestamp w.loc) →
      ((b0.resetTo start).writeAll ws).outOfOrder = false ∧
        ∃ s, ((b0.resetTo start).writeAll ws).encoders = [s]) := by
  have hdecr := ReachableBucket.watermarksDecreasing h hdec
  have hne : ¬ ∃ s ∈ b.encoders, s.lastWriteAt = timestamp := by
    rintro ⟨s, hs, hlw⟩
    apply hnd
    rw [scanEncoders_eq_spec timestamp loc b.encoders hdecr hsame]
    unfold scanEncodersSpec
    have hany : b.encoders.any (fun e => decide (e.lastWriteAt = timestamp)) = true := by
      rw [List.any_eq_true]
      exact ⟨s, hs, by simpa using hlw⟩
    rw [if_pos hany]
  have hbest := scanEncoders_slot_eq_bestFit timestamp loc b.encoders hdecr hne
  have hcases : (∃ before slot after, b.encoders = before ++ slot :: after ∧
        slot.lastWriteAt < timestamp ∧ (∀ s ∈ before, ¬ s.lastWriteAt < timestamp) ∧
        (∀ s ∈ b.encoders, s.lastWriteAt < timestamp → s.lastWriteAt ≤ slot.lastWriteAt) ∧
        bestFit timestamp b.encoders = some slot ∧
        b.write fault timestamp loc value unit ann =
          encodeTarget fault (b.touch timestamp loc) before slot after timestamp loc value unit
            ann ∧
        (b.write fault timestamp loc value unit ann).1.encoders.length = b.encoders.length) ∨
      ((∀ s ∈ b.encoders, timestamp < s.lastWriteAt) ∧
        bestFit timestamp b.encoders = none ∧
        b.write fault timestamp loc value unit ann =
          encodeTarget fault (b.touch timestamp loc) b.encoders (b.nextSlot timestamp) []
            timestamp loc value unit ann ∧
        (b.write fault timestamp loc value unit ann).1.encoders.length
          = b.encoders.length + 1) := by
    rw [write_eq]
    cases hscan : scanEncoders timestamp loc b.encoders with
    | discard => exact absurd hscan hnd
    | target before slot after =>
      obtain ⟨he, hlt, hb⟩ := scanEncoders_target timestamp loc _ before after slot hscan
      left
      refine ⟨before, slot, after, he, hlt, fun s hs => by have := (hb s hs).2; omega, ?_, ?_,
        rfl, ?_⟩
      · intro s hs hslt
        unfold dbBufferBucket.watermarksDecreasing at hdecr
        rw [he, List.map_append, List.map_cons, List.pairwise_append,
          List.pairwise_cons] at hdecr
        rw [he, List.mem_append, List.mem_cons] at hs
        rcases hs with hs | rfl | hs
        · have := (hb s hs).2
          omega
        · exact le_refl _
        · exact le_of_lt (hdecr.2.1.1 _ (List.mem_map_of_mem _ hs))
      · rw [← hbest, hscan]
        rfl
      · show (encodeTarget fault (b.touch timestamp loc) before slot after timestamp loc value
          unit ann).1.encoders.length = _
        rw [encodeTarget_length, he]
        simp
        omega
    | absent =>
      right
      refine ⟨fun s hs => passed_lt s timestamp loc (hsame s hs)
        (scanEncoders_absent timestamp loc _ hscan s hs), ?_, rfl, ?_⟩
      · rw [← hbest, hscan]
        rfl
      · show (encodeTarget fault (b.touch timestamp loc) b.encoders (b.nextSlot timestamp) []
          timestamp loc value unit ann).1.encoders.length = _
        rw [encodeTarget_length]
        simp
  refine ⟨hne, hbest, hcases, ?_,
    fun ht => located_same l b timestamp loc (ReachableBucket.located h hdec) ht, ?_⟩
  · rcases hcases with ⟨before, slot, after, he, hlt, -, -, -, -, hlen⟩ | ⟨hall, -, -, hlen⟩
    · constructor
      · intro hl
        omega
      · intro hall
        have := hall slot (by rw [he]; simp)
        omega
    · exact ⟨fun _ => hall, fun _ => hlen⟩
  · intro b0 start ws hsorted hafter
    refine writeAll_in_order ws (b0.resetTo start) (singleRun_resetTo b0 start) rfl
      hsorted ?_
    intro w hw
    exact hafter w hw

/-- C25 fails as stated when timestamps before the zero time have been written.  In a bucket
whose slot watermarks are `timeZero + 21`, `timeZero - 5` and `timeZero` (the last slot was
opened for a write whose `Encode` failed), a `write` of `timeZero + 1` selects the second
slot, although the third has the greatest watermark below the timestamp.  And the strictly
increasing writes of `timeZero - 5` and `timeZero - 3` into a freshly reset bucket open a
second slot and set `outOfOrder`. -/
theorem C25_counterexample :
    (ReachableBucket (fun _ _ => True) ancientBucket ∧
      ancientBucket.encoders.map (fun s => s.lastWriteAt)
        = [timeZero + 21, timeZero - 5, timeZero] ∧
      (¬ ∃ s ∈ ancientBucket.encoders, s.lastWriteAt = timeZero + 1) ∧
      scanEncoders (timeZero + 1) 0 ancientBucket.encoders ≠ Scan.discard ∧
      (scanEncoders (timeZero + 1) 0 ancientBucket.encoders).slot.map
          (fun s => s.lastWriteAt)
        = some (timeZero - 5) ∧
      (bestFit (timeZero + 1) ancientBucket.encoders).map (fun s => s.lastWriteAt)
        = some timeZero ∧
      (ancientBucket.write noFault (timeZero + 1) 0 4 0 []).1.encoders.map
          (fun s => s.encoder.timestamps)
        = [[timeZero + 21], [timeZero - 5, timeZero + 1], []]) ∧
    ((((zeroBucket sampleOptions).resetTo timeZero).writeAll
        [{ fault := noFault, timestamp := timeZero - 5, loc := 0, value := 1, unit := 0,
           ann := [] },
         { fault := noFault, timestamp := timeZero - 3, loc := 0, value := 2, unit := 0,
           ann := [] }]).outOfOrder = true ∧
      (((zeroBucket sampleOptions).resetTo timeZero).writeAll
        [{ fault := noFault, timestamp := timeZero - 5, loc := 0, value := 1, unit := 0,
           ann := [] },
         { fault := noFault, timestamp := timeZero - 3, loc := 0, value := 2, unit := 0,
           ann := [] }]).encoders.length = 2) :=
  ⟨⟨ancientBucket_reachable, by decide, by decide, by decide, by decide, by decide,
    by decide⟩, by decide, by decide⟩

theorem C25_first_fit_is_best_fit_witness :
    ReachableBucket (inLocation 0) (sampleTwo.buckets.get 1) ∧
    (sampleTwo.buckets.get 1).opts.decodeLoc = 0 ∧
    (∀ s ∈ (sampleTwo.buckets.get 1).encoders, s.lastWriteAt = 102 → s.lastWriteLoc = 0) ∧
    scanEncoders 102 0 (sampleTwo.buckets.get 1).encoders ≠ Scan.discard ∧
    (bestFit 102 (sampleTwo.buckets.get 1).encoders).map (fun s => s.lastWriteAt)
      = some 101 ∧
    ((¬ ∃ s ∈ (sampleTwo.buckets.get 1).encoders, s.lastWriteAt = 102) ∧
    (scanEncoders 102 0 (sampleTwo.buckets.get 1).encoders).slot
      = bestFit 102 (sampleTwo.buckets.get 1).encoders ∧
    ((∃ before slot after, (sampleTwo.buckets.get 1).encoders = before ++ slot :: after ∧
        slot.lastWriteAt < 102 ∧ (∀ s ∈ before, ¬ s.lastWriteAt < 102) ∧
        (∀ s ∈ (sampleTwo.buckets.get 1).encoders, s.lastWriteAt < 102 →
          s.lastWriteAt ≤ slot.lastWriteAt) ∧
        bestFit 102 (sampleTwo.buckets.get 1).encoders = some slot ∧
        (sampleTwo.buckets.get 1).write noFault 102 0 3 0 [] =
          encodeTarget noFault ((sampleTwo.buckets.get 1).touch 102 0) before slot after 102
            0 3 0 [] ∧
        ((sampleTwo.buckets.get 1).write noFault 102 0 3 0 []).1.encoders.length
          = (sampleTwo.buckets.get 1).encoders.length) ∨
      ((∀ s ∈ (sampleTwo.buckets.get 1).encoders, 102 < s.lastWriteAt) ∧
        bestFit 102 (sampleTwo.buckets.get 1).encoders = none ∧
        (sampleTwo.buckets.get 1).write noFault 102 0 3 0 [] =
          encodeTarget noFault ((sampleTwo.buckets.get 1).touch 102 0)
            (sampleTwo.buckets.get 1).encoders ((sampleTwo.buckets.get 1).nextSlot 102) []
            102 0 3 0 [] ∧
        ((sampleTwo.buckets.get 1).write noFault 102 0 3 0 []).1.encoders.length
          = (sampleTwo.buckets.get 1).encoders.length + 1)) ∧
    (((sampleTwo.buckets.get 1).write noFault 102 0 3 0 []).1.encoders.length
        = (sampleTwo.buckets.get 1).encoders.length + 1 ↔
      ∀ s ∈ (sampleTwo.buckets.get 1).encoders, 102 < s.lastWriteAt) ∧
    (inLocation 0 102 0 →
      ∀ s ∈ (sampleTwo.buckets.get 1).encoders, s.lastWriteAt = 102 → s.lastWriteLoc = 0) ∧
    (∀ (b0 : dbBufferBucket) (start : Int) (ws : List WriteArgs),
      (ws.map (fun w => w.timestamp)).Pairwise (· < ·) →
      (∀ w ∈ ws, afterZero w.timestamp w.loc) →
      ((b0.resetTo start).writeAll ws).outOfOrder = false ∧
        ∃ s, ((b0.resetTo start).writeAll ws).encoders = [s])) :=
  ⟨sampleTwo_bucket_reachable, by decide, by decide, by decide, by decide,
    C25_first_fit_is_best_fit sampleTwo_bucket_reachable (by decide) noFault 102 0 3 0 []
      (by decide) (by decide)⟩

end series
